import Mathlib

/-!
ULW-rtos: ordered task lists and the kernel scheduler.

A shallow embedding of `SRC_OS/source/OSList.c`, `SRC_OS/source/OS_malloc.c`
and `SRC_OS/source/kernel.c`.

* Pointers are natural-number addresses and address `0` is `NULL`.
* The C heap is a record of total maps, one per object type.  Dereferencing
  `NULL` is undefined behaviour in C; every function of the embedding returns
  `none` when the source would dereference `NULL`, and also when a loop whose
  termination depends on the heap has used up its fuel.
* `uint` is 32 bits wide on all three targets; the tick arithmetic and the
  call counter of `OS_malloc.c` are taken modulo `2 ^ 32`.  `OSList_t.size`
  and the `int` counters of a mailbox count heap objects, each of which
  occupies at least 20 bytes of a 32-bit address space, so they cannot wrap and
  are kept as unbounded numbers.
* `SaveContext` and `LoadContext` are assembly routines; a call that ends its
  first pass in `LoadContext` is embedded as two functions, the first pass and
  the code run when the caller is resumed.
-/

namespace ULW

/-- An address; `0` is the null pointer. -/
abbrev Ptr := Nat

/-- The null pointer. -/
abbrev NULL : Ptr := 0

/-- Width of `uint`. -/
abbrev UINT_MOD : Nat := 2 ^ 32

/-- The constant `UINT32_MAX`. -/
abbrev UINT32_MAX : Nat := 2 ^ 32 - 1

/-- Task control block (`kernel.h`); the register context and the stack
segment are data of the context-switch primitives and are left out. -/
structure TCB where
  PC : Ptr
  SP : Nat
  DeadLine : Nat
  deriving DecidableEq, Repr

/-- Message record `msgobj` (`kernel.h`). -/
structure msg where
  pData : Ptr
  Status : Int
  pBlock : Ptr
  pPrevious : Ptr
  pNext : Ptr
  deriving DecidableEq, Repr

/-- Mailbox header `mailbox` (`kernel.h`); all counters are C `int`. -/
structure mailbox where
  pHead : Ptr
  pTail : Ptr
  nDataSize : Int
  nMaxMessages : Int
  nMessages : Int
  nBlockedMsg : Int
  deriving DecidableEq, Repr

/-- Task list entry `l_obj` (`kernel.h`). -/
structure listobj where
  pTask : Ptr
  nTCnt : Nat
  pMessage : Ptr
  pPrevious : Ptr
  pNext : Ptr
  deriving DecidableEq, Repr

/-- List header `OSList_t` (`OSList.h`). -/
structure OSList_t where
  size : Nat
  pHead : Ptr
  pTail : Ptr
  deriving DecidableEq, Repr

/-- The heap: one total map per object type, and a byte-addressed data area
for message payloads. -/
structure Mem where
  objs : Ptr → listobj
  tcbs : Ptr → TCB
  msgs : Ptr → msg
  mboxes : Ptr → mailbox
  bytes : Ptr → Nat

/-- Pointwise update of a map. -/
def upd {α : Type} (f : Ptr → α) (p : Ptr) (v : α) : Ptr → α :=
  fun q => if q = p then v else f q

/-- Read `*p` for a `listobj* p`. -/
def Mem.obj (m : Mem) (p : Ptr) : Option listobj :=
  if p = NULL then none else some (m.objs p)

/-- Read `*p` for a `TCB* p`. -/
def Mem.tcb (m : Mem) (p : Ptr) : Option TCB :=
  if p = NULL then none else some (m.tcbs p)

/-- The store of `v` into the `pNext` field of the entry at `p`. -/
def Mem.wNext (m : Mem) (p v : Ptr) : Mem :=
  { m with objs := upd m.objs p { m.objs p with pNext := v } }

/-- The store of `v` into the `pPrevious` field of the entry at `p`. -/
def Mem.wPrev (m : Mem) (p v : Ptr) : Mem :=
  { m with objs := upd m.objs p { m.objs p with pPrevious := v } }

/-- The store of `v` into the `nTCnt` field of the entry at `p`. -/
def Mem.wTCnt (m : Mem) (p : Ptr) (v : Nat) : Mem :=
  { m with objs := upd m.objs p { m.objs p with nTCnt := v } }

/-- The assignment `p->pNext = v`. -/
def Mem.setNext (m : Mem) (p v : Ptr) : Option Mem :=
  if p = NULL then none else some (m.wNext p v)

/-- The assignment `p->pPrevious = v`. -/
def Mem.setPrev (m : Mem) (p v : Ptr) : Option Mem :=
  if p = NULL then none else some (m.wPrev p v)

/-- The assignment `p->nTCnt = v`. -/
def Mem.setTCnt (m : Mem) (p : Ptr) (v : Nat) : Option Mem :=
  if p = NULL then none else some (m.wTCnt p v)

/-- The value `p->nTCnt`. -/
def Mem.tcnt (m : Mem) (p : Ptr) : Option Nat :=
  (m.obj p).map (fun o => o.nTCnt)

/-- The value `p->pTask->DeadLine`. -/
def Mem.deadlineOf (m : Mem) (p : Ptr) : Option Nat :=
  (m.obj p).bind (fun o => (m.tcb o.pTask).map (fun t => t.DeadLine))

/-! ## `OSList.c` -/

/-- Macro `addWhenZero(list, element)`. -/
def addWhenZero (l : OSList_t) (element : Ptr) : OSList_t :=
  { l with pHead := element, pTail := element }

/-- Macro `addInFront(list, element)`. -/
def addInFront (m : Mem) (l : OSList_t) (element : Ptr) : Option (Mem × OSList_t) := do
  let m ← m.setPrev l.pHead element
  let m ← m.setNext element l.pHead
  pure (m, { l with pHead := element })

/-- Macro `addInBack(list, element)`. -/
def addInBack (m : Mem) (l : OSList_t) (element : Ptr) : Option (Mem × OSList_t) := do
  let m ← m.setNext l.pTail element
  let m ← m.setPrev element l.pTail
  pure (m, { l with pTail := element })

/-- Macro `insertAfter(object, element)`; each statement reads the heap left
by the previous one. -/
def insertAfter (m : Mem) (object element : Ptr) : Option Mem := do
  let o ← m.obj object
  let m ← m.setPrev o.pNext element
  let o ← m.obj object
  let m ← m.setNext element o.pNext
  let m ← m.setNext object element
  m.setPrev element object

/-- The scan loop of `OSList_timerInsert`:
`for (i = 0; i < size - 1 && tmp->pNext->nTCnt <= element->nTCnt; i++, tmp = tmp->pNext)`.
The first argument is the number of iterations still allowed by `i < size - 1`. -/
def timerScan (m : Mem) (element : Ptr) : Nat → Ptr → Option Ptr
  | 0, tmp => some tmp
  | n + 1, tmp => do
    let t ← m.obj tmp
    let k ← m.tcnt t.pNext
    let ke ← m.tcnt element
    if k ≤ ke then timerScan m element n t.pNext else pure tmp

/-- The scan loop of `OSList_deadlineInsert`, keyed on `pTask->DeadLine`. -/
def deadlineScan (m : Mem) (element : Ptr) : Nat → Ptr → Option Ptr
  | 0, tmp => some tmp
  | n + 1, tmp => do
    let t ← m.obj tmp
    let k ← m.deadlineOf t.pNext
    let ke ← m.deadlineOf element
    if k ≤ ke then deadlineScan m element n t.pNext else pure tmp

/-- The function `OSList_timerInsert(list, element, delay)`; `osTicks` is the
value `ticks()` returns.  Result: return value, heap, list header. -/
def OSList_timerInsert (osTicks : Nat) (m : Mem) (list : Option OSList_t) (element : Ptr)
    (delay : Nat) : Option (Bool × Mem × Option OSList_t) :=
  match list with
  | none => some (false, m, none)
  | some l =>
    if element = NULL ∨ delay = 0 then some (false, m, some l)
    else do
      let m ← m.setTCnt element ((osTicks + delay) % UINT_MOD)
      let (m, l) ←
        if l.size = 0 then some (m, addWhenZero l element)
        else do
          let ke ← m.tcnt element
          let kh ← m.tcnt l.pHead
          if ke < kh then addInFront m l element
          else do
            let kt ← m.tcnt l.pTail
            if ke ≥ kt then addInBack m l element
            else do
              let tmp ← timerScan m element (l.size - 1) l.pHead
              let m ← insertAfter m tmp element
              pure (m, l)
      pure (true, m, some { l with size := l.size + 1 })

/-- The function `OSList_deadlineInsert(list, element)` (also reached through
the macros `OSList_readyInsert` and `OSList_waitingInsert`). -/
def OSList_deadlineInsert (m : Mem) (list : Option OSList_t) (element : Ptr) :
    Option (Bool × Mem × Option OSList_t) :=
  match list with
  | none => some (false, m, none)
  | some l =>
    if element = NULL then some (false, m, some l)
    else do
      let (m, l) ←
        if l.size = 0 then some (m, addWhenZero l element)
        else do
          let ke ← m.deadlineOf element
          let kh ← m.deadlineOf l.pHead
          if ke < kh then addInFront m l element
          else do
            let kt ← m.deadlineOf l.pTail
            if ke ≥ kt then addInBack m l element
            else do
              let tmp ← deadlineScan m element (l.size - 1) l.pHead
              let m ← insertAfter m tmp element
              pure (m, l)
      pure (true, m, some { l with size := l.size + 1 })

/-- The function `OSList_getFirst(list)`.  Result: returned pointer, heap, list
header. -/
def OSList_getFirst (m : Mem) (list : Option OSList_t) :
    Option (Ptr × Mem × Option OSList_t) :=
  match list with
  | none => some (NULL, m, none)
  | some l =>
    if l.size = 0 then some (NULL, m, some l)
    else if l.size = 1 then do
      let tmp := l.pHead
      let m ← m.setNext tmp NULL
      let m ← m.setPrev tmp NULL
      pure (tmp, m, some { size := l.size - 1, pHead := NULL, pTail := NULL })
    else do
      let tmp := l.pHead
      let hd ← m.obj l.pHead
      let m ← m.setPrev hd.pNext NULL
      let m ← m.setNext tmp NULL
      let m ← m.setPrev tmp NULL
      pure (tmp, m, some { l with size := l.size - 1, pHead := hd.pNext })

/-- The `while (tmp != NULL)` loop of `OSList_remove`, with the test
`if (tmp == NULL) return false` that follows it.  The loop follows `pNext`
links, so it runs on fuel; `none` when the fuel is used up. -/
def removeWalk (m : Mem) (element : Ptr) : Nat → Ptr → Option (Bool × Mem)
  | 0, _ => none
  | fuel + 1, tmp =>
    if tmp = NULL then some (false, m)
    else if tmp = element then do
      let t ← m.obj tmp
      let m ← m.setNext t.pPrevious t.pNext
      let t ← m.obj tmp
      let m ← m.setPrev t.pNext t.pPrevious
      let m ← m.setNext tmp NULL
      let m ← m.setPrev tmp NULL
      pure (true, m)
    else do
      let t ← m.obj tmp
      removeWalk m element fuel t.pNext

/-- The function `OSList_remove(list, element)`. -/
def OSList_remove (fuel : Nat) (m : Mem) (list : Option OSList_t) (element : Ptr) :
    Option (Bool × Mem × Option OSList_t) :=
  match list with
  | none => some (false, m, none)
  | some l =>
    if l.size = 0 ∨ element = NULL then some (false, m, some l)
    else if l.pHead = element ∧ l.size = 1 then
      some (true, m, some { size := l.size - 1, pHead := NULL, pTail := NULL })
    else if l.pHead = element ∧ l.size > 1 then do
      let hd ← m.obj l.pHead
      let m ← m.setPrev hd.pNext NULL
      let m ← m.setNext element NULL
      pure (true, m, some { l with size := l.size - 1, pHead := hd.pNext })
    else if l.pTail = element ∧ l.size > 1 then do
      let tl ← m.obj l.pTail
      let m ← m.setNext tl.pPrevious NULL
      let m ← m.setPrev element NULL
      pure (true, m, some { l with size := l.size - 1, pTail := tl.pPrevious })
    else do
      let hd ← m.obj l.pHead
      let (found, m) ← removeWalk m element fuel hd.pNext
      if found then pure (true, m, some { l with size := l.size - 1 })
      else pure (false, m, some l)

/-- The function `OSList_peek(list)`. -/
def OSList_peek (list : Option OSList_t) : Ptr :=
  match list with
  | none => NULL
  | some l => l.pHead

/-! ## `OS_malloc.c` and the C library allocator -/

/-- Allocator state: the statics `cnt` and `period` of `OS_malloc.c`, and the C
library heap behind them.  The library hands out the addresses `brk`,
`brk + 1`, ... and returns `NULL` once `avail` allocations have been served;
`freed` records the addresses passed to `free`. -/
structure Alloc where
  cnt : Nat
  period : Nat
  brk : Ptr
  avail : Nat
  freed : List Ptr

/-- The library call `calloc` (and `malloc`). -/
def calloc (a : Alloc) : Ptr × Alloc :=
  if a.avail = 0 then (NULL, a)
  else (a.brk, { a with brk := a.brk + 1, avail := a.avail - 1 })

/-- The library call `free(p)`. -/
def free (a : Alloc) (p : Ptr) : Alloc :=
  { a with freed := p :: a.freed }

/-- The function `OS_calloc` (`OS_malloc` has the same body). -/
def OS_calloc (a : Alloc) : Ptr × Alloc :=
  let a := { a with cnt := (a.cnt + 1) % UINT_MOD }
  if a.cnt = a.period then (NULL, { a with cnt := 0 })
  else calloc a

/-- The function `OS_malloc`; the library call `malloc` is the library call
`calloc` of the embedding, which does not record the contents of the block. -/
def OS_malloc (a : Alloc) : Ptr × Alloc :=
  let a := { a with cnt := (a.cnt + 1) % UINT_MOD }
  if a.cnt = a.period then (NULL, { a with cnt := 0 })
  else calloc a

/-- The function `OS_malloc_setPeriod(newPeriod)`; `debug` says whether the
file is compiled with `_DEBUG` defined. -/
def OS_malloc_setPeriod (debug : Bool) (a : Alloc) (newPeriod : Nat) : Alloc :=
  let a := { a with cnt := 0 }
  if debug then { a with period := newPeriod % UINT_MOD } else { a with period := 0 }

/-- One call of the instrumented allocator: `OS_calloc` when `c` is true,
`OS_malloc` otherwise. -/
def hookCall (c : Bool) (a : Alloc) : Ptr × Alloc :=
  if c then OS_calloc a else OS_malloc a

/-- The allocator state after a sequence of calls of the instrumented
allocator, given by their kinds. -/
def hookCalls : List Bool → Alloc → Alloc
  | [], a => a
  | c :: cs, a => hookCalls cs (hookCall c a).2

/-! ## `kernel.c` -/

/-- Operating mode `RUNNING`. -/
abbrev RUNNING : Nat := 1

/-- Operating mode `INIT`, defined as `!RUNNING`. -/
abbrev INIT : Nat := 0

/-- Operating mode `UNINITIALIZED`. -/
abbrev UNINITIALIZED : Nat := 2

/-- Return code `FAIL`. -/
abbrev FAIL : Int := 0

/-- Return code `SUCCESS`. -/
abbrev SUCCESS : Int := 1

/-- Return code `OK`. -/
abbrev OK : Int := 1

/-- Return code `DEADLINE_REACHED`. -/
abbrev DEADLINE_REACHED : Int := 0

/-- Return code `NOT_EMPTY`. -/
abbrev NOT_EMPTY : Int := 0

/-- Code address of the static function `idleTask`. -/
abbrev idleTask : Ptr := 1

/-- The x86 value of `STACK_SIZE`. -/
abbrev STACK_SIZE : Nat := 100000

/-- The file-scope variables of `kernel.c`, the heap and the allocator. -/
structure Kernel where
  mem : Mem
  alloc : Alloc
  osTicks : Nat
  readyList : Option OSList_t
  waitingList : Option OSList_t
  timerList : Option OSList_t
  opMode : Nat
  Running : Ptr
  runningListobj : Ptr
  isrOnState : Bool

/-- How a kernel call hands control back: it returned a value, it returned
from a `void` function, or it ended its first pass in `LoadContext`, which
resumes the task `Running` points at. -/
inductive Outcome where
  | ret (v : Int)
  | done
  | switched
  deriving DecidableEq, Repr

/-- Read `*p` for a `msg* p`. -/
def Mem.getMsg (m : Mem) (p : Ptr) : Option msg :=
  if p = NULL then none else some (m.msgs p)

/-- Read `*p` for a `mailbox* p`. -/
def Mem.getMbox (m : Mem) (p : Ptr) : Option mailbox :=
  if p = NULL then none else some (m.mboxes p)

/-- A store into the message record at `p`. -/
def Mem.setMsg (m : Mem) (p : Ptr) (f : msg → msg) : Option Mem :=
  if p = NULL then none else some { m with msgs := upd m.msgs p (f (m.msgs p)) }

/-- A store into the mailbox at `p`. -/
def Mem.setMbox (m : Mem) (p : Ptr) (f : mailbox → mailbox) : Option Mem :=
  if p = NULL then none else some { m with mboxes := upd m.mboxes p (f (m.mboxes p)) }

/-- The assignment `p->pMessage = v`. -/
def Mem.setMessage (m : Mem) (p v : Ptr) : Option Mem :=
  if p = NULL then none
  else some { m with objs := upd m.objs p { m.objs p with pMessage := v } }

/-- The assignment `p->pTask = v`. -/
def Mem.setTask (m : Mem) (p v : Ptr) : Option Mem :=
  if p = NULL then none
  else some { m with objs := upd m.objs p { m.objs p with pTask := v } }

/-- A store into the task control block at `p`. -/
def Mem.setTcb (m : Mem) (p : Ptr) (f : TCB → TCB) : Option Mem :=
  if p = NULL then none else some { m with tcbs := upd m.tcbs p (f (m.tcbs p)) }

/-- The library call `memcpy(dst, src, n)` on the byte area; `n` is the `int`
field `nDataSize` converted to `size_t`, which for a negative value is a
length no buffer has. -/
def memcpy (m : Mem) (dst src : Ptr) (n : Int) : Option Mem :=
  if dst = NULL ∨ src = NULL ∨ n < 0 then none
  else some { m with bytes := fun a =>
    if dst ≤ a ∧ a < dst + n.toNat then m.bytes (src + (a - dst)) else m.bytes a }

/-- Conversion of a `uint` to `int`. -/
def toInt32 (u : Nat) : Int :=
  if u % UINT_MOD < 2 ^ 31 then ((u % UINT_MOD : Nat) : Int)
  else ((u % UINT_MOD : Nat) : Int) - (UINT_MOD : Int)

/-- The function `OSList_create`: a zeroed header, or `NULL`. -/
def OSList_create (a : Alloc) : Option OSList_t × Ptr × Alloc :=
  let (p, a) := OS_calloc a
  if p = NULL then (none, p, a) else (some { size := 0, pHead := NULL, pTail := NULL }, p, a)

/-- The function `OSList_createListobj`. -/
def OSList_createListobj (m : Mem) (a : Alloc) : Ptr × Mem × Alloc :=
  let (tmp, a) := OS_calloc a
  if tmp = NULL then (NULL, m, a)
  else
    let m := { m with objs := upd m.objs tmp ⟨NULL, 0, NULL, NULL, NULL⟩ }
    let (t, a) := OS_calloc a
    let m := { m with objs := upd m.objs tmp { m.objs tmp with pTask := t } }
    if t = NULL then (NULL, m, free a tmp)
    else (tmp, { m with tcbs := upd m.tcbs t ⟨NULL, 0, 0⟩ }, a)

/-- Macro `initTask(listob, fnBody, deadline)`. -/
def initTask (m : Mem) (listob fnBody : Ptr) (deadline : Nat) : Option Mem := do
  let o ← m.obj listob
  let m ← m.setTcb o.pTask (fun t => { t with PC := fnBody })
  let o ← m.obj listob
  let m ← m.setTcb o.pTask (fun t => { t with SP := STACK_SIZE - 1 })
  let o ← m.obj listob
  m.setTcb o.pTask (fun t => { t with DeadLine := deadline })

/-- Macro `setRunningTask(listob)`. -/
def setRunningTask (k : Kernel) (listob : Ptr) : Option Kernel := do
  let o ← k.mem.obj listob
  pure { k with Running := o.pTask, runningListobj := listob }

/-- The function `isr_off`. -/
def isr_off (k : Kernel) : Kernel := { k with isrOnState := false }

/-- The function `isr_on`. -/
def isr_on (k : Kernel) : Kernel := { k with isrOnState := true }

/-- Modelled from the spec: `LoadContext` is an assembly routine outside the
sources; it resumes the task `Running` points at and "re-enables interrupts
atomically with the branch".  Its effect on the kernel variables is to set the
interrupt flag. -/
def LoadContext (k : Kernel) : Kernel := { k with isrOnState := true }

/-- First loop of `schedulingUpdate`: move expired timer entries to the ready
list.  Runs on fuel. -/
def timerLoop : Nat → Kernel → Option Kernel
  | 0, _ => none
  | fuel + 1, k =>
    let tmp := OSList_peek k.timerList
    if tmp = NULL then some k
    else do
      let t ← k.mem.obj tmp
      if t.nTCnt ≤ k.osTicks then do
        let (first, m, tl) ← OSList_getFirst k.mem k.timerList
        let (_, m, rl) ← OSList_deadlineInsert m k.readyList first
        timerLoop fuel { k with mem := m, timerList := tl, readyList := rl }
      else some k

/-- Second loop of `schedulingUpdate`: move waiting entries whose deadline is
reached to the ready list.  Runs on fuel. -/
def waitingLoop : Nat → Kernel → Option Kernel
  | 0, _ => none
  | fuel + 1, k =>
    let tmp := OSList_peek k.waitingList
    if tmp = NULL then some k
    else do
      let dl ← k.mem.deadlineOf tmp
      if dl ≤ k.osTicks then do
        let (first, m, wl) ← OSList_getFirst k.mem k.waitingList
        let (_, m, rl) ← OSList_deadlineInsert m k.readyList first
        waitingLoop fuel { k with mem := m, waitingList := wl, readyList := rl }
      else some k

/-- The function `schedulingUpdate`. -/
def schedulingUpdate (fuel : Nat) (k : Kernel) : Option Kernel := do
  let k ← timerLoop fuel k
  let k ← waitingLoop fuel k
  setRunningTask k (OSList_peek k.readyList)

/-- The tick handler: the body of the loop of `timerInterrupt` (x86), which is
`SysTick_Handler` (Cortex-M) behind the interrupt mask. -/
def tick (fuel : Nat) (k : Kernel) : Option Kernel :=
  if k.isrOnState then
    schedulingUpdate fuel { k with osTicks := (k.osTicks + 1) % UINT_MOD }
  else some k

/-- The function `init_kernel`. -/
def init_kernel (k : Kernel) : Option (Int × Kernel) :=
  let k := { k with osTicks := 0 }
  let (rl, rp, a) := OSList_create k.alloc
  let k := { k with readyList := rl, alloc := a }
  if rl.isNone then some (FAIL, k)
  else
    let (wl, wp, a) := OSList_create k.alloc
    let k := { k with waitingList := wl, alloc := a }
    if wl.isNone then some (FAIL, { k with alloc := free k.alloc rp })
    else
      let (tl, tp, a) := OSList_create k.alloc
      let k := { k with timerList := tl, alloc := a }
      if tl.isNone then some (FAIL, { k with alloc := free (free k.alloc rp) wp })
      else
        let (idleTaskOb, m, a) := OSList_createListobj k.mem k.alloc
        let k := { k with mem := m, alloc := a }
        if idleTaskOb = NULL then
          some (FAIL, { k with alloc := free (free (free k.alloc rp) wp) tp })
        else do
          let m ← initTask k.mem idleTaskOb idleTask UINT32_MAX
          let (ok, m, rl) ← OSList_deadlineInsert m k.readyList idleTaskOb
          let k := { k with mem := m, readyList := rl }
          if !ok then
            some (FAIL, { k with alloc := free (free (free (free k.alloc rp) wp) tp) idleTaskOb })
          else do
            let k ← setRunningTask k idleTaskOb
            some (SUCCESS, { k with opMode := INIT })

/-- The function `create_task(body, d)`; the test `d < 0` of the source is
never true of the unsigned `d`. -/
def create_task (fuel : Nat) (k : Kernel) (body : Ptr) (d : Nat) : Option (Outcome × Kernel) :=
  if body = NULL ∨ d = 0 ∨ k.readyList.isNone ∨ k.waitingList.isNone ∨ k.timerList.isNone
      ∨ k.opMode = UNINITIALIZED then some (.ret FAIL, k)
  else
    let (task, m, a) := OSList_createListobj k.mem k.alloc
    let k := { k with mem := m, alloc := a }
    if task = NULL then some (.ret FAIL, k)
    else do
      let m ← initTask k.mem task body d
      let k := { k with mem := m }
      if k.opMode = INIT then do
        let (ok, m, rl) ← OSList_deadlineInsert k.mem k.readyList task
        let k := { k with mem := m, readyList := rl }
        if !ok then some (.ret FAIL, { k with alloc := free k.alloc task })
        else some (.ret SUCCESS, k)
      else do
        let k := isr_off k
        let (ok, m, rl) ← OSList_deadlineInsert k.mem k.readyList task
        let k := { k with mem := m, readyList := rl }
        if !ok then some (.ret FAIL, { k with alloc := free k.alloc task })
        else do
          let k ← schedulingUpdate fuel k
          some (.switched, LoadContext k)

/-- The function `create_task` from the point where the creating task is
resumed by `LoadContext`: `firstExecution` is false, so control leaves the
`if` and reaches `return SUCCESS`. -/
def create_task_resumed : Int := SUCCESS

/-- The function `terminate`. -/
def terminate (fuel : Nat) (k : Kernel) : Option (Outcome × Kernel) :=
  let k := isr_off k
  if k.opMode ≠ RUNNING ∨ k.Running = NULL then some (.done, k)
  else do
    let (_, m, rl) ← OSList_remove fuel k.mem k.readyList k.runningListobj
    let k := { k with mem := m, readyList := rl, alloc := free k.alloc k.runningListobj }
    let k ← setRunningTask k (OSList_peek k.readyList)
    some (.switched, LoadContext k)

/-- The function `run`. -/
def run (k : Kernel) : Option (Outcome × Kernel) :=
  let k := isr_off k
  match k.readyList with
  | none => some (.done, k)
  | some rl =>
    if k.opMode ≠ INIT ∨ k.waitingList.isNone ∨ k.timerList.isNone ∨ rl.size = 0 then
      some (.done, k)
    else do
      let k ← setRunningTask k (OSList_peek k.readyList)
      let k := { k with opMode := RUNNING }
      let k := isr_on k
      some (.switched, LoadContext k)

/-- The function `ticks`. -/
def ticks (k : Kernel) : Nat := k.osTicks

/-- The function `set_ticks`. -/
def set_ticks (k : Kernel) (nTicks : Nat) : Kernel := { k with osTicks := nTicks % UINT_MOD }

/-- The function `deadline`. -/
def deadline (k : Kernel) : Nat :=
  if k.Running ≠ NULL then (k.mem.tcbs k.Running).DeadLine else 0

/-- The function `wait(nTicks)` up to its `LoadContext`. -/
def wait (fuel : Nat) (k : Kernel) (nTicks : Nat) : Option (Outcome × Kernel) :=
  if nTicks = 0 then some (.ret FAIL, k)
  else do
    let k := isr_off k
    let (_, m, rl) ← OSList_remove fuel k.mem k.readyList k.runningListobj
    let k := { k with mem := m, readyList := rl }
    let (_, m, tl) ← OSList_timerInsert (ticks k) k.mem k.timerList k.runningListobj nTicks
    let k := { k with mem := m, timerList := tl }
    let k ← schedulingUpdate fuel k
    some (.switched, LoadContext k)

/-- The function `wait` from the point where the caller is resumed:
`else if (Running->DeadLine <= ticks()) return DEADLINE_REACHED; return SUCCESS`. -/
def wait_resumed (k : Kernel) : Option Int := do
  let t ← k.mem.tcb k.Running
  if t.DeadLine ≤ ticks k then some DEADLINE_REACHED else some SUCCESS

/-- The function `set_deadline(nNew)` up to its `LoadContext`. -/
def set_deadline (fuel : Nat) (k : Kernel) (nNew : Nat) : Option (Outcome × Kernel) :=
  if k.Running = NULL then some (.done, k)
  else do
    let k := isr_off k
    let (tmp, m, rl) ← OSList_getFirst k.mem k.readyList
    let o ← m.obj tmp
    let m ← m.setTcb o.pTask (fun t => { t with DeadLine := nNew })
    let (_, m, rl) ← OSList_deadlineInsert m rl tmp
    let k := { k with mem := m, readyList := rl }
    let k ← schedulingUpdate fuel k
    some (.switched, LoadContext k)

/-- The function `create_mailbox(nMessages, nDataSize)`. -/
def create_mailbox (k : Kernel) (nMessages nDataSize : Nat) : Option (Ptr × Kernel) :=
  if nMessages = 0 ∨ nDataSize = 0 then some (NULL, k)
  else
    let (res, a) := calloc k.alloc
    let k := { k with alloc := a }
    if res = NULL then some (NULL, k)
    else do
      let m := { k.mem with mboxes := upd k.mem.mboxes res ⟨NULL, NULL, 0, 0, 0, 0⟩ }
      let m ← m.setMbox res (fun b => { b with nDataSize := toInt32 nDataSize })
      let m ← m.setMbox res (fun b => { b with nMaxMessages := toInt32 nMessages })
      let (hd, a) := calloc k.alloc
      let m ← m.setMbox res (fun b => { b with pHead := hd })
      let k := { k with mem := m, alloc := a }
      if hd = NULL then some (NULL, { k with alloc := free k.alloc res })
      else do
        let m := { k.mem with msgs := upd k.mem.msgs hd ⟨NULL, 0, NULL, NULL, NULL⟩ }
        let (tl, a) := calloc k.alloc
        let m ← m.setMbox res (fun b => { b with pTail := tl })
        let k := { k with mem := m, alloc := a }
        if tl = NULL then some (NULL, { k with alloc := free (free k.alloc hd) res })
        else do
          let m := { k.mem with msgs := upd k.mem.msgs tl ⟨NULL, 0, NULL, NULL, NULL⟩ }
          let b ← m.getMbox res
          let m ← m.setMsg b.pHead (fun x => { x with pNext := b.pTail })
          let b ← m.getMbox res
          let m ← m.setMsg b.pTail (fun x => { x with pPrevious := b.pHead })
          some (res, { k with mem := m })

/-- The statements that unlink the message record `tmp` from its queue:
`tmp->pNext->pPrevious = tmp->pPrevious; tmp->pPrevious->pNext = tmp->pNext;
tmp->pNext = NULL; tmp->pPrevious = NULL` (the last two in either order). -/
def unlinkMsg (m : Mem) (tmp : Ptr) : Option Mem := do
  let t ← m.getMsg tmp
  let m ← m.setMsg t.pNext (fun x => { x with pPrevious := t.pPrevious })
  let t ← m.getMsg tmp
  let m ← m.setMsg t.pPrevious (fun x => { x with pNext := t.pNext })
  let m ← m.setMsg tmp (fun x => { x with pNext := NULL })
  m.setMsg tmp (fun x => { x with pPrevious := NULL })

/-- The block of `send_wait` and `receive_wait` that allocates a message record
for the running task pointing at `pData`, appends it to the queue of `mBox`, adds
`delta` to `nBlockedMsg` and moves the running task from the ready list to the
waiting list.  `none` also stands for the endless loop after a failed `calloc`. -/
def enqueueBlocked (fuel : Nat) (k : Kernel) (mBox pData : Ptr) (delta : Int) :
    Option Kernel := do
  let (tmp, a) := calloc k.alloc
  if tmp = NULL then none
  else do
    let m := { k.mem with msgs := upd k.mem.msgs tmp ⟨NULL, 0, NULL, NULL, NULL⟩ }
    let m ← m.setMsg tmp (fun x => { x with pBlock := k.runningListobj })
    let m ← m.setMessage k.runningListobj tmp
    let m ← m.setMsg tmp (fun x => { x with pData := pData })
    let b ← m.getMbox mBox
    let tl ← m.getMsg b.pTail
    let m ← m.setMsg tmp (fun x => { x with pPrevious := tl.pPrevious })
    let m ← m.setMsg tmp (fun x => { x with pNext := b.pTail })
    let tl ← m.getMsg b.pTail
    let m ← m.setMsg tl.pPrevious (fun x => { x with pNext := tmp })
    let m ← m.setMsg b.pTail (fun x => { x with pPrevious := tmp })
    let m ← m.setMbox mBox (fun b => { b with nBlockedMsg := b.nBlockedMsg + delta })
    let (_, m, rl) ← OSList_remove fuel m k.readyList k.runningListobj
    let (_, m, wl) ← OSList_deadlineInsert m k.waitingList k.runningListobj
    some { k with mem := m, alloc := a, readyList := rl, waitingList := wl }

/-- The function `send_wait(mBox, pData)` up to its `LoadContext`. -/
def send_wait (fuel : Nat) (k : Kernel) (mBox pData : Ptr) : Option (Outcome × Kernel) :=
  if mBox = NULL ∨ pData = NULL then some (.ret FAIL, k)
  else if (k.mem.mboxes mBox).nMessages ≠ 0 then some (.ret FAIL, k)
  else do
    let k := isr_off k
    let b ← k.mem.getMbox mBox
    let k ←
      if b.nBlockedMsg < 0 then do
        let hd ← k.mem.getMsg b.pHead
        let tmp := hd.pNext
        let t ← k.mem.getMsg tmp
        let m ← memcpy k.mem t.pData pData b.nDataSize
        let m ← m.setMbox mBox (fun b => { b with nBlockedMsg := b.nBlockedMsg + 1 })
        let m ← unlinkMsg m tmp
        let m ← m.setMsg tmp (fun x => { x with Status := SUCCESS })
        let t ← m.getMsg tmp
        let (_, m, wl) ← OSList_remove fuel m k.waitingList t.pBlock
        let (_, m, rl) ← OSList_deadlineInsert m k.readyList t.pBlock
        some { k with mem := m, waitingList := wl, readyList := rl }
      else enqueueBlocked fuel k mBox pData 1
    let k ← schedulingUpdate fuel k
    some (.switched, LoadContext k)

/-- The function `receive_wait(mBox, pData)` up to its `LoadContext`. -/
def receive_wait (fuel : Nat) (k : Kernel) (mBox pData : Ptr) : Option (Outcome × Kernel) :=
  if mBox = NULL ∨ pData = NULL then some (.ret FAIL, k)
  else do
    let k := isr_off k
    let b ← k.mem.getMbox mBox
    let k ←
      if b.nBlockedMsg > 0 ∨ b.nMessages > 0 then do
        let hd ← k.mem.getMsg b.pHead
        let tmp := hd.pNext
        let t ← k.mem.getMsg tmp
        let m ← memcpy k.mem pData t.pData b.nDataSize
        let m ← unlinkMsg m tmp
        let b ← m.getMbox mBox
        let t ← m.getMsg tmp
        let k ←
          if b.nBlockedMsg > 0 then do
            let m ← m.setMbox mBox (fun b => { b with nBlockedMsg := b.nBlockedMsg - 1 })
            let (_, m, wl) ← OSList_remove fuel m k.waitingList t.pBlock
            let (_, m, rl) ← OSList_deadlineInsert m k.readyList t.pBlock
            some { k with mem := m, waitingList := wl, readyList := rl }
          else do
            let m ← m.setMbox mBox (fun b => { b with nMessages := b.nMessages - 1 })
            some { k with mem := m }
        let t ← k.mem.getMsg tmp
        let m ← k.mem.setMessage t.pBlock NULL
        some { k with mem := m, alloc := free k.alloc tmp }
      else enqueueBlocked fuel k mBox pData (-1)
    let k ← schedulingUpdate fuel k
    some (.switched, LoadContext k)

/-- The withdrawal loop of the resumed `send_wait` and `receive_wait`:
`while (tmp->pNext != NULL)`, unlinking the record the running task refers to
and adding `delta` to `nBlockedMsg`.  Runs on fuel. -/
def withdrawLoop (k : Kernel) (mBox : Ptr) (delta : Int) : Nat → Ptr → Option Kernel
  | 0, _ => none
  | fuel + 1, tmp => do
    let t ← k.mem.getMsg tmp
    if t.pNext = NULL then some k
    else do
      let r ← k.mem.obj k.runningListobj
      if tmp = r.pMessage then do
        let m ← k.mem.setMsg t.pPrevious (fun x => { x with pNext := t.pNext })
        let t ← m.getMsg tmp
        let m ← m.setMsg t.pNext (fun x => { x with pPrevious := t.pPrevious })
        let m ← m.setMsg tmp (fun x => { x with pNext := NULL })
        let m ← m.setMsg tmp (fun x => { x with pPrevious := NULL })
        let m ← m.setMsg tmp (fun x => { x with pBlock := NULL })
        let m ← m.setMessage k.runningListobj NULL
        let m ← m.setMbox mBox (fun b => { b with nBlockedMsg := b.nBlockedMsg + delta })
        some { k with mem := m, alloc := free k.alloc tmp }
      else withdrawLoop k mBox delta fuel t.pNext

/-- The functions `send_wait` (`delta = -1`) and `receive_wait` (`delta = 1`)
from the point where the caller is resumed. -/
def blocked_resumed (fuel : Nat) (k : Kernel) (mBox : Ptr) (delta : Int) :
    Option (Int × Kernel) :=
  if ticks k ≥ deadline k then do
    let k := isr_off k
    let b ← k.mem.getMbox mBox
    let hd ← k.mem.getMsg b.pHead
    let k ← withdrawLoop k mBox delta fuel hd.pNext
    some (DEADLINE_REACHED, isr_on k)
  else some (SUCCESS, k)

/-- The function `send_wait` from the point where the caller is resumed. -/
def send_wait_resumed (fuel : Nat) (k : Kernel) (mBox : Ptr) : Option (Int × Kernel) :=
  blocked_resumed fuel k mBox (-1)

/-- The function `receive_wait` from the point where the caller is resumed. -/
def receive_wait_resumed (fuel : Nat) (k : Kernel) (mBox : Ptr) : Option (Int × Kernel) :=
  blocked_resumed fuel k mBox 1

/-- The function `no_messages(mBox)`: `abs(mBox->nMessages) +
abs(mBox->nBlockedMsg)`, an `int`, and `0` for a null mailbox. -/
def no_messages (m : Mem) (mBox : Ptr) : Int :=
  if mBox ≠ NULL then
    toInt32 ((m.mboxes mBox).nMessages.natAbs + (m.mboxes mBox).nBlockedMsg.natAbs)
  else 0

/-- The function `remove_mailbox(mBox)`.  The branch that removes the mailbox
has no `return` statement: control reaches the closing brace of a function
declared to return `exception`, so the caller gets no defined value; the
embedding gives `Outcome.done` for it. -/
def remove_mailbox (k : Kernel) (mBox : Ptr) : Outcome × Kernel :=
  if mBox = NULL then (.ret FAIL, k)
  else if (k.mem.mboxes mBox).nMessages = 0 ∧ (k.mem.mboxes mBox).nBlockedMsg = 0 then
    (.done, { k with alloc := free (free (free k.alloc (k.mem.mboxes mBox).pHead)
      (k.mem.mboxes mBox).pTail) mBox })
  else (.ret NOT_EMPTY, k)

/-- The function `send_no_wait(mBox, pData)`: the parameter check is the whole
body; past it control reaches the closing brace without a `return`. -/
def send_no_wait (k : Kernel) (mBox pData : Ptr) : Outcome × Kernel :=
  if mBox = NULL ∨ pData = NULL then (.ret FAIL, k) else (.done, k)

/-- The function `receive_no_wait(mBox, pData)`: the condition of its only
statement is the assignment `pData = NULL`, whose value is false, so for all
arguments control reaches the closing brace without a `return`. -/
def receive_no_wait (k : Kernel) (_mBox _pData : Ptr) : Outcome × Kernel :=
  (.done, k)

/-- The function `incTicks`. -/
def incTicks (k : Kernel) : Kernel := { k with osTicks := (k.osTicks + 1) % UINT_MOD }

/-! ## Sequences of kernel calls -/

/-- A kernel entry point with its arguments.  The calls that end their first
pass in `LoadContext` have a second entry, taken when the caller is resumed. -/
inductive Call where
  | init_kernel
  | create_task (body : Ptr) (d : Nat)
  | run
  | terminate
  | wait (nTicks : Nat)
  | set_deadline (nNew : Nat)
  | set_ticks (nTicks : Nat)
  | create_mailbox (nMessages nDataSize : Nat)
  | send_wait (mBox pData : Ptr)
  | receive_wait (mBox pData : Ptr)
  | send_wait_resumed (mBox : Ptr)
  | receive_wait_resumed (mBox : Ptr)
  | tick
  deriving DecidableEq, Repr

/-- The kernel state after one call. -/
def step (fuel : Nat) (k : Kernel) : Call → Option Kernel
  | .init_kernel => (init_kernel k).map Prod.snd
  | .create_task body d => (create_task fuel k body d).map Prod.snd
  | .run => (run k).map Prod.snd
  | .terminate => (terminate fuel k).map Prod.snd
  | .wait n => (wait fuel k n).map Prod.snd
  | .set_deadline n => (set_deadline fuel k n).map Prod.snd
  | .set_ticks n => some (set_ticks k n)
  | .create_mailbox n d => (create_mailbox k n d).map Prod.snd
  | .send_wait b p => (send_wait fuel k b p).map Prod.snd
  | .receive_wait b p => (receive_wait fuel k b p).map Prod.snd
  | .send_wait_resumed b => (send_wait_resumed fuel k b).map Prod.snd
  | .receive_wait_resumed b => (receive_wait_resumed fuel k b).map Prod.snd
  | .tick => tick fuel k

/-- The kernel state after a sequence of calls. -/
def exec (fuel : Nat) : Kernel → List Call → Option Kernel
  | k, [] => some k
  | k, c :: cs => (step fuel k c).bind (fun k => exec fuel k cs)

/-- The heap at program start: every object is zero. -/
def zeroMem : Mem :=
  { objs := fun _ => ⟨NULL, 0, NULL, NULL, NULL⟩
    tcbs := fun _ => ⟨NULL, 0, 0⟩
    msgs := fun _ => ⟨NULL, 0, NULL, NULL, NULL⟩
    mboxes := fun _ => ⟨NULL, NULL, 0, 0, 0, 0⟩
    bytes := fun _ => 0 }

/-- The kernel variables at program start (`opMode = UNINITIALIZED`, the list
pointers `NULL`, fault injection off), with a library heap that serves `avail`
allocations from address `100` on. -/
def boot (avail : Nat) : Kernel :=
  { mem := zeroMem
    alloc := { cnt := 0, period := 0, brk := 100, avail := avail, freed := [] }
    osTicks := 0
    readyList := none
    waitingList := none
    timerList := none
    opMode := UNINITIALIZED
    Running := NULL
    runningListobj := NULL
    isrOnState := false }

/-- The entries met by following `pNext` from `p`, for at most `n` steps,
stopping at `NULL`. -/
def walkNext (m : Mem) : Nat → Ptr → List Ptr
  | 0, _ => []
  | n + 1, p => if p = NULL then [] else p :: walkNext m n (m.objs p).pNext

/-- The entries linked into a list: the walk of `size` steps from `pHead`. -/
def entries (m : Mem) (list : Option OSList_t) : List Ptr :=
  match list with
  | none => []
  | some l => walkNext m l.size l.pHead

/-! ## The loops of `OSList_test.c` -/

/-- The fill loop of `OSList_getFirst_test` and `OSList_remove_test`: one
`OSList_timerInsert(list, ob, delay)` per entry, in order. -/
def timerInsertAll (osTicks : Nat) :
    Mem → Option OSList_t → List (Ptr × Nat) → Option (Mem × Option OSList_t)
  | m, l, [] => some (m, l)
  | m, l, (ob, delay) :: rest => do
    let (_, m, l) ← OSList_timerInsert osTicks m l ob delay
    timerInsertAll osTicks m l rest

/-- The drain loop of `OSList_getFirst_test`: `n` calls of `OSList_getFirst`,
with the pointers they return, in order. -/
def getFirstN : Mem → Option OSList_t → Nat → Option (List Ptr × Mem × Option OSList_t)
  | m, l, 0 => some ([], m, l)
  | m, l, n + 1 => do
    let (ob, m, l) ← OSList_getFirst m l
    let (obs, m, l) ← getFirstN m l n
    some (ob :: obs, m, l)

/-! ## Example heaps -/

/-- A heap holding the list `1, 2` (deadlines and wake ticks `5, 9`) and a
detached entry `3` with deadline `9`. -/
def exMem : Mem :=
  { zeroMem with
    objs := fun p =>
      if p = 1 then ⟨11, 5, NULL, NULL, 2⟩
      else if p = 2 then ⟨12, 9, NULL, 1, NULL⟩
      else if p = 3 then ⟨13, 0, NULL, NULL, NULL⟩
      else ⟨NULL, 0, NULL, NULL, NULL⟩
    tcbs := fun p =>
      if p = 11 then ⟨7, 0, 5⟩
      else if p = 12 then ⟨7, 0, 9⟩
      else if p = 13 then ⟨7, 0, 9⟩
      else ⟨NULL, 0, 0⟩ }

/-- The header of the list `1, 2` of `exMem`. -/
def exList : OSList_t := { size := 2, pHead := 1, pTail := 2 }

/-- An empty list header, as `OSList_create` returns it. -/
def emptyList : OSList_t := { size := 0, pHead := NULL, pTail := NULL }

/-- A kernel state over `exMem` in running mode at tick `0`: the ready list is
`1, 2` (deadlines `5` and `9`), the waiting list is empty, the timer list holds
entry `3`, whose wake tick `0` is reached; entry `1` with task `11` runs. -/
def exKernel : Kernel :=
  { mem := exMem
    alloc := { cnt := 0, period := 0, brk := 100, avail := 100, freed := [] }
    osTicks := 0
    readyList := some exList
    waitingList := some emptyList
    timerList := some { size := 1, pHead := 3, pTail := 3 }
    opMode := RUNNING
    Running := 11
    runningListobj := 1
    isrOnState := true }

/-- The state `exKernel` in init mode. -/
def exKernelInit : Kernel := { exKernel with opMode := INIT }

/-- The kernel variables at program start with the allocator set to fail every
call: `period` is `1` and `cnt` is `0`. -/
def bootFailing : Kernel :=
  { boot 100 with alloc := { cnt := 0, period := 1, brk := 100, avail := 100, freed := [] } }

/-- The fill of the specification's list scenario: eleven entries, at the
addresses `21` to `31`, with the delays `1, 10, 5, 11, 6, 2, 9, 4, 7, 8, 3`. -/
def exDelays : List (Ptr × Nat) :=
  [(21, 1), (22, 10), (23, 5), (24, 11), (25, 6), (26, 2), (27, 9), (28, 4), (29, 7), (30, 8),
    (31, 3)]

/-! ## Example call sequences

Addresses handed out from `boot`: `init_kernel` takes `100`, `101`, `102` for
the three list headers, `103` for the idle entry and `104` for its task
descriptor; later allocations follow in call order.  Task bodies are the code
addresses `7` and `8`. -/

/-- Two tasks with deadline `1` and a mailbox (at `105`, sentinels `106` and
`107`): `R` (entry `108`) and `S` (entry `110`).  After `run`, `R` runs and
blocks in `receive_wait` (record `112`); `S` runs; the tick brings the counter
to `R`'s deadline, so reassessment moves `R` to the ready list, behind `S`;
then `S` calls `send_wait` on the mailbox, which still holds `R`'s record. -/
def traceDoubleInsert : List Call :=
  [.init_kernel, .create_mailbox 1 1, .create_task 7 1, .create_task 8 1, .run,
    .receive_wait 105 200, .tick, .send_wait 105 300]

/-- The sequence `traceDoubleInsert` continued: `S` is resumed in
`send_wait` and then calls `set_deadline(100)`; `R` becomes the running task,
is resumed in `receive_wait` and then calls `wait(1)`. -/
def traceOrderBroken : List Call :=
  traceDoubleInsert ++
    [.send_wait_resumed 105, .set_deadline 100, .receive_wait_resumed 105, .wait 1]

/-- One task (entry `105`, deadline `100`) is created and `wait(1)` is called
before `run`, while the running task is still the idle task `init_kernel`
installed. -/
def traceIdleWaits : List Call :=
  [.init_kernel, .create_task 7 100, .wait 1]

/-- One task (entry `105`, deadline `100`) is created and started. -/
def traceRunning : List Call :=
  [.init_kernel, .create_task 7 100, .run]

/-- The task of `traceRunning` sets the tick counter to `2^32 - 1` and calls
`wait(1)`. -/
def traceWaitWraps : List Call :=
  traceRunning ++ [.set_ticks 4294967295, .wait 1]

/-- Two tasks, `A` (entry `105`, deadline `100`) and `B` (entry `107`, deadline
`50`).  After `run`, `B` runs and calls `wait(10)`, which puts it on the timer
list with wake tick `10`; `A` runs and sets the tick counter to `20`. -/
def traceOverdueTimer : List Call :=
  [.init_kernel, .create_task 7 100, .create_task 8 50, .run, .wait 10, .set_ticks 20]

/-- One task with deadline `1` is started and calls `wait(1)`; the idle task
runs until the tick handler brings the counter to `1` and moves the task back
to the ready list, so that it is resumed in `wait`. -/
def traceDeadlineReached : List Call :=
  [.init_kernel, .create_task 7 1, .run, .wait 1, .tick]

/-- The task of `traceRunning` sets the tick counter to `2^32 - 1`; then the
tick handler runs. -/
def traceTickWraps : List Call :=
  traceRunning ++ [.set_ticks 4294967295, .tick]

/-- Two tasks, `A` (entry `105`, deadline `100`) and `B` (entry `107`, deadline
`50`), are created and started; `B` runs first and calls `wait(10)`. -/
def traceTwoTasks : List Call :=
  [.init_kernel, .create_task 7 100, .create_task 8 50, .run, .wait 10]

/-- A mailbox for messages of `5` bytes (at `105`, sentinels `106` and `107`)
and two tasks, `A` (entry `110`, deadline `50`) and `B` (entry `108`, deadline
`100`); after `run`, `A` runs. -/
def traceMailbox : List Call :=
  [.init_kernel, .create_mailbox 4 5, .create_task 7 100, .create_task 8 50, .run]

/-- Task `A` (entry `108`, deadline `3`) sleeps until tick `5`; meanwhile task
`B` (entry `110`, deadline `10`) blocks in `receive_wait` on the mailbox at
`105` (record `112`).  At tick `5` task `A` runs again and calls `send_wait`:
the message is handed to `B` directly and `A` keeps running. -/
def traceHandedOver : List Call :=
  [.init_kernel, .create_mailbox 1 1, .create_task 7 3, .create_task 8 10, .run, .wait 5,
    .receive_wait 105 200, .tick, .tick, .tick, .tick, .tick, .send_wait 105 300]

/-- Task `B` (entry `110`, deadline `2`) sleeps for one tick; task `A` (entry
`108`, deadline `5`) blocks in `send_wait` on the mailbox at `105` (record
`112`).  At tick `1` task `B` runs, takes the message with `receive_wait`, is
resumed, runs until tick `5` and terminates; only then `A` runs again. -/
def traceTakenLate : List Call :=
  [.init_kernel, .create_mailbox 1 1, .create_task 7 5, .create_task 8 2, .run, .wait 1,
    .send_wait 105 300, .tick, .receive_wait 105 200, .receive_wait_resumed 105, .tick, .tick,
    .tick, .tick, .terminate]

/-- Task `A` (entry `110`, deadline `3`) blocks in `send_wait` on the empty
mailbox at `105` (record `112`); nobody receives.  The third tick reaches its
deadline, and `A` runs again. -/
def traceTimeout : List Call :=
  [.init_kernel, .create_mailbox 4 5, .create_task 7 100, .create_task 8 3, .run,
    .send_wait 105 300, .tick, .tick, .tick]

/-- After `init_kernel` a mailbox is created (at `105`, sentinels `106` and
`107`); nothing is sent or received. -/
def traceEmptyMailbox : List Call :=
  [.init_kernel, .create_mailbox 1 1]

/-- Two tasks with deadline `1` and a mailbox (at `105`); after `run` the first
task blocks in `receive_wait` on the mailbox (record `112`). -/
def traceReceiverBlocked : List Call :=
  [.init_kernel, .create_mailbox 1 1, .create_task 7 1, .create_task 8 1, .run,
    .receive_wait 105 200]

/-- Three tasks with the entries `105` (deadline `100`), `107` (deadline `50`)
and `109` (deadline `70`) are created and started; entry `107` runs.  The next
address of the library allocator is `111`. -/
def traceThreeReady : List Call :=
  [.init_kernel, .create_task 7 100, .create_task 8 50, .create_task 9 70, .run]

/-- A mailbox for messages of `5` bytes (at `105`, sentinels `106` and `107`)
and two tasks with deadline `1`: `A` (entry `108`) and `B` (entry `110`); after
`run`, `A` runs. -/
def traceTied : List Call :=
  [.init_kernel, .create_mailbox 1 5, .create_task 7 1, .create_task 8 1, .run]

/-- Task `A` calls `send_wait` on the empty mailbox `105` and blocks (record
`112`); the tick brings the counter to `A`'s deadline, so reassessment moves
`A` back to the ready list, behind the running task `B`; then `B` calls
`receive_wait` on the mailbox, which still holds `A`'s record. -/
def traceLateReceive : List Call :=
  [.send_wait 105 300, .tick, .receive_wait 105 200]

/-! ## Example states reached by call sequences -/

/-- The state after `traceMailbox` with the bytes of "hello" stored at the
addresses `300` to `304`. -/
def exRendezvous : Kernel :=
  let k := (exec 20 (boot 100) traceMailbox).getD (boot 0)
  { k with mem := { k.mem with bytes := fun a =>
      if 300 ≤ a then [104, 101, 108, 108, 111].getD (a - 300) 0 else 0 } }

/-- The state after `traceDeadlineReached`: the task (entry `105`, deadline
`1`) is resumed in `wait` at tick `1`. -/
def exResumedLate : Kernel :=
  (exec 20 (boot 100) traceDeadlineReached).getD (boot 0)

/-- The state after `traceTimeout`: entry `110` (deadline `3`) is resumed in
`send_wait` at tick `3`, its record `112` still queued in the mailbox `105`. -/
def exTimedOut : Kernel :=
  (exec 20 (boot 100) traceTimeout).getD (boot 0)

/-- The state after `traceReceiverBlocked`: the mailbox `105` holds the record
of a blocked receiver. -/
def exReceiverBlocked : Kernel :=
  (exec 20 (boot 100) traceReceiverBlocked).getD (boot 0)

/-- The state after `traceThreeReady`. -/
def exThreeReady : Kernel :=
  (exec 20 (boot 100) traceThreeReady).getD (boot 0)

/-- The state after `traceTied` with the bytes of "hello" stored at the
addresses `300` to `304`. -/
def exTied : Kernel :=
  let k := (exec 20 (boot 100) traceTied).getD (boot 0)
  { k with mem := { k.mem with bytes := fun a =>
      if 300 ≤ a then [104, 101, 108, 108, 111].getD (a - 300) 0 else 0 } }

/-- The state after the first two calls of `traceLateReceive` in `exTied`: the
sender `A` (entry `108`) has timed out and is back on the ready list, behind
the running task `B` (entry `110`); its record `112` is still queued in the
mailbox `105`. -/
def exSenderTimedOut : Kernel :=
  (exec 20 exTied (traceLateReceive.take 2)).getD (boot 0)

/-! ## Well-formed lists -/

/-- Doubly linked segment: the entries `xs`, in order, are chained by
`pNext` and `pPrevious`; the first entry's `pPrevious` is `pv` and the last
entry's `pNext` is `nx`. -/
def seg (m : Mem) : Ptr → List Ptr → Ptr → Prop
  | _, [], _ => True
  | pv, x :: rest, nx =>
    (m.objs x).pPrevious = pv ∧ (m.objs x).pNext = rest.headD nx ∧ seg m x rest nx

instance seg.instDecidable (m : Mem) : ∀ (pv : Ptr) (xs : List Ptr) (nx : Ptr),
    Decidable (seg m pv xs nx)
  | _, [], _ => isTrue trivial
  | pv, x :: rest, nx =>
    have := seg.instDecidable m x rest nx
    decidable_of_iff ((m.objs x).pPrevious = pv ∧ (m.objs x).pNext = rest.headD nx ∧
      seg m x rest nx) Iff.rfl

/-- Well-formedness: the header `l` describes, in heap `m`, a list whose
entries from head to tail are `xs`: `size` is the number of entries, `pHead`
and `pTail` are the first and last entry (both `NULL` when there is none), the
entries are chained both ways with `NULL` before the head and after the tail,
and no entry is `NULL` or repeated. -/
def IsList (m : Mem) (l : OSList_t) (xs : List Ptr) : Prop :=
  l.size = xs.length ∧ l.pHead = xs.headD NULL ∧ l.pTail = xs.getLastD NULL ∧
    seg m NULL xs NULL ∧ NULL ∉ xs ∧ xs.Nodup

instance IsList.instDecidable (m : Mem) (l : OSList_t) (xs : List Ptr) :
    Decidable (IsList m l xs) := by
  unfold IsList; infer_instance

/-- An entry is detached when both its links are `NULL`. -/
def Detached (m : Mem) (e : Ptr) : Prop :=
  (m.objs e).pPrevious = NULL ∧ (m.objs e).pNext = NULL

instance Detached.instDecidable (m : Mem) (e : Ptr) : Decidable (Detached m e) := by
  unfold Detached; infer_instance

/-- Sort key of the timer list: `p->nTCnt`. -/
def wakeKey (m : Mem) (p : Ptr) : Nat := (m.objs p).nTCnt

/-- Sort key of the ready and waiting lists: `p->pTask->DeadLine`. -/
def deadlineKey (m : Mem) (p : Ptr) : Nat := (m.tcbs (m.objs p).pTask).DeadLine

/-- Ascending order: every adjacent pair `a`, `b` has `key a ≤ key b`. -/
def SortedBy (key : Ptr → Nat) (xs : List Ptr) : Prop :=
  xs.Chain' (fun a b => key a ≤ key b)

instance SortedBy.instDecidable (key : Ptr → Nat) : ∀ (xs : List Ptr),
    Decidable (SortedBy key xs)
  | [] => isTrue List.chain'_nil
  | [a] => isTrue (List.chain'_singleton a)
  | a :: b :: r =>
    match Nat.decLe (key a) (key b), SortedBy.instDecidable key (b :: r) with
    | isTrue h1, isTrue h2 => isTrue (List.chain'_cons.mpr ⟨h1, h2⟩)
    | isFalse h1, _ => isFalse (fun h => h1 (List.chain'_cons.mp h).1)
    | _, isFalse h2 => isFalse (fun h => h2 (List.chain'_cons.mp h).2)

/-- The entry owns a task descriptor. -/
def HasTask (m : Mem) (p : Ptr) : Prop := (m.objs p).pTask ≠ NULL

instance HasTask.instDecidable (m : Mem) (p : Ptr) : Decidable (HasTask m p) := by
  unfold HasTask; infer_instance

/-- The entries met by following `pPrevious` from `p`, for at most `n` steps,
stopping at `NULL`. -/
def walkPrev (m : Mem) : Nat → Ptr → List Ptr
  | 0, _ => []
  | n + 1, p => if p = NULL then [] else p :: walkPrev m n (m.objs p).pPrevious

/-- Well-formedness in the words of the specification: `size` is the number of
entries reachable from the head via `pNext` and from the tail via `pPrevious`
(the walks are given one step more than `size` and stop at `NULL` before using
it), head and tail are `NULL` when the size is `0`, and otherwise the head has
no predecessor and the tail no successor.  `IsList` implies it. -/
def WellFormed (m : Mem) (l : OSList_t) : Prop :=
  (walkNext m (l.size + 1) l.pHead).length = l.size ∧
    (walkPrev m (l.size + 1) l.pTail).length = l.size ∧
    (l.size = 0 → l.pHead = NULL ∧ l.pTail = NULL) ∧
    (l.size ≠ 0 → (m.objs l.pHead).pPrevious = NULL ∧ (m.objs l.pTail).pNext = NULL)

instance WellFormed.instDecidable (m : Mem) (l : OSList_t) : Decidable (WellFormed m l) := by
  unfold WellFormed; infer_instance

/-- Frame of a list operation: heap `m'` differs from `m` at most in the
`pPrevious` and `pNext` fields of the entries in `S`. -/
def LinkFrame (m m' : Mem) (S : List Ptr) : Prop :=
  m'.tcbs = m.tcbs ∧ m'.msgs = m.msgs ∧ m'.mboxes = m.mboxes ∧ m'.bytes = m.bytes ∧
    ∀ p, (m'.objs p).pTask = (m.objs p).pTask ∧ (m'.objs p).nTCnt = (m.objs p).nTCnt ∧
      (m'.objs p).pMessage = (m.objs p).pMessage ∧ (p ∉ S → m'.objs p = m.objs p)

/-- The placement in the words of the specification: the new entry `e` goes
immediately before the first entry whose key is strictly greater than the new
key `ke`, or at the tail if there is none. -/
def placeBeforeFirstGreater (key : Ptr → Nat) (ke : Nat) (e : Ptr) : List Ptr → List Ptr
  | [] => [e]
  | x :: rest =>
    if ke < key x then e :: x :: rest else x :: placeBeforeFirstGreater key ke e rest

/-- Heap `m'` has the message records, the mailboxes and the task control
blocks of heap `m`, and every entry has the task and the wake tick it has in
`m`: the heaps differ at most in list links, `pMessage` fields and bytes. -/
def SameRecords (m m' : Mem) : Prop :=
  m'.msgs = m.msgs ∧ m'.mboxes = m.mboxes ∧ m'.tcbs = m.tcbs ∧
    ∀ p, (m'.objs p).pTask = (m.objs p).pTask ∧ (m'.objs p).nTCnt = (m.objs p).nTCnt

/-! ## The kernel's three lists -/

/-- The list pointer is not null and its header describes, in heap `m`, a
well-formed list with the entries `xs`. -/
def OnList (m : Mem) (list : Option OSList_t) (xs : List Ptr) : Prop :=
  match list with
  | none => False
  | some l => IsList m l xs

instance OnList.instDecidable (m : Mem) : ∀ (list : Option OSList_t) (xs : List Ptr),
    Decidable (OnList m list xs)
  | none, _ => isFalse (fun h => h)
  | some l, xs => IsList.instDecidable m l xs

/-- The ready, waiting and timer lists of kernel state `k` are well-formed
with the entries `rs`, `ws` and `ts`; no entry is on two lists, and every
entry owns a task descriptor. -/
def Lists (k : Kernel) (rs ws ts : List Ptr) : Prop :=
  OnList k.mem k.readyList rs ∧ OnList k.mem k.waitingList ws ∧
    OnList k.mem k.timerList ts ∧ (rs ++ ws ++ ts).Nodup ∧
    ∀ x ∈ rs ++ ws ++ ts, HasTask k.mem x

instance Lists.instDecidable (k : Kernel) (rs ws ts : List Ptr) :
    Decidable (Lists k rs ws ts) := by
  unfold Lists; infer_instance

/-- The kernel variables other than the heap, the three list pointers and the
running task are the same in `k` and `k'`. -/
def SameStatics (k k' : Kernel) : Prop :=
  k'.osTicks = k.osTicks ∧ k'.opMode = k.opMode ∧ k'.isrOnState = k.isrOnState ∧
    k'.alloc.cnt = k.alloc.cnt ∧ k'.alloc.period = k.alloc.period ∧
    k'.alloc.brk = k.alloc.brk ∧ k'.alloc.avail = k.alloc.avail ∧
    k'.alloc.freed = k.alloc.freed

instance SameStatics.instDecidable (k k' : Kernel) : Decidable (SameStatics k k') := by
  unfold SameStatics; infer_instance

/-- Timer entries whose wake tick is reached at the tick of `k`. -/
def timerDue (k : Kernel) (x : Ptr) : Bool := decide (wakeKey k.mem x ≤ k.osTicks)

/-- Entries whose deadline is reached at the tick of `k`. -/
def deadlineDue (k : Kernel) (x : Ptr) : Bool := decide (deadlineKey k.mem x ≤ k.osTicks)

/-- The next `n` calls of `OS_calloc` all return a non-null pointer. -/
def callocsSucceed : Nat → Alloc → Prop
  | 0, _ => True
  | n + 1, a => (OS_calloc a).1 ≠ NULL ∧ callocsSucceed n (OS_calloc a).2

instance callocsSucceed.instDecidable : ∀ (n : Nat) (a : Alloc), Decidable (callocsSucceed n a)
  | 0, _ => isTrue trivial
  | n + 1, a =>
    have := callocsSucceed.instDecidable n (OS_calloc a).2
    decidable_of_iff ((OS_calloc a).1 ≠ NULL ∧ callocsSucceed n (OS_calloc a).2) Iff.rfl

/-! ## Mailbox queues -/

/-- The heap with the message record at `p` replaced by `v`. -/
def Mem.wMsg (m : Mem) (p : Ptr) (v : msg) : Mem := { m with msgs := upd m.msgs p v }

/-- Doubly linked segment of message records: the records `xs`, in order, are
chained by `pNext` and `pPrevious`; the first record's `pPrevious` is `pv` and
the last record's `pNext` is `nx`. -/
def mseg (m : Mem) : Ptr → List Ptr → Ptr → Prop
  | _, [], _ => True
  | pv, x :: rest, nx =>
    (m.msgs x).pPrevious = pv ∧ (m.msgs x).pNext = rest.headD nx ∧ mseg m x rest nx

instance mseg.instDecidable (m : Mem) : ∀ (pv : Ptr) (xs : List Ptr) (nx : Ptr),
    Decidable (mseg m pv xs nx)
  | _, [], _ => isTrue trivial
  | pv, x :: rest, nx =>
    have := mseg.instDecidable m x rest nx
    decidable_of_iff ((m.msgs x).pPrevious = pv ∧ (m.msgs x).pNext = rest.headD nx ∧
      mseg m x rest nx) Iff.rfl

/-- The records from the head sentinel to the tail sentinel of mailbox `mb`,
both included, when `qs` are the records between them. -/
def chain (m : Mem) (mb : Ptr) (qs : List Ptr) : List Ptr :=
  (m.mboxes mb).pHead :: (qs ++ [(m.mboxes mb).pTail])

/-- The queue of mailbox `mb` is well-formed with the records `qs`, oldest
first: head sentinel, `qs` and tail sentinel are chained both ways with `NULL`
before the head sentinel and after the tail sentinel, and none of them is
`NULL` or repeated. -/
def IsQueue (m : Mem) (mb : Ptr) (qs : List Ptr) : Prop :=
  mb ≠ NULL ∧ mseg m NULL (chain m mb qs) NULL ∧ NULL ∉ chain m mb qs ∧ (chain m mb qs).Nodup

instance IsQueue.instDecidable (m : Mem) (mb : Ptr) (qs : List Ptr) :
    Decidable (IsQueue m mb qs) := by
  unfold IsQueue; infer_instance

/-- The records met by following `pNext` from `p`, for at most `n` steps,
stopping at `stop` and at `NULL`. -/
def msgWalk (m : Mem) (stop : Ptr) : Nat → Ptr → List Ptr
  | 0, _ => []
  | n + 1, p => if p = NULL ∨ p = stop then [] else p :: msgWalk m stop n (m.msgs p).pNext

/-- The non-sentinel records linked between the head and the tail sentinel of
mailbox `mb`, found by a walk of at most `n` steps. -/
def queued (m : Mem) (mb : Ptr) (n : Nat) : List Ptr :=
  msgWalk m (m.mboxes mb).pTail n (m.msgs (m.mboxes mb).pHead).pNext

/-- The stores of `enqueueBlocked` that set up the new record `tmp` for the
entry `c`, append it to the queue of `mBox` and add `delta` to `nBlockedMsg`:
the statements from `tmp->pBlock = runningListobj` to the update of
`mBox->nBlockedMsg`. -/
def linkRecord (m : Mem) (tmp c mBox pData : Ptr) (delta : Int) : Option Mem := do
  let m := { m with msgs := upd m.msgs tmp ⟨NULL, 0, NULL, NULL, NULL⟩ }
  let m ← m.setMsg tmp (fun x => { x with pBlock := c })
  let m ← m.setMessage c tmp
  let m ← m.setMsg tmp (fun x => { x with pData := pData })
  let b ← m.getMbox mBox
  let tl ← m.getMsg b.pTail
  let m ← m.setMsg tmp (fun x => { x with pPrevious := tl.pPrevious })
  let m ← m.setMsg tmp (fun x => { x with pNext := b.pTail })
  let tl ← m.getMsg b.pTail
  let m ← m.setMsg tl.pPrevious (fun x => { x with pNext := tmp })
  let m ← m.setMsg b.pTail (fun x => { x with pPrevious := tmp })
  m.setMbox mBox (fun b => { b with nBlockedMsg := b.nBlockedMsg + delta })

/-- Heap `m'` is heap `m` after the record `e`, made for the entry `c` with the
payload pointer `pData`, has been appended to the queue `qs` of mailbox `mb` and
`delta` has been added to the blocked counter of `mb`; the links of the task
lists may differ. -/
def Enqueued (m m' : Mem) (mb e c pData : Ptr) (delta : Int) (qs : List Ptr) : Prop :=
  IsQueue m' mb (qs ++ [e]) ∧ m'.tcbs = m.tcbs ∧ m'.bytes = m.bytes ∧
    (∀ p, (m'.objs p).pTask = (m.objs p).pTask ∧ (m'.objs p).nTCnt = (m.objs p).nTCnt) ∧
    (m'.objs c).pMessage = e ∧
    (∀ p, p ≠ c → (m'.objs p).pMessage = (m.objs p).pMessage) ∧
    (m'.mboxes mb).nBlockedMsg = (m.mboxes mb).nBlockedMsg + delta ∧
    (m'.mboxes mb).nMessages = (m.mboxes mb).nMessages ∧
    (m'.mboxes mb).nDataSize = (m.mboxes mb).nDataSize ∧
    (m'.mboxes mb).pHead = (m.mboxes mb).pHead ∧
    (m'.mboxes mb).pTail = (m.mboxes mb).pTail ∧
    (∀ b, b ≠ mb → m'.mboxes b = m.mboxes b) ∧
    (m'.msgs e).pData = pData ∧ (m'.msgs e).pBlock = c ∧
    (∀ y, y ≠ e → (m'.msgs y).pData = (m.msgs y).pData ∧
      (m'.msgs y).pBlock = (m.msgs y).pBlock ∧ (m'.msgs y).Status = (m.msgs y).Status) ∧
    (∀ y, y ∉ chain m mb qs → y ≠ e → m'.msgs y = m.msgs y)

/-- Heap `m'` is heap `m` after the oldest record `x` of the queue `x :: qb` of
mailbox `mb` has been unlinked and `delta` has been added to the blocked counter
of `mb`; the links of the task lists, the `pMessage` fields, the byte area and
the status of `x` may differ. -/
def Taken (m m' : Mem) (mb x : Ptr) (qb : List Ptr) (delta : Int) : Prop :=
  IsQueue m' mb qb ∧ m'.tcbs = m.tcbs ∧
    (∀ p, (m'.objs p).pTask = (m.objs p).pTask ∧ (m'.objs p).nTCnt = (m.objs p).nTCnt) ∧
    (m'.mboxes mb).nBlockedMsg = (m.mboxes mb).nBlockedMsg + delta ∧
    (m'.mboxes mb).nMessages = (m.mboxes mb).nMessages ∧
    (m'.mboxes mb).nDataSize = (m.mboxes mb).nDataSize ∧
    (m'.mboxes mb).pHead = (m.mboxes mb).pHead ∧
    (m'.mboxes mb).pTail = (m.mboxes mb).pTail ∧
    (∀ b, b ≠ mb → m'.mboxes b = m.mboxes b) ∧
    (∀ y, (m'.msgs y).pData = (m.msgs y).pData ∧ (m'.msgs y).pBlock = (m.msgs y).pBlock ∧
      (y ≠ x → (m'.msgs y).Status = (m.msgs y).Status)) ∧
    (m'.msgs x).pNext = NULL ∧ (m'.msgs x).pPrevious = NULL ∧
    (∀ y, y ∉ chain m mb (x :: qb) → m'.msgs y = m.msgs y)

/-- The bookkeeping of mailbox `mb` is right for the queued records `qs`: the
queue is well-formed with the records `qs`, `nMessages` is `0` (nothing in the
sources ever raises it) and the magnitude of `nBlockedMsg` is the number of
records. -/
def Bookkept (m : Mem) (mb : Ptr) (qs : List Ptr) : Prop :=
  IsQueue m mb qs ∧ (m.mboxes mb).nMessages = 0 ∧ (m.mboxes mb).nBlockedMsg.natAbs = qs.length

instance Bookkept.instDecidable (m : Mem) (mb : Ptr) (qs : List Ptr) :
    Decidable (Bookkept m mb qs) := by
  unfold Bookkept; infer_instance

/-- No deadline is reached: the three lists are well-formed with the entries
`rs`, `ws` and `ts`, and the deadline of every entry lies after the tick
counter. -/
def Calm (k : Kernel) (rs ws ts : List Ptr) : Prop :=
  Lists k rs ws ts ∧ ∀ x ∈ rs ++ ws ++ ts, k.osTicks < deadlineKey k.mem x

/-- The mailbox `mb` holds blocked senders only: it is bookkept with the
records `qs`, `nBlockedMsg` and `nDataSize` are not negative, every record has
a payload pointer and belongs to an entry on the waiting list `ws`, and no two
records belong to the same entry. -/
def SendersQueued (k : Kernel) (mb : Ptr) (ws qs : List Ptr) : Prop :=
  Bookkept k.mem mb qs ∧ 0 ≤ (k.mem.mboxes mb).nBlockedMsg ∧ 0 ≤ (k.mem.mboxes mb).nDataSize ∧
    (∀ y ∈ qs, (k.mem.msgs y).pData ≠ NULL ∧ (k.mem.msgs y).pBlock ∈ ws) ∧
    (qs.map (fun y => (k.mem.msgs y).pBlock)).Nodup

/-! ## Theorems -/

/-! ### Heap stores -/

@[simp] theorem upd_same {α : Type} (f : Ptr → α) (p : Ptr) (v : α) : upd f p v p = v := by
  simp [upd]

@[simp] theorem upd_other {α : Type} (f : Ptr → α) (p q : Ptr) (v : α) (h : q ≠ p) :
    upd f p v q = f q := by
  simp [upd, h]

theorem obj_of_ne (m : Mem) {p : Ptr} (h : p ≠ NULL) : m.obj p = some (m.objs p) := by
  simp [Mem.obj, h]

theorem setNext_of_ne (m : Mem) {p : Ptr} (v : Ptr) (h : p ≠ NULL) :
    m.setNext p v = some (m.wNext p v) := by
  simp [Mem.setNext, h]

theorem setPrev_of_ne (m : Mem) {p : Ptr} (v : Ptr) (h : p ≠ NULL) :
    m.setPrev p v = some (m.wPrev p v) := by
  simp [Mem.setPrev, h]

theorem setTCnt_of_ne (m : Mem) {p : Ptr} (v : Nat) (h : p ≠ NULL) :
    m.setTCnt p v = some (m.wTCnt p v) := by
  simp [Mem.setTCnt, h]

theorem wNext_objs (m : Mem) (p v q : Ptr) :
    (m.wNext p v).objs q = if q = p then { m.objs p with pNext := v } else m.objs q := by
  simp [Mem.wNext, upd]

theorem wPrev_objs (m : Mem) (p v q : Ptr) :
    (m.wPrev p v).objs q = if q = p then { m.objs p with pPrevious := v } else m.objs q := by
  simp [Mem.wPrev, upd]

theorem wTCnt_objs (m : Mem) (p : Ptr) (v : Nat) (q : Ptr) :
    (m.wTCnt p v).objs q = if q = p then { m.objs p with nTCnt := v } else m.objs q := by
  simp [Mem.wTCnt, upd]

/-! ### Segments -/

theorem seg_congr {m m' : Mem} : ∀ {xs : List Ptr} {pv nx : Ptr},
    (∀ x ∈ xs, (m'.objs x).pPrevious = (m.objs x).pPrevious ∧
      (m'.objs x).pNext = (m.objs x).pNext) →
    seg m pv xs nx → seg m' pv xs nx
  | [], _, _, _, _ => trivial
  | x :: rest, pv, nx, h, hs => by
    obtain ⟨h1, h2, h3⟩ := hs
    have hx := h x (List.mem_cons_self _ _)
    refine ⟨hx.1.trans h1, hx.2.trans h2, ?_⟩
    exact seg_congr (fun y hy => h y (List.mem_cons_of_mem _ hy)) h3

theorem seg_append {m : Mem} : ∀ {a b : List Ptr} {pv nx : Ptr},
    seg m pv (a ++ b) nx ↔ seg m pv a (b.headD nx) ∧ seg m (a.getLastD pv) b nx
  | [], b, pv, nx => by simp [seg]
  | x :: rest, b, pv, nx => by
    have ih := @seg_append m rest b x nx
    cases rest with
    | nil => simp only [List.nil_append, List.singleton_append, seg, List.headD_nil,
        List.getLastD_cons, List.getLastD_nil]; tauto
    | cons y r =>
      simp only [List.cons_append, seg, List.headD_cons, List.getLastD_cons] at ih ⊢
      rw [ih]
      tauto

theorem seg_wNext_last {m : Mem} {a : List Ptr} {x pv nx : Ptr} (v : Ptr)
    (h : seg m pv (a ++ [x]) nx) (hx : x ∉ a) : seg (m.wNext x v) pv (a ++ [x]) v := by
  rw [seg_append] at h ⊢
  refine ⟨seg_congr (fun y hy => ?_) h.1, ?_⟩
  · have : y ≠ x := fun e => hx (e ▸ hy)
    simp [wNext_objs, this]
  · have h2 := h.2
    simp only [seg, List.headD_nil, and_true] at h2 ⊢
    simp only [wNext_objs, if_true, and_true]
    exact h2.1

theorem seg_wPrev_head {m : Mem} {b : List Ptr} {x pv nx : Ptr} (v : Ptr)
    (h : seg m pv (x :: b) nx) (hx : x ∉ b) : seg (m.wPrev x v) v (x :: b) nx := by
  obtain ⟨_, h2, h3⟩ := h
  refine ⟨by simp [wPrev_objs], by simpa [wPrev_objs] using h2, seg_congr (fun y hy => ?_) h3⟩
  have : y ≠ x := fun e => hx (e ▸ hy)
  simp [wPrev_objs, this]

theorem seg_frame {m m' : Mem} {xs : List Ptr} {pv nx : Ptr}
    (h : seg m pv xs nx) (hf : ∀ x ∈ xs, m'.objs x = m.objs x) : seg m' pv xs nx :=
  seg_congr (fun x hx => by rw [hf x hx]; exact ⟨rfl, rfl⟩) h

theorem LinkFrame.refl (m : Mem) (S : List Ptr) : LinkFrame m m S :=
  ⟨rfl, rfl, rfl, rfl, fun _ => ⟨rfl, rfl, rfl, fun _ => rfl⟩⟩

theorem LinkFrame.trans {m1 m2 m3 : Mem} {S : List Ptr}
    (h12 : LinkFrame m1 m2 S) (h23 : LinkFrame m2 m3 S) : LinkFrame m1 m3 S := by
  obtain ⟨a1, a2, a3, a4, a5⟩ := h12
  obtain ⟨b1, b2, b3, b4, b5⟩ := h23
  refine ⟨b1.trans a1, b2.trans a2, b3.trans a3, b4.trans a4, fun p => ?_⟩
  obtain ⟨c1, c2, c3, c4⟩ := a5 p
  obtain ⟨d1, d2, d3, d4⟩ := b5 p
  exact ⟨d1.trans c1, d2.trans c2, d3.trans c3, fun hp => (d4 hp).trans (c4 hp)⟩

theorem LinkFrame.mono {m1 m2 : Mem} {S T : List Ptr} (h : LinkFrame m1 m2 S)
    (hST : ∀ p, p ∈ S → p ∈ T) : LinkFrame m1 m2 T := by
  obtain ⟨a1, a2, a3, a4, a5⟩ := h
  exact ⟨a1, a2, a3, a4, fun p => ⟨(a5 p).1, (a5 p).2.1, (a5 p).2.2.1,
    fun hp => (a5 p).2.2.2 (fun hS => hp (hST p hS))⟩⟩

theorem LinkFrame.wNext (m : Mem) (p v : Ptr) {S : List Ptr} (hp : p ∈ S) :
    LinkFrame m (m.wNext p v) S := by
  refine ⟨rfl, rfl, rfl, rfl, fun q => ?_⟩
  by_cases hq : q = p
  · subst hq; simp [wNext_objs, hp]
  · simp [wNext_objs, hq]

theorem LinkFrame.wPrev (m : Mem) (p v : Ptr) {S : List Ptr} (hp : p ∈ S) :
    LinkFrame m (m.wPrev p v) S := by
  refine ⟨rfl, rfl, rfl, rfl, fun q => ?_⟩
  by_cases hq : q = p
  · subst hq; simp [wPrev_objs, hp]
  · simp [wPrev_objs, hq]

/-! ### The four linking macros on well-formed lists -/

theorem IsList.ne_null {m : Mem} {l : OSList_t} {xs : List Ptr} (h : IsList m l xs)
    {x : Ptr} (hx : x ∈ xs) : x ≠ NULL :=
  fun e => h.2.2.2.2.1 (e ▸ hx)

theorem IsList.frame {m m' : Mem} {l : OSList_t} {xs : List Ptr} (h : IsList m l xs)
    (hf : ∀ x ∈ xs, (m'.objs x).pPrevious = (m.objs x).pPrevious ∧
      (m'.objs x).pNext = (m.objs x).pNext) : IsList m' l xs :=
  ⟨h.1, h.2.1, h.2.2.1, seg_congr hf h.2.2.2.1, h.2.2.2.2⟩

theorem addWhenZero_spec {m : Mem} {l : OSList_t} {e : Ptr} (hl : IsList m l [])
    (he : e ≠ NULL) (hd : Detached m e) :
    IsList m { addWhenZero l e with size := (addWhenZero l e).size + 1 } [e] := by
  obtain ⟨h1, _, _, _, _, _⟩ := hl
  refine ⟨by simp [addWhenZero, h1], by simp [addWhenZero], by simp [addWhenZero], ?_, ?_, ?_⟩
  · exact ⟨hd.1, hd.2, trivial⟩
  · simpa using fun h => he h.symm
  · simp

theorem addInFront_spec {m : Mem} {l : OSList_t} {h e : Ptr} {t : List Ptr}
    (hl : IsList m l (h :: t)) (he : e ≠ NULL) (hne : e ∉ h :: t)
    (hp : (m.objs e).pPrevious = NULL) :
    ∃ m' l', addInFront m l e = some (m', l') ∧
      IsList m' { l' with size := l'.size + 1 } (e :: h :: t) ∧
      LinkFrame m m' (e :: h :: t) := by
  have hh : h ≠ NULL := hl.ne_null (List.mem_cons_self _ _)
  obtain ⟨h1, h2, h3, h4, h5, h6⟩ := hl
  have hhd : l.pHead = h := by simpa using h2
  have heh : e ≠ h := fun c => hne (c ▸ List.mem_cons_self _ _)
  have het : e ∉ t := fun c => hne (List.mem_cons_of_mem _ c)
  have hht : h ∉ t := (List.nodup_cons.mp h6).1
  refine ⟨(m.wPrev h e).wNext e h, { l with pHead := e }, ?_, ?_, ?_⟩
  · simp [addInFront, hhd, setPrev_of_ne _ _ hh, setNext_of_ne _ _ he]
  · refine ⟨by simp [h1], by simp, ?_, ?_, ?_, ?_⟩
    · simpa using h3
    · refine ⟨by simp [wNext_objs, wPrev_objs, heh, hp], by simp [wNext_objs], ?_⟩
      refine seg_frame (seg_wPrev_head e h4 hht) (fun x hx => ?_)
      have : x ≠ e := fun c => hne (c ▸ hx)
      simp [wNext_objs, this]
    · simp only [List.mem_cons, not_or] at h5 ⊢
      exact ⟨fun c => he c.symm, h5⟩
    · exact List.nodup_cons.mpr ⟨hne, h6⟩
  · exact (LinkFrame.wPrev m h e (by simp)).trans (LinkFrame.wNext _ e h (by simp))

theorem getLastD_append_singleton (a : List Ptr) (x d : Ptr) : (a ++ [x]).getLastD d = x := by
  induction a generalizing d with
  | nil => rfl
  | cons y r ih => rw [List.cons_append, List.getLastD_cons]; exact ih y

theorem addInBack_spec {m : Mem} {l : OSList_t} {tl e : Ptr} {a : List Ptr}
    (hl : IsList m l (a ++ [tl])) (he : e ≠ NULL) (hne : e ∉ a ++ [tl])
    (hn : (m.objs e).pNext = NULL) :
    ∃ m' l', addInBack m l e = some (m', l') ∧
      IsList m' { l' with size := l'.size + 1 } (a ++ [tl] ++ [e]) ∧
      LinkFrame m m' (a ++ [tl] ++ [e]) := by
  have ht : tl ≠ NULL := hl.ne_null (by simp)
  obtain ⟨h1, h2, h3, h4, h5, h6⟩ := hl
  have htl : l.pTail = tl := by rw [h3, getLastD_append_singleton]
  have het : e ≠ tl := fun c => hne (by simp [c])
  have hta : tl ∉ a := by
    have := List.nodup_append.mp h6
    exact fun c => this.2.2 c (List.mem_singleton_self _)
  refine ⟨(m.wNext tl e).wPrev e tl, { l with pTail := e }, ?_, ?_, ?_⟩
  · simp [addInBack, htl, setPrev_of_ne _ _ he, setNext_of_ne _ _ ht]
  · refine ⟨by simp [h1], ?_, ?_, ?_, ?_, ?_⟩
    · cases a <;> simpa using h2
    · simp [getLastD_append_singleton]
    · rw [seg_append]
      refine ⟨?_, ?_⟩
      · refine seg_frame (seg_wNext_last e h4 hta) (fun x hx => ?_)
        have : x ≠ e := fun c => hne (c ▸ hx)
        simp [wPrev_objs, this]
      · rw [getLastD_append_singleton]
        exact ⟨by simp [wPrev_objs], by simp [wPrev_objs, wNext_objs, het, hn], trivial⟩
    · simp only [List.mem_append, List.mem_singleton, not_or] at h5 ⊢
      exact ⟨h5, fun c => he c.symm⟩
    · rw [List.nodup_append]
      refine ⟨h6, List.nodup_singleton _, ?_⟩
      intro x hx hx2
      rw [List.mem_singleton] at hx2
      exact hne (hx2 ▸ hx)
  · exact (LinkFrame.wNext m tl e (by simp)).trans (LinkFrame.wPrev _ e tl (by simp))

theorem insertAfter_spec {m : Mem} {l : OSList_t} {t n e : Ptr} {a b : List Ptr}
    (hl : IsList m l (a ++ t :: n :: b)) (he : e ≠ NULL) (hne : e ∉ a ++ t :: n :: b) :
    ∃ m', insertAfter m t e = some m' ∧
      IsList m' { l with size := l.size + 1 } (a ++ t :: e :: n :: b) ∧
      LinkFrame m m' (a ++ t :: e :: n :: b) := by
  have ht : t ≠ NULL := hl.ne_null (by simp)
  have hn : n ≠ NULL := hl.ne_null (by simp)
  obtain ⟨h1, h2, h3, h4, h5, h6⟩ := hl
  have hsplit : a ++ t :: n :: b = (a ++ [t]) ++ (n :: b) := by simp
  have hsplit2 : a ++ t :: e :: n :: b = (a ++ [t]) ++ (e :: n :: b) := by simp
  have het : e ≠ t := fun c => hne (by simp [c])
  have hen : e ≠ n := fun c => hne (by simp [c])
  have hea : e ∉ a ++ [t] := fun c => hne (by
    simp only [List.mem_append, List.mem_singleton, List.mem_cons] at c ⊢; tauto)
  have heb : e ∉ n :: b := fun c => hne (by
    simp only [List.mem_append, List.mem_cons] at c ⊢; tauto)
  rw [hsplit] at h4 h6
  obtain ⟨n1, n2, n3⟩ := List.nodup_append.mp h6
  have hta : t ∉ a := by
    have := List.nodup_append.mp n1
    exact fun c => this.2.2 c (List.mem_singleton_self _)
  have htn : t ≠ n := fun c => n3 (a := t) (by simp) (by simp [c])
  have hnb : n ∉ b := (List.nodup_cons.mp n2).1
  have hna : n ∉ a ++ [t] := fun c => n3 c (List.mem_cons_self _ _)
  have htb : t ∉ n :: b := fun c => n3 (a := t) (by simp) c
  rw [seg_append, getLastD_append_singleton] at h4
  obtain ⟨s1, s2⟩ := h4
  have htnext : (m.objs t).pNext = n := by
    have := seg_append.mp s1
    simpa [seg] using this.2.2.1
  refine ⟨(((m.wPrev n e).wNext e n).wNext t e).wPrev e t, ?_, ?_, ?_⟩
  · simp [insertAfter, obj_of_ne _ ht, htnext, setPrev_of_ne _ _ hn, setPrev_of_ne _ _ he,
      setNext_of_ne _ _ he, setNext_of_ne _ _ ht, wPrev_objs, htn]
  · refine ⟨by simp [h1]; omega, ?_, ?_, ?_, ?_, ?_⟩
    · cases a <;> simpa using h2
    · rw [h3]
      cases a with
      | nil => simp [List.getLastD_cons]
      | cons y r =>
        simp only [List.cons_append, List.getLastD_cons]
        rw [show r ++ t :: n :: b = (r ++ [t]) ++ (n :: b) by simp,
          show r ++ t :: e :: n :: b = (r ++ [t, e]) ++ (n :: b) by simp]
        cases b with
        | nil => simp
        | cons z b' => simp [List.getLastD_cons]
    · rw [hsplit2, seg_append, getLastD_append_singleton]
      refine ⟨?_, ?_, ?_, ?_⟩
      · have k1 : seg (m.wPrev n e) NULL (a ++ [t]) n := seg_frame s1 (fun x hx => by
          have : x ≠ n := fun c => hna (c ▸ hx)
          simp [wPrev_objs, this])
        have k2 : seg ((m.wPrev n e).wNext e n) NULL (a ++ [t]) n := seg_frame k1 (fun x hx => by
          have : x ≠ e := fun c => hea (c ▸ hx)
          simp [wNext_objs, this])
        have k3 := seg_wNext_last e k2 hta
        exact seg_frame k3 (fun x hx => by
          have : x ≠ e := fun c => hea (c ▸ hx)
          simp [wPrev_objs, this])
      · simp [wPrev_objs]
      · simp [wPrev_objs, wNext_objs, het]
      · have k1 := seg_wPrev_head e s2 hnb
        refine seg_frame k1 (fun x hx => ?_)
        have x1 : x ≠ e := fun c => heb (c ▸ hx)
        have x2 : x ≠ t := fun c => htb (c ▸ hx)
        simp [wPrev_objs, wNext_objs, x1, x2]
    · simp only [List.mem_append, List.mem_cons, not_or] at h5 ⊢
      exact ⟨h5.1, h5.2.1, fun c => he c.symm, h5.2.2⟩
    · rw [hsplit2, List.nodup_append]
      refine ⟨n1, List.nodup_cons.mpr ⟨heb, n2⟩, ?_⟩
      intro x hx hx2
      rcases List.mem_cons.mp hx2 with c | c
      · exact hea (c ▸ hx)
      · exact n3 hx c
  · have hmem : ∀ q, q ∈ [t, e, n] → q ∈ a ++ t :: e :: n :: b := by
      intro q hq
      simp only [List.mem_cons, List.mem_singleton, List.mem_append, List.not_mem_nil,
        or_false] at hq ⊢
      tauto
    refine LinkFrame.mono ?_ hmem
    exact (((LinkFrame.wPrev m n e (by simp)).trans (LinkFrame.wNext _ e n (by simp))).trans
      (LinkFrame.wNext _ t e (by simp))).trans (LinkFrame.wPrev _ e t (by simp))

/-! ### The scan loops -/

theorem tcnt_of_ne (m : Mem) {p : Ptr} (h : p ≠ NULL) : m.tcnt p = some (wakeKey m p) := by
  simp [Mem.tcnt, obj_of_ne m h, wakeKey]

theorem deadlineOf_of_ne (m : Mem) {p : Ptr} (h : p ≠ NULL) (ht : HasTask m p) :
    m.deadlineOf p = some (deadlineKey m p) := by
  simp [Mem.deadlineOf, obj_of_ne m h, deadlineKey, Mem.tcb, (show (m.objs p).pTask ≠ 0 from ht)]

theorem timerScan_spec {m : Mem} {e n : Ptr} {b : List Ptr} (he : e ≠ NULL) (hn : n ≠ NULL)
    (hlt : wakeKey m e < wakeKey m n) :
    ∀ (a : List Ptr) (t pv nx : Ptr) (cnt : Nat), seg m pv (t :: (a ++ n :: b)) nx →
      t ≠ NULL → (∀ x ∈ a, x ≠ NULL) → (∀ x ∈ a, wakeKey m x ≤ wakeKey m e) →
      a.length ≤ cnt → timerScan m e cnt t = some (a.getLastD t)
  | [], t, pv, nx, cnt, hs, ht, _, _, _ => by
    cases cnt with
    | zero => rfl
    | succ c =>
      have hnext : (m.objs t).pNext = n := by simpa [seg] using hs.2.1
      simp [timerScan, obj_of_ne m ht, hnext, tcnt_of_ne m hn, tcnt_of_ne m he,
        Nat.not_le.mpr hlt]
  | x :: a, t, pv, nx, cnt, hs, ht, hnn, hle, hc => by
    cases cnt with
    | zero => simp at hc
    | succ c =>
      have hnext : (m.objs t).pNext = x := by simpa [seg] using hs.2.1
      have hx : x ≠ NULL := hnn x (List.mem_cons_self _ _)
      have ih := timerScan_spec he hn hlt a x t nx c hs.2.2 hx
        (fun y hy => hnn y (List.mem_cons_of_mem _ hy))
        (fun y hy => hle y (List.mem_cons_of_mem _ hy)) (by simpa using hc)
      rw [List.getLastD_cons, ← ih]
      simp [timerScan, obj_of_ne m ht, hnext, tcnt_of_ne m hx, tcnt_of_ne m he,
        hle x (List.mem_cons_self _ _)]

theorem deadlineScan_spec {m : Mem} {e n : Ptr} {b : List Ptr} (he : e ≠ NULL) (hn : n ≠ NULL)
    (hte : HasTask m e) (htn : HasTask m n)
    (hlt : deadlineKey m e < deadlineKey m n) :
    ∀ (a : List Ptr) (t pv nx : Ptr) (cnt : Nat), seg m pv (t :: (a ++ n :: b)) nx →
      t ≠ NULL → (∀ x ∈ a, x ≠ NULL) → (∀ x ∈ a, HasTask m x) →
      (∀ x ∈ a, deadlineKey m x ≤ deadlineKey m e) →
      a.length ≤ cnt → deadlineScan m e cnt t = some (a.getLastD t)
  | [], t, pv, nx, cnt, hs, ht, _, _, _, _ => by
    cases cnt with
    | zero => rfl
    | succ c =>
      have hnext : (m.objs t).pNext = n := by simpa [seg] using hs.2.1
      simp [deadlineScan, obj_of_ne m ht, hnext, deadlineOf_of_ne m hn htn,
        deadlineOf_of_ne m he hte, Nat.not_le.mpr hlt]
  | x :: a, t, pv, nx, cnt, hs, ht, hnn, htk, hle, hc => by
    cases cnt with
    | zero => simp at hc
    | succ c =>
      have hnext : (m.objs t).pNext = x := by simpa [seg] using hs.2.1
      have hx : x ≠ NULL := hnn x (List.mem_cons_self _ _)
      have ih := deadlineScan_spec he hn hte htn hlt a x t nx c hs.2.2 hx
        (fun y hy => hnn y (List.mem_cons_of_mem _ hy))
        (fun y hy => htk y (List.mem_cons_of_mem _ hy))
        (fun y hy => hle y (List.mem_cons_of_mem _ hy)) (by simpa using hc)
      rw [List.getLastD_cons, ← ih]
      simp [deadlineScan, obj_of_ne m ht, hnext,
        deadlineOf_of_ne m hx (htk x (List.mem_cons_self _ _)), deadlineOf_of_ne m he hte,
        hle x (List.mem_cons_self _ _)]

/-! ### Sorted lists -/

theorem SortedBy.pairwise {key : Ptr → Nat} {xs : List Ptr} (h : SortedBy key xs) :
    xs.Pairwise (fun a b => key a ≤ key b) := by
  have : IsTrans Ptr (fun a b => key a ≤ key b) := ⟨fun _ _ _ h1 h2 => Nat.le_trans h1 h2⟩
  exact List.chain'_iff_pairwise.mp h

theorem SortedBy.of_pairwise {key : Ptr → Nat} {xs : List Ptr}
    (h : xs.Pairwise (fun a b => key a ≤ key b)) : SortedBy key xs := by
  have : IsTrans Ptr (fun a b => key a ≤ key b) := ⟨fun _ _ _ h1 h2 => Nat.le_trans h1 h2⟩
  exact List.chain'_iff_pairwise.mpr h

theorem scan_split (key : Ptr → Nat) (ke : Nat) :
    ∀ (xs : List Ptr), ∃ a b, xs = a ++ b ∧ (∀ x ∈ a, key x ≤ ke) ∧ (∀ n ∈ b.head?, ke < key n)
  | [] => ⟨[], [], rfl, by simp, by simp⟩
  | x :: xs => by
    by_cases hx : key x ≤ ke
    · obtain ⟨a, b, hab, ha, hb⟩ := scan_split key ke xs
      refine ⟨x :: a, b, by simp [hab], ?_, hb⟩
      intro y hy
      rcases List.mem_cons.mp hy with c | c
      · exact c ▸ hx
      · exact ha y c
    · exact ⟨[], x :: xs, rfl, by simp, by simpa using Nat.lt_of_not_le hx⟩

theorem sorted_place {key : Ptr → Nat} {a b : List Ptr} {ke : Nat} (hs : SortedBy key (a ++ b))
    (ha : ∀ t ∈ a.getLast?, key t ≤ ke) (hb : ∀ n ∈ b.head?, ke < key n) :
    (∀ x ∈ a, key x ≤ ke) ∧ (∀ x ∈ b, ke < key x) := by
  have hp := hs.pairwise
  rw [List.pairwise_append] at hp
  obtain ⟨p1, p2, _⟩ := hp
  constructor
  · intro x hx
    rcases List.eq_nil_or_concat a with c | ⟨r, t, c⟩
    · subst c; simp at hx
    · subst c
      rw [List.concat_eq_append] at *
      have ht : key t ≤ ke := ha t (by simp)
      rcases List.mem_append.mp hx with c | c
      · have := (List.pairwise_append.mp p1).2.2 x c t (by simp)
        exact Nat.le_trans this ht
      · rw [List.mem_singleton] at c; exact c ▸ ht
  · intro x hx
    cases b with
    | nil => simp at hx
    | cons n r =>
      have hn : ke < key n := hb n (by simp)
      rcases List.mem_cons.mp hx with c | c
      · exact c ▸ hn
      · exact Nat.lt_of_lt_of_le hn (List.rel_of_pairwise_cons p2 c)

theorem sorted_insert {key key' : Ptr → Nat} {a b : List Ptr} {e : Ptr}
    (hs : SortedBy key (a ++ b)) (hk : ∀ x ∈ a ++ b, key' x = key x)
    (ha : ∀ x ∈ a, key' x ≤ key' e) (hb : ∀ x ∈ b, key' e < key' x) :
    SortedBy key' (a ++ e :: b) := by
  have hp := hs.pairwise
  apply SortedBy.of_pairwise
  rw [List.pairwise_append] at hp ⊢
  obtain ⟨p1, p2, p3⟩ := hp
  refine ⟨?_, ?_, ?_⟩
  · refine p1.imp_of_mem (fun {x y} hx hy hxy => ?_)
    rw [hk x (List.mem_append_left _ hx), hk y (List.mem_append_left _ hy)]; exact hxy
  · rw [List.pairwise_cons]
    refine ⟨fun y hy => Nat.le_of_lt (hb y hy), p2.imp_of_mem (fun {x y} hx hy hxy => ?_)⟩
    rw [hk x (List.mem_append_right _ hx), hk y (List.mem_append_right _ hy)]; exact hxy
  · intro x hx y hy
    rcases List.mem_cons.mp hy with c | c
    · exact c ▸ ha x hx
    · exact Nat.le_trans (ha x hx) (Nat.le_of_lt (hb y c))

/-! ### Ordered insertion -/

theorem LinkFrame.deadlineKey_eq {m m' : Mem} {S : List Ptr} (h : LinkFrame m m' S) (p : Ptr) :
    deadlineKey m' p = deadlineKey m p := by
  unfold deadlineKey
  rw [h.1, (h.2.2.2.2 p).1]

theorem LinkFrame.wakeKey_eq {m m' : Mem} {S : List Ptr} (h : LinkFrame m m' S) (p : Ptr) :
    wakeKey m' p = wakeKey m p :=
  (h.2.2.2.2 p).2.1

theorem LinkFrame.hasTask_iff {m m' : Mem} {S : List Ptr} (h : LinkFrame m m' S) (p : Ptr) :
    HasTask m' p ↔ HasTask m p := by
  unfold HasTask
  rw [(h.2.2.2.2 p).1]

theorem headD_mem_of_ne_nil {xs : List Ptr} (d : Ptr) (h : xs ≠ []) : xs.headD d ∈ xs := by
  cases xs with
  | nil => exact absurd rfl h
  | cons x r => simp

theorem getLastD_mem_of_ne_nil {xs : List Ptr} (d : Ptr) (h : xs ≠ []) : xs.getLastD d ∈ xs := by
  rcases List.eq_nil_or_concat xs with c | ⟨r, x, c⟩
  · exact absurd c h
  · subst c
    rw [List.concat_eq_append, getLastD_append_singleton]; simp

theorem deadlineInsert_core {m : Mem} {l : OSList_t} {xs : List Ptr} {e : Ptr}
    (hl : IsList m l xs) (ht : ∀ x ∈ xs, HasTask m x)
    (he : e ≠ NULL) (hte : HasTask m e) (hne : e ∉ xs) (hdet : Detached m e) :
    ∃ m' l' a b, OSList_deadlineInsert m (some l) e = some (true, m', some l') ∧
      xs = a ++ b ∧ IsList m' l' (a ++ e :: b) ∧
      (∀ t ∈ a.getLast?, deadlineKey m t ≤ deadlineKey m e) ∧
      (∀ n ∈ b.head?, deadlineKey m e < deadlineKey m n) ∧ LinkFrame m m' (e :: xs) := by
  have hke := deadlineOf_of_ne m he hte
  rcases List.eq_nil_or_concat xs with cx | ⟨p, tl, cx⟩
  · subst cx
    refine ⟨m, _, [], [], ?_, rfl, addWhenZero_spec hl he hdet, by simp, by simp,
      LinkFrame.refl _ _⟩
    have hsz : l.size = 0 := hl.1
    simp [OSList_deadlineInsert, he, hsz]
  · rw [List.concat_eq_append] at cx
    have hxs : xs ≠ [] := by rw [cx]; simp
    have hsz : l.size ≠ 0 := by rw [hl.1]; exact fun c => hxs (List.length_eq_zero.mp c)
    have hhdm : l.pHead ∈ xs := by rw [hl.2.1]; exact headD_mem_of_ne_nil _ hxs
    have hh := hl.ne_null hhdm
    have hkh := deadlineOf_of_ne m hh (ht _ hhdm)
    have htle : l.pTail = tl := by rw [hl.2.2.1, cx, getLastD_append_singleton]
    have htlm : tl ∈ xs := by rw [cx]; simp
    have htl := hl.ne_null htlm
    have hkt := deadlineOf_of_ne m htl (ht _ htlm)
    by_cases hfront : deadlineKey m e < deadlineKey m l.pHead
    · obtain ⟨h, r, hr⟩ := List.exists_cons_of_ne_nil hxs
      rw [hr] at hl hne
      have hhd : l.pHead = h := by simpa using hl.2.1
      obtain ⟨m', l', h1, h2, h3⟩ := addInFront_spec hl he hne hdet.1
      refine ⟨m', _, [], h :: r, ?_, by simpa using hr, h2, by simp, ?_, by rw [hr]; exact h3⟩
      · simp [OSList_deadlineInsert, he, hsz, hke, hkh, hfront, h1]
      · simpa [hhd] using hfront
    · by_cases hback : deadlineKey m tl ≤ deadlineKey m e
      · rw [cx] at hl hne
        obtain ⟨m', l', h1, h2, h3⟩ := addInBack_spec hl he hne hdet.2
        refine ⟨m', _, p ++ [tl], [], ?_, by simpa using cx, h2, by simpa using hback, by simp,
          ?_⟩
        · simp [OSList_deadlineInsert, he, hsz, hke, hkh, hfront, htle, hkt, hback, h1]
        · rw [cx]; exact h3.mono (by intro q hq; simp at hq ⊢; tauto)
      · obtain ⟨a, b, hab, ha, hb⟩ := scan_split (deadlineKey m) (deadlineKey m e) xs
        have hane : a ≠ [] := by
          intro c
          subst c
          rw [List.nil_append] at hab
          obtain ⟨n, b', hb'⟩ := List.exists_cons_of_ne_nil (hab ▸ hxs)
          have : l.pHead = n := by rw [hl.2.1, hab, hb']; rfl
          exact hfront (this ▸ hb n (by simp [hb']))
        have hbne : b ≠ [] := by
          intro c
          subst c
          rw [List.append_nil] at hab
          exact hback (ha tl (hab ▸ htlm))
        obtain ⟨n, b', hb'⟩ := List.exists_cons_of_ne_nil hbne
        rcases List.eq_nil_or_concat a with ca | ⟨a', t, ca⟩
        · exact absurd ca hane
        · rw [List.concat_eq_append] at ca
          subst ca hb'
          have hn : n ≠ NULL := hl.ne_null (by rw [hab]; simp)
          have hlt : deadlineKey m e < deadlineKey m n := hb n (by simp)
          have hform : a' ++ [t] ++ n :: b' = a' ++ t :: n :: b' := by simp
          rw [hform] at hab
          rw [hab] at hl hne ht
          obtain ⟨m', h1, h2, h3⟩ := insertAfter_spec hl he hne
          have hscan : deadlineScan m e (l.size - 1) l.pHead = some t := by
            cases a' with
            | nil =>
              have hhd : l.pHead = t := by simpa using hl.2.1
              have := deadlineScan_spec (b := b') he hn hte (ht n (by simp)) hlt [] t NULL NULL
                (l.size - 1) (by simpa using hl.2.2.2.1) (hl.ne_null (by simp)) (by simp)
                (by simp) (by simp) (by simp)
              simpa [hhd] using this
            | cons h r =>
              have hhd : l.pHead = h := by simpa using hl.2.1
              have := deadlineScan_spec (b := b') he hn hte (ht n (by simp)) hlt (r ++ [t]) h
                NULL NULL (l.size - 1) (by simpa using hl.2.2.2.1) (hl.ne_null (by simp))
                (fun x hx => hl.ne_null (by
                  simp only [List.mem_append, List.mem_singleton, List.mem_cons] at hx ⊢; tauto))
                (fun x hx => ht x (by
                  simp only [List.mem_append, List.mem_singleton, List.mem_cons] at hx ⊢; tauto))
                (fun x hx => ha x (by
                  simp only [List.mem_append, List.mem_singleton, List.mem_cons] at hx ⊢; tauto))
                (by rw [hl.1]; simp)
              rw [getLastD_append_singleton] at this
              simpa [hhd] using this
          refine ⟨m', _, a' ++ [t], n :: b', ?_, by simpa using hab, by simpa using h2,
            by simpa using ha t (by simp), by simpa using hlt, ?_⟩
          · simp [OSList_deadlineInsert, he, hsz, hke, hkh, hfront, htle, hkt, hback, hscan, h1]
          · rw [hab]; exact h3.mono (by intro q hq; simp at hq ⊢; tauto)

theorem timerInsert_core (osTicks : Nat) {m : Mem} {l : OSList_t} {xs : List Ptr} {e : Ptr}
    {d : Nat} (hl0 : IsList m l xs) (he : e ≠ NULL)
    (hne : e ∉ xs) (hdet0 : Detached m e) (hd : d ≠ 0) :
    ∃ m' l' a b, OSList_timerInsert osTicks m (some l) e d = some (true, m', some l') ∧
      xs = a ++ b ∧ IsList m' l' (a ++ e :: b) ∧
      (∀ t ∈ a.getLast?, wakeKey m t ≤ (osTicks + d) % UINT_MOD) ∧
      (∀ n ∈ b.head?, (osTicks + d) % UINT_MOD < wakeKey m n) ∧
      LinkFrame (m.wTCnt e ((osTicks + d) % UINT_MOD)) m' (e :: xs) := by
  have hkeyx : ∀ x ∈ xs, wakeKey (m.wTCnt e ((osTicks + d) % UINT_MOD)) x = wakeKey m x := by
    intro x hx
    have : x ≠ e := fun c => hne (c ▸ hx)
    simp [wakeKey, wTCnt_objs, this]
  have hkeye : wakeKey (m.wTCnt e ((osTicks + d) % UINT_MOD)) e = (osTicks + d) % UINT_MOD := by
    simp [wakeKey, wTCnt_objs]
  have hl : IsList (m.wTCnt e ((osTicks + d) % UINT_MOD)) l xs := hl0.frame (fun x hx => by
    have : x ≠ e := fun c => hne (c ▸ hx)
    simp [wTCnt_objs, this])
  have hdet : Detached (m.wTCnt e ((osTicks + d) % UINT_MOD)) e := by
    unfold Detached; simp only [wTCnt_objs, if_true]; exact hdet0
  have hset := setTCnt_of_ne m ((osTicks + d) % UINT_MOD) he
  generalize m.wTCnt e ((osTicks + d) % UINT_MOD) = m0 at hkeyx hkeye hl hdet hset ⊢
  have hke : m0.tcnt e = some ((osTicks + d) % UINT_MOD) := by rw [tcnt_of_ne m0 he, hkeye]
  rcases List.eq_nil_or_concat xs with cx | ⟨p, tl, cx⟩
  · subst cx
    refine ⟨m0, _, [], [], ?_, rfl, addWhenZero_spec hl he hdet, by simp, by simp,
      LinkFrame.refl _ _⟩
    have hsz : l.size = 0 := hl.1
    simp [OSList_timerInsert, he, hd, hset, hsz]
  · rw [List.concat_eq_append] at cx
    have hxs : xs ≠ [] := by rw [cx]; simp
    have hsz : l.size ≠ 0 := by rw [hl.1]; exact fun c => hxs (List.length_eq_zero.mp c)
    have hhdm : l.pHead ∈ xs := by rw [hl.2.1]; exact headD_mem_of_ne_nil _ hxs
    have hh := hl.ne_null hhdm
    have hkh := tcnt_of_ne m0 hh
    have htle : l.pTail = tl := by rw [hl.2.2.1, cx, getLastD_append_singleton]
    have htlm : tl ∈ xs := by rw [cx]; simp
    have htl := hl.ne_null htlm
    have hkt := tcnt_of_ne m0 htl
    by_cases hfront : (osTicks + d) % UINT_MOD < wakeKey m0 l.pHead
    · obtain ⟨h, r, hr⟩ := List.exists_cons_of_ne_nil hxs
      rw [hr] at hl hne hkeyx
      have hhd : l.pHead = h := by simpa using hl.2.1
      obtain ⟨m', l', h1, h2, h3⟩ := addInFront_spec hl he hne hdet.1
      refine ⟨m', _, [], h :: r, ?_, by simpa using hr, h2, by simp, ?_, by rw [hr]; exact h3⟩
      · simp [OSList_timerInsert, he, hd, hset, hsz, hke, hkh, hfront, h1]
      · rw [hhd, hkeyx h (by simp)] at hfront
        simpa using hfront
    · by_cases hback : wakeKey m0 tl ≤ (osTicks + d) % UINT_MOD
      · rw [cx] at hl hne hkeyx
        obtain ⟨m', l', h1, h2, h3⟩ := addInBack_spec hl he hne hdet.2
        refine ⟨m', _, p ++ [tl], [], ?_, by simpa using cx, h2, ?_, by simp, ?_⟩
        · simp [OSList_timerInsert, he, hd, hset, hsz, hke, hkh, hfront, htle, hkt, hback, h1]
        · rw [hkeyx tl (by simp)] at hback
          simpa using hback
        · rw [cx]; exact h3.mono (by intro q hq; simp at hq ⊢; tauto)
      · obtain ⟨a, b, hab, ha, hb⟩ := scan_split (wakeKey m0) ((osTicks + d) % UINT_MOD) xs
        have hane : a ≠ [] := by
          intro c
          subst c
          rw [List.nil_append] at hab
          obtain ⟨n, b', hb'⟩ := List.exists_cons_of_ne_nil (hab ▸ hxs)
          have : l.pHead = n := by rw [hl.2.1, hab, hb']; rfl
          exact hfront (this ▸ hb n (by simp [hb']))
        have hbne : b ≠ [] := by
          intro c
          subst c
          rw [List.append_nil] at hab
          exact hback (ha tl (hab ▸ htlm))
        obtain ⟨n, b', hb'⟩ := List.exists_cons_of_ne_nil hbne
        rcases List.eq_nil_or_concat a with ca | ⟨a', t, ca⟩
        · exact absurd ca hane
        · rw [List.concat_eq_append] at ca
          subst ca hb'
          have hn : n ≠ NULL := hl.ne_null (by rw [hab]; simp)
          have hlt : wakeKey m0 e < wakeKey m0 n := by rw [hkeye]; exact hb n (by simp)
          have ha0 : ∀ x ∈ a' ++ [t], wakeKey m0 x ≤ wakeKey m0 e := by
            intro x hx; rw [hkeye]; exact ha x hx
          have hform : a' ++ [t] ++ n :: b' = a' ++ t :: n :: b' := by simp
          rw [hform] at hab
          rw [hab] at hl hne hkeyx
          obtain ⟨m', h1, h2, h3⟩ := insertAfter_spec hl he hne
          have hscan : timerScan m0 e (l.size - 1) l.pHead = some t := by
            cases a' with
            | nil =>
              have hhd : l.pHead = t := by simpa using hl.2.1
              have := timerScan_spec (b := b') he hn hlt [] t NULL NULL
                (l.size - 1) (by simpa using hl.2.2.2.1) (hl.ne_null (by simp)) (by simp)
                (by simp) (by simp)
              simpa [hhd] using this
            | cons h r =>
              have hhd : l.pHead = h := by simpa using hl.2.1
              have := timerScan_spec (b := b') he hn hlt (r ++ [t]) h
                NULL NULL (l.size - 1) (by simpa using hl.2.2.2.1) (hl.ne_null (by simp))
                (fun x hx => hl.ne_null (by
                  simp only [List.mem_append, List.mem_singleton, List.mem_cons] at hx ⊢; tauto))
                (fun x hx => ha0 x (by
                  simp only [List.mem_append, List.mem_singleton, List.mem_cons] at hx ⊢; tauto))
                (by rw [hl.1]; simp)
              rw [getLastD_append_singleton] at this
              simpa [hhd] using this
          refine ⟨m', _, a' ++ [t], n :: b', ?_, by simpa using hab, by simpa using h2,
            ?_, ?_, ?_⟩
          · simp [OSList_timerInsert, he, hd, hset, hsz, hke, hkh, hfront, htle, hkt, hback,
              hscan, h1]
          · have := ha t (by simp)
            rw [hkeyx t (by simp)] at this
            simpa using this
          · have := hb n (by simp)
            rw [hkeyx n (by simp)] at this
            simpa using this
          · rw [hab]; exact h3.mono (by intro q hq; simp at hq ⊢; tauto)

/-! ### Removal of the head -/

theorem getFirst_core {m : Mem} {l : OSList_t} {x : Ptr} {rest : List Ptr}
    (hl : IsList m l (x :: rest)) :
    ∃ m' l', OSList_getFirst m (some l) = some (x, m', some l') ∧ IsList m' l' rest ∧
      Detached m' x ∧ LinkFrame m m' (x :: rest) ∧ l'.size + 1 = l.size := by
  have hx : x ≠ NULL := hl.ne_null (by simp)
  obtain ⟨h1, h2, h3, h4, h5, h6⟩ := hl
  have hhd : l.pHead = x := by simpa using h2
  have hxr : x ∉ rest := (List.nodup_cons.mp h6).1
  cases rest with
  | nil =>
    have hsz : l.size = 1 := by simpa using h1
    refine ⟨(m.wNext x NULL).wPrev x NULL, { size := l.size - 1, pHead := NULL, pTail := NULL },
      ?_, ?_, ?_, ?_, ?_⟩
    · simp [OSList_getFirst, hsz, hhd, setNext_of_ne _ _ hx, setPrev_of_ne _ _ hx]
    · exact ⟨by simp [hsz], rfl, rfl, trivial, by simp, List.nodup_nil⟩
    · exact ⟨by simp [wPrev_objs], by simp [wPrev_objs, wNext_objs]⟩
    · exact (LinkFrame.wNext m x NULL (by simp)).trans (LinkFrame.wPrev _ x NULL (by simp))
    · simp [hsz]
  | cons y r =>
    have hy : y ≠ NULL := fun c => h5 (by simp [c])
    have hsz0 : l.size ≠ 0 := by rw [h1]; simp
    have hsz1 : l.size ≠ 1 := by rw [h1]; simp
    have hnext : (m.objs x).pNext = y := by simpa [seg] using h4.2.1
    have hxy : x ≠ y := fun c => hxr (by simp [c])
    have hyr : y ∉ r := (List.nodup_cons.mp (List.nodup_cons.mp h6).2).1
    refine ⟨((m.wPrev y NULL).wNext x NULL).wPrev x NULL, { l with size := l.size - 1, pHead := y },
      ?_, ?_, ?_, ?_, ?_⟩
    · simp [OSList_getFirst, hsz0, hsz1, hhd, obj_of_ne _ hx, hnext, setNext_of_ne _ _ hx,
        setPrev_of_ne _ _ hx, setPrev_of_ne _ _ hy]
    · refine ⟨by simp [h1], rfl, ?_, ?_, ?_, (List.nodup_cons.mp h6).2⟩
      · simpa [List.getLastD_cons] using h3
      · refine seg_frame (seg_wPrev_head NULL h4.2.2 hyr) (fun z hz => ?_)
        have : z ≠ x := fun c => hxr (c ▸ hz)
        simp [wPrev_objs, wNext_objs, this]
      · exact fun c => h5 (List.mem_cons_of_mem _ c)
    · exact ⟨by simp [wPrev_objs], by simp [wPrev_objs, wNext_objs]⟩
    · exact ((LinkFrame.wPrev m y NULL (by simp)).trans (LinkFrame.wNext _ x NULL (by simp))).trans
        (LinkFrame.wPrev _ x NULL (by simp))
    · show l.size - 1 + 1 = l.size
      omega

/-! ### Removal of a given entry -/

theorem removeWalk_notfound {m : Mem} {e : Ptr} :
    ∀ (xs : List Ptr) (pv : Ptr) (fuel : Nat), seg m pv xs NULL → NULL ∉ xs → e ∉ xs →
      xs.length < fuel → removeWalk m e fuel (xs.headD NULL) = some (false, m)
  | [], _, fuel, _, _, _, hf => by
    cases fuel with
    | zero => simp at hf
    | succ f => simp [removeWalk]
  | x :: r, pv, fuel, hs, hn, he, hf => by
    cases fuel with
    | zero => simp at hf
    | succ f =>
      have hx : x ≠ NULL := fun c => hn (by simp [c])
      have hxe : x ≠ e := fun c => he (by simp [c])
      have hnext : (m.objs x).pNext = r.headD NULL := hs.2.1
      have ih := removeWalk_notfound (e := e) r x f hs.2.2
        (fun c => hn (List.mem_cons_of_mem _ c)) (fun c => he (List.mem_cons_of_mem _ c))
        (by simpa using hf)
      rw [← ih]
      simp [removeWalk, hx, hxe, obj_of_ne m hx, hnext]

theorem headD_append_singleton (c : List Ptr) (e d : Ptr) (rest : List Ptr) :
    (c ++ e :: rest).headD d = (c ++ [e]).headD d := by
  cases c <;> rfl

theorem removeWalk_found {m : Mem} {e : Ptr} (he : e ≠ NULL) :
    ∀ (c : List Ptr) (pv nx : Ptr) (rest : List Ptr) (fuel : Nat),
      seg m pv (c ++ e :: rest) nx → NULL ∉ c → e ∉ c → c.length < fuel →
      removeWalk m e fuel ((c ++ [e]).headD NULL) = removeWalk m e 1 e
  | [], _, _, _, fuel, _, _, _, hf => by
    cases fuel with
    | zero => simp at hf
    | succ f => simp [removeWalk, he]
  | x :: r, pv, nx, rest, fuel, hs, hn, hec, hf => by
    cases fuel with
    | zero => simp at hf
    | succ f =>
      have hx : x ≠ NULL := fun c => hn (by simp [c])
      have hxe : x ≠ e := fun c => hec (by simp [c])
      have hnext : (m.objs x).pNext = (r ++ [e]).headD NULL := by
        have := hs.2.1
        rw [this]
        cases r <;> rfl
      have ih := removeWalk_found he r x nx rest f hs.2.2
        (fun c => hn (List.mem_cons_of_mem _ c)) (fun c => hec (List.mem_cons_of_mem _ c))
        (by simpa using hf)
      rw [← ih]
      simp [removeWalk, hx, hxe, obj_of_ne m hx, hnext]

theorem removeWalk_unlink {m : Mem} {e t n : Ptr} (he : e ≠ NULL) (ht : t ≠ NULL) (hn : n ≠ NULL)
    (het : e ≠ t) (hp : (m.objs e).pPrevious = t) (hx : (m.objs e).pNext = n) :
    removeWalk m e 1 e = some (true, (((m.wNext t n).wPrev n t).wNext e NULL).wPrev e NULL) := by
  simp [removeWalk, he, obj_of_ne _ he, hp, hx, setNext_of_ne _ _ ht, setNext_of_ne _ _ he,
    setPrev_of_ne _ _ hn, setPrev_of_ne _ _ he, wNext_objs, het]

theorem erase_middle {a b : List Ptr} {e : Ptr} (h : e ∉ a) : (a ++ e :: b).erase e = a ++ b := by
  rw [List.erase_append_right _ h, List.erase_cons_head]

theorem getLastD_append_cons (a : List Ptr) (x : Ptr) (b : List Ptr) (d : Ptr) :
    (a ++ x :: b).getLastD d = b.getLastD x := by
  induction a generalizing d with
  | nil => rw [List.nil_append, List.getLastD_cons]
  | cons y r ih => rw [List.cons_append, List.getLastD_cons]; exact ih y

theorem headD_append_cons (a : List Ptr) (x : Ptr) (b c : List Ptr) (d : Ptr) :
    (a ++ x :: b).headD d = (a ++ x :: c).headD d := by
  cases a <;> rfl

theorem remove_core (fuel : Nat) {m : Mem} {l : OSList_t} {xs : List Ptr} (e : Ptr)
    (hl : IsList m l xs) (hf : xs.length ≤ fuel) :
    ∃ m' l', OSList_remove fuel m (some l) e = some (decide (e ∈ xs), m', some l') ∧
      IsList m' l' (xs.erase e) ∧ (e ∈ xs → Detached m' e ∧ l'.size + 1 = l.size) ∧
      (e ∉ xs → m' = m ∧ l' = l) ∧ LinkFrame m m' xs := by
  by_cases hmem : e ∈ xs
  · obtain ⟨a, b, hab⟩ := List.append_of_mem hmem
    subst hab
    have he : e ≠ NULL := hl.ne_null hmem
    have hnd := hl.2.2.2.2.2
    obtain ⟨n1, n2, n3⟩ := List.nodup_append.mp hnd
    have hea : e ∉ a := fun c => n3 c (List.mem_cons_self _ _)
    have heb : e ∉ b := (List.nodup_cons.mp n2).1
    rw [erase_middle hea]
    simp only [hmem, decide_True, not_true_eq_false, false_implies, true_implies, true_and]
    have hsz : l.size = a.length + b.length + 1 := by rw [hl.1]; simp; omega
    have hsz0 : ¬ (l.size = 0 ∨ e = NULL) := by
      rw [hsz]; simp [he]
    rcases List.eq_nil_or_concat a with ca | ⟨a', t, ca⟩
    · subst ca
      have hhd : l.pHead = e := by simpa using hl.2.1
      cases b with
      | nil =>
        have hs1 : l.size = 1 := by simpa using hsz
        refine ⟨m, { size := l.size - 1, pHead := NULL, pTail := NULL }, ?_, ?_, ?_, ?_⟩
        · simp [OSList_remove, hs1, he, hhd]
        · exact ⟨by simp [hs1], rfl, rfl, trivial, by simp, List.nodup_nil⟩
        · have := hl.2.2.2.1
          exact ⟨⟨this.1, this.2.1⟩, by simp [hs1]⟩
        · exact LinkFrame.refl _ _
      | cons y r =>
        have hy : y ≠ NULL := hl.ne_null (by simp)
        have hs1 : l.size ≠ 1 := by rw [hsz]; simp
        have hgt : l.size > 1 := by rw [hsz]; simp
        have hseg := hl.2.2.2.1
        have hnext : (m.objs e).pNext = y := by simpa [seg] using hseg.2.1
        have hyr : y ∉ r := (List.nodup_cons.mp n2.of_cons).1
        have hey : e ≠ y := fun c => heb (by simp [c])
        refine ⟨(m.wPrev y NULL).wNext e NULL, { l with size := l.size - 1, pHead := y },
          ?_, ?_, ?_, ?_⟩
        · simp [OSList_remove, hs1, he, hhd, hgt, hsz, obj_of_ne _ he, hnext,
            setPrev_of_ne _ _ hy, setNext_of_ne _ _ he]
        · refine ⟨by simp [hsz], rfl, ?_, ?_, ?_, n2.of_cons⟩
          · simpa [List.getLastD_cons] using hl.2.2.1
          · refine seg_frame (seg_wPrev_head NULL hseg.2.2 hyr) (fun z hz => ?_)
            have : z ≠ e := fun c => heb (c ▸ hz)
            simp [wNext_objs, this]
          · exact fun c => hl.2.2.2.2.1 (List.mem_cons_of_mem _ c)
        · refine ⟨⟨?_, by simp [wNext_objs]⟩, by show l.size - 1 + 1 = l.size; omega⟩
          simp only [wNext_objs, wPrev_objs, if_true, hey, if_false]
          exact hseg.1
        · exact (LinkFrame.wPrev m y NULL (by simp)).trans (LinkFrame.wNext _ e NULL (by simp))
    · subst ca
      rw [List.concat_eq_append] at *
      have hta : t ∉ a' := by
        have := List.nodup_append.mp n1
        exact fun c => this.2.2 c (List.mem_singleton_self _)
      have ht : t ≠ NULL := hl.ne_null (by simp)
      have het : e ≠ t := fun c => hea (by simp [c])
      have hhdm : l.pHead ∈ a' ++ [t] := by
        rw [hl.2.1]
        cases a' <;> simp
      have hhe : l.pHead ≠ e := fun c => hea (c ▸ hhdm)
      have hh : l.pHead ≠ NULL := hl.ne_null (List.mem_append_left _ hhdm)
      have hseg := hl.2.2.2.1
      rw [seg_append, getLastD_append_singleton] at hseg
      obtain ⟨s1, s2⟩ := hseg
      have hprev : (m.objs e).pPrevious = t := s2.1
      cases b with
      | nil =>
        have htl : l.pTail = e := by rw [hl.2.2.1, getLastD_append_singleton]
        have hgt : l.size > 1 := by rw [hsz]; simp
        refine ⟨(m.wNext t NULL).wPrev e NULL, { l with size := l.size - 1, pTail := t },
          ?_, ?_, ?_, ?_⟩
        · simp [OSList_remove, he, hsz0, hhe, htl, hgt, obj_of_ne _ he, hprev,
            setNext_of_ne _ _ ht, setPrev_of_ne _ _ he]
          intro c; omega
        · refine ⟨by simp [hsz], ?_, ?_, ?_, ?_, by simpa using n1⟩
          · rw [List.append_nil]
            show l.pHead = _
            rw [hl.2.1]; cases a' <;> rfl
          · rw [List.append_nil, getLastD_append_singleton]
          · rw [List.append_nil]
            refine seg_frame (seg_wNext_last NULL s1 hta) (fun z hz => ?_)
            have : z ≠ e := fun c => hea (c ▸ hz)
            simp [wPrev_objs, this]
          · rw [List.append_nil]
            exact fun c => hl.2.2.2.2.1 (List.mem_append_left _ c)
        · refine ⟨⟨by simp [wPrev_objs], ?_⟩, by show l.size - 1 + 1 = l.size; omega⟩
          simp only [wNext_objs, wPrev_objs, if_true, het, if_false]
          exact s2.2.1
        · exact (LinkFrame.wNext m t NULL (by simp)).trans (LinkFrame.wPrev _ e NULL (by simp))
      | cons n b' =>
        have hn : n ≠ NULL := hl.ne_null (by simp)
        have hen : e ≠ n := fun c => heb (by simp [c])
        have hnext : (m.objs e).pNext = n := s2.2.1
        have hnb : n ∉ b' := (List.nodup_cons.mp n2.of_cons).1
        have htle : l.pTail ≠ e := by
          rw [hl.2.2.1, getLastD_append_cons]
          intro c
          rw [List.getLastD_cons] at c
          have := @getLastD_mem_of_ne_nil (n :: b') NULL (by simp)
          rw [List.getLastD_cons, c] at this
          exact heb this
        have hnd' : (a' ++ [t] ++ n :: b').Nodup := by
          rw [List.nodup_append]
          exact ⟨n1, n2.of_cons, fun x hx hx2 => n3 hx (List.mem_cons_of_mem _ hx2)⟩
        have htb : t ∉ n :: b' := fun c => n3 (a := t) (by simp) (List.mem_cons_of_mem _ c)
        have hna : n ∉ a' ++ [t] := fun c => n3 c (by simp)
        -- the walk starts at the second entry and stops at `e`
        have hwalk : ∀ hd, m.obj l.pHead = some hd →
            removeWalk m e fuel hd.pNext = removeWalk m e 1 e := by
          intro hd hhd
          rw [obj_of_ne _ hh] at hhd
          cases hhd
          cases a' with
          | nil =>
            have h0 : l.pHead = t := by simpa using hl.2.1
            have hs := hl.2.2.2.1
            have hnx : (m.objs t).pNext = e := by simpa [seg] using hs.2.1
            rw [h0, hnx]
            have := removeWalk_found (m := m) he [] t NULL (n :: b') fuel
              (by simpa [seg] using hs.2.2) (by simp) (by simp)
              (by have := hf; simp at this ⊢; omega)
            simpa using this
          | cons h r =>
            have h0 : l.pHead = h := by simpa using hl.2.1
            have hs := hl.2.2.2.1
            have hnx : (m.objs h).pNext = (r ++ [t] ++ [e]).headD NULL := by
              have := hs.2.1
              rw [this]
              cases r <;> rfl
            rw [h0, hnx]
            have := removeWalk_found (m := m) he (r ++ [t]) h NULL (n :: b') fuel
              (by simpa [seg] using hs.2.2)
              (fun c => hl.2.2.2.2.1 (by
                simp only [List.mem_append, List.mem_singleton, List.mem_cons] at c ⊢; tauto))
              (fun c => hea (by
                simp only [List.mem_append, List.mem_singleton, List.mem_cons] at c ⊢; tauto))
              (by have := hf; simp at this ⊢; omega)
            exact this
        refine ⟨(((m.wNext t n).wPrev n t).wNext e NULL).wPrev e NULL,
          { l with size := l.size - 1 }, ?_, ?_, ?_, ?_⟩
        · have hw := hwalk _ (obj_of_ne m hh)
          rw [removeWalk_unlink he ht hn het hprev hnext] at hw
          simp [OSList_remove, he, hsz0, hhe, htle, obj_of_ne m hh, hw]
          intro c; omega
        · refine ⟨by simp [hsz]; omega, ?_, ?_, ?_, ?_, hnd'⟩
          · show l.pHead = _
            rw [hl.2.1, List.append_assoc, List.append_assoc]
            exact headD_append_cons _ _ _ _ _
          · show l.pTail = _
            rw [hl.2.2.1, getLastD_append_cons, getLastD_append_cons, List.getLastD_cons]
          · rw [seg_append, getLastD_append_singleton]
            refine ⟨?_, ?_⟩
            · refine seg_frame (seg_wNext_last n s1 hta) (fun z hz => ?_)
              have z1 : z ≠ e := fun c => hea (c ▸ hz)
              have z2 : z ≠ n := fun c => hna (c ▸ hz)
              simp [wPrev_objs, wNext_objs, z1, z2]
            · have k1 : seg (m.wNext t n) e (n :: b') NULL := seg_frame s2.2.2 (fun z hz => by
                have : z ≠ t := fun c => htb (c ▸ hz)
                simp [wNext_objs, this])
              refine seg_frame (seg_wPrev_head t k1 hnb) (fun z hz => ?_)
              have z1 : z ≠ e := fun c => heb (c ▸ hz)
              simp [wPrev_objs, wNext_objs, z1]
          · intro c
            exact hl.2.2.2.2.1 (by
              simp only [List.mem_append, List.mem_singleton, List.mem_cons] at c ⊢; tauto)
        · exact ⟨⟨by simp [wPrev_objs], by simp [wPrev_objs, wNext_objs]⟩,
            by show l.size - 1 + 1 = l.size; omega⟩
        · refine LinkFrame.mono ?_ (fun p (hp : p ∈ [t, e, n]) => by
            simp only [List.mem_append, List.mem_singleton, List.mem_cons,
              List.not_mem_nil, or_false] at hp ⊢; tauto)
          exact (((LinkFrame.wNext m t n (by simp)).trans (LinkFrame.wPrev _ n t (by simp))).trans
            (LinkFrame.wNext _ e NULL (by simp))).trans (LinkFrame.wPrev _ e NULL (by simp))
  · rw [List.erase_of_not_mem hmem]
    simp only [hmem, decide_False, false_implies, not_false_eq_true, true_implies, true_and]
    refine ⟨m, l, ?_, hl, ⟨rfl, rfl⟩, LinkFrame.refl _ _⟩
    by_cases h0 : l.size = 0 ∨ e = NULL
    · simp [OSList_remove, h0]
    · have hsz : l.size ≠ 0 := fun c => h0 (Or.inl c)
      have he : e ≠ NULL := fun c => h0 (Or.inr c)
      cases xs with
      | nil => exact absurd hl.1 hsz
      | cons h r =>
        have hhd : l.pHead = h := by simpa using hl.2.1
        have hh : h ≠ NULL := hl.ne_null (by simp)
        have hhe : h ≠ e := fun c => hmem (by simp [c])
        have htle : l.pTail ≠ e := by
          intro c
          apply hmem
          rw [← c, hl.2.2.1]
          exact getLastD_mem_of_ne_nil _ (by simp)
        have hs := hl.2.2.2.1
        have hw := removeWalk_notfound (m := m) (e := e) r h fuel hs.2.2
          (fun c => hl.2.2.2.2.1 (List.mem_cons_of_mem _ c))
          (fun c => hmem (List.mem_cons_of_mem _ c)) (by simpa using hf)
        rw [← hs.2.1] at hw
        simp [OSList_remove, h0, hhd, hhe, htle, obj_of_ne m hh, hw]

/-! ### Entries of a well-formed list -/

theorem walkNext_of_seg {m : Mem} : ∀ (xs : List Ptr) (pv : Ptr) (fuel : Nat),
    seg m pv xs NULL → NULL ∉ xs → xs.length ≤ fuel → walkNext m fuel (xs.headD NULL) = xs
  | [], _, fuel, _, _, _ => by cases fuel <;> simp [walkNext]
  | x :: r, pv, fuel, hs, hn, hf => by
    cases fuel with
    | zero => simp at hf
    | succ f =>
      have hx : x ≠ NULL := fun c => hn (by simp [c])
      have ih := walkNext_of_seg r x f hs.2.2 (fun c => hn (List.mem_cons_of_mem _ c))
        (by simpa using hf)
      simp only [walkNext, List.headD_cons, hx, if_false, hs.2.1, ih]

theorem walkPrev_of_seg {m : Mem} : ∀ (xs : List Ptr) (nx : Ptr) (fuel : Nat),
    seg m NULL xs nx → NULL ∉ xs → xs.length ≤ fuel →
    walkPrev m fuel (xs.getLastD NULL) = xs.reverse := by
  intro xs
  induction xs using List.reverseRecOn with
  | nil => intro nx fuel _ _ _; cases fuel <;> simp [walkPrev]
  | append_singleton r x ih =>
    intro nx fuel hs hn hf
    cases fuel with
    | zero => simp at hf
    | succ f =>
      have hx : x ≠ NULL := fun c => hn (by simp [c])
      rw [seg_append] at hs
      have hprev : (m.objs x).pPrevious = r.getLastD NULL := hs.2.1
      have ih' := ih x f hs.1 (fun c => hn (List.mem_append_left _ c))
        (by simp at hf; omega)
      rw [getLastD_append_singleton, List.reverse_append, List.reverse_singleton,
        List.singleton_append]
      simp only [walkPrev, hx, if_false, hprev, ih']

theorem IsList.entries_eq {m : Mem} {l : OSList_t} {xs : List Ptr} (h : IsList m l xs) :
    entries m (some l) = xs := by
  show walkNext m l.size l.pHead = xs
  rw [h.2.1]
  exact walkNext_of_seg xs NULL _ h.2.2.2.1 h.2.2.2.2.1 (by rw [h.1])

theorem IsList.wellFormed {m : Mem} {l : OSList_t} {xs : List Ptr} (h : IsList m l xs) :
    WellFormed m l := by
  obtain ⟨h1, h2, h3, h4, h5, h6⟩ := h
  refine ⟨?_, ?_, ?_, ?_⟩
  · rw [h2, walkNext_of_seg xs NULL _ h4 h5 (by omega), h1]
  · rw [h3, walkPrev_of_seg xs NULL _ h4 h5 (by omega), List.length_reverse, h1]
  · intro hz
    rw [h1] at hz
    have := List.length_eq_zero.mp hz
    subst this
    exact ⟨h2, h3⟩
  · intro hz
    rcases List.eq_nil_or_concat xs with c | ⟨r, t, c⟩
    · subst c; exact absurd h1 hz
    · rw [List.concat_eq_append] at c
      subst c
      constructor
      · rw [h2]
        cases r with
        | nil => exact h4.1
        | cons y r' => exact h4.1
      · rw [h3, getLastD_append_singleton]
        have := (seg_append.mp h4).2
        exact this.2.1

theorem tie_split {key : Ptr → Nat} {ke : Nat} {a0 b0 : List Ptr}
    (hs : SortedBy key (a0 ++ b0)) (ha : ∀ x ∈ a0, key x ≤ ke) (hb : ∀ x ∈ b0, ke < key x)
    (hex : ∃ x ∈ a0 ++ b0, key x = ke) : ∃ a' t, a0 = a' ++ [t] ∧ key t = ke := by
  obtain ⟨x, hx, hxk⟩ := hex
  have hxa : x ∈ a0 := by
    rcases List.mem_append.mp hx with c | c
    · exact c
    · exact absurd hxk (Nat.ne_of_gt (hb x c))
  rcases List.eq_nil_or_concat a0 with c | ⟨a', t, c⟩
  · subst c; simp at hxa
  · rw [List.concat_eq_append] at c
    subst c
    refine ⟨a', t, rfl, Nat.le_antisymm (ha t (by simp)) ?_⟩
    rw [← hxk]
    rcases List.mem_append.mp hxa with c | c
    · have hp := hs.pairwise
      rw [List.pairwise_append] at hp
      exact (List.pairwise_append.mp hp.1).2.2 x c t (by simp)
    · rw [List.mem_singleton] at c; rw [c]

/-! ### The wake tick an insert stores -/

theorem setNext_sameTCnt {m m' : Mem} {p v : Ptr} (h : m.setNext p v = some m') :
    ∀ q, (m'.objs q).nTCnt = (m.objs q).nTCnt := by
  intro q
  unfold Mem.setNext at h
  split at h
  · simp at h
  · simp only [Option.some.injEq] at h
    subst h
    rw [wNext_objs]; split
    · rename_i c; subst c; rfl
    · rfl

theorem setPrev_sameTCnt {m m' : Mem} {p v : Ptr} (h : m.setPrev p v = some m') :
    ∀ q, (m'.objs q).nTCnt = (m.objs q).nTCnt := by
  intro q
  unfold Mem.setPrev at h
  split at h
  · simp at h
  · simp only [Option.some.injEq] at h
    subst h
    rw [wPrev_objs]; split
    · rename_i c; subst c; rfl
    · rfl

theorem addInFront_sameTCnt {m m' : Mem} {l l' : OSList_t} {e : Ptr}
    (h : addInFront m l e = some (m', l')) : ∀ q, (m'.objs q).nTCnt = (m.objs q).nTCnt := by
  simp only [addInFront, Option.bind_eq_bind, Option.bind_eq_some, Option.pure_def,
    Option.some.injEq, Prod.mk.injEq] at h
  obtain ⟨m1, h1, m2, h2, h3, _⟩ := h
  subst h3
  intro q
  rw [setNext_sameTCnt h2, setPrev_sameTCnt h1]

theorem addInBack_sameTCnt {m m' : Mem} {l l' : OSList_t} {e : Ptr}
    (h : addInBack m l e = some (m', l')) : ∀ q, (m'.objs q).nTCnt = (m.objs q).nTCnt := by
  simp only [addInBack, Option.bind_eq_bind, Option.bind_eq_some, Option.pure_def,
    Option.some.injEq, Prod.mk.injEq] at h
  obtain ⟨m1, h1, m2, h2, h3, _⟩ := h
  subst h3
  intro q
  rw [setPrev_sameTCnt h2, setNext_sameTCnt h1]

theorem insertAfter_sameTCnt {m m' : Mem} {o e : Ptr}
    (h : insertAfter m o e = some m') : ∀ q, (m'.objs q).nTCnt = (m.objs q).nTCnt := by
  simp only [insertAfter, Option.bind_eq_bind, Option.bind_eq_some] at h
  obtain ⟨_, _, m1, h1, _, _, m2, h2, m3, h3, h4⟩ := h
  intro q
  rw [setPrev_sameTCnt h4, setNext_sameTCnt h3, setNext_sameTCnt h2, setPrev_sameTCnt h1]

theorem timerInsert_stores {t : Nat} {m m' : Mem} {l : OSList_t} {l' : Option OSList_t}
    {e : Ptr} {d : Nat} (h : OSList_timerInsert t m (some l) e d = some (true, m', l')) :
    wakeKey m' e = (t + d) % UINT_MOD := by
  unfold OSList_timerInsert at h
  simp only at h
  split at h
  · simp at h
  · rename_i hg
    push_neg at hg
    rw [setTCnt_of_ne _ _ hg.1] at h
    have key : ∀ q, (m'.objs q).nTCnt = ((m.wTCnt e ((t + d) % UINT_MOD)).objs q).nTCnt := by
      by_cases hsz : l.size = 0
      · simp [hsz] at h
        intro q; rw [← h.1]
      · simp only [hsz, if_false, Option.bind_eq_bind, Option.some_bind, Option.bind_eq_some,
          Option.pure_def, Option.some.injEq, Prod.mk.injEq, true_and, Prod.exists] at h
        obtain ⟨ke, _, kh, _, hb⟩ := h
        split at hb
        · simp only [Option.bind_eq_some, Option.some.injEq, Prod.mk.injEq, true_and,
            Prod.exists] at hb
          obtain ⟨m1, l1, hb, hm, _⟩ := hb
          subst hm
          exact addInFront_sameTCnt hb
        · simp only [Option.bind_eq_some] at hb
          obtain ⟨kt, _, hb⟩ := hb
          split at hb
          · simp only [Option.bind_eq_some, Option.some.injEq, Prod.mk.injEq, true_and,
              Prod.exists] at hb
            obtain ⟨m1, l1, hb, hm, _⟩ := hb
            subst hm
            exact addInBack_sameTCnt hb
          · simp only [Option.bind_eq_some, Option.some.injEq, Prod.mk.injEq, true_and] at hb
            obtain ⟨tmp, _, m2, hi, hm2, _⟩ := hb
            subst hm2
            exact insertAfter_sameTCnt hi
    show (m'.objs e).nTCnt = _
    rw [key e]
    simp [wTCnt_objs]

/-! ### Fill and drain loops -/

theorem SortedBy.congr {key key' : Ptr → Nat} {xs : List Ptr} (h : SortedBy key xs)
    (hk : ∀ q, key' q = key q) : SortedBy key' xs := by
  have : key' = key := funext hk
  rw [this]; exact h

theorem timerInsertAll_spec (t : Nat) : ∀ (es : List (Ptr × Nat)) (m : Mem) (l : OSList_t)
    (xs : List Ptr), IsList m l xs → SortedBy (wakeKey m) xs →
    (∀ p ∈ es, p.1 ≠ NULL ∧ p.1 ∉ xs ∧ Detached m p.1 ∧ p.2 ≠ 0) → (es.map Prod.fst).Nodup →
    ∃ m1 l1 ys, timerInsertAll t m (some l) es = some (m1, some l1) ∧ IsList m1 l1 ys ∧
      SortedBy (wakeKey m1) ys ∧ ys.Perm (xs ++ es.map Prod.fst) ∧
      (∀ x ∈ xs, wakeKey m1 x = wakeKey m x) ∧
      (∀ p ∈ es, wakeKey m1 p.1 = (t + p.2) % UINT_MOD)
  | [], m, l, xs, hl, hs, _, _ =>
    ⟨m, l, xs, rfl, hl, hs, by simp, fun _ _ => rfl, by simp⟩
  | (e, d) :: rest, m, l, xs, hl, hs, hes, hnd => by
    obtain ⟨he, hne, hdet, hd⟩ := hes (e, d) (List.mem_cons_self _ _)
    simp only at he hne hdet hd
    obtain ⟨m', l', a, b, h1, h2, h3, h4, h5, h6⟩ := timerInsert_core t hl he hne hdet hd
    subst h2
    obtain ⟨ha, hb⟩ := sorted_place hs h4 h5
    have hke : wakeKey m' e = (t + d) % UINT_MOD := by
      rw [h6.wakeKey_eq]; simp [wakeKey, wTCnt_objs]
    have hkx : ∀ x ∈ a ++ b, wakeKey m' x = wakeKey m x := by
      intro x hx
      have : x ≠ e := fun c => hne (c ▸ hx)
      rw [h6.wakeKey_eq]; simp [wakeKey, wTCnt_objs, this]
    have hs' : SortedBy (wakeKey m') (a ++ e :: b) := by
      refine sorted_insert hs hkx ?_ ?_
      · intro x hx; rw [hke, hkx x (List.mem_append_left _ hx)]; exact ha x hx
      · intro x hx; rw [hke, hkx x (List.mem_append_right _ hx)]; exact hb x hx
    have hnd' := List.nodup_cons.mp (by simpa using hnd : (e :: rest.map Prod.fst).Nodup)
    have hrest : ∀ p ∈ rest, p.1 ≠ NULL ∧ p.1 ∉ a ++ e :: b ∧ Detached m' p.1 ∧ p.2 ≠ 0 := by
      intro p hp
      obtain ⟨p1, p2, p3, p4⟩ := hes p (List.mem_cons_of_mem _ hp)
      have hpe : p.1 ≠ e := fun c => hnd'.1 (c ▸ List.mem_map_of_mem Prod.fst hp)
      refine ⟨p1, ?_, ?_, p4⟩
      · intro c
        simp only [List.mem_append, List.mem_cons] at c
        rcases c with c | c | c
        · exact p2 (List.mem_append_left _ c)
        · exact hpe c
        · exact p2 (List.mem_append_right _ c)
      · have hfr := (h6.2.2.2.2 p.1).2.2.2 (by
          simp only [List.mem_cons, not_or]; exact ⟨hpe, p2⟩)
        unfold Detached
        rw [hfr]
        simp only [wTCnt_objs, hpe, if_false]
        exact p3
    obtain ⟨m1, l1, ys, k1, k2, k3, k4, k5, k6⟩ :=
      timerInsertAll_spec t rest m' l' (a ++ e :: b) h3 hs' hrest hnd'.2
    refine ⟨m1, l1, ys, ?_, k2, k3, ?_, ?_, ?_⟩
    · simp [timerInsertAll, h1, k1]
    · refine k4.trans ?_
      rw [List.map_cons, List.append_assoc, List.append_assoc]
      refine List.Perm.append_left a ?_
      exact (@List.perm_middle _ e b (rest.map Prod.fst)).symm
    · intro x hx
      have hx' : x ∈ a ++ e :: b := by
        simp only [List.mem_append, List.mem_cons] at hx ⊢; tauto
      rw [k5 x hx', hkx x hx]
    · intro p hp
      rcases List.mem_cons.mp hp with c | c
      · subst c
        rw [k5 e (by simp), hke]
      · exact k6 p c

theorem getFirstN_spec : ∀ (ys : List Ptr) (m : Mem) (l : OSList_t), IsList m l ys →
    ∃ m2 l2, getFirstN m (some l) ys.length = some (ys, m2, some l2) ∧ IsList m2 l2 [] ∧
      (∀ q, wakeKey m2 q = wakeKey m q)
  | [], m, l, hl => ⟨m, l, rfl, hl, fun _ => rfl⟩
  | x :: rest, m, l, hl => by
    obtain ⟨m', l', h1, h2, _, h4, _⟩ := getFirst_core hl
    obtain ⟨m2, l2, k1, k2, k3⟩ := getFirstN_spec rest m' l' h2
    refine ⟨m2, l2, ?_, k2, fun q => (k3 q).trans (h4.wakeKey_eq q)⟩
    simp [getFirstN, h1, k1]

/-! ### Return values of the inserts -/

theorem bind_elim {α β : Type} {x : Option α} {g : α → Option β} {r : β}
    (h : x.bind g = some r) : ∃ y, g y = some r := by
  cases x with
  | none => simp at h
  | some y => exact ⟨y, h⟩

theorem pure_fst_true {β : Type} {b : β} {r : Bool × β}
    (h : (pure (true, b) : Option (Bool × β)) = some r) : r.1 = true := by
  simp only [Option.pure_def, Option.some.injEq] at h
  rw [← h]

theorem timerInsert_true {t : Nat} {m : Mem} {l : OSList_t} {e : Ptr} {d : Nat}
    {r : Bool × Mem × Option OSList_t} (hg : ¬ (e = NULL ∨ d = 0))
    (h : OSList_timerInsert t m (some l) e d = some r) : r.1 = true := by
  unfold OSList_timerInsert at h
  simp only [hg, if_false, Option.bind_eq_bind] at h
  obtain ⟨m1, h⟩ := bind_elim h
  split at h
  · obtain ⟨y, h⟩ := bind_elim h
    exact pure_fst_true h
  · obtain ⟨ke, h⟩ := bind_elim h
    obtain ⟨kh, h⟩ := bind_elim h
    split at h
    · obtain ⟨y, h⟩ := bind_elim h
      exact pure_fst_true h
    · obtain ⟨kt, h⟩ := bind_elim h
      split at h
      · obtain ⟨y, h⟩ := bind_elim h
        exact pure_fst_true h
      · obtain ⟨tmp, h⟩ := bind_elim h
        obtain ⟨m2, h⟩ := bind_elim h
        obtain ⟨y, h⟩ := bind_elim h
        exact pure_fst_true h

theorem deadlineInsert_true {m : Mem} {l : OSList_t} {e : Ptr}
    {r : Bool × Mem × Option OSList_t} (hg : e ≠ NULL)
    (h : OSList_deadlineInsert m (some l) e = some r) : r.1 = true := by
  unfold OSList_deadlineInsert at h
  simp only [hg, if_false, Option.bind_eq_bind] at h
  split at h
  · obtain ⟨y, h⟩ := bind_elim h
    exact pure_fst_true h
  · obtain ⟨ke, h⟩ := bind_elim h
    obtain ⟨kh, h⟩ := bind_elim h
    split at h
    · obtain ⟨y, h⟩ := bind_elim h
      exact pure_fst_true h
    · obtain ⟨kt, h⟩ := bind_elim h
      split at h
      · obtain ⟨y, h⟩ := bind_elim h
        exact pure_fst_true h
      · obtain ⟨tmp, h⟩ := bind_elim h
        obtain ⟨m2, h⟩ := bind_elim h
        obtain ⟨y, h⟩ := bind_elim h
        exact pure_fst_true h

/-! ### Reassessment -/

theorem OnList.some_iff {m : Mem} {list : Option OSList_t} {xs : List Ptr} :
    OnList m list xs ↔ ∃ l, list = some l ∧ IsList m l xs := by
  cases list with
  | none => simp [OnList]
  | some l => simp [OnList]

theorem IsList.of_linkFrame {m m' : Mem} {l : OSList_t} {xs S : List Ptr}
    (h : IsList m l xs) (hf : LinkFrame m m' S) (hd : ∀ x ∈ xs, x ∉ S) : IsList m' l xs :=
  h.frame (fun x hx => by rw [(hf.2.2.2.2 x).2.2.2 (hd x hx)]; exact ⟨rfl, rfl⟩)

theorem move_step {m : Mem} {sl rl : OSList_t} {x : Ptr} {rest rs : List Ptr}
    (hs : IsList m sl (x :: rest)) (hr : IsList m rl rs)
    (hd : ∀ y ∈ rs, y ∉ x :: rest) (ht : ∀ y ∈ x :: rs, HasTask m y) :
    ∃ m1 sl' m2 rl' a b,
      OSList_getFirst m (some sl) = some (x, m1, some sl') ∧
      OSList_deadlineInsert m1 (some rl) x = some (true, m2, some rl') ∧
      rs = a ++ b ∧ IsList m2 sl' rest ∧ IsList m2 rl' (a ++ x :: b) ∧
      (SortedBy (deadlineKey m) rs → SortedBy (deadlineKey m2) (a ++ x :: b)) ∧
      LinkFrame m m2 (x :: rest ++ rs) := by
  obtain ⟨m1, sl', hg, hs1, hdet, hf1, _⟩ := getFirst_core hs
  have hxne : x ≠ NULL := hs.ne_null (List.mem_cons_self _ _)
  have hnd : (x :: rest).Nodup := hs.2.2.2.2.2
  have hxrest : x ∉ rest := (List.nodup_cons.mp hnd).1
  have hxrs : x ∉ rs := fun h => hd x h (List.mem_cons_self _ _)
  have hr1 : IsList m1 rl rs := hr.of_linkFrame hf1 hd
  have ht1 : ∀ y ∈ x :: rs, HasTask m1 y := fun y hy => (hf1.hasTask_iff y).mpr (ht y hy)
  obtain ⟨m2, rl', a, b, hi, hab, hr2, ha, hb, hf2⟩ :=
    deadlineInsert_core hr1 (fun y hy => ht1 y (List.mem_cons_of_mem _ hy)) hxne
      (ht1 x (List.mem_cons_self _ _)) hxrs hdet
  refine ⟨m1, sl', m2, rl', a, b, hg, hi, hab, ?_, hr2, ?_, ?_⟩
  · refine hs1.of_linkFrame hf2 ?_
    intro y hy hy2
    rcases List.mem_cons.mp hy2 with c | c
    · exact hxrest (c ▸ hy)
    · exact hd y c (List.mem_cons_of_mem _ hy)
  · intro hsrt
    have hk1 : ∀ q, deadlineKey m1 q = deadlineKey m q := hf1.deadlineKey_eq
    have hk2 : ∀ q, deadlineKey m2 q = deadlineKey m1 q := hf2.deadlineKey_eq
    have hsrt1 : SortedBy (deadlineKey m1) (a ++ b) := hab ▸ hsrt.congr hk1
    obtain ⟨pa, pb⟩ := sorted_place hsrt1 ha hb
    refine sorted_insert hsrt1 (fun q _ => hk2 q) ?_ ?_
    · intro q hq; rw [hk2, hk2]; exact pa q hq
    · intro q hq; rw [hk2, hk2]; exact pb q hq
  · refine LinkFrame.trans (hf1.mono ?_) (hf2.mono ?_)
    · intro p hp; simp only [List.cons_append, List.mem_cons, List.mem_append] at hp ⊢
      rcases hp with c | c
      · exact Or.inl c
      · exact Or.inr (Or.inl c)
    · intro p hp; simp only [List.cons_append, List.mem_cons, List.mem_append] at hp ⊢
      rcases hp with c | c
      · exact Or.inl c
      · exact Or.inr (Or.inr c)

theorem timerLoop_spec : ∀ (ts : List Ptr) (fuel : Nat) (k : Kernel) (rs ws : List Ptr),
    ts.length < fuel → Lists k rs ws ts →
    ∃ k' rs', timerLoop fuel k = some k' ∧
      Lists k' rs' ws (ts.dropWhile (timerDue k)) ∧
      rs'.Perm (rs ++ ts.takeWhile (timerDue k)) ∧ rs.Sublist rs' ∧
      (SortedBy (deadlineKey k.mem) rs → SortedBy (deadlineKey k'.mem) rs') ∧
      LinkFrame k.mem k'.mem (rs ++ ts) ∧ k'.waitingList = k.waitingList ∧
      k'.Running = k.Running ∧ k'.runningListobj = k.runningListobj ∧ SameStatics k k'
  | [], fuel, k, rs, ws, hf, hL => by
    obtain ⟨f, rfl⟩ : ∃ f, fuel = f + 1 := ⟨fuel - 1, by simp at hf; omega⟩
    obtain ⟨tl, htl1, htl2⟩ := OnList.some_iff.mp hL.2.2.1
    have hp : OSList_peek k.timerList = NULL := by rw [htl1]; exact htl2.2.1
    refine ⟨k, rs, ?_, hL, by simp, List.Sublist.refl _, fun h => h, LinkFrame.refl _ _, rfl,
      rfl, rfl, ?_⟩
    · simp [timerLoop, hp]
    · simp [SameStatics]
  | x :: rest, fuel, k, rs, ws, hf, hL => by
    obtain ⟨f, rfl⟩ : ∃ f, fuel = f + 1 := ⟨fuel - 1, by simp at hf; omega⟩
    obtain ⟨hr, hw, htl, hnd, hts⟩ := hL
    obtain ⟨tl, htl1, htl2⟩ := OnList.some_iff.mp htl
    obtain ⟨rl, hrl1, hrl2⟩ := OnList.some_iff.mp hr
    obtain ⟨wl, hwl1, hwl2⟩ := OnList.some_iff.mp hw
    have hxne : x ≠ NULL := htl2.ne_null (List.mem_cons_self _ _)
    have hp : OSList_peek k.timerList = x := by rw [htl1]; exact htl2.2.1
    by_cases hdue : wakeKey k.mem x ≤ k.osTicks
    · have hd : ∀ y ∈ rs, y ∉ x :: rest := by
        intro y hy hy2
        have := (List.nodup_append.mp hnd).2.2
        exact List.disjoint_left.mp this (List.mem_append_left _ hy) hy2
      have ht : ∀ y ∈ x :: rs, HasTask k.mem y := by
        intro y hy
        refine hts y ?_
        rcases List.mem_cons.mp hy with c | c
        · rw [c]; simp
        · simp [c]
      obtain ⟨m1, sl', m2, rl', a, b, hg, hi, hab, hs2, hr2, hsrt, hfr⟩ :=
        move_step htl2 hrl2 hd ht
      have hL2 : Lists { k with mem := m2, timerList := some sl', readyList := some rl' }
          (a ++ x :: b) ws rest := by
        refine ⟨hr2, ?_, hs2, ?_, ?_⟩
        · show OnList m2 k.waitingList ws
          rw [hwl1]
          refine hwl2.of_linkFrame hfr ?_
          intro y hy hy2
          rw [List.nodup_append] at hnd
          rcases List.mem_append.mp hy2 with c | c
          · exact List.disjoint_left.mp hnd.2.2 (List.mem_append_right _ hy) c
          · exact List.disjoint_left.mp (List.nodup_append.mp hnd.1).2.2 c hy
        · have hperm : (a ++ x :: b ++ ws ++ rest).Perm (rs ++ ws ++ (x :: rest)) := by
            rw [hab]
            simp only [List.append_assoc, List.cons_append]
            refine List.Perm.append_left a ?_
            rw [← List.append_assoc b ws (x :: rest), ← List.append_assoc b ws rest]
            exact List.perm_middle.symm
          exact hperm.nodup_iff.mpr hnd
        · intro y hy
          refine (hfr.hasTask_iff y).mpr (hts y ?_)
          rw [hab]
          simp only [List.mem_append, List.mem_cons] at hy ⊢
          tauto
      obtain ⟨k', rs', h1, h2, h3, h4, h5, h6, h7, h8, h9, h10⟩ :=
        timerLoop_spec rest f _ (a ++ x :: b) ws (by simp at hf; omega) hL2
      have hdueEq : timerDue { k with mem := m2, timerList := some sl', readyList := some rl' }
          = timerDue k := by
        funext q
        simp [timerDue, hfr.wakeKey_eq]
      rw [hdueEq] at h2 h3
      have hx : timerDue k x = true := by simp [timerDue, hdue]
      refine ⟨k', rs', ?_, ?_, ?_, ?_, ?_, ?_, h7, h8, h9, ?_⟩
      · rw [← h1]
        have hdue2 : (k.mem.objs x).nTCnt ≤ k.osTicks := hdue
        rw [htl1] at hp
        simp [timerLoop, htl1, hp, obj_of_ne _ hxne, hdue2, hg, hrl1, hi, hxne]
      · rw [List.dropWhile_cons_of_pos hx]; exact h2
      · rw [List.takeWhile_cons_of_pos hx]
        refine h3.trans ?_
        rw [hab]
        simp only [List.append_assoc, List.cons_append]
        refine List.Perm.append_left a ?_
        exact List.perm_middle.symm
      · refine List.Sublist.trans ?_ h4
        rw [hab]
        exact List.Sublist.append (List.Sublist.refl _) (List.sublist_cons_self _ _)
      · intro hs; exact h5 (hsrt hs)
      · refine LinkFrame.trans (hfr.mono ?_) (h6.mono ?_)
        · intro p hp; simp only [List.cons_append, List.mem_cons, List.mem_append] at hp ⊢; tauto
        · intro p hp; rw [hab]
          simp only [List.cons_append, List.mem_cons, List.mem_append] at hp ⊢; tauto
      · simpa [SameStatics] using h10
    · have hx : timerDue k x = false := by simp [timerDue, hdue]
      refine ⟨k, rs, ?_, ?_, ?_, List.Sublist.refl _, fun h => h, LinkFrame.refl _ _, rfl,
        rfl, rfl, ?_⟩
      · have hdue2 : ¬ (k.mem.objs x).nTCnt ≤ k.osTicks := hdue
        simp [timerLoop, hp, obj_of_ne _ hxne, hdue2, hxne]
      · rw [List.dropWhile_cons_of_neg (by simp [hx])]; exact ⟨hr, hw, htl, hnd, hts⟩
      · rw [List.takeWhile_cons_of_neg (by simp [hx])]; simp
      · simp [SameStatics]

theorem waitingLoop_spec : ∀ (ws : List Ptr) (fuel : Nat) (k : Kernel) (rs ts : List Ptr),
    ws.length < fuel → Lists k rs ws ts →
    ∃ k' rs', waitingLoop fuel k = some k' ∧
      Lists k' rs' (ws.dropWhile (deadlineDue k)) ts ∧
      rs'.Perm (rs ++ ws.takeWhile (deadlineDue k)) ∧ rs.Sublist rs' ∧
      (SortedBy (deadlineKey k.mem) rs → SortedBy (deadlineKey k'.mem) rs') ∧
      LinkFrame k.mem k'.mem (rs ++ ws) ∧ k'.timerList = k.timerList ∧
      k'.Running = k.Running ∧ k'.runningListobj = k.runningListobj ∧ SameStatics k k'
  | [], fuel, k, rs, ts, hf, hL => by
    obtain ⟨f, rfl⟩ : ∃ f, fuel = f + 1 := ⟨fuel - 1, by simp at hf; omega⟩
    obtain ⟨wl, hwl1, hwl2⟩ := OnList.some_iff.mp hL.2.1
    have hp : OSList_peek k.waitingList = NULL := by rw [hwl1]; exact hwl2.2.1
    refine ⟨k, rs, ?_, hL, by simp, List.Sublist.refl _, fun h => h, LinkFrame.refl _ _, rfl,
      rfl, rfl, ?_⟩
    · simp [waitingLoop, hp]
    · simp [SameStatics]
  | x :: rest, fuel, k, rs, ts, hf, hL => by
    obtain ⟨f, rfl⟩ : ∃ f, fuel = f + 1 := ⟨fuel - 1, by simp at hf; omega⟩
    obtain ⟨hr, hw, htl, hnd, hts⟩ := hL
    obtain ⟨tl, htl1, htl2⟩ := OnList.some_iff.mp htl
    obtain ⟨rl, hrl1, hrl2⟩ := OnList.some_iff.mp hr
    obtain ⟨wl, hwl1, hwl2⟩ := OnList.some_iff.mp hw
    have hxne : x ≠ NULL := hwl2.ne_null (List.mem_cons_self _ _)
    have hxt : HasTask k.mem x := hts x (by simp)
    have hp : OSList_peek k.waitingList = x := by rw [hwl1]; exact hwl2.2.1
    by_cases hdue : deadlineKey k.mem x ≤ k.osTicks
    · have hd : ∀ y ∈ rs, y ∉ x :: rest := by
        intro y hy hy2
        have := (List.nodup_append.mp (List.nodup_append.mp hnd).1).2.2
        exact List.disjoint_left.mp this hy hy2
      have ht : ∀ y ∈ x :: rs, HasTask k.mem y := by
        intro y hy
        refine hts y ?_
        rcases List.mem_cons.mp hy with c | c
        · rw [c]; simp
        · simp [c]
      obtain ⟨m1, sl', m2, rl', a, b, hg, hi, hab, hs2, hr2, hsrt, hfr⟩ :=
        move_step hwl2 hrl2 hd ht
      have hL2 : Lists { k with mem := m2, waitingList := some sl', readyList := some rl' }
          (a ++ x :: b) rest ts := by
        refine ⟨hr2, hs2, ?_, ?_, ?_⟩
        · show OnList m2 k.timerList ts
          rw [htl1]
          refine htl2.of_linkFrame hfr ?_
          intro y hy hy2
          rw [List.nodup_append] at hnd
          rcases List.mem_append.mp hy2 with c | c
          · exact List.disjoint_left.mp hnd.2.2 (List.mem_append_right _ c) hy
          · exact List.disjoint_left.mp hnd.2.2 (List.mem_append_left _ c) hy
        · have hperm : (a ++ x :: b ++ rest ++ ts).Perm (rs ++ (x :: rest) ++ ts) := by
            rw [hab]
            simp only [List.append_assoc, List.cons_append]
            refine List.Perm.append_left a ?_
            exact List.perm_middle.symm
          exact hperm.nodup_iff.mpr hnd
        · intro y hy
          refine (hfr.hasTask_iff y).mpr (hts y ?_)
          rw [hab]
          simp only [List.mem_append, List.mem_cons] at hy ⊢
          tauto
      obtain ⟨k', rs', h1, h2, h3, h4, h5, h6, h7, h8, h9, h10⟩ :=
        waitingLoop_spec rest f _ (a ++ x :: b) ts (by simp at hf; omega) hL2
      have hdueEq : deadlineDue
          { k with mem := m2, waitingList := some sl', readyList := some rl' }
          = deadlineDue k := by
        funext q
        simp [deadlineDue, hfr.deadlineKey_eq]
      rw [hdueEq] at h2 h3
      have hx : deadlineDue k x = true := by simp [deadlineDue, hdue]
      refine ⟨k', rs', ?_, ?_, ?_, ?_, ?_, ?_, h7, h8, h9, ?_⟩
      · rw [← h1]
        rw [hwl1] at hp
        simp [waitingLoop, hwl1, hp, deadlineOf_of_ne _ hxne hxt, hdue, hg, hrl1, hi, hxne]
      · rw [List.dropWhile_cons_of_pos hx]; exact h2
      · rw [List.takeWhile_cons_of_pos hx]
        refine h3.trans ?_
        rw [hab]
        simp only [List.append_assoc, List.cons_append]
        refine List.Perm.append_left a ?_
        exact List.perm_middle.symm
      · refine List.Sublist.trans ?_ h4
        rw [hab]
        exact List.Sublist.append (List.Sublist.refl _) (List.sublist_cons_self _ _)
      · intro hs; exact h5 (hsrt hs)
      · refine LinkFrame.trans (hfr.mono ?_) (h6.mono ?_)
        · intro p hp; simp only [List.cons_append, List.mem_cons, List.mem_append] at hp ⊢; tauto
        · intro p hp; rw [hab]
          simp only [List.cons_append, List.mem_cons, List.mem_append] at hp ⊢; tauto
      · simpa [SameStatics] using h10
    · have hx : deadlineDue k x = false := by simp [deadlineDue, hdue]
      refine ⟨k, rs, ?_, ?_, ?_, List.Sublist.refl _, fun h => h, LinkFrame.refl _ _, rfl,
        rfl, rfl, ?_⟩
      · simp [waitingLoop, hp, deadlineOf_of_ne _ hxne hxt, hdue, hxne]
      · rw [List.dropWhile_cons_of_neg (by simp [hx])]; exact ⟨hr, hw, htl, hnd, hts⟩
      · rw [List.takeWhile_cons_of_neg (by simp [hx])]; simp
      · simp [SameStatics]

theorem SameStatics.compose {k1 k2 k3 : Kernel} (h12 : SameStatics k1 k2)
    (h23 : SameStatics k2 k3) : SameStatics k1 k3 := by
  obtain ⟨a1, a2, a3, a4, a5, a6, a7, a8⟩ := h12
  obtain ⟨b1, b2, b3, b4, b5, b6, b7, b8⟩ := h23
  exact ⟨b1.trans a1, b2.trans a2, b3.trans a3, b4.trans a4, b5.trans a5, b6.trans a6,
    b7.trans a7, b8.trans a8⟩

theorem schedulingUpdate_spec (fuel : Nat) (k : Kernel) (rs ws ts : List Ptr)
    (hL : Lists k rs ws ts)
    (hne : rs ++ ts.takeWhile (timerDue k) ++ ws.takeWhile (deadlineDue k) ≠ [])
    (hft : ts.length < fuel) (hfw : ws.length < fuel) :
    ∃ k' rs', schedulingUpdate fuel k = some k' ∧
      Lists k' rs' (ws.dropWhile (deadlineDue k)) (ts.dropWhile (timerDue k)) ∧
      rs'.Perm (rs ++ ts.takeWhile (timerDue k) ++ ws.takeWhile (deadlineDue k)) ∧
      rs.Sublist rs' ∧
      (SortedBy (deadlineKey k.mem) rs → SortedBy (deadlineKey k'.mem) rs') ∧
      LinkFrame k.mem k'.mem (rs ++ ws ++ ts) ∧
      rs' ≠ [] ∧ k'.runningListobj = rs'.headD NULL ∧
      k'.Running = (k'.mem.objs (rs'.headD NULL)).pTask ∧ SameStatics k k' := by
  obtain ⟨k1, rs1, e1, L1, p1, s1, o1, f1, w1, _, _, c1⟩ := timerLoop_spec ts fuel k rs ws hft hL
  have hdueEq : deadlineDue k1 = deadlineDue k := by
    funext q
    simp [deadlineDue, f1.deadlineKey_eq, c1.1]
  obtain ⟨k2, rs2, e2, L2, p2, s2, o2, f2, w2, _, _, c2⟩ :=
    waitingLoop_spec ws fuel k1 rs1 (ts.dropWhile (timerDue k)) hfw L1
  rw [hdueEq] at L2 p2
  have hperm : rs2.Perm (rs ++ ts.takeWhile (timerDue k) ++ ws.takeWhile (deadlineDue k)) :=
    p2.trans (List.Perm.append_right _ p1)
  have hne2 : rs2 ≠ [] := fun h => hne (List.Perm.eq_nil (h ▸ hperm.symm))
  obtain ⟨rl2, hrl1, hrl2⟩ := OnList.some_iff.mp L2.1
  obtain ⟨y, rest, hy⟩ : ∃ y rest, rs2 = y :: rest := by
    cases rs2 with
    | nil => exact absurd rfl hne2
    | cons y rest => exact ⟨y, rest, rfl⟩
  have hyne : y ≠ NULL := hrl2.ne_null (by rw [hy]; exact List.mem_cons_self _ _)
  have hpk : OSList_peek k2.readyList = y := by rw [hrl1]; rw [hy] at hrl2; exact hrl2.2.1
  refine ⟨{ k2 with Running := (k2.mem.objs y).pTask, runningListobj := y }, rs2, ?_, L2, hperm,
    s1.trans s2, fun h => o2 (o1 h), ?_, hne2, ?_, ?_, ?_⟩
  · simp [schedulingUpdate, e1, e2, setRunningTask, hpk, obj_of_ne _ hyne]
  · refine LinkFrame.trans (f1.mono ?_) (f2.mono ?_)
    · intro p hp; simp only [List.mem_append] at hp ⊢; tauto
    · intro p hp
      have := p1.subset
      simp only [List.mem_append] at hp ⊢
      rcases hp with c | c
      · rcases List.mem_append.mp (p1.subset c) with d | d
        · exact Or.inl (Or.inl d)
        · exact Or.inr ((List.takeWhile_sublist _).subset d)
      · exact Or.inl (Or.inr c)
  · rw [hy]; rfl
  · rw [hy]; rfl
  · exact c1.compose c2

theorem takeWhile_sorted {key : Ptr → Nat} (t : Nat) : ∀ (xs : List Ptr), SortedBy key xs →
    xs.takeWhile (fun x => decide (key x ≤ t)) = xs.filter (fun x => decide (key x ≤ t)) ∧
    xs.dropWhile (fun x => decide (key x ≤ t)) = xs.filter (fun x => !decide (key x ≤ t))
  | [], _ => by simp
  | x :: rest, hs => by
    have hpw := hs.pairwise
    have hrest : SortedBy key rest := SortedBy.of_pairwise (List.pairwise_cons.mp hpw).2
    obtain ⟨ih1, ih2⟩ := takeWhile_sorted t rest hrest
    by_cases hx : key x ≤ t
    · rw [List.takeWhile_cons_of_pos (by simpa using hx),
        List.dropWhile_cons_of_pos (by simpa using hx),
        List.filter_cons_of_pos (by simpa using hx), ih1, ih2]
      refine ⟨rfl, ?_⟩
      rw [List.filter_cons_of_neg (by simpa using hx)]
    · have hall : ∀ y ∈ x :: rest, ¬ key y ≤ t := by
        intro y hy
        rcases List.mem_cons.mp hy with c | c
        · rw [c]; exact hx
        · have := (List.pairwise_cons.mp hpw).1 y c
          omega
      rw [List.takeWhile_cons_of_neg (by simpa using hx),
        List.dropWhile_cons_of_neg (by simpa using hx)]
      constructor
      · symm
        rw [List.filter_eq_nil_iff]
        intro y hy
        simpa using hall y hy
      · symm
        rw [List.filter_eq_self]
        intro y hy
        simpa using hall y hy

theorem timerDue_sorted {k : Kernel} {ts : List Ptr} (h : SortedBy (wakeKey k.mem) ts) :
    ts.takeWhile (timerDue k) = ts.filter (timerDue k) ∧
    ts.dropWhile (timerDue k) = ts.filter (fun x => !timerDue k x) :=
  takeWhile_sorted k.osTicks ts h

theorem deadlineDue_sorted {k : Kernel} {ws : List Ptr} (h : SortedBy (deadlineKey k.mem) ws) :
    ws.takeWhile (deadlineDue k) = ws.filter (deadlineDue k) ∧
    ws.dropWhile (deadlineDue k) = ws.filter (fun x => !deadlineDue k x) :=
  takeWhile_sorted k.osTicks ws h

/-! ### The first pass of `wait` -/

theorem IsList.wTCnt {m : Mem} {l : OSList_t} {xs : List Ptr} (h : IsList m l xs)
    (c : Ptr) (v : Nat) : IsList (m.wTCnt c v) l xs :=
  h.frame (fun x _ => by rw [wTCnt_objs]; split <;> simp_all)

theorem wTCnt_deadlineKey (m : Mem) (c : Ptr) (v : Nat) (p : Ptr) :
    deadlineKey (m.wTCnt c v) p = deadlineKey m p := by
  unfold deadlineKey
  rw [wTCnt_objs]
  split <;> simp_all [Mem.wTCnt]

theorem wTCnt_hasTask (m : Mem) (c : Ptr) (v : Nat) (p : Ptr) :
    HasTask (m.wTCnt c v) p ↔ HasTask m p := by
  unfold HasTask
  rw [wTCnt_objs]
  split <;> simp_all

theorem wTCnt_wakeKey (m : Mem) (c : Ptr) (v : Nat) (p : Ptr) :
    wakeKey (m.wTCnt c v) p = if p = c then v else wakeKey m p := by
  unfold wakeKey
  rw [wTCnt_objs]
  split <;> simp_all

theorem wait_pre (fuel : Nat) (k : Kernel) (n : Nat) (rs ws ts : List Ptr)
    (hL : Lists k rs ws ts) (hrun : k.runningListobj ∈ rs) (hn : n ≠ 0)
    (hfr : rs.length ≤ fuel) :
    ∃ k1 a b, wait fuel k n = (schedulingUpdate fuel k1).bind
        (fun k' => some (Outcome.switched, LoadContext k')) ∧
      ts = a ++ b ∧ Lists k1 (rs.erase k.runningListobj) ws (a ++ k.runningListobj :: b) ∧
      wakeKey k1.mem k.runningListobj = (k.osTicks + n) % UINT_MOD ∧
      (∀ p, p ≠ k.runningListobj → wakeKey k1.mem p = wakeKey k.mem p) ∧
      (∀ p, deadlineKey k1.mem p = deadlineKey k.mem p) ∧
      (∀ t ∈ a.getLast?, wakeKey k.mem t ≤ (k.osTicks + n) % UINT_MOD) ∧
      (∀ x ∈ b.head?, (k.osTicks + n) % UINT_MOD < wakeKey k.mem x) ∧
      k1.mem.tcbs = k.mem.tcbs ∧ k1.osTicks = k.osTicks ∧ k1.opMode = k.opMode ∧
      k1.alloc = k.alloc := by
  obtain ⟨hr, hw, htl, hnd, hts⟩ := hL
  obtain ⟨tl, htl1, htl2⟩ := OnList.some_iff.mp htl
  obtain ⟨rl, hrl1, hrl2⟩ := OnList.some_iff.mp hr
  obtain ⟨wl, hwl1, hwl2⟩ := OnList.some_iff.mp hw
  generalize hc : k.runningListobj = c at *
  have hcne : c ≠ NULL := hrl2.ne_null hrun
  have hnd' := List.nodup_append.mp hnd
  have hnd'' := List.nodup_append.mp hnd'.1
  have hcts : c ∉ ts := fun h =>
    List.disjoint_left.mp hnd'.2.2 (List.mem_append_left _ hrun) h
  have hcws : c ∉ ws := fun h => List.disjoint_left.mp hnd''.2.2 hrun h
  obtain ⟨m1, rl1, hrem, hrl3, hdet, _, hf1⟩ := remove_core fuel c hrl2 hfr
  have hdet1 := (hdet hrun).1
  have htl3 : IsList m1 tl ts := htl2.of_linkFrame hf1 (fun x hx hx2 =>
    List.disjoint_left.mp hnd'.2.2 (List.mem_append_left _ hx2) hx)
  have hwl3 : IsList m1 wl ws := hwl2.of_linkFrame hf1 (fun x hx hx2 =>
    List.disjoint_left.mp hnd''.2.2 hx2 hx)
  obtain ⟨m2, tl2, a, b, hins, hab, htl4, ha, hb, hf2⟩ :=
    timerInsert_core k.osTicks htl3 hcne hcts hdet1 hn
  have hcer : c ∉ rs.erase c := fun h => by
    have := (List.Nodup.mem_erase_iff hnd''.1).mp h
    exact this.1 rfl
  refine ⟨{ k with isrOnState := false, mem := m2, readyList := some rl1, timerList := some tl2 },
    a, b, ?_, hab, ⟨?_, ?_, htl4, ?_, ?_⟩, ?_, ?_, ?_, ?_, ?_, ?_, rfl, rfl, rfl⟩
  · simp [wait, hn, isr_off, hc, hrl1, hrem, htl1, ticks, hins]
  · refine (hrl3.wTCnt c _).of_linkFrame hf2 ?_
    intro x hx hx2
    rcases List.mem_cons.mp hx2 with e | e
    · exact hcer (e ▸ hx)
    · exact List.disjoint_left.mp hnd'.2.2 (List.mem_append_left _ (List.mem_of_mem_erase hx)) e
  · show OnList m2 k.waitingList ws
    rw [hwl1]
    refine (hwl3.wTCnt c _).of_linkFrame hf2 ?_
    intro x hx hx2
    rcases List.mem_cons.mp hx2 with e | e
    · exact hcws (e ▸ hx)
    · exact List.disjoint_left.mp hnd'.2.2 (List.mem_append_right _ hx) e
  · have hperm : (rs.erase c ++ ws ++ (a ++ c :: b)).Perm (rs ++ ws ++ ts) := by
      rw [hab]
      have h1 : (a ++ c :: b).Perm (c :: (a ++ b)) := List.perm_middle
      have h2 : rs.Perm (c :: rs.erase c) := List.perm_cons_erase hrun
      refine (List.Perm.append_left _ h1).trans ?_
      refine List.Perm.trans ?_ (List.Perm.append_right _ (List.Perm.append_right _ h2.symm))
      have h3 := @List.perm_middle _ c (rs.erase c ++ ws) (a ++ b)
      simpa only [List.append_assoc, List.cons_append] using h3
    exact hperm.nodup_iff.mpr hnd
  · intro y hy
    show HasTask m2 y
    rw [hf2.hasTask_iff, wTCnt_hasTask, hf1.hasTask_iff]
    refine hts y ?_
    rw [hab]
    simp only [List.mem_append, List.mem_cons] at hy ⊢
    rcases hy with (e | e) | e | e | e
    · exact Or.inl (Or.inl (List.mem_of_mem_erase e))
    · exact Or.inl (Or.inr e)
    · exact Or.inr (Or.inl e)
    · exact Or.inl (Or.inl (e ▸ hrun))
    · exact Or.inr (Or.inr e)
  · show wakeKey m2 c = _
    rw [hf2.wakeKey_eq, wTCnt_wakeKey, if_pos rfl]
  · intro p hp
    show wakeKey m2 p = _
    rw [hf2.wakeKey_eq, wTCnt_wakeKey, if_neg hp, hf1.wakeKey_eq]
  · intro p
    show deadlineKey m2 p = _
    rw [hf2.deadlineKey_eq, wTCnt_deadlineKey, hf1.deadlineKey_eq]
  · intro t ht; rw [← hf1.wakeKey_eq]; exact ha t ht
  · intro x hx; rw [← hf1.wakeKey_eq]; exact hb x hx
  · show m2.tcbs = _
    rw [hf2.1]
    show m1.tcbs = _
    exact hf1.1

/-! ### Task creation -/

theorem upd_upd {α : Type} (f : Ptr → α) (p : Ptr) (v w : α) :
    upd (upd f p v) p w = upd f p w := by
  funext q
  simp only [upd]
  split <;> rfl

theorem initTask_ok (m : Mem) {e : Ptr} (body : Ptr) (d : Nat) (he : e ≠ NULL)
    (ht : (m.objs e).pTask ≠ NULL) :
    initTask m e body d =
      some { m with tcbs := upd m.tcbs (m.objs e).pTask ⟨body, STACK_SIZE - 1, d⟩ } := by
  simp [initTask, Mem.obj, he, Mem.setTcb, ht, upd_upd]

theorem createListobj_ok (m : Mem) (a : Alloc) (h : (OSList_createListobj m a).1 ≠ NULL) :
    ∃ e t a', OSList_createListobj m a =
        (e, { m with objs := upd m.objs e ⟨t, 0, NULL, NULL, NULL⟩,
                     tcbs := upd m.tcbs t ⟨NULL, 0, 0⟩ }, a') ∧
      e ≠ NULL ∧ t ≠ NULL ∧ (OS_calloc a).1 = e ∧ OS_calloc (OS_calloc a).2 = (t, a') := by
  unfold OSList_createListobj at h ⊢
  rcases h1 : OS_calloc a with ⟨e, a1⟩
  rcases h2 : OS_calloc a1 with ⟨t, a2⟩
  simp only [h1, h2] at h ⊢
  by_cases he : e = NULL
  · simp [he] at h
  · simp only [he, if_false] at h ⊢
    by_cases ht : t = NULL
    · simp [ht] at h
    · simp only [ht, if_false]
      refine ⟨e, t, a2, ?_, he, ht, rfl, rfl⟩
      simp [upd_upd]

theorem newTask_spec (m : Mem) (a : Alloc) (body : Ptr) (d : Nat)
    (h : (OSList_createListobj m a).1 ≠ NULL) :
    ∃ e t m1 a' m2, OSList_createListobj m a = (e, m1, a') ∧
      initTask m1 e body d = some m2 ∧ e ≠ NULL ∧ t ≠ NULL ∧
      (OS_calloc a).1 = e ∧ OS_calloc (OS_calloc a).2 = (t, a') ∧
      m2.objs e = ⟨t, 0, NULL, NULL, NULL⟩ ∧ (∀ q, q ≠ e → m2.objs q = m.objs q) ∧
      m2.tcbs t = ⟨body, STACK_SIZE - 1, d⟩ ∧ (∀ q, q ≠ t → m2.tcbs q = m.tcbs q) ∧
      m2.msgs = m.msgs ∧ m2.mboxes = m.mboxes ∧ m2.bytes = m.bytes := by
  obtain ⟨e, t, a', h1, he, ht, h2, h3⟩ := createListobj_ok m a h
  refine ⟨e, t, _, a', _, h1, initTask_ok _ body d he (by simpa using ht), he, ht, h2, h3,
    ?_, ?_, ?_, ?_, rfl, rfl, rfl⟩
  · simp
  · intro q hq; simp [hq]
  · simp [upd_upd]
  · intro q hq; simp [upd_upd, hq]

theorem newTask_insert {m : Mem} {a : Alloc} {rl wl tl : OSList_t} {rs ws ts : List Ptr}
    (body : Ptr) (d : Nat)
    (hr : IsList m rl rs) (hw : IsList m wl ws) (htl : IsList m tl ts)
    (hnd : (rs ++ ws ++ ts).Nodup) (hts : ∀ p ∈ rs ++ ws ++ ts, HasTask m p)
    (hne : (OSList_createListobj m a).1 ≠ NULL)
    (hfe : (OS_calloc a).1 ∉ rs ++ ws ++ ts) :
    ∃ e t m1 a' m2 m3 rl' x y,
      e = (OS_calloc a).1 ∧ OS_calloc (OS_calloc a).2 = (t, a') ∧
      OSList_createListobj m a = (e, m1, a') ∧ initTask m1 e body d = some m2 ∧
      OSList_deadlineInsert m2 (some rl) e = some (true, m3, some rl') ∧ rs = x ++ y ∧
      IsList m3 rl' (x ++ e :: y) ∧ IsList m3 wl ws ∧ IsList m3 tl ts ∧
      (x ++ e :: y ++ ws ++ ts).Nodup ∧ (∀ p ∈ x ++ e :: y ++ ws ++ ts, HasTask m3 p) ∧
      e ≠ NULL ∧ t ≠ NULL ∧
      (m3.objs e).pTask = t ∧ m3.tcbs t = ⟨body, STACK_SIZE - 1, d⟩ ∧
      (∀ q, q ≠ t → m3.tcbs q = m.tcbs q) ∧
      (∀ q, q ≠ e → (m3.objs q).pTask = (m.objs q).pTask ∧
        (m3.objs q).nTCnt = (m.objs q).nTCnt) ∧
      ((∀ p ∈ rs, (m.objs p).pTask ≠ t) → SortedBy (deadlineKey m) rs →
        SortedBy (deadlineKey m3) (x ++ e :: y) ∧ (∀ p ∈ x, deadlineKey m3 p ≤ d) ∧
        (∀ p ∈ y, d < deadlineKey m3 p)) ∧
      rl'.size = rl.size + 1 := by
  obtain ⟨e, t, m1, a', m2, g1, g2, he, ht, ee, et, o1, o2, t1, t2, _⟩ :=
    newTask_spec m a body d hne
  rw [ee] at hfe
  have hers : e ∉ rs := fun h => hfe (by simp [h])
  have hews : e ∉ ws := fun h => hfe (by simp [h])
  have hets : e ∉ ts := fun h => hfe (by simp [h])
  have fr : ∀ {l : OSList_t} {xs : List Ptr}, IsList m l xs → e ∉ xs → IsList m2 l xs := by
    intro l xs h hx
    refine h.frame (fun q hq => ?_)
    rw [o2 q (fun c => hx (c ▸ hq))]
    exact ⟨rfl, rfl⟩
  have hT2 : ∀ p ∈ rs ++ ws ++ ts, HasTask m2 p := by
    intro p hp
    show (m2.objs p).pTask ≠ NULL
    rw [o2 p (fun c => hfe (c ▸ hp))]
    exact hts p hp
  have hTe : HasTask m2 e := by
    show (m2.objs e).pTask ≠ NULL
    rw [o1]; exact ht
  have hdet : Detached m2 e := by
    unfold Detached; rw [o1]; exact ⟨rfl, rfl⟩
  obtain ⟨m3, rl', x, y, hi, hxy, hr3, hx, hy, hf⟩ :=
    deadlineInsert_core (fr hr hers) (fun p hp => hT2 p (by simp [hp])) he hTe hers hdet
  have hnd' := List.nodup_append.mp hnd
  have hnd'' := List.nodup_append.mp hnd'.1
  have key2 : ∀ p, (m.objs p).pTask ≠ t → p ≠ e → deadlineKey m2 p = deadlineKey m p := by
    intro p hp hpe
    unfold deadlineKey
    rw [o2 p hpe, t2 _ hp]
  have ke : deadlineKey m2 e = d := by
    unfold deadlineKey
    rw [o1, t1]
  refine ⟨e, t, m1, a', m2, m3, rl', x, y, ee.symm, et, g1, g2, hi, hxy, hr3, ?_, ?_, ?_, ?_,
    he, ht, ?_, ?_, ?_, ?_, ?_, ?_⟩
  · refine (fr hw hews).of_linkFrame hf ?_
    intro q hq hq2
    rcases List.mem_cons.mp hq2 with c | c
    · exact hews (c ▸ hq)
    · exact List.disjoint_left.mp hnd''.2.2 c hq
  · refine (fr htl hets).of_linkFrame hf ?_
    intro q hq hq2
    rcases List.mem_cons.mp hq2 with c | c
    · exact hets (c ▸ hq)
    · exact List.disjoint_left.mp hnd'.2.2 (List.mem_append_left _ c) hq
  · have hperm : (x ++ e :: y ++ ws ++ ts).Perm (e :: (rs ++ ws ++ ts)) := by
      rw [hxy]
      have h3 := @List.perm_middle _ e x (y ++ ws ++ ts)
      simpa only [List.append_assoc, List.cons_append] using h3
    exact hperm.nodup_iff.mpr (List.nodup_cons.mpr ⟨hfe, hnd⟩)
  · intro p hp
    rw [hf.hasTask_iff]
    have hp' : p = e ∨ p ∈ rs ++ ws ++ ts := by
      rw [hxy]
      simp only [List.mem_append, List.mem_cons] at hp ⊢
      tauto
    rcases hp' with c | c
    · rw [c]; exact hTe
    · exact hT2 p c
  · rw [(hf.2.2.2.2 e).1, o1]
  · rw [hf.1, t1]
  · intro q hq; rw [hf.1, t2 q hq]
  · intro q hq
    rw [(hf.2.2.2.2 q).1, (hf.2.2.2.2 q).2.1, o2 q hq]
    exact ⟨rfl, rfl⟩
  · intro hft hs
    have hkrs : ∀ p ∈ x ++ y, deadlineKey m2 p = deadlineKey m p := by
      intro p hp
      rw [← hxy] at hp
      exact key2 p (hft p hp) (fun c => hers (c ▸ hp))
    have hs2 : SortedBy (deadlineKey m2) (x ++ y) := by
      rw [hxy] at hs
      refine SortedBy.of_pairwise ?_
      refine hs.pairwise.imp_of_mem ?_
      intro p q hp hq hpq
      rw [hkrs p hp, hkrs q hq]; exact hpq
    obtain ⟨pa, pb⟩ := sorted_place hs2 hx hy
    have k3 : ∀ q, deadlineKey m3 q = deadlineKey m2 q := hf.deadlineKey_eq
    refine ⟨sorted_insert hs2 (fun q _ => k3 q) ?_ ?_, ?_, ?_⟩
    · intro q hq; rw [k3, k3]; exact pa q hq
    · intro q hq; rw [k3, k3]; exact pb q hq
    · intro q hq; rw [k3, ← ke]; exact pa q hq
    · intro q hq; rw [k3, ← ke]; exact pb q hq
  · rw [hr3.1, hr.1, hxy]
    simp
    omega

/-! ### Further facts used by the claims -/

theorem SortedBy.sublist {key : Ptr → Nat} {xs ys : List Ptr} (h : SortedBy key ys)
    (hs : xs.Sublist ys) : SortedBy key xs :=
  SortedBy.of_pairwise (h.pairwise.sublist hs)

theorem wait_switches {fuel : Nat} {k : Kernel} {n : Nat} {r : Outcome × Kernel}
    (hn : n ≠ 0) (h : wait fuel k n = some r) : r.1 = Outcome.switched := by
  unfold wait at h
  simp only [hn, if_false, Option.bind_eq_bind] at h
  obtain ⟨x1, h⟩ := bind_elim h
  obtain ⟨x2, h⟩ := bind_elim h
  obtain ⟨x3, h⟩ := bind_elim h
  simp only [Option.some.injEq] at h
  rw [← h]

theorem run_unmet (k : Kernel)
    (h : k.opMode ≠ INIT ∨ k.readyList = none ∨ k.waitingList = none ∨ k.timerList = none ∨
      (∃ rl, k.readyList = some rl ∧ rl.size = 0)) :
    run k = some (Outcome.done, isr_off k) := by
  unfold run
  cases hr : k.readyList with
  | none => simp [isr_off, hr]
  | some rl =>
    simp only [isr_off, hr]
    rw [if_pos]
    rcases h with h | h | h | h | ⟨rl', h1, h2⟩
    · exact Or.inl h
    · rw [hr] at h; cases h
    · exact Or.inr (Or.inl (by simp [h]))
    · exact Or.inr (Or.inr (Or.inl (by simp [h])))
    · rw [hr] at h1; cases h1; exact Or.inr (Or.inr (Or.inr h2))

theorem SortedBy.congr_mem {key key' : Ptr → Nat} {xs : List Ptr} (h : SortedBy key xs)
    (hk : ∀ q ∈ xs, key' q = key q) : SortedBy key' xs := by
  refine SortedBy.of_pairwise (h.pairwise.imp_of_mem ?_)
  intro p q hp hq hpq
  rw [hk p hp, hk q hq]; exact hpq

theorem createListobj_ne_null_iff (m : Mem) (a : Alloc) :
    (OSList_createListobj m a).1 ≠ NULL ↔
      (OS_calloc a).1 ≠ NULL ∧ (OS_calloc (OS_calloc a).2).1 ≠ NULL := by
  unfold OSList_createListobj
  rcases h1 : OS_calloc a with ⟨e, a1⟩
  rcases h2 : OS_calloc a1 with ⟨t, a2⟩
  simp only [h1, h2]
  by_cases he : e = NULL
  · simp [he]
  · by_cases ht : t = NULL
    · simp [he, ht]
    · simp [he, ht]

theorem OSList_create_isNone (a : Alloc) :
    ((OSList_create a).1.isNone = true ↔ (OS_calloc a).1 = NULL) ∧
      (OSList_create a).2.2 = (OS_calloc a).2 := by
  unfold OSList_create
  obtain ⟨p, a1, h⟩ : ∃ p a1, OS_calloc a = (p, a1) := ⟨_, _, rfl⟩
  rw [h]
  by_cases hp : p = NULL <;> simp [hp]

/-! ### Mailbox queues -/

/-! ### Message queues -/

theorem setMsg_of_ne (m : Mem) {p : Ptr} (f : msg → msg) (h : p ≠ NULL) :
    m.setMsg p f = some (m.wMsg p (f (m.msgs p))) := by
  simp [Mem.setMsg, Mem.wMsg, h]

theorem getMsg_of_ne (m : Mem) {p : Ptr} (h : p ≠ NULL) : m.getMsg p = some (m.msgs p) := by
  simp [Mem.getMsg, h]

theorem getMbox_of_ne (m : Mem) {p : Ptr} (h : p ≠ NULL) : m.getMbox p = some (m.mboxes p) := by
  simp [Mem.getMbox, h]

theorem wMsg_msgs (m : Mem) (p : Ptr) (v : msg) (q : Ptr) :
    (m.wMsg p v).msgs q = if q = p then v else m.msgs q := by
  simp [Mem.wMsg, upd]

theorem mseg_congr {m m' : Mem} : ∀ {xs : List Ptr} {pv nx : Ptr},
    (∀ x ∈ xs, (m'.msgs x).pPrevious = (m.msgs x).pPrevious ∧
      (m'.msgs x).pNext = (m.msgs x).pNext) →
    mseg m pv xs nx → mseg m' pv xs nx
  | [], _, _, _, _ => trivial
  | x :: rest, pv, nx, h, hs => by
    obtain ⟨h1, h2, h3⟩ := hs
    have hx := h x (List.mem_cons_self _ _)
    refine ⟨hx.1.trans h1, hx.2.trans h2, ?_⟩
    exact mseg_congr (fun y hy => h y (List.mem_cons_of_mem _ hy)) h3

theorem mseg_append {m : Mem} : ∀ {a b : List Ptr} {pv nx : Ptr},
    mseg m pv (a ++ b) nx ↔ mseg m pv a (b.headD nx) ∧ mseg m (a.getLastD pv) b nx
  | [], b, pv, nx => by simp [mseg]
  | x :: rest, b, pv, nx => by
    have ih := @mseg_append m rest b x nx
    cases rest with
    | nil => simp only [List.nil_append, List.singleton_append, mseg, List.headD_nil,
        List.getLastD_cons, List.getLastD_nil]; tauto
    | cons y r =>
      simp only [List.cons_append, mseg, List.headD_cons, List.getLastD_cons] at ih ⊢
      rw [ih]
      tauto

theorem mseg_set_last {m m' : Mem} {a : List Ptr} {x pv nx v : Ptr}
    (h : mseg m pv (a ++ [x]) nx)
    (ha : ∀ y ∈ a, (m'.msgs y).pPrevious = (m.msgs y).pPrevious ∧
      (m'.msgs y).pNext = (m.msgs y).pNext)
    (hp : (m'.msgs x).pPrevious = (m.msgs x).pPrevious) (hv : (m'.msgs x).pNext = v) :
    mseg m' pv (a ++ [x]) v := by
  rw [mseg_append] at h ⊢
  refine ⟨mseg_congr ha h.1, ?_⟩
  have h2 := h.2
  simp only [mseg, List.headD_nil, and_true] at h2 ⊢
  exact ⟨hp.trans h2.1, hv⟩

theorem mseg_set_head {m m' : Mem} {b : List Ptr} {x pv nx v : Ptr}
    (h : mseg m pv (x :: b) nx)
    (hb : ∀ y ∈ b, (m'.msgs y).pPrevious = (m.msgs y).pPrevious ∧
      (m'.msgs y).pNext = (m.msgs y).pNext)
    (hn : (m'.msgs x).pNext = (m.msgs x).pNext) (hv : (m'.msgs x).pPrevious = v) :
    mseg m' v (x :: b) nx := by
  obtain ⟨_, h2, h3⟩ := h
  exact ⟨hv, hn.trans h2, mseg_congr hb h3⟩

/-- The links of a record inside a segment. -/
theorem mseg_mid {m : Mem} {A B : List Ptr} {p x n pv nx : Ptr}
    (h : mseg m pv (A ++ p :: x :: n :: B) nx) :
    (m.msgs x).pPrevious = p ∧ (m.msgs x).pNext = n ∧ (m.msgs p).pNext = x ∧
      (m.msgs n).pPrevious = x := by
  rw [mseg_append] at h
  obtain ⟨_, h2⟩ := h
  simp only [mseg, List.headD_cons] at h2
  exact ⟨h2.2.2.1, h2.2.2.2.1, h2.2.1, h2.2.2.2.2.1⟩

theorem mseg_unlink {m m' : Mem} {A B : List Ptr} {p x n : Ptr}
    (hs : mseg m NULL (A ++ p :: x :: n :: B) NULL) (hnd : (A ++ p :: x :: n :: B).Nodup)
    (hp : (m'.msgs p).pNext = n ∧ (m'.msgs p).pPrevious = (m.msgs p).pPrevious)
    (hn : (m'.msgs n).pPrevious = p ∧ (m'.msgs n).pNext = (m.msgs n).pNext)
    (ho : ∀ y, y ≠ p → y ≠ n → y ≠ x → (m'.msgs y).pPrevious = (m.msgs y).pPrevious ∧
      (m'.msgs y).pNext = (m.msgs y).pNext) :
    mseg m' NULL (A ++ p :: n :: B) NULL := by
  have e1 : A ++ p :: x :: n :: B = (A ++ [p]) ++ (x :: n :: B) := by simp
  have e2 : A ++ p :: n :: B = (A ++ [p]) ++ (n :: B) := by simp
  rw [e1] at hs hnd
  obtain ⟨n1, n2, n3⟩ := List.nodup_append.mp hnd
  obtain ⟨s1, s2⟩ := mseg_append.mp hs
  rw [getLastD_append_singleton] at s2
  have hpA : p ∉ A := fun c =>
    (List.nodup_append.mp n1).2.2 c (List.mem_singleton_self _)
  rw [e2, mseg_append, getLastD_append_singleton]
  constructor
  · refine mseg_set_last s1 ?_ hp.2 hp.1
    intro y hy
    refine ho y (fun c => hpA (c ▸ hy)) ?_ ?_
    · intro c; exact n3 (List.mem_append_left _ hy) (by simp [c])
    · intro c; exact n3 (List.mem_append_left _ hy) (by simp [c])
  · have s3 : mseg m x (n :: B) NULL := s2.2.2
    have n4 := List.nodup_cons.mp n2
    have n5 := List.nodup_cons.mp n4.2
    refine mseg_set_head s3 ?_ hn.2 hn.1
    intro y hy
    refine ho y ?_ (fun c => n5.1 (c ▸ hy)) ?_
    · intro c; exact n3 (a := p) (by simp) (by simp [← c, hy])
    · intro c; exact n4.1 (by simp [← c, hy])

theorem unlinkMsg_eq (m : Mem) {p x n : Ptr} (hx : x ≠ NULL) (hp : p ≠ NULL) (hn : n ≠ NULL)
    (hxn : x ≠ n) (hprev : (m.msgs x).pPrevious = p) (hnext : (m.msgs x).pNext = n) :
    ∃ m', unlinkMsg m x = some m' ∧
      m'.objs = m.objs ∧ m'.tcbs = m.tcbs ∧ m'.mboxes = m.mboxes ∧ m'.bytes = m.bytes ∧
      (∀ y, (m'.msgs y).pData = (m.msgs y).pData ∧ (m'.msgs y).Status = (m.msgs y).Status ∧
        (m'.msgs y).pBlock = (m.msgs y).pBlock) ∧
      (p ≠ n → p ≠ x → (m'.msgs p).pNext = n ∧ (m'.msgs p).pPrevious = (m.msgs p).pPrevious) ∧
      (p ≠ n → (m'.msgs n).pPrevious = p ∧ (m'.msgs n).pNext = (m.msgs n).pNext) ∧
      (m'.msgs x).pNext = NULL ∧ (m'.msgs x).pPrevious = NULL ∧
      (∀ y, y ≠ p → y ≠ n → y ≠ x → m'.msgs y = m.msgs y) := by
  obtain ⟨m1, h1⟩ : ∃ m1, m1 = m.wMsg n { m.msgs n with pPrevious := p } := ⟨_, rfl⟩
  obtain ⟨m2, h2⟩ : ∃ m2, m2 = m1.wMsg p { m1.msgs p with pNext := n } := ⟨_, rfl⟩
  obtain ⟨m3, h3⟩ : ∃ m3, m3 = m2.wMsg x { m2.msgs x with pNext := NULL } := ⟨_, rfl⟩
  obtain ⟨m4, h4⟩ : ∃ m4, m4 = m3.wMsg x { m3.msgs x with pPrevious := NULL } := ⟨_, rfl⟩
  have e1 : m1.msgs x = m.msgs x := by rw [h1, wMsg_msgs, if_neg hxn]
  refine ⟨m4, ?_, ?_⟩
  · simp only [unlinkMsg, getMsg_of_ne _ hx, Option.bind_eq_bind, Option.some_bind, hprev, hnext,
      setMsg_of_ne _ _ hn, ← h1, e1, setMsg_of_ne _ _ hp, ← h2, setMsg_of_ne _ _ hx, ← h3, ← h4]
  · subst h4 h3 h2 h1
    refine ⟨rfl, rfl, rfl, rfl, ?_, ?_, ?_, ?_, ?_, ?_⟩
    · intro y
      simp only [wMsg_msgs]
      by_cases h1 : y = x <;> by_cases h2 : y = p <;> by_cases h3 : y = n <;>
        simp_all
    · intro hpn hpx
      simp [wMsg_msgs, hpn, hpx]
    · intro hpn
      simp [wMsg_msgs, hpn, Ne.symm hpn, Ne.symm hxn]
    · simp [wMsg_msgs]
    · simp [wMsg_msgs]
    · intro y h1 h2 h3
      simp [wMsg_msgs, h1, h2, h3]

theorem mseg_insert {m m' : Mem} {A : List Ptr} {p e tl : Ptr}
    (hs : mseg m NULL (A ++ [p, tl]) NULL) (hnd : (A ++ [p, tl]).Nodup)
    (hfresh : e ∉ A ++ [p, tl])
    (hp : (m'.msgs p).pNext = e ∧ (m'.msgs p).pPrevious = (m.msgs p).pPrevious)
    (he : (m'.msgs e).pPrevious = p ∧ (m'.msgs e).pNext = tl)
    (ht : (m'.msgs tl).pPrevious = e ∧ (m'.msgs tl).pNext = (m.msgs tl).pNext)
    (ho : ∀ y, y ≠ p → y ≠ e → y ≠ tl → (m'.msgs y).pPrevious = (m.msgs y).pPrevious ∧
      (m'.msgs y).pNext = (m.msgs y).pNext) :
    mseg m' NULL (A ++ [p, e, tl]) NULL := by
  have e1 : A ++ [p, tl] = (A ++ [p]) ++ [tl] := by simp
  have e2 : A ++ [p, e, tl] = (A ++ [p]) ++ [e, tl] := by simp
  rw [e1] at hs hnd hfresh
  obtain ⟨n1, _, n3⟩ := List.nodup_append.mp hnd
  obtain ⟨s1, s2⟩ := mseg_append.mp hs
  rw [getLastD_append_singleton] at s2
  have hpA : p ∉ A := fun c =>
    (List.nodup_append.mp n1).2.2 c (List.mem_singleton_self _)
  have hptl : p ≠ tl := fun c => n3 (a := p) (by simp) (by simp [c])
  have hetl : e ≠ tl := fun c => hfresh (by simp [c])
  rw [e2, mseg_append, getLastD_append_singleton]
  constructor
  · refine mseg_set_last s1 ?_ hp.2 hp.1
    intro y hy
    refine ho y (fun c => hpA (c ▸ hy)) ?_ ?_
    · intro c; exact hfresh (by simp [← c, hy])
    · intro c; exact n3 (List.mem_append_left _ hy) (by simp [c])
  · simp only [mseg, List.headD_cons, List.headD_nil, and_true] at s2 ⊢
    exact ⟨he.1, he.2, ht.1, ht.2.trans s2.2⟩

theorem chain_split (hd tl : Ptr) (qa qb : List Ptr) (x : Ptr) :
    ∃ A p n B, A ++ [p] = hd :: qa ∧ n :: B = qb ++ [tl] ∧
      hd :: ((qa ++ x :: qb) ++ [tl]) = A ++ p :: x :: n :: B ∧
      hd :: ((qa ++ qb) ++ [tl]) = A ++ p :: n :: B := by
  obtain ⟨A, p, hA⟩ : ∃ A p, hd :: qa = A ++ [p] :=
    ⟨(hd :: qa).dropLast, (hd :: qa).getLast (by simp),
      (List.dropLast_append_getLast (by simp)).symm⟩
  obtain ⟨n, B, hB⟩ : ∃ n B, qb ++ [tl] = n :: B := by
    cases qb with
    | nil => exact ⟨tl, [], rfl⟩
    | cons y r => exact ⟨y, r ++ [tl], rfl⟩
  refine ⟨A, p, n, B, hA.symm, hB.symm, ?_, ?_⟩
  · calc hd :: ((qa ++ x :: qb) ++ [tl]) = (hd :: qa) ++ x :: (qb ++ [tl]) := by simp
      _ = A ++ p :: x :: n :: B := by rw [hA, hB]; simp
  · calc hd :: ((qa ++ qb) ++ [tl]) = (hd :: qa) ++ (qb ++ [tl]) := by simp
      _ = A ++ p :: n :: B := by rw [hA, hB]; simp

theorem IsQueue.unlink {m : Mem} {mb : Ptr} {qa qb : List Ptr} {x : Ptr}
    (h : IsQueue m mb (qa ++ x :: qb)) :
    ∃ m', unlinkMsg m x = some m' ∧ IsQueue m' mb (qa ++ qb) ∧
      m'.objs = m.objs ∧ m'.tcbs = m.tcbs ∧ m'.mboxes = m.mboxes ∧ m'.bytes = m.bytes ∧
      (∀ y, (m'.msgs y).pData = (m.msgs y).pData ∧ (m'.msgs y).Status = (m.msgs y).Status ∧
        (m'.msgs y).pBlock = (m.msgs y).pBlock) ∧
      (m'.msgs x).pNext = NULL ∧ (m'.msgs x).pPrevious = NULL ∧
      (∀ y, y ∉ chain m mb (qa ++ x :: qb) → m'.msgs y = m.msgs y) := by
  obtain ⟨hmb, hs, hnn, hnd⟩ := h
  obtain ⟨A, p, n, B, hA, hB, e1, e2⟩ :=
    chain_split (m.mboxes mb).pHead (m.mboxes mb).pTail qa qb x
  unfold chain at hs hnn hnd
  rw [e1] at hs hnn hnd
  have hmid := mseg_mid hs
  have hx : x ≠ NULL := fun c => hnn (by simp [c])
  have hp : p ≠ NULL := fun c => hnn (by simp [c])
  have hn : n ≠ NULL := fun c => hnn (by simp [c])
  have n1 := (List.nodup_append.mp hnd).2.1
  have n2 := List.nodup_cons.mp n1
  have n3 := List.nodup_cons.mp n2.2
  have hpx : p ≠ x := fun c => n2.1 (by simp [c])
  have hpn : p ≠ n := fun c => n2.1 (by simp [c])
  have hxn : x ≠ n := fun c => n3.1 (by simp [c])
  obtain ⟨m', hu, o1, o2, o3, o4, o5, o6, o7, o8, o9, o10⟩ :=
    unlinkMsg_eq m hx hp hn hxn hmid.1 hmid.2.1
  refine ⟨m', hu, ⟨hmb, ?_, ?_, ?_⟩, o1, o2, o3, o4, o5, o8, o9, ?_⟩
  · unfold chain
    rw [o3, e2]
    refine mseg_unlink hs hnd (o6 hpn hpx) (o7 hpn) ?_
    intro y h1 h2 h3
    rw [o10 y h1 h2 h3]
    exact ⟨rfl, rfl⟩
  · unfold chain
    rw [o3, e2]
    intro c
    apply hnn
    simp only [List.mem_append, List.mem_cons] at c ⊢
    tauto
  · unfold chain
    rw [o3, e2]
    refine List.Nodup.sublist ?_ hnd
    exact List.Sublist.append (List.Sublist.refl _)
      (List.Sublist.cons₂ _ (List.sublist_cons_self _ _))
  · intro y hy
    unfold chain at hy
    rw [e1] at hy
    refine o10 y ?_ ?_ ?_ <;>
    · intro c; exact hy (by simp [c])

theorem enqueueBlocked_eq (fuel : Nat) (k : Kernel) (mb pData : Ptr) (delta : Int)
    (ha : (calloc k.alloc).1 ≠ NULL) :
    enqueueBlocked fuel k mb pData delta =
      ((linkRecord k.mem (calloc k.alloc).1 k.runningListobj mb pData delta).bind fun m1 =>
        (OSList_remove fuel m1 k.readyList k.runningListobj).bind fun r =>
          (OSList_deadlineInsert r.2.1 k.waitingList k.runningListobj).bind fun w =>
            some { k with mem := w.2.1, alloc := (calloc k.alloc).2, readyList := r.2.2,
                          waitingList := w.2.2 }) := by
  unfold enqueueBlocked linkRecord
  obtain ⟨e, a, hcal⟩ : ∃ e a, calloc k.alloc = (e, a) := ⟨_, _, rfl⟩
  rw [hcal] at ha ⊢
  simp only at ha
  simp only [ha, if_false, Option.bind_eq_bind, Option.bind_assoc]

theorem linkRecord_spec {m : Mem} {mb e c : Ptr} (pData : Ptr) (delta : Int) {qs : List Ptr}
    (hq : IsQueue m mb qs) (hc : c ≠ NULL) (he : e ≠ NULL) (hfresh : e ∉ chain m mb qs) :
    ∃ m1, linkRecord m e c mb pData delta = some m1 ∧
      IsQueue m1 mb (qs ++ [e]) ∧
      m1.tcbs = m.tcbs ∧ m1.bytes = m.bytes ∧
      (∀ p, (m1.objs p).pTask = (m.objs p).pTask ∧ (m1.objs p).nTCnt = (m.objs p).nTCnt ∧
        (m1.objs p).pPrevious = (m.objs p).pPrevious ∧
        (m1.objs p).pNext = (m.objs p).pNext) ∧
      (m1.objs c).pMessage = e ∧
      (∀ p, p ≠ c → m1.objs p = m.objs p) ∧
      (m1.mboxes mb).nBlockedMsg = (m.mboxes mb).nBlockedMsg + delta ∧
      (m1.mboxes mb).nMessages = (m.mboxes mb).nMessages ∧
      (m1.mboxes mb).nDataSize = (m.mboxes mb).nDataSize ∧
      (m1.mboxes mb).pHead = (m.mboxes mb).pHead ∧
      (m1.mboxes mb).pTail = (m.mboxes mb).pTail ∧
      (∀ b, b ≠ mb → m1.mboxes b = m.mboxes b) ∧
      (m1.msgs e).pData = pData ∧ (m1.msgs e).pBlock = c ∧
      (∀ y, y ≠ e → (m1.msgs y).pData = (m.msgs y).pData ∧
        (m1.msgs y).pBlock = (m.msgs y).pBlock ∧ (m1.msgs y).Status = (m.msgs y).Status) ∧
      (∀ y, y ∉ chain m mb qs → y ≠ e → m1.msgs y = m.msgs y) := by
  obtain ⟨hmb, hs, hnn, hnd⟩ := hq
  obtain ⟨A, p, hA⟩ : ∃ A p, (m.mboxes mb).pHead :: qs = A ++ [p] :=
    ⟨((m.mboxes mb).pHead :: qs).dropLast, ((m.mboxes mb).pHead :: qs).getLast (by simp),
      (List.dropLast_append_getLast (by simp)).symm⟩
  obtain ⟨tl, htl⟩ : ∃ tl, (m.mboxes mb).pTail = tl := ⟨_, rfl⟩
  have e1 : chain m mb qs = A ++ [p, tl] := by
    unfold chain
    rw [htl, ← List.cons_append, hA]; simp
  rw [e1] at hs hnn hnd hfresh
  have hp : p ≠ NULL := fun c => hnn (by simp [c])
  have htlne : tl ≠ NULL := fun c => hnn (by simp [c])
  have hep : e ≠ p := fun c => hfresh (by simp [c])
  have hetl : e ≠ tl := fun c => hfresh (by simp [c])
  have hptl : p ≠ tl := by
    intro c
    have := (List.nodup_append.mp hnd).2.1
    simp [c] at this
  have hlast : (m.msgs tl).pPrevious = p := by
    have := (mseg_append.mp hs).2
    simp only [mseg, List.headD_cons, List.headD_nil] at this
    exact this.2.2.1
  have hev : ∃ m1, linkRecord m e c mb pData delta = some m1 := by
    simp [linkRecord, Mem.setMsg, Mem.setMessage, Mem.getMbox, Mem.getMsg, Mem.setMbox, he, hc,
      hmb, htl, htlne, upd, Ne.symm hetl, hlast, hp]
  obtain ⟨m1, h1⟩ := hev
  have h2 := h1
  simp [linkRecord, Mem.setMsg, Mem.setMessage, Mem.getMbox, Mem.getMsg, Mem.setMbox, he, hc,
      hmb, htl, htlne, upd, Ne.symm hetl, hlast, hp, Ne.symm hep, hptl, Ne.symm hptl] at h2
  have hch : chain m1 mb (qs ++ [e]) = A ++ [p, e, tl] := by
    unfold chain
    rw [← h2]
    simp only [upd, if_true, htl]
    rw [← List.cons_append, ← List.cons_append, hA]
    simp
  refine ⟨m1, h1, ⟨hmb, ?_, ?_, ?_⟩, ?_⟩
  · rw [hch]
    refine mseg_insert hs hnd hfresh ?_ ?_ ?_ ?_
    · rw [← h2]; simp [upd, hptl, hep, Ne.symm hep]
    · rw [← h2]; simp [upd, hetl, hep]
    · rw [← h2]; simp [upd]
    · intro y y1 y2 y3
      rw [← h2]; simp [upd, y1, y2, y3]
  · rw [hch]
    intro c
    apply hnn
    simp only [List.mem_append, List.mem_cons, List.mem_singleton] at c ⊢
    rcases c with c | c | c | c
    · exact Or.inl c
    · exact Or.inr (Or.inl c)
    · exact absurd c.symm he
    · exact Or.inr (Or.inr c)
  · rw [hch]
    have e3 : A ++ [p, e, tl] = (A ++ [p]) ++ e :: [tl] := by simp
    have e4 : A ++ [p, tl] = (A ++ [p]) ++ [tl] := by simp
    rw [e3]
    rw [e4] at hnd hfresh
    obtain ⟨n1, n2, n3⟩ := List.nodup_append.mp hnd
    rw [List.nodup_append]
    refine ⟨n1, by simp [hetl], ?_⟩
    intro y hy hy2
    rcases List.mem_cons.mp hy2 with c | c
    · exact hfresh (List.mem_append_left _ (c ▸ hy))
    · exact n3 hy c
  · rw [← h2]
    refine ⟨rfl, rfl, ?_, ?_, ?_, ?_, ?_, ?_, ?_, ?_, ?_, ?_, ?_, ?_, ?_⟩
    · intro q
      by_cases hq : q = c <;> simp [upd, hq]
    · simp [upd]
    · intro q hq; simp [upd, hq]
    · simp [upd]
    · simp [upd]
    · simp [upd]
    · simp [upd]
    · simp [upd, htl]
    · intro b hb; simp [upd, hb]
    · simp [upd, hetl, hep]
    · simp [upd, hetl, hep]
    · intro y hy
      by_cases y1 : y = p <;> by_cases y2 : y = tl <;> simp [upd, hy, y1, y2, hptl]
    · intro y hy hye
      have y1 : y ≠ p := fun c => hy (by rw [e1]; simp [c])
      have y2 : y ≠ tl := fun c => hy (by rw [e1]; simp [c])
      simp [upd, hye, y1, y2]

theorem IsQueue.same_heap {m m' : Mem} {mb : Ptr} {qs : List Ptr} (h : IsQueue m mb qs)
    (hm : m'.msgs = m.msgs) (hb : m'.mboxes = m.mboxes) : IsQueue m' mb qs := by
  unfold IsQueue chain at h ⊢
  rw [hb]
  exact ⟨h.1, mseg_congr (fun x _ => by rw [hm]; exact ⟨rfl, rfl⟩) h.2.1, h.2.2⟩

theorem Enqueued.of_frame {m m1 m2 : Mem} {mb e c pData : Ptr} {delta : Int} {qs S : List Ptr}
    (h : Enqueued m m1 mb e c pData delta qs) (hf : LinkFrame m1 m2 S) :
    Enqueued m m2 mb e c pData delta qs := by
  obtain ⟨a1, a2, a3, a4, a5, a6, a7, a8, a9, a10, a11, a12, a13, a14, a15, a16⟩ := h
  obtain ⟨f1, f2, f3, f4, f5⟩ := hf
  refine ⟨a1.same_heap f2 f3, f1.trans a2, f4.trans a3, ?_, ?_, ?_, ?_, ?_, ?_, ?_, ?_, ?_, ?_, ?_, ?_,
    ?_⟩
  · intro p; exact ⟨(f5 p).1.trans (a4 p).1, (f5 p).2.1.trans (a4 p).2⟩
  · rw [(f5 c).2.2.1]; exact a5
  · intro p hp; rw [(f5 p).2.2.1]; exact a6 p hp
  · rw [f3]; exact a7
  · rw [f3]; exact a8
  · rw [f3]; exact a9
  · rw [f3]; exact a10
  · rw [f3]; exact a11
  · intro b hb; rw [f3]; exact a12 b hb
  · rw [f2]; exact a13
  · rw [f2]; exact a14
  · intro y hy; rw [f2]; exact a15 y hy
  · intro y hy hye; rw [f2]; exact a16 y hy hye

theorem linkRecord_enqueued {m : Mem} {mb e c : Ptr} (pData : Ptr) (delta : Int)
    {qs : List Ptr} (hq : IsQueue m mb qs) (hc : c ≠ NULL) (he : e ≠ NULL)
    (hfresh : e ∉ chain m mb qs) :
    ∃ m1, linkRecord m e c mb pData delta = some m1 ∧ Enqueued m m1 mb e c pData delta qs ∧
      (∀ p, (m1.objs p).pPrevious = (m.objs p).pPrevious ∧
        (m1.objs p).pNext = (m.objs p).pNext) := by
  obtain ⟨m1, h1, a1, a2, a3, a4, a5, a6, a7, a8, a9, a10, a11, a12, a13, a14, a15, a16⟩ :=
    linkRecord_spec pData delta hq hc he hfresh
  refine ⟨m1, h1, ⟨a1, a2, a3, fun p => ⟨(a4 p).1, (a4 p).2.1⟩, a5, ?_, a7, a8, a9, a10, a11,
    a12, a13, a14, a15, a16⟩, fun p => ⟨(a4 p).2.2.1, (a4 p).2.2.2⟩⟩
  intro p hp
  rw [a6 p hp]

theorem enqueueBlocked_spec (fuel : Nat) (k : Kernel) (mb pData : Ptr) (delta : Int)
    (rs ws ts qs : List Ptr) (hL : Lists k rs ws ts) (hrun : k.runningListobj ∈ rs)
    (hq : IsQueue k.mem mb qs) (ha : (calloc k.alloc).1 ≠ NULL)
    (hfresh : (calloc k.alloc).1 ∉ chain k.mem mb qs) (hf : rs.length ≤ fuel) :
    ∃ k1 a b, enqueueBlocked fuel k mb pData delta = some k1 ∧ ws = a ++ b ∧
      Lists k1 (rs.erase k.runningListobj) (a ++ k.runningListobj :: b) ts ∧
      (SortedBy (deadlineKey k.mem) ws →
        SortedBy (deadlineKey k1.mem) (a ++ k.runningListobj :: b)) ∧
      Enqueued k.mem k1.mem mb (calloc k.alloc).1 k.runningListobj pData delta qs ∧
      k1.alloc = (calloc k.alloc).2 ∧ k1.osTicks = k.osTicks ∧ k1.opMode = k.opMode ∧
      k1.isrOnState = k.isrOnState ∧ k1.Running = k.Running ∧
      k1.runningListobj = k.runningListobj ∧ k1.timerList = k.timerList := by
  obtain ⟨hr, hw, htl, hnd, hts⟩ := hL
  obtain ⟨tl, htl1, htl2⟩ := OnList.some_iff.mp htl
  obtain ⟨rl, hrl1, hrl2⟩ := OnList.some_iff.mp hr
  obtain ⟨wl, hwl1, hwl2⟩ := OnList.some_iff.mp hw
  have heq := enqueueBlocked_eq fuel k mb pData delta ha
  generalize hc : k.runningListobj = c at *
  generalize hev : (calloc k.alloc).1 = e at *
  have hcne : c ≠ NULL := hrl2.ne_null hrun
  have hnd' := List.nodup_append.mp hnd
  have hnd'' := List.nodup_append.mp hnd'.1
  have hcts : c ∉ ts := fun h =>
    List.disjoint_left.mp hnd'.2.2 (List.mem_append_left _ hrun) h
  have hcws : c ∉ ws := fun h => List.disjoint_left.mp hnd''.2.2 hrun h
  obtain ⟨m1, hlink, hE, hlinks⟩ := linkRecord_enqueued pData delta hq hcne ha hfresh
  have fr1 : ∀ {l : OSList_t} {xs : List Ptr}, IsList k.mem l xs → IsList m1 l xs :=
    fun h => h.frame (fun q _ => hlinks q)
  have hT1 : ∀ p ∈ rs ++ ws ++ ts, HasTask m1 p := by
    intro p hp
    show (m1.objs p).pTask ≠ NULL
    rw [(hE.2.2.2.1 p).1]
    exact hts p hp
  have hk1 : ∀ p, deadlineKey m1 p = deadlineKey k.mem p := by
    intro p
    unfold deadlineKey
    rw [(hE.2.2.2.1 p).1, hE.2.1]
  obtain ⟨m2, rl1, hrem, hrl3, hdet, _, hf1⟩ := remove_core fuel c (fr1 hrl2) hf
  have hdet1 := (hdet hrun).1
  have htl3 : IsList m2 tl ts := (fr1 htl2).of_linkFrame hf1 (fun x hx hx2 =>
    List.disjoint_left.mp hnd'.2.2 (List.mem_append_left _ hx2) hx)
  have hwl3 : IsList m2 wl ws := (fr1 hwl2).of_linkFrame hf1 (fun x hx hx2 =>
    List.disjoint_left.mp hnd''.2.2 hx2 hx)
  have hT2 : ∀ p ∈ rs ++ ws ++ ts, HasTask m2 p := fun p hp =>
    (hf1.hasTask_iff p).mpr (hT1 p hp)
  obtain ⟨m3, wl', a, b, hins, hab, hwl4, ha', hb', hf2⟩ :=
    deadlineInsert_core hwl3 (fun p hp => hT2 p (by simp [hp])) hcne
      (hT2 c (by simp [hrun])) hcws hdet1
  have hcer : c ∉ rs.erase c := fun h => ((List.Nodup.mem_erase_iff hnd''.1).mp h).1 rfl
  refine ⟨{ k with mem := m3, alloc := (calloc k.alloc).2, readyList := some rl1, waitingList := some wl' },
    a, b, ?_, hab, ⟨?_, hwl4, ?_, ?_, ?_⟩, ?_, (hE.of_frame hf1).of_frame hf2, rfl, rfl, rfl,
    rfl, rfl, hc, rfl⟩
  · rw [heq, hlink]
    simp [hrl1, hrem, hwl1, hins, hc]
  · refine hrl3.of_linkFrame hf2 ?_
    intro x hx hx2
    rcases List.mem_cons.mp hx2 with e | e
    · exact hcer (e ▸ hx)
    · exact List.disjoint_left.mp hnd''.2.2 (List.mem_of_mem_erase hx) e
  · show OnList m3 k.timerList ts
    rw [htl1]
    refine htl3.of_linkFrame hf2 ?_
    intro x hx hx2
    rcases List.mem_cons.mp hx2 with e | e
    · exact hcts (e ▸ hx)
    · exact List.disjoint_left.mp hnd'.2.2 (List.mem_append_right _ e) hx
  · have hperm : (rs.erase c ++ (a ++ c :: b) ++ ts).Perm (rs ++ ws ++ ts) := by
      rw [hab]
      refine List.Perm.append_right ts ?_
      have h2 : rs.Perm (c :: rs.erase c) := List.perm_cons_erase hrun
      refine List.Perm.trans ?_ (List.Perm.append_right _ h2.symm)
      have h3 := @List.perm_middle _ c (rs.erase c ++ a) b
      simpa only [List.append_assoc, List.cons_append] using h3
    exact hperm.nodup_iff.mpr hnd
  · intro y hy
    show HasTask m3 y
    rw [hf2.hasTask_iff]
    refine hT2 y ?_
    rw [hab]
    simp only [List.mem_append, List.mem_cons] at hy ⊢
    rcases hy with (e | e | e | e) | e
    · exact Or.inl (Or.inl (List.mem_of_mem_erase e))
    · exact Or.inl (Or.inr (Or.inl e))
    · exact Or.inl (Or.inl (e ▸ hrun))
    · exact Or.inl (Or.inr (Or.inr e))
    · exact Or.inr e
  · intro hsrt
    have hk2 : ∀ q, deadlineKey m2 q = deadlineKey k.mem q := fun q =>
      (hf1.deadlineKey_eq q).trans (hk1 q)
    have hk3 : ∀ q, deadlineKey m3 q = deadlineKey m2 q := hf2.deadlineKey_eq
    have hs2 : SortedBy (deadlineKey m2) (a ++ b) := hab ▸ hsrt.congr hk2
    obtain ⟨pa, pb⟩ := sorted_place hs2 ha' hb'
    refine sorted_insert hs2 (fun q _ => hk3 q) ?_ ?_
    · intro q hq; rw [hk3, hk3]; exact pa q hq
    · intro q hq; rw [hk3, hk3]; exact pb q hq

theorem IsQueue.neighbours {m : Mem} {mb : Ptr} {qa qb : List Ptr} {x : Ptr}
    (h : IsQueue m mb (qa ++ x :: qb)) :
    x ≠ NULL ∧ (m.msgs x).pPrevious ≠ NULL ∧ (m.msgs x).pNext ≠ NULL ∧
      (m.msgs x).pPrevious ≠ x ∧ (m.msgs x).pPrevious ≠ (m.msgs x).pNext ∧
      x ≠ (m.msgs x).pNext ∧ (m.msgs x).pPrevious ∈ chain m mb (qa ++ x :: qb) ∧
      (m.msgs x).pNext ∈ chain m mb (qa ++ x :: qb) ∧
      (m.msgs x).pPrevious = ((m.mboxes mb).pHead :: qa).getLastD NULL ∧
      (m.msgs x).pNext = (qb ++ [(m.mboxes mb).pTail]).headD NULL := by
  obtain ⟨hmb, hs, hnn, hnd⟩ := h
  obtain ⟨A, p, n, B, hA, hB, e1, e2⟩ :=
    chain_split (m.mboxes mb).pHead (m.mboxes mb).pTail qa qb x
  unfold chain at hs hnn hnd ⊢
  rw [e1] at hs hnn hnd ⊢
  have hmid := mseg_mid hs
  have n1 := (List.nodup_append.mp hnd).2.1
  have n2 := List.nodup_cons.mp n1
  have n3 := List.nodup_cons.mp n2.2
  rw [hmid.1, hmid.2.1, ← hA, ← hB, getLastD_append_singleton]
  refine ⟨fun c => hnn (by simp [c]), fun c => hnn (by simp [c]), fun c => hnn (by simp [c]),
    fun c => n2.1 (by simp [c]), fun c => n2.1 (by simp [c]), fun c => n3.1 (by simp [c]),
    by simp, by simp, rfl, rfl⟩

theorem IsQueue.remove_of {m m' : Mem} {mb : Ptr} {qa qb : List Ptr} {x : Ptr}
    (h : IsQueue m mb (qa ++ x :: qb))
    (hb1 : (m'.mboxes mb).pHead = (m.mboxes mb).pHead)
    (hb2 : (m'.mboxes mb).pTail = (m.mboxes mb).pTail)
    (hp : (m'.msgs (m.msgs x).pPrevious).pNext = (m.msgs x).pNext ∧
      (m'.msgs (m.msgs x).pPrevious).pPrevious = (m.msgs (m.msgs x).pPrevious).pPrevious)
    (hn : (m'.msgs (m.msgs x).pNext).pPrevious = (m.msgs x).pPrevious ∧
      (m'.msgs (m.msgs x).pNext).pNext = (m.msgs (m.msgs x).pNext).pNext)
    (ho : ∀ y, y ≠ (m.msgs x).pPrevious → y ≠ (m.msgs x).pNext → y ≠ x →
      (m'.msgs y).pPrevious = (m.msgs y).pPrevious ∧ (m'.msgs y).pNext = (m.msgs y).pNext) :
    IsQueue m' mb (qa ++ qb) := by
  obtain ⟨hmb, hs, hnn, hnd⟩ := h
  obtain ⟨A, p, n, B, hA, hB, e1, e2⟩ :=
    chain_split (m.mboxes mb).pHead (m.mboxes mb).pTail qa qb x
  unfold chain at hs hnn hnd
  rw [e1] at hs hnn hnd
  have hmid := mseg_mid hs
  rw [hmid.1, hmid.2.1] at hp hn ho
  refine ⟨hmb, ?_, ?_, ?_⟩
  · unfold chain
    rw [hb1, hb2, e2]
    exact mseg_unlink hs hnd hp hn ho
  · unfold chain
    rw [hb1, hb2, e2]
    intro c
    apply hnn
    simp only [List.mem_append, List.mem_cons] at c ⊢
    tauto
  · unfold chain
    rw [hb1, hb2, e2]
    refine List.Nodup.sublist ?_ hnd
    exact List.Sublist.append (List.Sublist.refl _)
      (List.Sublist.cons₂ _ (List.sublist_cons_self _ _))

theorem withdraw_found (k : Kernel) (mb : Ptr) (delta : Int) (fuel : Nat) {x p n : Ptr}
    (hx : x ≠ NULL) (hp : p ≠ NULL) (hn : n ≠ NULL) (hpx : p ≠ x) (hpn : p ≠ n) (hxn : x ≠ n)
    (hprev : (k.mem.msgs x).pPrevious = p) (hnext : (k.mem.msgs x).pNext = n)
    (hc : k.runningListobj ≠ NULL) (hpm : (k.mem.objs k.runningListobj).pMessage = x)
    (hmb : mb ≠ NULL) :
    ∃ m', withdrawLoop k mb delta (fuel + 1) x =
        some { k with mem := m', alloc := free k.alloc x } ∧
      m'.tcbs = k.mem.tcbs ∧ m'.bytes = k.mem.bytes ∧
      (∀ q, (m'.objs q).pTask = (k.mem.objs q).pTask ∧ (m'.objs q).nTCnt = (k.mem.objs q).nTCnt ∧
        (m'.objs q).pPrevious = (k.mem.objs q).pPrevious ∧
        (m'.objs q).pNext = (k.mem.objs q).pNext) ∧
      (m'.objs k.runningListobj).pMessage = NULL ∧
      (∀ q, q ≠ k.runningListobj → m'.objs q = k.mem.objs q) ∧
      (m'.mboxes mb).nBlockedMsg = (k.mem.mboxes mb).nBlockedMsg + delta ∧
      (m'.mboxes mb).nMessages = (k.mem.mboxes mb).nMessages ∧
      (m'.mboxes mb).nDataSize = (k.mem.mboxes mb).nDataSize ∧
      (m'.mboxes mb).pHead = (k.mem.mboxes mb).pHead ∧
      (m'.mboxes mb).pTail = (k.mem.mboxes mb).pTail ∧
      (∀ b, b ≠ mb → m'.mboxes b = k.mem.mboxes b) ∧
      (∀ y, (m'.msgs y).pData = (k.mem.msgs y).pData ∧
        (m'.msgs y).Status = (k.mem.msgs y).Status) ∧
      (∀ y, y ≠ x → (m'.msgs y).pBlock = (k.mem.msgs y).pBlock) ∧
      (m'.msgs x).pNext = NULL ∧ (m'.msgs x).pPrevious = NULL ∧ (m'.msgs x).pBlock = NULL ∧
      ((m'.msgs p).pNext = n ∧ (m'.msgs p).pPrevious = (k.mem.msgs p).pPrevious) ∧
      ((m'.msgs n).pPrevious = p ∧ (m'.msgs n).pNext = (k.mem.msgs n).pNext) ∧
      (∀ y, y ≠ p → y ≠ n → y ≠ x → m'.msgs y = k.mem.msgs y) := by
  have hev : ∃ m', withdrawLoop k mb delta (fuel + 1) x =
      some { k with mem := m', alloc := free k.alloc x } := by
    simp [withdrawLoop, Mem.getMsg, Mem.setMsg, Mem.obj, Mem.setMessage, Mem.setMbox, hx, hp, hn,
      hc, hmb, hprev, hnext, hpm, upd, hpx, Ne.symm hpx, hxn, Ne.symm hxn]
  obtain ⟨m', h1⟩ := hev
  refine ⟨m', h1, ?_⟩
  have h2 := h1
  simp [withdrawLoop, Mem.getMsg, Mem.setMsg, Mem.obj, Mem.setMessage, Mem.setMbox, hx, hp, hn,
    hc, hmb, hprev, hnext, hpm, upd, hpx, Ne.symm hpx, hxn, Ne.symm hxn] at h2
  rw [← h2]
  refine ⟨rfl, rfl, ?_, ?_, ?_, ?_, ?_, ?_, ?_, ?_, ?_, ?_, ?_, ?_, ?_, ?_, ?_, ?_, ?_⟩
  · intro q
    by_cases hq : q = k.runningListobj <;> simp [upd, hq]
  · simp [upd]
  · intro q hq
    simp [upd, hq]
  · simp [upd]
  · simp [upd]
  · simp [upd]
  · simp [upd]
  · simp [upd]
  · intro b hb
    simp [upd, hb]
  · intro y
    by_cases h1 : y = x <;> by_cases h2 : y = p <;> by_cases h3 : y = n <;> simp_all [upd]
  · intro y hy
    by_cases h2 : y = p <;> by_cases h3 : y = n <;> simp_all [upd]
  · simp [upd]
  · simp [upd]
  · simp [upd]
  · simp [upd, hpn, hpx, hprev]
  · simp [upd, hpn, Ne.symm hpn, Ne.symm hxn, hnext]
  · intro y h1 h2 h3
    simp [upd, h1, h2, h3]

theorem withdrawLoop_skip (k : Kernel) (mb : Ptr) (delta : Int) (hc : k.runningListobj ≠ NULL) :
    ∀ (qa : List Ptr) (pv : Ptr) (rest : List Ptr) (fuel : Nat),
      mseg k.mem pv (qa ++ rest) NULL → rest ≠ [] → NULL ∉ qa ++ rest →
      (∀ y ∈ qa, y ≠ (k.mem.objs k.runningListobj).pMessage) →
      withdrawLoop k mb delta (qa.length + fuel) ((qa ++ rest).headD NULL) =
        withdrawLoop k mb delta fuel (rest.headD NULL) := by
  intro qa
  induction qa with
  | nil => intro pv rest fuel _ _ _ _; simp
  | cons y qa ih =>
    intro pv rest fuel hs hr hnn hy
    have hyn : y ≠ NULL := fun c => hnn (by simp [c])
    have hs' : mseg k.mem pv (y :: (qa ++ rest)) NULL := hs
    obtain ⟨_, s2, s3⟩ := hs'
    have hne : (qa ++ rest).headD NULL ≠ NULL := by
      intro c
      apply hnn
      cases hq : qa ++ rest with
      | nil => simp_all
      | cons z r =>
        rw [hq] at c
        simp only [List.headD_cons] at c
        rw [List.cons_append, hq, c]
        simp
    have e : (y :: qa).length + fuel = (qa.length + fuel) + 1 := by simp; omega
    rw [e, List.cons_append, List.headD_cons]
    have hym := hy y (List.mem_cons_self _ _)
    rw [withdrawLoop]
    simp only [getMsg_of_ne _ hyn, obj_of_ne _ hc, Option.bind_eq_bind, Option.some_bind, s2,
      if_neg hne, if_neg hym]
    exact ih y rest fuel s3 hr (fun c => hnn (by simp [List.mem_cons, c]))
      (fun z hz => hy z (List.mem_cons_of_mem _ hz))

theorem withdrawLoop_absent (k : Kernel) (mb : Ptr) (delta : Int) {qs : List Ptr} {fuel : Nat}
    (hq : IsQueue k.mem mb qs) (hc : k.runningListobj ≠ NULL)
    (hpm : (k.mem.objs k.runningListobj).pMessage ∉ qs) (hf : qs.length < fuel) :
    withdrawLoop k mb delta fuel (k.mem.msgs (k.mem.mboxes mb).pHead).pNext = some k := by
  obtain ⟨hmb, hs, hnn, hnd⟩ := hq
  unfold chain at hs hnn hnd
  have hs' := hs
  obtain ⟨_, s2, s3⟩ := hs'
  rw [s2]
  obtain ⟨f, rfl⟩ : ∃ f, fuel = qs.length + (f + 1) := ⟨fuel - qs.length - 1, by omega⟩
  rw [withdrawLoop_skip k mb delta hc qs _ [(k.mem.mboxes mb).pTail] (f + 1) s3 (by simp)
    (fun c => hnn (List.mem_cons_of_mem _ c)) (fun y hy c => hpm (c ▸ hy))]
  have htl : (k.mem.mboxes mb).pTail ≠ NULL := fun c => hnn (by simp [c])
  have hlast : (k.mem.msgs (k.mem.mboxes mb).pTail).pNext = NULL := by
    have := (mseg_append.mp (show mseg k.mem NULL
      (((k.mem.mboxes mb).pHead :: qs) ++ [(k.mem.mboxes mb).pTail]) NULL from hs)).2
    simp only [mseg, List.headD_nil] at this
    exact this.2.1
  simp [withdrawLoop, getMsg_of_ne _ htl, hlast]

theorem blocked_resumed_early (fuel : Nat) (k : Kernel) (mb : Ptr) (delta : Int)
    (h : ticks k < deadline k) : blocked_resumed fuel k mb delta = some (SUCCESS, k) := by
  unfold blocked_resumed
  rw [if_neg (by omega)]

theorem blocked_resumed_absent (fuel : Nat) (k : Kernel) (mb : Ptr) (delta : Int)
    {qs : List Ptr} (hq : IsQueue k.mem mb qs) (hc : k.runningListobj ≠ NULL)
    (hpm : (k.mem.objs k.runningListobj).pMessage ∉ qs) (hf : qs.length < fuel)
    (h : deadline k ≤ ticks k) :
    blocked_resumed fuel k mb delta = some (DEADLINE_REACHED, isr_on k) := by
  unfold blocked_resumed
  rw [if_pos h]
  have := withdrawLoop_absent (isr_off k) mb delta hq hc hpm hf
  simp only [isr_off] at this ⊢
  simp [getMbox_of_ne _ hq.1, getMsg_of_ne _ (fun c => hq.2.2.1 (by simp [chain, c]) :
    (k.mem.mboxes mb).pHead ≠ NULL), this, isr_on]

theorem blocked_resumed_found (fuel : Nat) (k : Kernel) (mb : Ptr) (delta : Int)
    {qa qb : List Ptr} {x : Ptr} (hq : IsQueue k.mem mb (qa ++ x :: qb))
    (hc : k.runningListobj ≠ NULL) (hpm : (k.mem.objs k.runningListobj).pMessage = x)
    (hf : qa.length < fuel) (h : deadline k ≤ ticks k) :
    ∃ m', blocked_resumed fuel k mb delta =
        some (DEADLINE_REACHED, { k with mem := m', alloc := free k.alloc x, isrOnState := true }) ∧
      IsQueue m' mb (qa ++ qb) ∧
      m'.tcbs = k.mem.tcbs ∧ m'.bytes = k.mem.bytes ∧
      (∀ q, (m'.objs q).pTask = (k.mem.objs q).pTask ∧ (m'.objs q).nTCnt = (k.mem.objs q).nTCnt ∧
        (m'.objs q).pPrevious = (k.mem.objs q).pPrevious ∧
        (m'.objs q).pNext = (k.mem.objs q).pNext) ∧
      (m'.objs k.runningListobj).pMessage = NULL ∧
      (∀ q, q ≠ k.runningListobj → m'.objs q = k.mem.objs q) ∧
      (m'.mboxes mb).nBlockedMsg = (k.mem.mboxes mb).nBlockedMsg + delta ∧
      (m'.mboxes mb).nMessages = (k.mem.mboxes mb).nMessages ∧
      (m'.mboxes mb).nDataSize = (k.mem.mboxes mb).nDataSize ∧
      (m'.mboxes mb).pHead = (k.mem.mboxes mb).pHead ∧
      (m'.mboxes mb).pTail = (k.mem.mboxes mb).pTail ∧
      (∀ b, b ≠ mb → m'.mboxes b = k.mem.mboxes b) ∧
      (∀ y, (m'.msgs y).pData = (k.mem.msgs y).pData ∧
        (m'.msgs y).Status = (k.mem.msgs y).Status) ∧
      (∀ y, y ≠ x → (m'.msgs y).pBlock = (k.mem.msgs y).pBlock) ∧
      (∀ y, y ∉ chain k.mem mb (qa ++ x :: qb) → m'.msgs y = k.mem.msgs y) := by
  obtain ⟨n1, n2, n3, n4, n5, n6, n7, n8, _, _⟩ := hq.neighbours
  obtain ⟨m', hw, a1, a2, a3, a4, a5, a6, a7, a8, a9, a10, a11, a12, a13, _, _, _, a17,
    a18, a19⟩ := withdraw_found (isr_off k) mb delta (fuel - qa.length - 1) n1 n2 n3 n4 n5 n6 rfl rfl
      hc hpm hq.1
  have hq' := hq
  obtain ⟨hmb, hs, hnn, hnd⟩ := hq'
  unfold chain at hs hnn hnd
  have hs' := hs
  obtain ⟨_, s2, s3⟩ := hs'
  have hnd2 := (List.nodup_cons.mp hnd).2
  have hxqa : ∀ y ∈ qa, y ≠ (k.mem.objs k.runningListobj).pMessage := by
    intro y hy c
    rw [hpm] at c
    rw [List.append_assoc, List.cons_append] at hnd2
    exact (List.nodup_append.mp hnd2).2.2 hy (by simp [c])
  have hskip := withdrawLoop_skip (isr_off k) mb delta hc qa _
    (x :: qb ++ [(k.mem.mboxes mb).pTail]) (fuel - qa.length - 1 + 1)
    (by simpa using s3) (by simp) (fun c => hnn (List.mem_cons_of_mem _ (by simpa using c))) hxqa
  have hfe : qa.length + (fuel - qa.length - 1 + 1) = fuel := by omega
  rw [hfe] at hskip
  have hhd : (k.mem.mboxes mb).pHead ≠ NULL := fun c => hnn (by simp [c])
  refine ⟨m', ?_, hq.remove_of a9 a10 a17 a18 ?_, a1, a2, a3, a4, a5, a6, a7, a8, a9, a10, a11,
    a12, a13, ?_⟩
  · unfold blocked_resumed
    rw [if_pos h]
    have e1 : (isr_off k).mem = k.mem := rfl
    simp only [e1, getMbox_of_ne _ hmb, getMsg_of_ne _ hhd, Option.bind_eq_bind,
      Option.some_bind, s2]
    have e2 : (qa ++ x :: qb ++ [(k.mem.mboxes mb).pTail]).headD NULL =
        (qa ++ (x :: qb ++ [(k.mem.mboxes mb).pTail])).headD NULL := by simp
    rw [e2, hskip]
    simp only [List.cons_append, List.headD_cons] 
    rw [hw]
    simp [isr_on, isr_off]
  · intro y h1 h2 h3
    rw [a19 y h1 h2 h3]
    exact ⟨rfl, rfl⟩
  · intro y hy
    exact a19 y (fun c => hy (c ▸ n7)) (fun c => hy (c ▸ n8))
      (fun c => hy (by simp [chain, c]))

theorem relocate_spec (fuel : Nat) {m : Mem} {la lb lc : OSList_t} {xs ys zs : List Ptr}
    {s : Ptr} (ha : IsList m la xs) (hb : IsList m lb ys) (hc : IsList m lc zs)
    (hxy : ∀ p ∈ xs, p ∉ ys) (hxz : ∀ p ∈ xs, p ∉ zs) (hyz : ∀ p ∈ ys, p ∉ zs)
    (hT : ∀ p ∈ s :: ys, HasTask m p) (hs : s ∈ xs) (hf : xs.length ≤ fuel) :
    ∃ m1 m2 la' lb' a b, OSList_remove fuel m (some la) s = some (true, m1, some la') ∧
      OSList_deadlineInsert m1 (some lb) s = some (true, m2, some lb') ∧
      ys = a ++ b ∧ IsList m2 la' (xs.erase s) ∧ IsList m2 lb' (a ++ s :: b) ∧
      IsList m2 lc zs ∧ LinkFrame m m2 (xs ++ ys) ∧
      (SortedBy (deadlineKey m) ys → SortedBy (deadlineKey m2) (a ++ s :: b)) := by
  have hsne : s ≠ NULL := ha.ne_null hs
  obtain ⟨m1, la1, hrem, hla1, hdet, _, hf1⟩ := remove_core fuel s ha hf
  have hdet1 := (hdet hs).1
  have hb1 : IsList m1 lb ys := hb.of_linkFrame hf1 (fun x hx hx2 => hxy x hx2 hx)
  have hc1 : IsList m1 lc zs := hc.of_linkFrame hf1 (fun x hx hx2 => hxz x hx2 hx)
  have hT1 : ∀ p ∈ s :: ys, HasTask m1 p := fun p hp => (hf1.hasTask_iff p).mpr (hT p hp)
  obtain ⟨m2, lb', a, b, hins, hab, hlb2, ha', hb', hf2⟩ :=
    deadlineInsert_core hb1 (fun p hp => hT1 p (List.mem_cons_of_mem _ hp)) hsne
      (hT1 s (List.mem_cons_self _ _)) (hxy s hs) hdet1
  have hnd := ha.2.2.2.2.2
  have hser : s ∉ xs.erase s := fun h => ((List.Nodup.mem_erase_iff hnd).mp h).1 rfl
  refine ⟨m1, m2, la1, lb', a, b, ?_, hins, hab, ?_, hlb2, ?_, ?_, ?_⟩
  · rw [hrem]; simp [hs]
  · refine hla1.of_linkFrame hf2 ?_
    intro x hx hx2
    rcases List.mem_cons.mp hx2 with e | e
    · exact hser (e ▸ hx)
    · exact hxy x (List.mem_of_mem_erase hx) e
  · refine hc1.of_linkFrame hf2 ?_
    intro x hx hx2
    rcases List.mem_cons.mp hx2 with e | e
    · exact hxz s hs (e ▸ hx)
    · exact hyz x e hx
  · refine LinkFrame.trans (hf1.mono ?_) (hf2.mono ?_)
    · intro p hp; exact List.mem_append_left _ hp
    · intro p hp
      rcases List.mem_cons.mp hp with e | e
      · exact List.mem_append_left _ (e ▸ hs)
      · exact List.mem_append_right _ e
  · intro hsrt
    have hk2 : ∀ q, deadlineKey m1 q = deadlineKey m q := hf1.deadlineKey_eq
    have hk3 : ∀ q, deadlineKey m2 q = deadlineKey m1 q := hf2.deadlineKey_eq
    have hs2 : SortedBy (deadlineKey m1) (a ++ b) := hab ▸ hsrt.congr hk2
    obtain ⟨pa, pb⟩ := sorted_place hs2 ha' hb'
    refine sorted_insert hs2 (fun q _ => hk3 q) ?_ ?_
    · intro q hq; rw [hk3, hk3]; exact pa q hq
    · intro q hq; rw [hk3, hk3]; exact pb q hq

theorem IsQueue.of_eq {m m' : Mem} {mb : Ptr} {qs : List Ptr} (h : IsQueue m mb qs)
    (hm : m'.msgs = m.msgs) (h1 : (m'.mboxes mb).pHead = (m.mboxes mb).pHead)
    (h2 : (m'.mboxes mb).pTail = (m.mboxes mb).pTail) : IsQueue m' mb qs := by
  unfold IsQueue chain at h ⊢
  rw [h1, h2]
  exact ⟨h.1, mseg_congr (fun x _ => by rw [hm]; exact ⟨rfl, rfl⟩) h.2.1, h.2.2⟩

theorem receive_deliver_spec (fuel : Nat) (k : Kernel) (mb buf : Ptr) (rs ws ts : List Ptr)
    (x : Ptr) (qb : List Ptr) (hL : Lists k rs ws ts) (hq : IsQueue k.mem mb (x :: qb))
    (hbuf : buf ≠ NULL) (hd : (k.mem.msgs x).pData ≠ NULL)
    (hn : 0 ≤ (k.mem.mboxes mb).nDataSize) (hnb : 0 < (k.mem.mboxes mb).nBlockedMsg)
    (hs : (k.mem.msgs x).pBlock ∈ ws) (hf : ws.length ≤ fuel) :
    ∃ k1 a b, receive_wait fuel k mb buf =
        (schedulingUpdate fuel k1).bind (fun k2 => some (Outcome.switched, LoadContext k2)) ∧
      rs = a ++ b ∧
      Lists k1 (a ++ (k.mem.msgs x).pBlock :: b) (ws.erase (k.mem.msgs x).pBlock) ts ∧
      (SortedBy (deadlineKey k.mem) rs →
        SortedBy (deadlineKey k1.mem) (a ++ (k.mem.msgs x).pBlock :: b)) ∧
      IsQueue k1.mem mb qb ∧
      k1.mem.bytes = (fun a => if buf ≤ a ∧ a < buf + (k.mem.mboxes mb).nDataSize.toNat
        then k.mem.bytes ((k.mem.msgs x).pData + (a - buf)) else k.mem.bytes a) ∧
      k1.mem.tcbs = k.mem.tcbs ∧
      (∀ p, (k1.mem.objs p).pTask = (k.mem.objs p).pTask ∧
        (k1.mem.objs p).nTCnt = (k.mem.objs p).nTCnt) ∧
      (k1.mem.objs (k.mem.msgs x).pBlock).pMessage = NULL ∧
      (∀ p, p ≠ (k.mem.msgs x).pBlock → (k1.mem.objs p).pMessage = (k.mem.objs p).pMessage) ∧
      (k1.mem.mboxes mb).nBlockedMsg = (k.mem.mboxes mb).nBlockedMsg - 1 ∧
      (k1.mem.mboxes mb).nMessages = (k.mem.mboxes mb).nMessages ∧
      (k1.mem.mboxes mb).nDataSize = (k.mem.mboxes mb).nDataSize ∧
      (k1.mem.mboxes mb).pHead = (k.mem.mboxes mb).pHead ∧
      (k1.mem.mboxes mb).pTail = (k.mem.mboxes mb).pTail ∧
      (∀ b, b ≠ mb → k1.mem.mboxes b = k.mem.mboxes b) ∧
      (∀ y, (k1.mem.msgs y).pData = (k.mem.msgs y).pData ∧
        (k1.mem.msgs y).Status = (k.mem.msgs y).Status ∧
        (k1.mem.msgs y).pBlock = (k.mem.msgs y).pBlock) ∧
      (∀ y, y ∉ chain k.mem mb (x :: qb) → k1.mem.msgs y = k.mem.msgs y) ∧
      (k1.mem.msgs x).pNext = NULL ∧ (k1.mem.msgs x).pPrevious = NULL ∧
      k1.alloc = free k.alloc x ∧ k1.osTicks = k.osTicks ∧ k1.opMode = k.opMode ∧
      k1.Running = k.Running ∧ k1.runningListobj = k.runningListobj := by
  obtain ⟨hr, hw, htl, hnd, hts⟩ := hL
  obtain ⟨tl, htl1, htl2⟩ := OnList.some_iff.mp htl
  obtain ⟨rl, hrl1, hrl2⟩ := OnList.some_iff.mp hr
  obtain ⟨wl, hwl1, hwl2⟩ := OnList.some_iff.mp hw
  have hmb := hq.1
  have hq' := hq
  obtain ⟨_, hs0, hnn, hndq⟩ := hq'
  unfold chain at hs0 hnn hndq
  have hhd : (k.mem.mboxes mb).pHead ≠ NULL := fun c => hnn (by simp [c])
  have hx : x ≠ NULL := fun c => hnn (by simp [c])
  have hfirst : (k.mem.msgs (k.mem.mboxes mb).pHead).pNext = x := hs0.2.1
  generalize hsdef : (k.mem.msgs x).pBlock = s at *
  generalize hddef : (k.mem.msgs x).pData = d at *
  -- the copy
  obtain ⟨f, hfdef⟩ : ∃ f : Ptr → Nat, f = fun a =>
      if buf ≤ a ∧ a < buf + (k.mem.mboxes mb).nDataSize.toNat then k.mem.bytes (d + (a - buf))
      else k.mem.bytes a := ⟨_, rfl⟩
  obtain ⟨m0, hm0⟩ : ∃ m0, m0 = { k.mem with bytes := f } := ⟨_, rfl⟩
  have hcopy : memcpy k.mem buf d (k.mem.mboxes mb).nDataSize = some m0 := by
    unfold memcpy
    rw [if_neg (by simp only [not_or]; exact ⟨hbuf, hd, by omega⟩), hm0, hfdef]
  have hq0 : IsQueue m0 mb (x :: qb) := hq.same_heap (by rw [hm0]) (by rw [hm0])
  obtain ⟨m1, hu, hq1, o1, o2, o3, o4, o5, o6, o7, o8⟩ :=
    @IsQueue.unlink m0 mb [] qb x hq0
  unfold receive_wait
  rw [if_neg (by simp only [not_or]; exact ⟨hmb, hbuf⟩)]
  have e1 : (isr_off k).mem = k.mem := rfl
  simp only [e1, getMbox_of_ne _ hmb, Option.bind_eq_bind, Option.some_bind,
    if_pos (Or.inl hnb : (k.mem.mboxes mb).nBlockedMsg > 0 ∨ (k.mem.mboxes mb).nMessages > 0),
    getMsg_of_ne _ hhd, hfirst, getMsg_of_ne _ hx, hddef, hcopy, hu]
  have hmb1 : m1.mboxes = k.mem.mboxes := by rw [o3, hm0]
  have hobj1 : m1.objs = k.mem.objs := by rw [o1, hm0]
  have htcb1 : m1.tcbs = k.mem.tcbs := by rw [o2, hm0]
  have hblk : (m1.msgs x).pBlock = s := by rw [(o5 x).2.2, hm0]; exact hsdef
  obtain ⟨bx, hbx⟩ : ∃ bx : mailbox, bx = { k.mem.mboxes mb with nBlockedMsg := (k.mem.mboxes mb).nBlockedMsg - 1 } := ⟨_, rfl⟩
  obtain ⟨m2, hm2⟩ : ∃ m2, m2 = { m1 with mboxes := upd m1.mboxes mb bx } := ⟨_, rfl⟩
  have hset : (m1.setMbox mb fun b => { b with nBlockedMsg := b.nBlockedMsg - 1 }) = some m2 := by
    unfold Mem.setMbox
    rw [if_neg hmb, hm2, hbx, hmb1]
  have fr2 : ∀ {l : OSList_t} {xs : List Ptr}, IsList k.mem l xs → IsList m2 l xs :=
    fun h => h.frame (fun q _ => by rw [hm2]; simp only; rw [hobj1]; exact ⟨rfl, rfl⟩)
  have hT2 : ∀ p ∈ rs ++ ws ++ ts, HasTask m2 p := by
    intro p hp
    show (m2.objs p).pTask ≠ NULL
    rw [hm2]; simp only; rw [hobj1]
    exact hts p hp
  have hnd' := List.nodup_append.mp hnd
  have hnd'' := List.nodup_append.mp hnd'.1
  obtain ⟨m3, m4, wl', rl', a, b, hrem, hins, hab, hwl4, hrl4, htl4, hfr, hsort⟩ :=
    relocate_spec fuel (fr2 hwl2) (fr2 hrl2) (fr2 htl2)
      (fun p hp hp2 => List.disjoint_left.mp hnd''.2.2 hp2 hp)
      (fun p hp hp2 => List.disjoint_left.mp hnd'.2.2 (List.mem_append_right _ hp) hp2)
      (fun p hp hp2 => List.disjoint_left.mp hnd'.2.2 (List.mem_append_left _ hp) hp2)
      (fun p hp => hT2 p (by
        rcases List.mem_cons.mp hp with e | e
        · simp [e, hs]
        · simp [e])) hs hf
  have hsne : s ≠ NULL := hwl2.ne_null hs
  have hblk4 : (m4.msgs x).pBlock = s := by
    rw [hfr.2.1, hm2]; exact hblk
  obtain ⟨ox, hox⟩ : ∃ ox : listobj, ox = { m4.objs s with pMessage := NULL } := ⟨_, rfl⟩
  obtain ⟨m5, hm5⟩ : ∃ m5, m5 = { m4 with objs := upd m4.objs s ox } := ⟨_, rfl⟩
  have hsm : m4.setMessage s NULL = some m5 := by
    unfold Mem.setMessage
    rw [if_neg hsne, hm5, hox]
  have e2 : (isr_off k).waitingList = some wl := hwl1
  have e3 : (isr_off k).readyList = some rl := hrl1
  have hnb1 : (m1.mboxes mb).nBlockedMsg > 0 := by rw [hmb1]; exact hnb
  rw [if_pos hnb1, hset]
  simp only [Option.some_bind, hblk, e2, e3, hrem, hins, hblk4, hsm]
  have hkey : ∀ q, deadlineKey m2 q = deadlineKey k.mem q := by
    intro q
    unfold deadlineKey
    rw [hm2]; simp only; rw [hobj1, htcb1]
  have hobj5 : ∀ q, (m5.objs q).pTask = (m4.objs q).pTask ∧ (m5.objs q).nTCnt = (m4.objs q).nTCnt ∧
      (m5.objs q).pPrevious = (m4.objs q).pPrevious ∧ (m5.objs q).pNext = (m4.objs q).pNext := by
    intro q
    rw [hm5, hox]
    by_cases hq : q = s <;> simp [upd, hq]
  have hobj2 : m2.objs = k.mem.objs := by rw [hm2]; exact hobj1
  have hmsg5 : m5.msgs = m1.msgs := by rw [hm5]; simp only; rw [hfr.2.1, hm2]
  have hmbx5 : m5.mboxes = upd k.mem.mboxes mb bx := by
    rw [hm5]; simp only; rw [hfr.2.2.1, hm2]; simp only; rw [hmb1]
  have fr5 : ∀ {l : OSList_t} {xs : List Ptr}, IsList m4 l xs → IsList m5 l xs :=
    fun h => h.frame (fun q _ => ⟨(hobj5 q).2.2.1, (hobj5 q).2.2.2⟩)
  refine ⟨{ isr_off k with mem := m5, alloc := free k.alloc x, readyList := some rl', waitingList := some wl' },
    a, b, rfl, hab, ⟨fr5 hrl4, fr5 hwl4, ?_, ?_, ?_⟩, ?_, ?_, ?_, ?_, ?_, ?_, ?_, ?_, ?_, ?_, ?_,
    ?_, ?_, ?_, ?_, ?_, ?_, rfl, rfl, rfl, rfl, rfl⟩
  · show OnList m5 k.timerList ts
    rw [htl1]
    exact fr5 htl4
  · have hperm : ((a ++ s :: b) ++ ws.erase s ++ ts).Perm (rs ++ ws ++ ts) := by
      rw [hab]
      refine List.Perm.append_right ts ?_
      have h2 : ws.Perm (s :: ws.erase s) := List.perm_cons_erase hs
      refine List.Perm.trans ?_ (List.Perm.append_left _ h2.symm)
      have h3 := @List.perm_middle _ s a (b ++ ws.erase s)
      have h4 := @List.perm_middle _ s (a ++ b) (ws.erase s)
      simp only [List.append_assoc, List.cons_append] at h3 h4 ⊢
      exact h3.trans h4.symm
    exact hperm.nodup_iff.mpr hnd
  · intro y hy
    show (m5.objs y).pTask ≠ NULL
    rw [(hobj5 y).1, (hfr.2.2.2.2 y).1]
    refine hT2 y ?_
    rw [hab]
    simp only [List.mem_append, List.mem_cons] at hy ⊢
    rcases hy with (((e | e | e) | e) | e)
    · exact Or.inl (Or.inl (Or.inl e))
    · exact Or.inl (Or.inr (e ▸ hs))
    · exact Or.inl (Or.inl (Or.inr e))
    · exact Or.inl (Or.inr (List.mem_of_mem_erase e))
    · exact Or.inr e
  · intro hsrt
    refine (hsort (hsrt.congr hkey)).congr ?_
    intro q
    show deadlineKey m5 q = deadlineKey m4 q
    unfold deadlineKey
    rw [(hobj5 q).1, hm5]
  · show IsQueue m5 mb qb
    refine IsQueue.of_eq hq1 hmsg5 ?_ ?_
    · rw [hmbx5, hmb1, hbx]; simp [upd]
    · rw [hmbx5, hmb1, hbx]; simp [upd]
  · show m5.bytes = _
    rw [hm5]; simp only; rw [hfr.2.2.2.1, hm2]; simp only; rw [o4, hm0, hfdef]
  · show m5.tcbs = _
    rw [hm5]; simp only; rw [hfr.1, hm2]; exact htcb1
  · intro p
    show (m5.objs p).pTask = _ ∧ (m5.objs p).nTCnt = _
    rw [(hobj5 p).1, (hobj5 p).2.1, (hfr.2.2.2.2 p).1, (hfr.2.2.2.2 p).2.1, hobj2]
    exact ⟨rfl, rfl⟩
  · show (m5.objs s).pMessage = NULL
    rw [hm5, hox]; simp [upd]
  · intro p hp
    show (m5.objs p).pMessage = _
    rw [hm5]; simp only [upd, if_neg hp]
    rw [(hfr.2.2.2.2 p).2.2.1, hobj2]
  · show (m5.mboxes mb).nBlockedMsg = _
    rw [hmbx5, hbx]; simp [upd]
  · show (m5.mboxes mb).nMessages = _
    rw [hmbx5, hbx]; simp [upd]
  · show (m5.mboxes mb).nDataSize = _
    rw [hmbx5, hbx]; simp [upd]
  · show (m5.mboxes mb).pHead = _
    rw [hmbx5, hbx]; simp [upd]
  · show (m5.mboxes mb).pTail = _
    rw [hmbx5, hbx]; simp [upd]
  · intro b hb
    show m5.mboxes b = _
    rw [hmbx5]; simp [upd, hb]
  · intro y
    show (m5.msgs y).pData = _ ∧ (m5.msgs y).Status = _ ∧ (m5.msgs y).pBlock = _
    rw [hmsg5, (o5 y).1, (o5 y).2.1, (o5 y).2.2, hm0]
    exact ⟨rfl, rfl, rfl⟩
  · intro y hy
    show m5.msgs y = _
    rw [hmsg5, o8 y (by rw [hm0]; exact hy), hm0]
  · show (m5.msgs x).pNext = NULL
    rw [hmsg5]; exact o6
  · show (m5.msgs x).pPrevious = NULL
    rw [hmsg5]; exact o7

theorem send_deliver_spec (fuel : Nat) (k : Kernel) (mb pData : Ptr) (rs ws ts : List Ptr)
    (x : Ptr) (qb : List Ptr) (hL : Lists k rs ws ts) (hq : IsQueue k.mem mb (x :: qb))
    (hp : pData ≠ NULL) (hd : (k.mem.msgs x).pData ≠ NULL)
    (hn : 0 ≤ (k.mem.mboxes mb).nDataSize) (hnm : (k.mem.mboxes mb).nMessages = 0)
    (hnb : (k.mem.mboxes mb).nBlockedMsg < 0)
    (hs : (k.mem.msgs x).pBlock ∈ ws) (hf : ws.length ≤ fuel) :
    ∃ k1 a b, send_wait fuel k mb pData =
        (schedulingUpdate fuel k1).bind (fun k2 => some (Outcome.switched, LoadContext k2)) ∧
      rs = a ++ b ∧
      Lists k1 (a ++ (k.mem.msgs x).pBlock :: b) (ws.erase (k.mem.msgs x).pBlock) ts ∧
      (SortedBy (deadlineKey k.mem) rs →
        SortedBy (deadlineKey k1.mem) (a ++ (k.mem.msgs x).pBlock :: b)) ∧
      IsQueue k1.mem mb qb ∧
      k1.mem.bytes = (fun a => if (k.mem.msgs x).pData ≤ a ∧
          a < (k.mem.msgs x).pData + (k.mem.mboxes mb).nDataSize.toNat
        then k.mem.bytes (pData + (a - (k.mem.msgs x).pData)) else k.mem.bytes a) ∧
      k1.mem.tcbs = k.mem.tcbs ∧
      (∀ p, (k1.mem.objs p).pTask = (k.mem.objs p).pTask ∧
        (k1.mem.objs p).nTCnt = (k.mem.objs p).nTCnt ∧
        (k1.mem.objs p).pMessage = (k.mem.objs p).pMessage) ∧
      (k1.mem.mboxes mb).nBlockedMsg = (k.mem.mboxes mb).nBlockedMsg + 1 ∧
      (k1.mem.mboxes mb).nMessages = (k.mem.mboxes mb).nMessages ∧
      (k1.mem.mboxes mb).nDataSize = (k.mem.mboxes mb).nDataSize ∧
      (k1.mem.mboxes mb).pHead = (k.mem.mboxes mb).pHead ∧
      (k1.mem.mboxes mb).pTail = (k.mem.mboxes mb).pTail ∧
      (∀ b, b ≠ mb → k1.mem.mboxes b = k.mem.mboxes b) ∧
      (k1.mem.msgs x).Status = SUCCESS ∧
      (∀ y, (k1.mem.msgs y).pData = (k.mem.msgs y).pData ∧
        (k1.mem.msgs y).pBlock = (k.mem.msgs y).pBlock ∧
        (y ≠ x → (k1.mem.msgs y).Status = (k.mem.msgs y).Status)) ∧
      (∀ y, y ∉ chain k.mem mb (x :: qb) → k1.mem.msgs y = k.mem.msgs y) ∧
      (k1.mem.msgs x).pNext = NULL ∧ (k1.mem.msgs x).pPrevious = NULL ∧
      k1.alloc = k.alloc ∧ k1.osTicks = k.osTicks ∧ k1.opMode = k.opMode ∧
      k1.Running = k.Running ∧ k1.runningListobj = k.runningListobj := by
  obtain ⟨hr, hw, htl, hnd, hts⟩ := hL
  obtain ⟨tl, htl1, htl2⟩ := OnList.some_iff.mp htl
  obtain ⟨rl, hrl1, hrl2⟩ := OnList.some_iff.mp hr
  obtain ⟨wl, hwl1, hwl2⟩ := OnList.some_iff.mp hw
  have hmb := hq.1
  have hq' := hq
  obtain ⟨_, hs0, hnn, hndq⟩ := hq'
  unfold chain at hs0 hnn hndq
  have hhd : (k.mem.mboxes mb).pHead ≠ NULL := fun c => hnn (by simp [c])
  have hx : x ≠ NULL := fun c => hnn (by simp [c])
  have hfirst : (k.mem.msgs (k.mem.mboxes mb).pHead).pNext = x := hs0.2.1
  generalize hsdef : (k.mem.msgs x).pBlock = s at *
  generalize hddef : (k.mem.msgs x).pData = d at *
  obtain ⟨f, hfdef⟩ : ∃ f : Ptr → Nat, f = fun a =>
      if d ≤ a ∧ a < d + (k.mem.mboxes mb).nDataSize.toNat then k.mem.bytes (pData + (a - d))
      else k.mem.bytes a := ⟨_, rfl⟩
  obtain ⟨m0, hm0⟩ : ∃ m0, m0 = { k.mem with bytes := f } := ⟨_, rfl⟩
  have hcopy : memcpy k.mem d pData (k.mem.mboxes mb).nDataSize = some m0 := by
    unfold memcpy
    rw [if_neg (by simp only [not_or]; exact ⟨hd, hp, by omega⟩), hm0, hfdef]
  obtain ⟨bx, hbx⟩ : ∃ bx : mailbox, bx = { k.mem.mboxes mb with nBlockedMsg := (k.mem.mboxes mb).nBlockedMsg + 1 } := ⟨_, rfl⟩
  obtain ⟨m1, hm1⟩ : ∃ m1, m1 = { m0 with mboxes := upd m0.mboxes mb bx } := ⟨_, rfl⟩
  have hset : (m0.setMbox mb fun b => { b with nBlockedMsg := b.nBlockedMsg + 1 }) = some m1 := by
    unfold Mem.setMbox
    rw [if_neg hmb, hm1, hbx, hm0]
  have hq1 : IsQueue m1 mb ([] ++ x :: qb) := by
    refine IsQueue.of_eq hq (by rw [hm1, hm0]) ?_ ?_
    · rw [hm1, hm0, hbx]; simp [upd]
    · rw [hm1, hm0, hbx]; simp [upd]
  obtain ⟨m2, hu, hq2, o1, o2, o3, o4, o5, o6, o7, o8⟩ := hq1.unlink
  obtain ⟨mx, hmx⟩ : ∃ mx : msg, mx = { m2.msgs x with Status := SUCCESS } := ⟨_, rfl⟩
  obtain ⟨m3, hm3⟩ : ∃ m3, m3 = { m2 with msgs := upd m2.msgs x mx } := ⟨_, rfl⟩
  have hst : (m2.setMsg x fun t => { t with Status := SUCCESS }) = some m3 := by
    unfold Mem.setMsg
    rw [if_neg hx, hm3, hmx]
  have hobj3 : m3.objs = k.mem.objs := by rw [hm3]; simp only; rw [o1, hm1, hm0]
  have htcb3 : m3.tcbs = k.mem.tcbs := by rw [hm3]; simp only; rw [o2, hm1, hm0]
  have hmbx3 : m3.mboxes = upd k.mem.mboxes mb bx := by
    rw [hm3]; simp only; rw [o3, hm1, hm0]
  have hblk : (m3.msgs x).pBlock = s := by
    rw [hm3, hmx]; simp only [upd, if_true]
    rw [(o5 x).2.2, hm1, hm0]; exact hsdef
  have fr3 : ∀ {l : OSList_t} {xs : List Ptr}, IsList k.mem l xs → IsList m3 l xs :=
    fun h => h.frame (fun q _ => by rw [hobj3]; exact ⟨rfl, rfl⟩)
  have hT3 : ∀ p ∈ rs ++ ws ++ ts, HasTask m3 p := by
    intro p hp
    show (m3.objs p).pTask ≠ NULL
    rw [hobj3]
    exact hts p hp
  have hnd' := List.nodup_append.mp hnd
  have hnd'' := List.nodup_append.mp hnd'.1
  obtain ⟨m4, m5, wl', rl', a, b, hrem, hins, hab, hwl4, hrl4, htl4, hfr, hsort⟩ :=
    relocate_spec fuel (fr3 hwl2) (fr3 hrl2) (fr3 htl2)
      (fun p hp hp2 => List.disjoint_left.mp hnd''.2.2 hp2 hp)
      (fun p hp hp2 => List.disjoint_left.mp hnd'.2.2 (List.mem_append_right _ hp) hp2)
      (fun p hp hp2 => List.disjoint_left.mp hnd'.2.2 (List.mem_append_left _ hp) hp2)
      (fun p hp => hT3 p (by
        rcases List.mem_cons.mp hp with e | e
        · simp [e, hs]
        · simp [e])) hs hf
  unfold send_wait
  rw [if_neg (by simp only [not_or]; exact ⟨hmb, hp⟩), if_neg (by simp [hnm])]
  have e1 : (isr_off k).mem = k.mem := rfl
  have e2 : (isr_off k).waitingList = some wl := hwl1
  have e3 : (isr_off k).readyList = some rl := hrl1
  simp only [e1, getMbox_of_ne _ hmb, Option.bind_eq_bind, Option.some_bind, if_pos hnb,
    getMsg_of_ne _ hhd, hfirst, getMsg_of_ne _ hx, hddef, hcopy, hset, hu, hst, hblk, e2, e3,
    hrem, hins]
  have hkey : ∀ q, deadlineKey m3 q = deadlineKey k.mem q := by
    intro q
    unfold deadlineKey
    rw [hobj3, htcb3]
  have hmsg5 : m5.msgs = upd m2.msgs x mx := by rw [hfr.2.1, hm3]
  refine ⟨{ isr_off k with mem := m5, waitingList := some wl', readyList := some rl' },
    a, b, rfl, hab, ⟨hrl4, hwl4, ?_, ?_, ?_⟩, ?_, ?_, ?_, ?_, ?_, ?_, ?_, ?_, ?_, ?_, ?_,
    ?_, ?_, ?_, ?_, ?_, rfl, rfl, rfl, rfl, rfl⟩
  · show OnList m5 k.timerList ts
    rw [htl1]
    exact htl4
  · have hperm : ((a ++ s :: b) ++ ws.erase s ++ ts).Perm (rs ++ ws ++ ts) := by
      rw [hab]
      refine List.Perm.append_right ts ?_
      have h2 : ws.Perm (s :: ws.erase s) := List.perm_cons_erase hs
      refine List.Perm.trans ?_ (List.Perm.append_left _ h2.symm)
      have h3 := @List.perm_middle _ s a (b ++ ws.erase s)
      have h4 := @List.perm_middle _ s (a ++ b) (ws.erase s)
      simp only [List.append_assoc, List.cons_append] at h3 h4 ⊢
      exact h3.trans h4.symm
    exact hperm.nodup_iff.mpr hnd
  · intro y hy
    show (m5.objs y).pTask ≠ NULL
    rw [(hfr.2.2.2.2 y).1]
    refine hT3 y ?_
    rw [hab]
    simp only [List.mem_append, List.mem_cons] at hy ⊢
    rcases hy with (((e | e | e) | e) | e)
    · exact Or.inl (Or.inl (Or.inl e))
    · exact Or.inl (Or.inr (e ▸ hs))
    · exact Or.inl (Or.inl (Or.inr e))
    · exact Or.inl (Or.inr (List.mem_of_mem_erase e))
    · exact Or.inr e
  · intro hsrt
    exact hsort (hsrt.congr hkey)
  · show IsQueue m5 mb qb
    have h3 : IsQueue m3 mb qb := by
      unfold IsQueue chain at hq2 ⊢
      have e : m3.mboxes = m2.mboxes := by rw [hm3]
      rw [e]
      refine ⟨hq2.1, mseg_congr ?_ hq2.2.1, hq2.2.2⟩
      intro y _
      rw [hm3, hmx]
      by_cases hy : y = x <;> simp [upd, hy]
    exact h3.same_heap hfr.2.1 hfr.2.2.1
  · show m5.bytes = _
    rw [hfr.2.2.2.1, hm3]; simp only; rw [o4, hm1]; simp only; rw [hm0, hfdef]
  · show m5.tcbs = _
    rw [hfr.1]; exact htcb3
  · intro p
    show (m5.objs p).pTask = _ ∧ (m5.objs p).nTCnt = _ ∧ (m5.objs p).pMessage = _
    rw [(hfr.2.2.2.2 p).1, (hfr.2.2.2.2 p).2.1, (hfr.2.2.2.2 p).2.2.1, hobj3]
    exact ⟨rfl, rfl, rfl⟩
  · show (m5.mboxes mb).nBlockedMsg = _
    rw [hfr.2.2.1, hmbx3, hbx]; simp [upd]
  · show (m5.mboxes mb).nMessages = _
    rw [hfr.2.2.1, hmbx3, hbx]; simp [upd]
  · show (m5.mboxes mb).nDataSize = _
    rw [hfr.2.2.1, hmbx3, hbx]; simp [upd]
  · show (m5.mboxes mb).pHead = _
    rw [hfr.2.2.1, hmbx3, hbx]; simp [upd]
  · show (m5.mboxes mb).pTail = _
    rw [hfr.2.2.1, hmbx3, hbx]; simp [upd]
  · intro b hb
    show m5.mboxes b = _
    rw [hfr.2.2.1, hmbx3]; simp [upd, hb]
  · show (m5.msgs x).Status = SUCCESS
    rw [hmsg5, hmx]; simp [upd]
  · intro y
    show (m5.msgs y).pData = _ ∧ (m5.msgs y).pBlock = _ ∧ (y ≠ x → (m5.msgs y).Status = _)
    rw [hmsg5, hmx]
    have := o5 y
    rw [hm1, hm0] at this
    by_cases hy : y = x
    · subst hy
      simp only [upd, if_true, ne_eq, not_true_eq_false, false_implies, and_true]
      have := o5 y
      rw [hm1, hm0] at this
      exact ⟨this.1, this.2.2⟩
    · simp only [upd, if_neg hy, ne_eq, hy, not_false_eq_true, true_implies]
      exact ⟨this.1, this.2.2, this.2.1⟩
  · intro y hy
    show m5.msgs y = _
    have hyx : y ≠ x := fun c => hy (by simp [chain, c])
    rw [hmsg5]; simp only [upd, if_neg hyx]
    rw [o8 y (by
      intro c
      apply hy
      unfold chain at c ⊢
      rw [hm1, hm0, hbx] at c
      simpa [upd] using c), hm1, hm0]
  · show (m5.msgs x).pNext = NULL
    rw [hmsg5, hmx]; simp only [upd, if_true]; exact o6
  · show (m5.msgs x).pPrevious = NULL
    rw [hmsg5, hmx]; simp only [upd, if_true]; exact o7

theorem send_wait_block_eq (fuel : Nat) (k : Kernel) (mb pData : Ptr) (hmb : mb ≠ NULL)
    (hp : pData ≠ NULL) (hnm : (k.mem.mboxes mb).nMessages = 0)
    (hnb : 0 ≤ (k.mem.mboxes mb).nBlockedMsg) :
    send_wait fuel k mb pData = ((enqueueBlocked fuel (isr_off k) mb pData 1).bind fun k1 =>
      (schedulingUpdate fuel k1).bind fun k2 => some (Outcome.switched, LoadContext k2)) := by
  unfold send_wait
  rw [if_neg (by simp only [not_or]; exact ⟨hmb, hp⟩), if_neg (by simp [hnm])]
  have e1 : (isr_off k).mem = k.mem := rfl
  simp only [e1, getMbox_of_ne _ hmb, Option.bind_eq_bind, Option.some_bind,
    if_neg (by omega : ¬ (k.mem.mboxes mb).nBlockedMsg < 0)]

theorem receive_wait_block_eq (fuel : Nat) (k : Kernel) (mb pData : Ptr) (hmb : mb ≠ NULL)
    (hp : pData ≠ NULL) (hnm : (k.mem.mboxes mb).nMessages ≤ 0)
    (hnb : (k.mem.mboxes mb).nBlockedMsg ≤ 0) :
    receive_wait fuel k mb pData = ((enqueueBlocked fuel (isr_off k) mb pData (-1)).bind fun k1 =>
      (schedulingUpdate fuel k1).bind fun k2 => some (Outcome.switched, LoadContext k2)) := by
  unfold receive_wait
  rw [if_neg (by simp only [not_or]; exact ⟨hmb, hp⟩)]
  have e1 : (isr_off k).mem = k.mem := rfl
  simp only [e1, getMbox_of_ne _ hmb, Option.bind_eq_bind, Option.some_bind,
    if_neg (by omega : ¬ ((k.mem.mboxes mb).nBlockedMsg > 0 ∨ (k.mem.mboxes mb).nMessages > 0))]

theorem Enqueued.deadlineDue_eq {k k1 : Kernel} {mb e c pData : Ptr} {delta : Int}
    {qs : List Ptr} (h : Enqueued k.mem k1.mem mb e c pData delta qs)
    (ht : k1.osTicks = k.osTicks) : deadlineDue k1 = deadlineDue k ∧ timerDue k1 = timerDue k := by
  constructor
  · funext q
    simp only [deadlineDue, deadlineKey, ht, (h.2.2.2.1 q).1, h.2.1]
  · funext q
    simp only [timerDue, wakeKey, ht, (h.2.2.2.1 q).2]

theorem block_spec (fuel : Nat) (k : Kernel) (mb pData : Ptr) (delta : Int)
    (rs ws ts qs : List Ptr) (hL : Lists k rs ws ts) (hrun : k.runningListobj ∈ rs)
    (hother : rs.erase k.runningListobj ≠ []) (hq : IsQueue k.mem mb qs)
    (ha : (calloc k.alloc).1 ≠ NULL) (hfresh : (calloc k.alloc).1 ∉ chain k.mem mb qs)
    (hf : rs.length + ws.length + ts.length < fuel) :
    ∃ k' a b rs', ((enqueueBlocked fuel (isr_off k) mb pData delta).bind fun k1 =>
        (schedulingUpdate fuel k1).bind fun k2 => some (Outcome.switched, LoadContext k2)) =
          some (Outcome.switched, k') ∧
      ws = a ++ b ∧
      Lists k' rs' ((a ++ k.runningListobj :: b).dropWhile (deadlineDue k))
        (ts.dropWhile (timerDue k)) ∧
      rs'.Perm (rs.erase k.runningListobj ++ ts.takeWhile (timerDue k) ++
        (a ++ k.runningListobj :: b).takeWhile (deadlineDue k)) ∧
      (SortedBy (deadlineKey k.mem) ws →
        SortedBy (deadlineKey k'.mem) (a ++ k.runningListobj :: b)) ∧
      Enqueued k.mem k'.mem mb (calloc k.alloc).1 k.runningListobj pData delta qs ∧
      k'.alloc = (calloc k.alloc).2 ∧ k'.osTicks = k.osTicks ∧ k'.opMode = k.opMode ∧
      k'.isrOnState = true ∧ k'.runningListobj = rs'.headD NULL ∧
      k'.Running = (k'.mem.objs k'.runningListobj).pTask := by
  have hL0 : Lists (isr_off k) rs ws ts := hL
  obtain ⟨k1, a, b, h1, hab, L1, hs1, hE1, c1, c2, c3, c4, c5, c6, c7⟩ :=
    enqueueBlocked_spec fuel (isr_off k) mb pData delta rs ws ts qs hL0 hrun hq ha hfresh
      (by omega)
  have hlen : (a ++ k.runningListobj :: b).length = ws.length + 1 := by
    rw [hab]; simp; omega
  have hpos : 0 < rs.length := List.length_pos_of_mem hrun
  obtain ⟨hdd, htd⟩ := Enqueued.deadlineDue_eq (k := isr_off k) hE1 c2
  have hdd' : deadlineDue k1 = deadlineDue k := hdd
  have htd' : timerDue k1 = timerDue k := htd
  obtain ⟨k2, rs', h2, L2, p2, _, _, f2, _, r2, R2, S2⟩ :=
    schedulingUpdate_spec fuel k1 (rs.erase k.runningListobj) (a ++ k.runningListobj :: b) ts L1
      (by simp [hother]) (by omega) (by rw [hlen]; omega)
  rw [hdd', htd'] at L2 p2
  refine ⟨LoadContext k2, a, b, rs', ?_, hab, L2, p2, ?_, hE1.of_frame f2, ?_, ?_, ?_, rfl, r2,
    ?_⟩
  · rw [h1]
    simp [h2]
  · intro hsrt
    exact (hs1 hsrt).congr f2.deadlineKey_eq
  · show k2.alloc = _
    have e : k2.alloc = k1.alloc := by
      obtain ⟨_, _, _, s4, s5, s6, s7, s8⟩ := S2
      cases hk2 : k2.alloc; cases hk1 : k1.alloc
      simp_all
    rw [e, c1]; rfl
  · show k2.osTicks = _
    rw [S2.1, c2]; rfl
  · show k2.opMode = _
    rw [S2.2.1, c3]; rfl
  · show k2.Running = (k2.mem.objs k2.runningListobj).pTask
    rw [R2, r2]

theorem Taken.after_frame {m m1 m2 : Mem} {mb x : Ptr} {qb S : List Ptr} {delta : Int}
    (h : Taken m m1 mb x qb delta) (hf : LinkFrame m1 m2 S) : Taken m m2 mb x qb delta := by
  obtain ⟨a1, a2, a3, a4, a5, a6, a7, a8, a9, a10, a11, a12, a13⟩ := h
  obtain ⟨f1, f2, f3, f4, f5⟩ := hf
  refine ⟨a1.same_heap f2 f3, f1.trans a2, ?_, ?_, ?_, ?_, ?_, ?_, ?_, ?_, ?_, ?_, ?_⟩
  · intro p; exact ⟨(f5 p).1.trans (a3 p).1, (f5 p).2.1.trans (a3 p).2⟩
  · rw [f3]; exact a4
  · rw [f3]; exact a5
  · rw [f3]; exact a6
  · rw [f3]; exact a7
  · rw [f3]; exact a8
  · intro b hb; rw [f3]; exact a9 b hb
  · intro y; rw [f2]; exact a10 y
  · rw [f2]; exact a11
  · rw [f2]; exact a12
  · intro y hy; rw [f2]; exact a13 y hy

theorem SameStatics.alloc_eq {k k' : Kernel} (h : SameStatics k k') : k'.alloc = k.alloc := by
  obtain ⟨_, _, _, s4, s5, s6, s7, s8⟩ := h
  cases hk2 : k'.alloc; cases hk1 : k.alloc
  simp_all

theorem receive_take_spec (fuel : Nat) (k : Kernel) (mb buf : Ptr) (rs ws ts : List Ptr)
    (x : Ptr) (qb : List Ptr) (hL : Lists k rs ws ts) (hq : IsQueue k.mem mb (x :: qb))
    (hbuf : buf ≠ NULL) (hd : (k.mem.msgs x).pData ≠ NULL)
    (hn : 0 ≤ (k.mem.mboxes mb).nDataSize) (hnb : 0 < (k.mem.mboxes mb).nBlockedMsg)
    (hs : (k.mem.msgs x).pBlock ∈ ws) (hf : rs.length + ws.length + ts.length < fuel) :
    ∃ k' a b rs', receive_wait fuel k mb buf = some (Outcome.switched, k') ∧
      rs = a ++ b ∧
      Lists k' rs' ((ws.erase (k.mem.msgs x).pBlock).dropWhile (deadlineDue k))
        (ts.dropWhile (timerDue k)) ∧
      rs'.Perm ((a ++ (k.mem.msgs x).pBlock :: b) ++ ts.takeWhile (timerDue k) ++
        (ws.erase (k.mem.msgs x).pBlock).takeWhile (deadlineDue k)) ∧
      Taken k.mem k'.mem mb x qb (-1) ∧
      k'.mem.bytes = (fun a => if buf ≤ a ∧ a < buf + (k.mem.mboxes mb).nDataSize.toNat
        then k.mem.bytes ((k.mem.msgs x).pData + (a - buf)) else k.mem.bytes a) ∧
      (k'.mem.msgs x).Status = (k.mem.msgs x).Status ∧
      (k'.mem.objs (k.mem.msgs x).pBlock).pMessage = NULL ∧
      (∀ p, p ≠ (k.mem.msgs x).pBlock → (k'.mem.objs p).pMessage = (k.mem.objs p).pMessage) ∧
      k'.alloc = free k.alloc x ∧ k'.osTicks = k.osTicks ∧ k'.opMode = k.opMode ∧
      k'.isrOnState = true ∧ k'.runningListobj = rs'.headD NULL ∧
      k'.Running = (k'.mem.objs k'.runningListobj).pTask := by
  obtain ⟨k1, a, b, h1, hab, L1, _, q1, b1, t1, j1, pm1, pm2, x1, x2, x3, x4, x5, x6, y1, y2,
    y3, y4, c1, c2, c3, c4, c5⟩ :=
    receive_deliver_spec fuel k mb buf rs ws ts x qb hL hq hbuf hd hn hnb hs (by omega)
  have hdd : deadlineDue k1 = deadlineDue k := by
    funext q
    simp only [deadlineDue, deadlineKey, c2, (j1 q).1, t1]
  have htd : timerDue k1 = timerDue k := by
    funext q
    simp only [timerDue, wakeKey, c2, (j1 q).2]
  have hle : (ws.erase (k.mem.msgs x).pBlock).length ≤ ws.length :=
    (List.erase_sublist _ _).length_le
  obtain ⟨k2, rs', h2, L2, p2, _, _, f2, _, r2, R2, S2⟩ :=
    schedulingUpdate_spec fuel k1 (a ++ (k.mem.msgs x).pBlock :: b)
      (ws.erase (k.mem.msgs x).pBlock) ts L1 (by simp) (by omega) (by omega)
  rw [hdd, htd] at L2 p2
  have hT : Taken k.mem k1.mem mb x qb (-1) :=
    ⟨q1, t1, j1, x1, x2, x3, x4, x5, x6, fun y => ⟨(y1 y).1, (y1 y).2.2, fun _ => (y1 y).2.1⟩,
      y3, y4, y2⟩
  refine ⟨LoadContext k2, a, b, rs', ?_, hab, L2, p2, hT.after_frame f2, ?_, ?_, ?_, ?_, ?_, ?_,
    ?_, rfl, r2, ?_⟩
  · rw [h1, h2]; rfl
  · show k2.mem.bytes = _
    rw [f2.2.2.2.1, b1]
  · show (k2.mem.msgs x).Status = _
    rw [f2.2.1, (y1 x).2.1]
  · show (k2.mem.objs _).pMessage = NULL
    rw [(f2.2.2.2.2 _).2.2.1, pm1]
  · intro p hp
    show (k2.mem.objs p).pMessage = _
    rw [(f2.2.2.2.2 _).2.2.1, pm2 p hp]
  · show k2.alloc = _
    rw [S2.alloc_eq, c1]
  · show k2.osTicks = _
    rw [S2.1, c2]
  · show k2.opMode = _
    rw [S2.2.1, c3]
  · show k2.Running = (k2.mem.objs k2.runningListobj).pTask
    rw [R2, r2]

theorem send_give_spec (fuel : Nat) (k : Kernel) (mb pData : Ptr) (rs ws ts : List Ptr)
    (x : Ptr) (qb : List Ptr) (hL : Lists k rs ws ts) (hq : IsQueue k.mem mb (x :: qb))
    (hp : pData ≠ NULL) (hd : (k.mem.msgs x).pData ≠ NULL)
    (hn : 0 ≤ (k.mem.mboxes mb).nDataSize) (hnm : (k.mem.mboxes mb).nMessages = 0)
    (hnb : (k.mem.mboxes mb).nBlockedMsg < 0)
    (hs : (k.mem.msgs x).pBlock ∈ ws) (hf : rs.length + ws.length + ts.length < fuel) :
    ∃ k' a b rs', send_wait fuel k mb pData = some (Outcome.switched, k') ∧
      rs = a ++ b ∧
      Lists k' rs' ((ws.erase (k.mem.msgs x).pBlock).dropWhile (deadlineDue k))
        (ts.dropWhile (timerDue k)) ∧
      rs'.Perm ((a ++ (k.mem.msgs x).pBlock :: b) ++ ts.takeWhile (timerDue k) ++
        (ws.erase (k.mem.msgs x).pBlock).takeWhile (deadlineDue k)) ∧
      Taken k.mem k'.mem mb x qb 1 ∧
      k'.mem.bytes = (fun a => if (k.mem.msgs x).pData ≤ a ∧
          a < (k.mem.msgs x).pData + (k.mem.mboxes mb).nDataSize.toNat
        then k.mem.bytes (pData + (a - (k.mem.msgs x).pData)) else k.mem.bytes a) ∧
      (k'.mem.msgs x).Status = SUCCESS ∧
      (∀ p, (k'.mem.objs p).pMessage = (k.mem.objs p).pMessage) ∧
      k'.alloc = k.alloc ∧ k'.osTicks = k.osTicks ∧ k'.opMode = k.opMode ∧
      k'.isrOnState = true ∧ k'.runningListobj = rs'.headD NULL ∧
      k'.Running = (k'.mem.objs k'.runningListobj).pTask := by
  obtain ⟨k1, a, b, h1, hab, L1, _, q1, b1, t1, j1, x1, x2, x3, x4, x5, x6, st, y1, y2,
    y3, y4, c1, c2, c3, c4, c5⟩ :=
    send_deliver_spec fuel k mb pData rs ws ts x qb hL hq hp hd hn hnm hnb hs (by omega)
  have hdd : deadlineDue k1 = deadlineDue k := by
    funext q
    simp only [deadlineDue, deadlineKey, c2, (j1 q).1, t1]
  have htd : timerDue k1 = timerDue k := by
    funext q
    simp only [timerDue, wakeKey, c2, (j1 q).2.1]
  have hle : (ws.erase (k.mem.msgs x).pBlock).length ≤ ws.length :=
    (List.erase_sublist _ _).length_le
  obtain ⟨k2, rs', h2, L2, p2, _, _, f2, _, r2, R2, S2⟩ :=
    schedulingUpdate_spec fuel k1 (a ++ (k.mem.msgs x).pBlock :: b)
      (ws.erase (k.mem.msgs x).pBlock) ts L1 (by simp) (by omega) (by omega)
  rw [hdd, htd] at L2 p2
  have hT : Taken k.mem k1.mem mb x qb 1 :=
    ⟨q1, t1, fun p => ⟨(j1 p).1, (j1 p).2.1⟩, x1, x2, x3, x4, x5, x6, y1, y3, y4, y2⟩
  refine ⟨LoadContext k2, a, b, rs', ?_, hab, L2, p2, hT.after_frame f2, ?_, ?_, ?_, ?_, ?_,
    ?_, rfl, r2, ?_⟩
  · rw [h1, h2]; rfl
  · show k2.mem.bytes = _
    rw [f2.2.2.2.1, b1]
  · show (k2.mem.msgs x).Status = _
    rw [f2.2.1, st]
  · intro p
    show (k2.mem.objs p).pMessage = _
    rw [(f2.2.2.2.2 _).2.2.1, (j1 p).2.2]
  · show k2.alloc = _
    rw [S2.alloc_eq, c1]
  · show k2.osTicks = _
    rw [S2.1, c2]
  · show k2.opMode = _
    rw [S2.2.1, c3]
  · show k2.Running = (k2.mem.objs k2.runningListobj).pTask
    rw [R2, r2]

theorem sched_lengths {rs' R T W : List Ptr} {p q : Ptr → Bool}
    (h : rs'.Perm (R ++ T.takeWhile p ++ W.takeWhile q)) :
    rs'.length + (W.dropWhile q).length + (T.dropWhile p).length =
      R.length + W.length + T.length := by
  have h1 := h.length_eq
  have h2 := congrArg List.length (List.takeWhile_append_dropWhile p T)
  have h3 := congrArg List.length (List.takeWhile_append_dropWhile q W)
  simp only [List.length_append] at h1 h2 h3
  omega

theorem mem_dropWhile_of_false {l : List Ptr} {p : Ptr → Bool} {x : Ptr} (hx : x ∈ l)
    (hp : p x = false) : x ∈ l.dropWhile p := by
  have h := List.takeWhile_append_dropWhile p l
  rw [← h] at hx
  rcases List.mem_append.mp hx with c | c
  · have := List.mem_takeWhile_imp c
    rw [hp] at this
    exact absurd this (by simp)
  · exact c

theorem not_mem_takeWhile_of_false {l : List Ptr} {p : Ptr → Bool} {x : Ptr}
    (hp : p x = false) : x ∉ l.takeWhile p := by
  intro c
  have := List.mem_takeWhile_imp c
  rw [hp] at this
  exact absurd this (by simp)

theorem not_mem_erase_self {l : List Ptr} (x : Ptr) (h : l.Nodup) : x ∉ l.erase x :=
  fun c => ((List.Nodup.mem_erase_iff h).mp c).1 rfl

theorem Lists.nodup_ready {k : Kernel} {rs ws ts : List Ptr} (h : Lists k rs ws ts) :
    rs.Nodup ∧ ws.Nodup ∧ ts.Nodup ∧ (∀ x ∈ rs, x ∉ ws) ∧ (∀ x ∈ rs, x ∉ ts) ∧
      (∀ x ∈ ws, x ∉ ts) := by
  have hnd := h.2.2.2.1
  have hnd' := List.nodup_append.mp hnd
  have hnd'' := List.nodup_append.mp hnd'.1
  exact ⟨hnd''.1, hnd''.2.1, hnd'.2.1, fun x hx hx2 => List.disjoint_left.mp hnd''.2.2 hx hx2,
    fun x hx hx2 => List.disjoint_left.mp hnd'.2.2 (List.mem_append_left _ hx) hx2,
    fun x hx hx2 => List.disjoint_left.mp hnd'.2.2 (List.mem_append_right _ hx) hx2⟩

theorem blocked_resumed_mem (fuel : Nat) (k : Kernel) (mb : Ptr) (delta : Int)
    {qs : List Ptr} (hq : IsQueue k.mem mb qs) (hc : k.runningListobj ≠ NULL)
    (hpm : (k.mem.objs k.runningListobj).pMessage ∈ qs) (hf : qs.length < fuel)
    (h : deadline k ≤ ticks k) :
    ∃ k', blocked_resumed fuel k mb delta = some (DEADLINE_REACHED, k') ∧
      IsQueue k'.mem mb (qs.erase (k.mem.objs k.runningListobj).pMessage) ∧
      (k'.mem.mboxes mb).nBlockedMsg = (k.mem.mboxes mb).nBlockedMsg + delta ∧
      (k'.mem.mboxes mb).nMessages = (k.mem.mboxes mb).nMessages ∧
      (k'.mem.objs k.runningListobj).pMessage = NULL ∧
      k'.alloc = free k.alloc (k.mem.objs k.runningListobj).pMessage ∧
      k'.isrOnState = true ∧ k'.mem.bytes = k.mem.bytes ∧
      (∀ y, (k'.mem.msgs y).pData = (k.mem.msgs y).pData) ∧
      k'.readyList = k.readyList ∧ k'.waitingList = k.waitingList ∧
      k'.timerList = k.timerList ∧ k'.osTicks = k.osTicks ∧
      k'.runningListobj = k.runningListobj ∧
      (∀ rs ws ts, Lists k rs ws ts → Lists k' rs ws ts) ∧
      (∀ b, b ≠ mb → k'.mem.mboxes b = k.mem.mboxes b) ∧
      (∀ y, y ∉ chain k.mem mb qs → k'.mem.msgs y = k.mem.msgs y) := by
  obtain ⟨qa, qb, hab⟩ := List.append_of_mem hpm
  have hnd : qs.Nodup := by
    have := hq.2.2.2
    unfold chain at this
    exact (List.nodup_append.mp (List.nodup_cons.mp this).2).1
  have hxa : (k.mem.objs k.runningListobj).pMessage ∉ qa := by
    intro c
    rw [hab] at hnd
    exact (List.nodup_append.mp hnd).2.2 c (List.mem_cons_self _ _)
  have hq' := hq
  rw [hab] at hq'
  obtain ⟨m', h1, q1, a1, a2, a3, a4, a5, a6, a7, a8, a9, a10, a11, a12, a13, a14⟩ :=
    blocked_resumed_found fuel k mb delta hq' hc rfl
      (by rw [hab] at hf; simp at hf; omega) h
  refine ⟨_, h1, ?_, a6, a7, a4, rfl, rfl, a2, fun y => (a12 y).1, rfl, rfl, rfl, rfl, rfl, ?_,
    a11, ?_⟩
  · rw [hab, erase_middle hxa]
    exact q1
  · intro rs ws ts hL
    obtain ⟨hr, hw, htl, hnd, hts⟩ := hL
    obtain ⟨tl, htl1, htl2⟩ := OnList.some_iff.mp htl
    obtain ⟨rl, hrl1, hrl2⟩ := OnList.some_iff.mp hr
    obtain ⟨wl, hwl1, hwl2⟩ := OnList.some_iff.mp hw
    have fr : ∀ {l : OSList_t} {xs : List Ptr}, IsList k.mem l xs → IsList m' l xs :=
      fun h => h.frame (fun q _ => ⟨(a3 q).2.2.1, (a3 q).2.2.2⟩)
    refine ⟨?_, ?_, ?_, hnd, ?_⟩
    · show OnList m' k.readyList rs
      rw [hrl1]; exact fr hrl2
    · show OnList m' k.waitingList ws
      rw [hwl1]; exact fr hwl2
    · show OnList m' k.timerList ts
      rw [htl1]; exact fr htl2
    · intro y hy
      show (m'.objs y).pTask ≠ NULL
      rw [(a3 y).1]
      exact hts y hy
  · intro y hy
    refine a14 y ?_
    rw [← hab]
    exact hy

theorem tick_wakes (fuel : Nat) (k : Kernel) (rs ws ts : List Ptr) (c : Ptr)
    (hL : Lists k rs ws ts) (hc : c ∈ ws) (hs : SortedBy (deadlineKey k.mem) ws)
    (hi : k.isrOnState = true) (hd : deadlineKey k.mem c ≤ (k.osTicks + 1) % UINT_MOD)
    (hf : ws.length + ts.length < fuel) :
    ∃ k' rs' ws' ts', tick fuel k = some k' ∧ Lists k' rs' ws' ts' ∧ c ∈ rs' ∧ c ∉ ws' ∧
      ws'.Sublist ws ∧ k'.osTicks = (k.osTicks + 1) % UINT_MOD ∧
      k'.mem.msgs = k.mem.msgs ∧ k'.mem.mboxes = k.mem.mboxes ∧
      (∀ p, (k'.mem.objs p).pMessage = (k.mem.objs p).pMessage) := by
  obtain ⟨k0, hk0⟩ : ∃ k0, k0 = { k with osTicks := (k.osTicks + 1) % UINT_MOD } := ⟨_, rfl⟩
  have hL0 : Lists k0 rs ws ts := by rw [hk0]; exact hL
  have hs0 : SortedBy (deadlineKey k0.mem) ws := by rw [hk0]; exact hs
  have hdue : deadlineDue k0 c = true := by
    rw [hk0]
    simp only [deadlineDue, decide_eq_true_eq]
    exact hd
  obtain ⟨e1, e2⟩ := deadlineDue_sorted hs0
  have hct : c ∈ ws.takeWhile (deadlineDue k0) := by
    rw [e1]
    exact List.mem_filter.mpr ⟨hc, hdue⟩
  obtain ⟨k', rs', h1, L1, p1, _, _, f1, _, _, _, S1⟩ :=
    schedulingUpdate_spec fuel k0 rs ws ts hL0
      (fun c2 => by
        have := List.append_eq_nil.mp c2
        rw [this.2] at hct
        exact absurd hct (List.not_mem_nil _))
      (by omega) (by omega)
  have hm0 : k0.mem = k.mem := by rw [hk0]
  rw [hm0] at f1
  refine ⟨k', rs', _, _, ?_, L1, ?_, ?_, List.dropWhile_sublist _, ?_, f1.2.1, f1.2.2.1,
    fun p => (f1.2.2.2.2 p).2.2.1⟩
  · unfold tick
    rw [if_pos hi, ← hk0]
    exact h1
  · exact p1.symm.subset (List.mem_append_right _ hct)
  · rw [e2]
    intro c2
    have := (List.mem_filter.mp c2).2
    rw [hdue] at this
    exact absurd this (by decide)
  · rw [S1.1, hk0]

theorem timeout_spec (fuel : Nat) (k : Kernel) (mb pData : Ptr) (delta : Int)
    (rs ws ts qs : List Ptr) (hL : Lists k rs ws ts) (hrun : k.runningListobj ∈ rs)
    (hother : rs.erase k.runningListobj ≠ []) (hq : IsQueue k.mem mb qs)
    (ha : (calloc k.alloc).1 ≠ NULL) (hfresh : (calloc k.alloc).1 ∉ chain k.mem mb qs)
    (hdl : k.osTicks < deadlineKey k.mem k.runningListobj)
    (hsrt : SortedBy (deadlineKey k.mem) ws)
    (hf : rs.length + ws.length + ts.length < fuel) (hfq : qs.length + 1 < fuel) :
    ∃ k1 rs1 ws1 ts1, ((enqueueBlocked fuel (isr_off k) mb pData delta).bind fun k1 =>
        (schedulingUpdate fuel k1).bind fun k2 => some (Outcome.switched, LoadContext k2)) =
          some (Outcome.switched, k1) ∧
      Lists k1 rs1 ws1 ts1 ∧ k.runningListobj ∉ rs1 ∧ k.runningListobj ∈ ws1 ∧
      SortedBy (deadlineKey k1.mem) ws1 ∧
      deadlineKey k1.mem k.runningListobj = deadlineKey k.mem k.runningListobj ∧
      IsQueue k1.mem mb (qs ++ [(calloc k.alloc).1]) ∧
      (k1.mem.mboxes mb).nBlockedMsg = (k.mem.mboxes mb).nBlockedMsg + delta ∧
      (k1.mem.objs k.runningListobj).pMessage = (calloc k.alloc).1 ∧
      ∀ k4, k4.mem.msgs = k1.mem.msgs → k4.mem.mboxes = k1.mem.mboxes →
        (k4.mem.objs k.runningListobj).pMessage = (k1.mem.objs k.runningListobj).pMessage →
        k4.runningListobj = k.runningListobj → deadline k4 ≤ ticks k4 →
        ∃ k5, blocked_resumed fuel k4 mb (-delta) = some (DEADLINE_REACHED, k5) ∧
          IsQueue k5.mem mb qs ∧
          (k5.mem.mboxes mb).nBlockedMsg = (k.mem.mboxes mb).nBlockedMsg ∧
          (k5.mem.mboxes mb).nMessages = (k.mem.mboxes mb).nMessages ∧
          (∀ y, y ≠ (calloc k.alloc).1 → (k5.mem.msgs y).pData = (k.mem.msgs y).pData) ∧
          (k5.mem.objs k.runningListobj).pMessage = NULL ∧
          k5.alloc.freed = (calloc k.alloc).1 :: k4.alloc.freed := by
  obtain ⟨n1, n2, n3, n4, n5, n6⟩ := hL.nodup_ready
  obtain ⟨k1, a, b, rs1, h1, hab, L1, p1, s1, E1, _, t1, _, _, _, _⟩ :=
    block_spec fuel k mb pData delta rs ws ts qs hL hrun hother hq ha hfresh hf
  have hcne : k.runningListobj ≠ NULL := by
    obtain ⟨rl, _, hrl2⟩ := OnList.some_iff.mp hL.1
    exact hrl2.ne_null hrun
  generalize hc : k.runningListobj = c at *
  generalize he : (calloc k.alloc).1 = e at *
  have hnd : deadlineDue k c = false := by
    simp only [deadlineDue, decide_eq_false_iff_not]
    omega
  have hcw : c ∈ (a ++ c :: b).dropWhile (deadlineDue k) :=
    mem_dropWhile_of_false (by simp) hnd
  have hcr : c ∉ rs1 := by
    intro hmem
    rcases List.mem_append.mp (p1.subset hmem) with h | h
    · rcases List.mem_append.mp h with h | h
      · exact not_mem_erase_self c n1 h
      · exact n5 c hrun ((List.takeWhile_sublist _).subset h)
    · exact not_mem_takeWhile_of_false hnd h
  obtain ⟨q1, tc1, by1, j1, pm1, _, b1, b2, b3, b4, b5, _, r1, r2, r3, _⟩ := E1
  have heq : e ∉ qs := fun c2 => hfresh (by simp [chain, c2])
  refine ⟨k1, rs1, _, _, h1, L1, hcr, hcw, (s1 hsrt).sublist (List.dropWhile_sublist _), ?_, q1,
    b1, pm1, ?_⟩
  · unfold deadlineKey
    rw [(j1 c).1, tc1]
  · intro k4 g1 g2 g3 g4 g5
    have q4 : IsQueue k4.mem mb (qs ++ [e]) := q1.same_heap g1 g2
    have hpm4 : (k4.mem.objs k4.runningListobj).pMessage = e := by rw [g4, g3, pm1]
    obtain ⟨k5, w1, w2, w3, w4, w5, w6, _, _, w9, _⟩ :=
      blocked_resumed_mem fuel k4 mb (-delta) q4 (by rw [g4]; exact hcne)
        (by rw [hpm4]; simp) (by simp; omega) g5
    rw [hpm4] at w2 w6
    have her : (qs ++ [e]).erase e = qs := by
      have := @erase_middle qs [] e heq
      simpa using this
    rw [her] at w2
    refine ⟨k5, w1, w2, ?_, ?_, ?_, ?_, ?_⟩
    · rw [w3, g2, b1]; omega
    · rw [w4, g2, b2]
    · intro y hy
      rw [w9 y, g1, (r3 y hy).1]
    · rw [← g4]; exact w5
    · rw [w6]; rfl

theorem msgWalk_seg (m : Mem) (tl : Ptr) : ∀ (qs : List Ptr) (pv : Ptr) (n : Nat),
    mseg m pv (qs ++ [tl]) NULL → NULL ∉ qs → tl ∉ qs → qs.length ≤ n →
    msgWalk m tl n ((qs ++ [tl]).headD NULL) = qs
  | [], _, n, _, _, _, _ => by
    cases n with
    | zero => rfl
    | succ n => simp [msgWalk]
  | x :: rest, pv, n, hs, hn, ht, hl => by
    obtain ⟨n', rfl⟩ : ∃ n', n = n' + 1 := ⟨n - 1, by simp at hl; omega⟩
    have hs' : mseg m pv (x :: (rest ++ [tl])) NULL := hs
    obtain ⟨_, s2, s3⟩ := hs'
    have hx0 : x ≠ NULL := fun c => hn (by simp [c])
    have hxt : x ≠ tl := fun c => ht (by simp [c])
    rw [List.cons_append, List.headD_cons, msgWalk, if_neg (by simp [hx0, hxt]), s2]
    rw [msgWalk_seg m tl rest x n' s3 (fun c => hn (List.mem_cons_of_mem _ c))
      (fun c => ht (List.mem_cons_of_mem _ c)) (by simp at hl; omega)]

theorem IsQueue.queued_eq {m : Mem} {mb : Ptr} {qs : List Ptr} (h : IsQueue m mb qs) {n : Nat}
    (hn : qs.length ≤ n) : queued m mb n = qs := by
  obtain ⟨_, hs, hnn, hnd⟩ := h
  unfold chain at hs hnn hnd
  obtain ⟨_, s2, s3⟩ := hs
  unfold queued
  rw [s2]
  refine msgWalk_seg m _ qs _ n s3 (fun c => hnn (List.mem_cons_of_mem _ (by simp [c]))) ?_ hn
  intro c
  have := (List.nodup_cons.mp hnd).2
  exact (List.nodup_append.mp this).2.2 c (List.mem_singleton_self _)

theorem Bookkept.no_messages_eq {m : Mem} {mb : Ptr} {qs : List Ptr} (h : Bookkept m mb qs)
    (hl : qs.length < 2 ^ 31) : no_messages m mb = (qs.length : Int) := by
  obtain ⟨hq, h1, h2⟩ := h
  unfold no_messages
  rw [if_pos hq.1, h1, h2]
  unfold toInt32
  have e : (0 : Int).natAbs + qs.length = qs.length := by simp
  rw [e]
  have hm : qs.length % UINT_MOD = qs.length := Nat.mod_eq_of_lt (by
    have : (2 : Nat) ^ 31 < UINT_MOD := by decide
    omega)
  rw [hm, if_pos hl]

theorem Bookkept.other {m m' : Mem} {mb : Ptr} {qs : List Ptr} (h : Bookkept m mb qs)
    (hb : m'.mboxes mb = m.mboxes mb) (hm : ∀ y ∈ chain m mb qs, m'.msgs y = m.msgs y) :
    Bookkept m' mb qs := by
  obtain ⟨hq, h1, h2⟩ := h
  refine ⟨?_, by rw [hb]; exact h1, by rw [hb]; exact h2⟩
  unfold IsQueue chain at hq ⊢
  rw [hb]
  exact ⟨hq.1, mseg_congr (fun x hx => by rw [hm x hx]; exact ⟨rfl, rfl⟩) hq.2.1, hq.2.2⟩

theorem create_mailbox_spec (k : Kernel) (nMessages nDataSize : Nat) (h1 : nMessages ≠ 0)
    (h2 : nDataSize ≠ 0) (ha : 3 ≤ k.alloc.avail) (hb : k.alloc.brk ≠ NULL) :
    ∃ k', create_mailbox k nMessages nDataSize = some (k.alloc.brk, k') ∧
      Bookkept k'.mem k.alloc.brk [] ∧
      (k'.mem.mboxes k.alloc.brk).pHead = k.alloc.brk + 1 ∧
      (k'.mem.mboxes k.alloc.brk).pTail = k.alloc.brk + 2 ∧
      (k'.mem.mboxes k.alloc.brk).nBlockedMsg = 0 ∧
      (∀ b, b ≠ k.alloc.brk → k'.mem.mboxes b = k.mem.mboxes b) ∧
      (∀ y, y ≠ k.alloc.brk + 1 → y ≠ k.alloc.brk + 2 → k'.mem.msgs y = k.mem.msgs y) ∧
      k'.mem.objs = k.mem.objs ∧ k'.mem.tcbs = k.mem.tcbs ∧ k'.mem.bytes = k.mem.bytes ∧
      k'.readyList = k.readyList ∧ k'.waitingList = k.waitingList ∧
      k'.timerList = k.timerList ∧ k'.alloc.brk = k.alloc.brk + 3 := by
  have hb0 : k.alloc.brk ≠ 0 := hb
  have hav : k.alloc.avail ≠ 0 := by omega
  have hav1 : k.alloc.avail - 1 ≠ 0 := by omega
  have hav2 : k.alloc.avail - 1 - 1 ≠ 0 := by omega
  have hev : ∃ k', create_mailbox k nMessages nDataSize = some (k.alloc.brk, k') := by
    simp [create_mailbox, calloc, h1, h2, hav, hav1, hav2, hb0, Mem.setMbox, Mem.getMbox,
      Mem.setMsg, upd]
  obtain ⟨k', hk⟩ := hev
  refine ⟨k', hk, ?_⟩
  have hk2 := hk
  simp [create_mailbox, calloc, h1, h2, hav, hav1, hav2, hb0, Mem.setMbox, Mem.getMbox,
    Mem.setMsg, upd] at hk2
  rw [← hk2]
  refine ⟨⟨⟨hb, ?_, ?_, ?_⟩, ?_, ?_⟩, ?_, ?_, ?_, ?_, ?_, rfl, rfl, rfl, rfl, rfl, rfl, ?_⟩
  · simp [chain, mseg, upd]
  · simp [chain, upd, NULL]
  · simp [chain, upd]
  · simp [upd]
  · simp [upd]
  · simp [upd]
  · simp [upd]
  · simp [upd]
  · intro b hb2
    simp [upd, hb2]
  · intro y hy1 hy2
    simp [upd, hy1, hy2]
  · simp

theorem takeWhile_all_false {l : List Ptr} {p : Ptr → Bool} (h : ∀ x ∈ l, p x = false) :
    l.takeWhile p = [] ∧ l.dropWhile p = l := by
  cases l with
  | nil => simp
  | cons x r =>
    have hx := h x (List.mem_cons_self _ _)
    simp [List.takeWhile, List.dropWhile, hx]

theorem send_step (fuel : Nat) (k : Kernel) (mb p : Ptr) (rs ws ts qs : List Ptr)
    (hC : Calm k rs ws ts) (hrun : k.runningListobj ∈ rs)
    (hother : rs.erase k.runningListobj ≠ []) (hS : SendersQueued k mb ws qs) (hp : p ≠ NULL)
    (hav : k.alloc.avail ≠ 0) (hbrk : k.alloc.brk ≠ NULL)
    (hfr : ∀ y ∈ chain k.mem mb qs, y < k.alloc.brk)
    (hf : rs.length + ws.length + ts.length < fuel) :
    ∃ k' rs' ws' ts', step fuel k (Call.send_wait mb p) = some k' ∧ Calm k' rs' ws' ts' ∧
      SendersQueued k' mb ws' (qs ++ [k.alloc.brk]) ∧
      (k'.mem.msgs k.alloc.brk).pData = p ∧
      (∀ y ∈ qs, (k'.mem.msgs y).pData = (k.mem.msgs y).pData) ∧
      k'.mem.bytes = k.mem.bytes ∧ k'.runningListobj ∈ rs' ∧ rs.length ≤ rs'.length + 1 ∧
      rs'.length + ws'.length + ts'.length = rs.length + ws.length + ts.length ∧
      k'.alloc.avail = k.alloc.avail - 1 ∧ k'.alloc.brk = k.alloc.brk + 1 ∧
      (∀ y ∈ chain k'.mem mb (qs ++ [k.alloc.brk]), y < k.alloc.brk + 1) ∧
      (k'.mem.mboxes mb).nDataSize = (k.mem.mboxes mb).nDataSize := by
  obtain ⟨hL, hdl⟩ := hC
  obtain ⟨⟨hq, hnm, hcnt⟩, hnb, hsz, hrec, hndp⟩ := hS
  obtain ⟨n1, n2, n3, n4, n5, n6⟩ := hL.nodup_ready
  have hcal : calloc k.alloc = (k.alloc.brk, { k.alloc with brk := k.alloc.brk + 1, avail := k.alloc.avail - 1 }) := by
    unfold calloc
    rw [if_neg hav]
  have ha : (calloc k.alloc).1 ≠ NULL := by rw [hcal]; exact hbrk
  have hfresh : (calloc k.alloc).1 ∉ chain k.mem mb qs := by
    rw [hcal]
    intro c
    exact absurd (hfr _ c) (Nat.lt_irrefl _)
  obtain ⟨k', a, b, rs', h1, hab, L1, p1, _, E, al, t1, _, _, r1, _⟩ :=
    block_spec fuel k mb p 1 rs ws ts qs hL hrun hother hq ha hfresh hf
  rw [hcal] at E al
  simp only at E al
  generalize hc : k.runningListobj = c at *
  generalize he : k.alloc.brk = e at *
  have hkey : ∀ x, deadlineKey k'.mem x = deadlineKey k.mem x := by
    intro x
    unfold deadlineKey
    rw [(E.2.2.2.1 x).1, E.2.1]
  have hwfalse : ∀ x ∈ a ++ c :: b, deadlineDue k x = false := by
    intro x hx
    simp only [deadlineDue, decide_eq_false_iff_not, not_le]
    refine hdl x ?_
    rw [hab]
    simp only [List.mem_append, List.mem_cons] at hx ⊢
    rcases hx with h | h | h
    · exact Or.inl (Or.inr (Or.inl h))
    · exact Or.inl (Or.inl (h ▸ hrun))
    · exact Or.inl (Or.inr (Or.inr h))
  obtain ⟨tw, dw⟩ := takeWhile_all_false hwfalse
  rw [dw] at L1
  rw [tw, List.append_nil] at p1
  have hsub : ∀ x ∈ rs' ++ (a ++ c :: b) ++ ts.dropWhile (timerDue k), x ∈ rs ++ ws ++ ts := by
    intro x hx
    rw [hab]
    simp only [List.mem_append, List.mem_cons] at hx ⊢
    rcases hx with (h | h | h | h) | h
    · rcases List.mem_append.mp (p1.subset h) with g | g
      · exact Or.inl (Or.inl (List.mem_of_mem_erase g))
      · exact Or.inr ((List.takeWhile_sublist _).subset g)
    · exact Or.inl (Or.inr (Or.inl h))
    · exact Or.inl (Or.inl (h ▸ hrun))
    · exact Or.inl (Or.inr (Or.inr h))
    · exact Or.inr ((List.dropWhile_sublist _).subset h)
  obtain ⟨q1, tc1, by1, j1, pm1, _, b1, b2, b3, b4, b5, _, d1, d2, d3, d4⟩ := E
  have hrs' : rs' ≠ [] := by
    intro c2
    rw [c2] at p1
    have := p1.length_eq
    simp only [List.length_nil, List.length_append] at this
    have h0 : (rs.erase c).length ≠ 0 := fun c3 => hother (List.length_eq_zero.mp c3)
    omega
  have hlen := p1.length_eq
  have hlen0 := congrArg List.length (List.takeWhile_append_dropWhile (timerDue k) ts)
  simp only [List.length_append] at hlen hlen0
  have hlen1 : (rs.erase c).length + 1 = rs.length := by
    rw [List.length_erase_of_mem hrun]
    have := List.length_pos_of_mem hrun
    omega
  have hlen2 : (a ++ c :: b).length = ws.length + 1 := by rw [hab]; simp; omega
  have heq : e ∉ qs := fun c2 => hfresh (by rw [hcal]; simp [chain, c2])
  refine ⟨k', rs', a ++ c :: b, ts.dropWhile (timerDue k), ?_, ⟨L1, ?_⟩,
    ⟨⟨q1, by rw [b2]; exact hnm, ?_⟩, by rw [b1]; omega, by rw [b3]; exact hsz, ?_, ?_⟩, d1, ?_,
    by1, ?_, ?_, ?_, ?_, ?_, ?_, b3⟩
  · show (send_wait fuel k mb p).map Prod.snd = some k'
    rw [send_wait_block_eq fuel k mb p hq.1 hp hnm hnb, h1]
    rfl
  · intro x hx
    rw [t1, hkey]
    exact hdl x (hsub x hx)
  · rw [b1, List.length_append, List.length_singleton, ← hcnt]
    omega
  · intro y hy
    rcases List.mem_append.mp hy with h | h
    · have hye : y ≠ e := fun c2 => heq (c2 ▸ h)
      rw [(d3 y hye).1, (d3 y hye).2.1]
      refine ⟨(hrec y h).1, ?_⟩
      have := (hrec y h).2
      rw [hab] at this
      simp only [List.mem_append, List.mem_cons] at this ⊢
      tauto
    · rw [List.mem_singleton.mp h, d1, d2]
      exact ⟨hp, by simp⟩
  · rw [List.map_append, List.map_singleton, d2]
    have hmap : qs.map (fun y => (k'.mem.msgs y).pBlock) =
        qs.map (fun y => (k.mem.msgs y).pBlock) := by
      refine List.map_congr_left ?_
      intro y hy
      have hye : y ≠ e := fun c2 => heq (c2 ▸ hy)
      exact (d3 y hye).2.1
    rw [hmap]
    refine List.nodup_append.mpr ⟨hndp, List.nodup_singleton _, ?_⟩
    intro x hx1 hx2
    rw [List.mem_singleton] at hx2
    obtain ⟨y, hy, hyx⟩ := List.mem_map.mp hx1
    have := (hrec y hy).2
    rw [hyx, hx2] at this
    exact n4 c hrun this
  · intro y hy
    have hye : y ≠ e := fun c2 => heq (c2 ▸ hy)
    exact (d3 y hye).1
  · rw [r1]
    cases hrs : rs' with
    | nil => exact absurd hrs hrs'
    | cons z r => simp
  · omega
  · omega
  · rw [al]
  · rw [al]
  · intro y hy
    unfold chain at hy
    rw [b4, b5] at hy
    have hfr' : ∀ z ∈ chain k.mem mb qs, z < e := hfr
    unfold chain at hfr'
    simp only [List.mem_cons, List.mem_append, List.mem_singleton, List.not_mem_nil,
      or_false] at hy hfr'
    rcases hy with h | (h | h) | h
    · exact Nat.lt_succ_of_lt (hfr' y (Or.inl h))
    · exact Nat.lt_succ_of_lt (hfr' y (Or.inr (Or.inl h)))
    · rw [h]; exact Nat.lt_succ_self _
    · exact Nat.lt_succ_of_lt (hfr' y (Or.inr (Or.inr h)))

theorem send_phase (fuel : Nat) (mb : Ptr) : ∀ (ps : List Ptr) (k : Kernel)
    (rs ws ts qs : List Ptr), Calm k rs ws ts → k.runningListobj ∈ rs →
    ps.length < rs.length → SendersQueued k mb ws qs → (∀ p ∈ ps, p ≠ NULL) →
    ps.length ≤ k.alloc.avail → k.alloc.brk ≠ NULL →
    (∀ y ∈ chain k.mem mb qs, y < k.alloc.brk) → rs.length + ws.length + ts.length < fuel →
    ∃ k' rs' ws' ts' news, exec fuel k (ps.map (Call.send_wait mb)) = some k' ∧
      Calm k' rs' ws' ts' ∧ SendersQueued k' mb ws' (qs ++ news) ∧
      news.map (fun y => (k'.mem.msgs y).pData) = ps ∧
      (∀ y ∈ qs, (k'.mem.msgs y).pData = (k.mem.msgs y).pData) ∧
      k'.mem.bytes = k.mem.bytes ∧
      rs'.length + ws'.length + ts'.length = rs.length + ws.length + ts.length ∧
      (k'.mem.mboxes mb).nDataSize = (k.mem.mboxes mb).nDataSize
  | [], k, rs, ws, ts, qs, hC, _, _, hS, _, _, _, _, _ =>
    ⟨k, rs, ws, ts, [], rfl, hC, by rw [List.append_nil]; exact hS, rfl, fun _ _ => rfl, rfl,
      rfl, rfl⟩
  | p :: ps, k, rs, ws, ts, qs, hC, hrun, hlen, hS, hps, hav, hbrk, hfr, hf => by
    have hlen' : ps.length + 1 < rs.length := by simpa using hlen
    have hother : rs.erase k.runningListobj ≠ [] := by
      intro c
      have := congrArg List.length c
      rw [List.length_erase_of_mem hrun] at this
      simp at this
      omega
    have hav' : ps.length + 1 ≤ k.alloc.avail := by simpa using hav
    obtain ⟨k1, rs1, ws1, ts1, h1, C1, S1, d1, d2, by1, r1, l1, l2, a1, a2, f1, z1⟩ :=
      send_step fuel k mb p rs ws ts qs hC hrun hother hS (hps p (List.mem_cons_self _ _))
        (by omega) hbrk hfr hf
    obtain ⟨k', rs', ws', ts', news, h2, C2, S2, e1, e2, by2, l3, z2⟩ :=
      send_phase fuel mb ps k1 rs1 ws1 ts1 (qs ++ [k.alloc.brk]) C1 r1 (by omega) S1
        (fun q hq => hps q (List.mem_cons_of_mem _ hq)) (by rw [a1]; omega)
        (by rw [a2]; exact Nat.succ_ne_zero _) (by rw [a2]; exact f1) (by omega)
    refine ⟨k', rs', ws', ts', k.alloc.brk :: news, ?_, C2, ?_, ?_, ?_, by2.trans by1,
      l3.trans l2, z2.trans z1⟩
    · simp only [List.map_cons, exec]
      rw [h1]
      exact h2
    · have e : qs ++ k.alloc.brk :: news = qs ++ [k.alloc.brk] ++ news := by simp
      rw [e]
      exact S2
    · rw [List.map_cons, e1, e2 _ (by simp), d1]
    · intro y hy
      rw [e2 y (List.mem_append_left _ hy), d2 y hy]

theorem calloc_statics (a : Alloc) :
    (calloc a).2.cnt = a.cnt ∧ (calloc a).2.period = a.period := by
  unfold calloc
  by_cases h : a.avail = 0 <;> simp [h]

theorem hookCall_eq (c : Bool) (a : Alloc) : hookCall c a = OS_calloc a := by
  unfold hookCall OS_malloc OS_calloc
  cases c <;> rfl

theorem hook_cnt_step (p n : Nat) (hp : p < UINT_MOD) :
    ((n % (if p = 0 then UINT_MOD else p) + 1) % UINT_MOD = p ↔
        (if p = 0 then UINT_MOD else p) ∣ n + 1) ∧
      (if (n % (if p = 0 then UINT_MOD else p) + 1) % UINT_MOD = p then 0
        else (n % (if p = 0 then UINT_MOD else p) + 1) % UINT_MOD) =
        (n + 1) % (if p = 0 then UINT_MOD else p) := by
  by_cases h0 : p = 0
  · subst h0
    simp only [if_true]
    have e : (n % UINT_MOD + 1) % UINT_MOD = (n + 1) % UINT_MOD := by
      simp only [UINT_MOD]
      omega
    rw [e]
    refine ⟨Nat.dvd_iff_mod_eq_zero.symm, ?_⟩
    by_cases h : (n + 1) % UINT_MOD = 0
    · rw [if_pos h, h]
    · rw [if_neg h]
  · simp only [if_neg h0]
    have hpos : 0 < p := Nat.pos_of_ne_zero h0
    have hr : n % p < p := Nat.mod_lt _ hpos
    have e : (n % p + 1) % UINT_MOD = n % p + 1 := Nat.mod_eq_of_lt (by omega)
    rw [e]
    have hdiv := Nat.div_add_mod n p
    have e2 : (n + 1) % p = (n % p + 1) % p := by
      conv_lhs => rw [← hdiv]
      rw [Nat.add_assoc, Nat.mul_add_mod]
    by_cases h : n % p + 1 = p
    · have e3 : (n + 1) % p = 0 := by rw [e2, h, Nat.mod_self]
      rw [if_pos h, e3]
      exact ⟨⟨fun _ => Nat.dvd_iff_mod_eq_zero.mpr e3, fun _ => h⟩, rfl⟩
    · have e3 : (n + 1) % p = n % p + 1 := by
        rw [e2]; exact Nat.mod_eq_of_lt (by omega)
      rw [if_neg h, e3]
      refine ⟨⟨fun c => absurd c h, fun c => ?_⟩, rfl⟩
      have := Nat.dvd_iff_mod_eq_zero.mp c
      omega

theorem hookCall_spec (c : Bool) (a : Alloc) (n : Nat) (hp : a.period < UINT_MOD)
    (hc : a.cnt = n % (if a.period = 0 then UINT_MOD else a.period)) :
    (hookCall c a).2.period = a.period ∧
      (hookCall c a).2.cnt = (n + 1) % (if a.period = 0 then UINT_MOD else a.period) ∧
      ((if a.period = 0 then UINT_MOD else a.period) ∣ n + 1 →
        (hookCall c a).1 = NULL ∧ (hookCall c a).2.brk = a.brk ∧
        (hookCall c a).2.avail = a.avail ∧ (hookCall c a).2.freed = a.freed) ∧
      (¬ (if a.period = 0 then UINT_MOD else a.period) ∣ n + 1 →
        (hookCall c a).1 = (calloc a).1 ∧ (hookCall c a).2.brk = (calloc a).2.brk ∧
        (hookCall c a).2.avail = (calloc a).2.avail ∧
        (hookCall c a).2.freed = (calloc a).2.freed) := by
  obtain ⟨s1, s2⟩ := hook_cnt_step a.period n hp
  rw [← hc] at s1 s2
  rw [hookCall_eq]
  unfold OS_calloc
  simp only
  by_cases h : (a.cnt + 1) % UINT_MOD = a.period
  · rw [if_pos h] at s2
    rw [if_pos h]
    refine ⟨rfl, s2, fun _ => ⟨rfl, rfl, rfl, rfl⟩, fun c => absurd (s1.mp h) c⟩
  · rw [if_neg h] at s2
    rw [if_neg h]
    refine ⟨(calloc_statics _).2, (calloc_statics _).1.trans s2, fun c => absurd (s1.mpr c) h,
      fun _ => ?_⟩
    unfold calloc
    by_cases ha : a.avail = 0 <;> simp [ha]

theorem hookCalls_spec : ∀ (cs : List Bool) (a : Alloc) (n : Nat), a.period < UINT_MOD →
    a.cnt = n % (if a.period = 0 then UINT_MOD else a.period) →
    (hookCalls cs a).period = a.period ∧
      (hookCalls cs a).cnt =
        (n + cs.length) % (if a.period = 0 then UINT_MOD else a.period)
  | [], a, n, _, hc => ⟨rfl, by simpa using hc⟩
  | c :: cs, a, n, hp, hc => by
    obtain ⟨h1, h2, _⟩ := hookCall_spec c a n hp hc
    obtain ⟨i1, i2⟩ := hookCalls_spec cs (hookCall c a).2 (n + 1) (by rw [h1]; exact hp)
      (by rw [h1]; exact h2)
    rw [h1] at i1 i2
    refine ⟨i1, ?_⟩
    show (hookCalls cs (hookCall c a).2).cnt = _
    rw [i2, List.length_cons]
    congr 1
    omega

theorem hook_kth (a : Alloc) (cs : List Bool) (c : Bool) (hp : a.period < UINT_MOD)
    (hc : a.cnt = 0) :
    ((if a.period = 0 then UINT_MOD else a.period) ∣ cs.length + 1 →
      (hookCall c (hookCalls cs a)).1 = NULL ∧
      (hookCall c (hookCalls cs a)).2.brk = (hookCalls cs a).brk ∧
      (hookCall c (hookCalls cs a)).2.avail = (hookCalls cs a).avail ∧
      (hookCall c (hookCalls cs a)).2.freed = (hookCalls cs a).freed) ∧
    (¬ (if a.period = 0 then UINT_MOD else a.period) ∣ cs.length + 1 →
      (hookCall c (hookCalls cs a)).1 = (calloc (hookCalls cs a)).1 ∧
      (hookCall c (hookCalls cs a)).2.brk = (calloc (hookCalls cs a)).2.brk ∧
      (hookCall c (hookCalls cs a)).2.avail = (calloc (hookCalls cs a)).2.avail ∧
      (hookCall c (hookCalls cs a)).2.freed = (calloc (hookCalls cs a)).2.freed) := by
  obtain ⟨i1, i2⟩ := hookCalls_spec cs a 0 hp (by rw [hc]; simp)
  rw [Nat.zero_add] at i2
  have := hookCall_spec c (hookCalls cs a) cs.length (by rw [i1]; exact hp)
    (by rw [i1]; exact i2)
  rw [i1] at this
  exact ⟨this.2.2.1, this.2.2.2⟩

/-! ### Creating and removing mailboxes -/

theorem toInt32_small (u : Nat) (h : u < 2 ^ 31) : toInt32 u = (u : Int) := by
  have h2 : u % UINT_MOD = u := Nat.mod_eq_of_lt (by simp only [UINT_MOD]; omega)
  unfold toInt32
  rw [h2, if_pos h]

theorem toInt32_large (u : Nat) (h1 : 2 ^ 31 ≤ u) (h2 : u < 2 ^ 32) :
    toInt32 u = (u : Int) - 2 ^ 32 := by
  have h3 : u % UINT_MOD = u := Nat.mod_eq_of_lt h2
  unfold toInt32
  rw [h3, if_neg (by omega)]
  simp [UINT_MOD]

theorem create_mailbox_statics (k : Kernel) (n d : Nat) (r : Ptr × Kernel)
    (h : create_mailbox k n d = some r) :
    r.2.isrOnState = k.isrOnState ∧ r.2.osTicks = k.osTicks ∧ r.2.opMode = k.opMode ∧
      r.2.readyList = k.readyList ∧ r.2.waitingList = k.waitingList ∧
      r.2.timerList = k.timerList ∧ r.2.Running = k.Running ∧
      r.2.runningListobj = k.runningListobj := by
  unfold create_mailbox at h
  by_cases h0 : n = 0 ∨ d = 0
  · rw [if_pos h0] at h
    cases h
    exact ⟨rfl, rfl, rfl, rfl, rfl, rfl, rfl, rfl⟩
  · rw [if_neg h0] at h
    dsimp only at h
    by_cases h1 : (calloc k.alloc).1 = NULL
    · rw [if_pos h1] at h
      cases h
      exact ⟨rfl, rfl, rfl, rfl, rfl, rfl, rfl, rfl⟩
    · rw [if_neg h1] at h
      simp only [Mem.setMbox, if_neg h1, Option.bind_eq_bind, Option.some_bind] at h
      by_cases h2 : (calloc (calloc k.alloc).2).1 = NULL
      · rw [if_pos h2] at h
        cases h
        exact ⟨rfl, rfl, rfl, rfl, rfl, rfl, rfl, rfl⟩
      · rw [if_neg h2] at h
        by_cases h3 : (calloc (calloc (calloc k.alloc).2).2).1 = NULL
        · rw [if_pos h3] at h
          cases h
          exact ⟨rfl, rfl, rfl, rfl, rfl, rfl, rfl, rfl⟩
        · rw [if_neg h3] at h
          simp only [Mem.setMbox, Mem.getMbox, Mem.setMsg, if_neg h1, if_neg h2, if_neg h3,
            Option.bind_eq_bind, Option.some_bind, upd_same] at h
          cases h
          exact ⟨rfl, rfl, rfl, rfl, rfl, rfl, rfl, rfl⟩

theorem create_mailbox_no_memory (k : Kernel) (n d : Nat) (h1 : n ≠ 0) (h2 : d ≠ 0)
    (ha : k.alloc.avail < 3) (hb : k.alloc.brk ≠ NULL) :
    ∃ k', create_mailbox k n d = some (NULL, k') ∧ k'.alloc.avail = 0 ∧
      k'.alloc.freed = (List.range k.alloc.avail).map (fun i => k.alloc.brk + i) ++
        k.alloc.freed := by
  have hb0 : k.alloc.brk ≠ 0 := hb
  have hcases : k.alloc.avail = 0 ∨ k.alloc.avail = 1 ∨ k.alloc.avail = 2 := by omega
  rcases hcases with h | h | h
  · refine ⟨_, by simp [create_mailbox, calloc, h1, h2, h]; rfl, ?_, ?_⟩
    · simp [h]
    · simp [h]
  · refine ⟨_, by simp [create_mailbox, calloc, h1, h2, h, hb0, Mem.setMbox]; rfl, ?_, ?_⟩
    · simp [h, free]
    · simp [h, free, List.range_succ]
  · refine ⟨_, by simp [create_mailbox, calloc, h1, h2, h, hb0, Mem.setMbox]; rfl, ?_, ?_⟩
    · simp [h, free]
    · simp [h, free, List.range_succ]

theorem create_mailbox_fields (k : Kernel) (n d : Nat) (h1 : n ≠ 0)
    (h2 : d ≠ 0) (ha : 3 ≤ k.alloc.avail) (hb : k.alloc.brk ≠ NULL) :
    ∃ k', create_mailbox k n d = some (k.alloc.brk, k') ∧
      (k'.mem.mboxes k.alloc.brk).nMaxMessages = toInt32 n ∧
      (k'.mem.mboxes k.alloc.brk).nDataSize = toInt32 d ∧
      (k'.mem.mboxes k.alloc.brk).nMessages = 0 ∧
      k'.alloc.freed = k.alloc.freed ∧ k'.alloc.avail = k.alloc.avail - 3 := by
  have hb0 : k.alloc.brk ≠ 0 := hb
  have hav : k.alloc.avail ≠ 0 := by omega
  have hav1 : k.alloc.avail - 1 ≠ 0 := by omega
  have hav2 : k.alloc.avail - 1 - 1 ≠ 0 := by omega
  have hev : ∃ k', create_mailbox k n d = some (k.alloc.brk, k') := by
    simp [create_mailbox, calloc, h1, h2, hav, hav1, hav2, hb0, Mem.setMbox, Mem.getMbox,
      Mem.setMsg, upd]
  obtain ⟨k', hk⟩ := hev
  refine ⟨k', hk, ?_⟩
  have hk2 := hk
  simp [create_mailbox, calloc, h1, h2, hav, hav1, hav2, hb0, Mem.setMbox, Mem.getMbox,
    Mem.setMsg, upd] at hk2
  rw [← hk2]
  refine ⟨?_, ?_, ?_, ?_, ?_⟩
  · simp [upd]
  · simp [upd]
  · simp [upd]
  · simp
  · simp
    omega

theorem Lists.same_objs {k k' : Kernel} {rs ws ts : List Ptr} (h : Lists k rs ws ts)
    (ho : k'.mem.objs = k.mem.objs) (hr : k'.readyList = k.readyList)
    (hw : k'.waitingList = k.waitingList) (ht : k'.timerList = k.timerList) :
    Lists k' rs ws ts := by
  obtain ⟨h1, h2, h3, h4, h5⟩ := h
  obtain ⟨l1, e1, i1⟩ := OnList.some_iff.mp h1
  obtain ⟨l2, e2, i2⟩ := OnList.some_iff.mp h2
  obtain ⟨l3, e3, i3⟩ := OnList.some_iff.mp h3
  have fr : ∀ {l : OSList_t} {xs : List Ptr}, IsList k.mem l xs → IsList k'.mem l xs :=
    fun h => h.frame (fun x _ => by rw [ho]; exact ⟨rfl, rfl⟩)
  refine ⟨OnList.some_iff.mpr ⟨l1, hr.trans e1, fr i1⟩,
    OnList.some_iff.mpr ⟨l2, hw.trans e2, fr i2⟩,
    OnList.some_iff.mpr ⟨l3, ht.trans e3, fr i3⟩, h4, ?_⟩
  intro x hx
  show (k'.mem.objs x).pTask ≠ NULL
  rw [ho]
  exact h5 x hx

/-! ### Placement of a new entry -/

theorem place_split (key : Ptr → Nat) (ke : Nat) (e : Ptr) : ∀ (a b : List Ptr),
    (∀ x ∈ a, key x ≤ ke) → (∀ n ∈ b.head?, ke < key n) →
    placeBeforeFirstGreater key ke e (a ++ b) = a ++ e :: b
  | [], [], _, _ => rfl
  | [], n :: r, _, hb => by
    have : ke < key n := hb n (by simp)
    simp [placeBeforeFirstGreater, this]
  | x :: a, b, ha, hb => by
    have hx : ¬ ke < key x := Nat.not_lt.mpr (ha x (List.mem_cons_self _ _))
    have ih := place_split key ke e a b (fun y hy => ha y (List.mem_cons_of_mem _ hy)) hb
    show placeBeforeFirstGreater key ke e (x :: (a ++ b)) = x :: (a ++ e :: b)
    unfold placeBeforeFirstGreater
    rw [if_neg hx, ih]

theorem place_of_sorted {key : Ptr → Nat} {a b : List Ptr} {ke : Nat} (e : Ptr)
    (hs : SortedBy key (a ++ b)) (ha : ∀ t ∈ a.getLast?, key t ≤ ke)
    (hb : ∀ n ∈ b.head?, ke < key n) :
    placeBeforeFirstGreater key ke e (a ++ b) = a ++ e :: b :=
  place_split key ke e a b (sorted_place hs ha hb).1 hb

theorem IsList.header_eq {m m' : Mem} {l l' : OSList_t} {xs : List Ptr} (h : IsList m l xs)
    (h' : IsList m' l' xs) : l = l' := by
  obtain ⟨a1, a2, a3, _⟩ := h
  obtain ⟨b1, b2, b3, _⟩ := h'
  cases l
  cases l'
  simp only at a1 a2 a3 b1 b2 b3
  simp [a1, a2, a3, b1, b2, b3]

/-! ### Reassessment with nothing due -/

theorem dropWhile_head_false (p : Ptr → Bool) : ∀ (l : List Ptr),
    ∀ x ∈ (l.dropWhile p).head?, p x = false
  | [], x, hx => by simp at hx
  | y :: r, x, hx => by
    by_cases hy : p y = true
    · rw [List.dropWhile_cons_of_pos hy] at hx
      exact dropWhile_head_false p r x hx
    · rw [List.dropWhile_cons_of_neg hy] at hx
      simp only [List.head?_cons, Option.mem_def, Option.some.injEq] at hx
      rw [← hx]
      simpa using hy

theorem timerLoop_idle (fuel : Nat) (k : Kernel) (ts : List Ptr)
    (htl : OnList k.mem k.timerList ts) (h : ∀ x ∈ ts.head?, timerDue k x = false) :
    timerLoop (fuel + 1) k = some k := by
  obtain ⟨tl, htl1, htl2⟩ := OnList.some_iff.mp htl
  cases ts with
  | nil =>
    have hp : OSList_peek k.timerList = NULL := by rw [htl1]; exact htl2.2.1
    simp [timerLoop, hp]
  | cons x r =>
    have hp : OSList_peek k.timerList = x := by rw [htl1]; exact htl2.2.1
    have hx : x ≠ NULL := htl2.ne_null (List.mem_cons_self _ _)
    have hx0 : x ≠ 0 := hx
    have hd := h x (by simp)
    simp only [timerDue, wakeKey, decide_eq_false_iff_not] at hd
    simp [timerLoop, hp, hx0, obj_of_ne _ hx, hd]

theorem waitingLoop_idle (fuel : Nat) (k : Kernel) (ws : List Ptr)
    (hwl : OnList k.mem k.waitingList ws) (ht : ∀ x ∈ ws, HasTask k.mem x)
    (h : ∀ x ∈ ws.head?, deadlineDue k x = false) :
    waitingLoop (fuel + 1) k = some k := by
  obtain ⟨wl, hwl1, hwl2⟩ := OnList.some_iff.mp hwl
  cases ws with
  | nil =>
    have hp : OSList_peek k.waitingList = NULL := by rw [hwl1]; exact hwl2.2.1
    simp [waitingLoop, hp]
  | cons x r =>
    have hp : OSList_peek k.waitingList = x := by rw [hwl1]; exact hwl2.2.1
    have hx : x ≠ NULL := hwl2.ne_null (List.mem_cons_self _ _)
    have hx0 : x ≠ 0 := hx
    have hd := h x (by simp)
    simp only [deadlineDue, decide_eq_false_iff_not] at hd
    simp [waitingLoop, hp, hx0, deadlineOf_of_ne _ hx (ht x (List.mem_cons_self _ _)), hd]

theorem schedulingUpdate_idle (fuel : Nat) (k : Kernel) (rs ws ts : List Ptr)
    (hL : Lists k rs ws ts) (hne : rs ≠ [])
    (ht : ∀ x ∈ ts.head?, timerDue k x = false)
    (hw : ∀ x ∈ ws.head?, deadlineDue k x = false)
    (hr : k.runningListobj = rs.headD NULL)
    (hR : k.Running = (k.mem.objs (rs.headD NULL)).pTask) :
    schedulingUpdate (fuel + 1) k = some k := by
  obtain ⟨rl, hrl1, hrl2⟩ := OnList.some_iff.mp hL.1
  have hpk : OSList_peek k.readyList = rs.headD NULL := by rw [hrl1]; exact hrl2.2.1
  have hy : rs.headD NULL ≠ NULL := hrl2.ne_null (headD_mem_of_ne_nil _ hne)
  have e1 := timerLoop_idle fuel k ts hL.2.2.1 ht
  have e2 := waitingLoop_idle fuel k ws hL.2.1
    (fun x hx => hL.2.2.2.2 x (by simp only [List.mem_append]; tauto)) hw
  simp only [schedulingUpdate, e1, e2, Option.bind_eq_bind, Option.some_bind, setRunningTask,
    hpk, obj_of_ne _ hy, Option.pure_def]
  rw [← hR, ← hr]

/-! ### What list operations leave alone -/

theorem sameRecords_refl (m : Mem) : SameRecords m m := ⟨rfl, rfl, rfl, fun _ => ⟨rfl, rfl⟩⟩

theorem sameRecords_trans {m m1 m2 : Mem} (h1 : SameRecords m m1) (h2 : SameRecords m1 m2) :
    SameRecords m m2 :=
  ⟨h2.1.trans h1.1, h2.2.1.trans h1.2.1, h2.2.2.1.trans h1.2.2.1,
    fun p => ⟨(h2.2.2.2 p).1.trans (h1.2.2.2 p).1, (h2.2.2.2 p).2.trans (h1.2.2.2 p).2⟩⟩

theorem setNext_records {m m' : Mem} {p v : Ptr} (h : m.setNext p v = some m') :
    SameRecords m m' := by
  unfold Mem.setNext at h
  split at h
  · simp at h
  · simp only [Option.some.injEq] at h
    subst h
    refine ⟨rfl, rfl, rfl, fun q => ?_⟩
    rw [wNext_objs]
    split
    · rename_i c; subst c; exact ⟨rfl, rfl⟩
    · exact ⟨rfl, rfl⟩

theorem setPrev_records {m m' : Mem} {p v : Ptr} (h : m.setPrev p v = some m') :
    SameRecords m m' := by
  unfold Mem.setPrev at h
  split at h
  · simp at h
  · simp only [Option.some.injEq] at h
    subst h
    refine ⟨rfl, rfl, rfl, fun q => ?_⟩
    rw [wPrev_objs]
    split
    · rename_i c; subst c; exact ⟨rfl, rfl⟩
    · exact ⟨rfl, rfl⟩

theorem setMessage_records {m m' : Mem} {p v : Ptr} (h : m.setMessage p v = some m') :
    SameRecords m m' := by
  unfold Mem.setMessage at h
  split at h
  · simp at h
  · simp only [Option.some.injEq] at h
    subst h
    refine ⟨rfl, rfl, rfl, fun q => ?_⟩
    show ((upd m.objs p _) q).pTask = _ ∧ ((upd m.objs p _) q).nTCnt = _
    unfold upd
    split
    · rename_i c; subst c; exact ⟨rfl, rfl⟩
    · exact ⟨rfl, rfl⟩

theorem memcpy_records {m m' : Mem} {d s : Ptr} {n : Int} (h : memcpy m d s n = some m') :
    SameRecords m m' ∧ m'.objs = m.objs := by
  unfold memcpy at h
  split at h
  · simp at h
  · simp only [Option.some.injEq] at h
    subst h
    exact ⟨⟨rfl, rfl, rfl, fun _ => ⟨rfl, rfl⟩⟩, rfl⟩

theorem addInFront_records {m : Mem} {l : OSList_t} {e : Ptr} {r : Mem × OSList_t}
    (h : addInFront m l e = some r) : SameRecords m r.1 := by
  simp only [addInFront, Option.bind_eq_bind, Option.bind_eq_some, Option.pure_def,
    Option.some.injEq] at h
  obtain ⟨m1, h1, m2, h2, h3⟩ := h
  rw [← h3]
  exact sameRecords_trans (setPrev_records h1) (setNext_records h2)

theorem addInBack_records {m : Mem} {l : OSList_t} {e : Ptr} {r : Mem × OSList_t}
    (h : addInBack m l e = some r) : SameRecords m r.1 := by
  simp only [addInBack, Option.bind_eq_bind, Option.bind_eq_some, Option.pure_def,
    Option.some.injEq] at h
  obtain ⟨m1, h1, m2, h2, h3⟩ := h
  rw [← h3]
  exact sameRecords_trans (setNext_records h1) (setPrev_records h2)

theorem insertAfter_records {m m' : Mem} {o e : Ptr} (h : insertAfter m o e = some m') :
    SameRecords m m' := by
  simp only [insertAfter, Option.bind_eq_bind, Option.bind_eq_some] at h
  obtain ⟨_, _, m1, h1, _, _, m2, h2, m3, h3, h4⟩ := h
  exact sameRecords_trans (sameRecords_trans (sameRecords_trans (setPrev_records h1) (setNext_records h2))
    (setNext_records h3)) (setPrev_records h4)

theorem deadlineInsert_records {m : Mem} {l : Option OSList_t} {e : Ptr}
    {r : Bool × Mem × Option OSList_t} (h : OSList_deadlineInsert m l e = some r) :
    SameRecords m r.2.1 := by
  unfold OSList_deadlineInsert at h
  cases l with
  | none =>
    simp only [Option.some.injEq] at h
    rw [← h]
    exact sameRecords_refl m
  | some l =>
    simp only at h
    by_cases he : e = NULL
    · rw [if_pos he] at h
      simp only [Option.some.injEq] at h
      rw [← h]
      exact sameRecords_refl m
    · rw [if_neg he] at h
      by_cases hsz : l.size = 0
      · rw [if_pos hsz] at h
        simp only [Option.bind_eq_bind, Option.some_bind, Option.pure_def,
          Option.some.injEq] at h
        rw [← h]
        exact sameRecords_refl m
      · rw [if_neg hsz] at h
        obtain ⟨ke, _, h⟩ := Option.bind_eq_some.mp h
        obtain ⟨kh, _, h⟩ := Option.bind_eq_some.mp h
        by_cases h1 : ke < kh
        · rw [if_pos h1] at h
          obtain ⟨y, hy, hr⟩ := Option.bind_eq_some.mp h
          simp only [Option.pure_def, Option.some.injEq] at hr
          rw [← hr]
          exact addInFront_records hy
        · rw [if_neg h1] at h
          obtain ⟨kt, _, h⟩ := Option.bind_eq_some.mp h
          by_cases h2 : ke ≥ kt
          · rw [if_pos h2] at h
            obtain ⟨y, hy, hr⟩ := Option.bind_eq_some.mp h
            simp only [Option.pure_def, Option.some.injEq] at hr
            rw [← hr]
            exact addInBack_records hy
          · rw [if_neg h2] at h
            obtain ⟨tmp, _, h⟩ := Option.bind_eq_some.mp h
            obtain ⟨m1, hm1, h⟩ := Option.bind_eq_some.mp h
            simp only [Option.pure_def, Option.bind_eq_bind, Option.some_bind,
              Option.some.injEq] at h
            rw [← h]
            exact insertAfter_records hm1

theorem getFirst_records {m : Mem} {l : Option OSList_t} {r : Ptr × Mem × Option OSList_t}
    (h : OSList_getFirst m l = some r) : SameRecords m r.2.1 := by
  unfold OSList_getFirst at h
  cases l with
  | none =>
    simp only [Option.some.injEq] at h
    rw [← h]
    exact sameRecords_refl m
  | some l =>
    simp only at h
    split at h
    · simp only [Option.some.injEq] at h
      rw [← h]
      exact sameRecords_refl m
    · split at h
      · simp only [Option.bind_eq_bind, Option.bind_eq_some, Option.pure_def,
          Option.some.injEq] at h
        obtain ⟨m1, h1, m2, h2, hr⟩ := h
        rw [← hr]
        exact sameRecords_trans (setNext_records h1) (setPrev_records h2)
      · simp only [Option.bind_eq_bind, Option.bind_eq_some, Option.pure_def,
          Option.some.injEq] at h
        obtain ⟨hd, _, m1, h1, m2, h2, m3, h3, hr⟩ := h
        rw [← hr]
        exact sameRecords_trans (sameRecords_trans (setPrev_records h1) (setNext_records h2))
          (setPrev_records h3)

theorem removeWalk_records {m : Mem} {e : Ptr} : ∀ (fuel : Nat) (tmp : Ptr) (r : Bool × Mem),
    removeWalk m e fuel tmp = some r → SameRecords m r.2
  | 0, _, _, h => by simp [removeWalk] at h
  | fuel + 1, tmp, r, h => by
    unfold removeWalk at h
    split at h
    · simp only [Option.some.injEq] at h
      rw [← h]
      exact sameRecords_refl m
    · split at h
      · simp only [Option.bind_eq_bind, Option.bind_eq_some, Option.pure_def,
          Option.some.injEq] at h
        obtain ⟨_, _, m1, h1, _, _, m2, h2, m3, h3, m4, h4, hr⟩ := h
        rw [← hr]
        exact sameRecords_trans (sameRecords_trans (sameRecords_trans (setNext_records h1)
          (setPrev_records h2)) (setNext_records h3)) (setPrev_records h4)
      · simp only [Option.bind_eq_bind, Option.bind_eq_some] at h
        obtain ⟨t, _, h⟩ := h
        exact removeWalk_records fuel _ r h

theorem remove_records {fuel : Nat} {m : Mem} {l : Option OSList_t} {e : Ptr}
    {r : Bool × Mem × Option OSList_t} (h : OSList_remove fuel m l e = some r) :
    SameRecords m r.2.1 := by
  unfold OSList_remove at h
  cases l with
  | none =>
    simp only [Option.some.injEq] at h
    rw [← h]
    exact sameRecords_refl m
  | some l =>
    simp only at h
    split at h
    · simp only [Option.some.injEq] at h
      rw [← h]
      exact sameRecords_refl m
    · split at h
      · simp only [Option.some.injEq] at h
        rw [← h]
        exact sameRecords_refl m
      · split at h
        · simp only [Option.bind_eq_bind, Option.bind_eq_some, Option.pure_def,
            Option.some.injEq] at h
          obtain ⟨hd, _, m1, h1, m2, h2, hr⟩ := h
          rw [← hr]
          exact sameRecords_trans (setPrev_records h1) (setNext_records h2)
        · split at h
          · simp only [Option.bind_eq_bind, Option.bind_eq_some, Option.pure_def,
              Option.some.injEq] at h
            obtain ⟨tl, _, m1, h1, m2, h2, hr⟩ := h
            rw [← hr]
            exact sameRecords_trans (setNext_records h1) (setPrev_records h2)
          · simp only [Option.bind_eq_bind, Option.bind_eq_some] at h
            obtain ⟨hd, _, y, hy, hr⟩ := h
            have hw := removeWalk_records fuel _ y hy
            split at hr
            · simp only [Option.pure_def, Option.some.injEq] at hr
              rw [← hr]
              exact hw
            · simp only [Option.pure_def, Option.some.injEq] at hr
              rw [← hr]
              exact hw

theorem timerLoop_records : ∀ (fuel : Nat) (k k' : Kernel), timerLoop fuel k = some k' →
    SameRecords k.mem k'.mem
  | 0, _, _, h => by simp [timerLoop] at h
  | fuel + 1, k, k', h => by
    unfold timerLoop at h
    simp only at h
    by_cases hp : OSList_peek k.timerList = NULL
    · rw [if_pos hp] at h
      simp only [Option.some.injEq] at h
      rw [← h]
      exact sameRecords_refl _
    · rw [if_neg hp] at h
      obtain ⟨t, _, h⟩ := Option.bind_eq_some.mp h
      by_cases hd : t.nTCnt ≤ k.osTicks
      · rw [if_pos hd] at h
        obtain ⟨g, hg, h⟩ := Option.bind_eq_some.mp h
        obtain ⟨w, hw, h⟩ := Option.bind_eq_some.mp h
        have ih := timerLoop_records fuel _ k' h
        exact sameRecords_trans (sameRecords_trans (getFirst_records hg) (deadlineInsert_records hw)) ih
      · rw [if_neg hd] at h
        simp only [Option.some.injEq] at h
        rw [← h]
        exact sameRecords_refl _

theorem waitingLoop_records : ∀ (fuel : Nat) (k k' : Kernel), waitingLoop fuel k = some k' →
    SameRecords k.mem k'.mem
  | 0, _, _, h => by simp [waitingLoop] at h
  | fuel + 1, k, k', h => by
    unfold waitingLoop at h
    simp only at h
    by_cases hp : OSList_peek k.waitingList = NULL
    · rw [if_pos hp] at h
      simp only [Option.some.injEq] at h
      rw [← h]
      exact sameRecords_refl _
    · rw [if_neg hp] at h
      obtain ⟨t, _, h⟩ := Option.bind_eq_some.mp h
      by_cases hd : t ≤ k.osTicks
      · rw [if_pos hd] at h
        obtain ⟨g, hg, h⟩ := Option.bind_eq_some.mp h
        obtain ⟨w, hw, h⟩ := Option.bind_eq_some.mp h
        have ih := waitingLoop_records fuel _ k' h
        exact sameRecords_trans (sameRecords_trans (getFirst_records hg) (deadlineInsert_records hw)) ih
      · rw [if_neg hd] at h
        simp only [Option.some.injEq] at h
        rw [← h]
        exact sameRecords_refl _

theorem schedulingUpdate_records {fuel : Nat} {k k' : Kernel}
    (h : schedulingUpdate fuel k = some k') : SameRecords k.mem k'.mem := by
  unfold schedulingUpdate at h
  obtain ⟨k1, h1, h⟩ := Option.bind_eq_some.mp h
  obtain ⟨k2, h2, h⟩ := Option.bind_eq_some.mp h
  unfold setRunningTask at h
  obtain ⟨o, _, h⟩ := Option.bind_eq_some.mp h
  simp only [Option.pure_def, Option.some.injEq] at h
  rw [← h]
  exact sameRecords_trans (timerLoop_records fuel k k1 h1) (waitingLoop_records fuel k1 k2 h2)

/-! ### Mailbox bookkeeping in every state -/

theorem send_deliver_books (fuel : Nat) (k : Kernel) (mb pData x : Ptr) (qb : List Ptr)
    (r : Outcome × Kernel) (hq : IsQueue k.mem mb (x :: qb))
    (hnm : (k.mem.mboxes mb).nMessages = 0) (hnb : (k.mem.mboxes mb).nBlockedMsg < 0)
    (hp : pData ≠ NULL) (h : send_wait fuel k mb pData = some r) :
    r.1 = .switched ∧ IsQueue r.2.mem mb qb ∧
      (r.2.mem.mboxes mb).nBlockedMsg = (k.mem.mboxes mb).nBlockedMsg + 1 ∧
      (r.2.mem.mboxes mb).nMessages = (k.mem.mboxes mb).nMessages ∧
      (∀ b, b ≠ mb → r.2.mem.mboxes b = k.mem.mboxes b) ∧
      (∀ y, y ∉ chain k.mem mb (x :: qb) → r.2.mem.msgs y = k.mem.msgs y) := by
  have hmb := hq.1
  have hq' := hq
  obtain ⟨_, hs0, hnn, hndq⟩ := hq'
  unfold chain at hs0 hnn hndq
  have hhd : (k.mem.mboxes mb).pHead ≠ NULL := fun c => hnn (by simp [c])
  have hx : x ≠ NULL := fun c => hnn (by simp [c])
  have hfirst : (k.mem.msgs (k.mem.mboxes mb).pHead).pNext = x := hs0.2.1
  unfold send_wait at h
  rw [if_neg (by simp only [not_or]; exact ⟨hmb, hp⟩), if_neg (by simp [hnm])] at h
  have e1 : (isr_off k).mem = k.mem := rfl
  simp only [e1, getMbox_of_ne _ hmb, Option.bind_eq_bind, Option.some_bind, if_pos hnb,
    getMsg_of_ne _ hhd, hfirst, getMsg_of_ne _ hx] at h
  obtain ⟨m0, hm0, g1⟩ := Option.bind_eq_some.mp h
  obtain ⟨m1, hm1, g2⟩ := Option.bind_eq_some.mp g1
  obtain ⟨m2, hm2, g3⟩ := Option.bind_eq_some.mp g2
  obtain ⟨m3, hm3, g4⟩ := Option.bind_eq_some.mp g3
  obtain ⟨r1, hr1, g5⟩ := Option.bind_eq_some.mp g4
  obtain ⟨w, hw, g6⟩ := Option.bind_eq_some.mp g5
  obtain ⟨k2, hk2, hfin⟩ := Option.bind_eq_some.mp g6
  simp only [Option.some.injEq] at hfin
  clear h g1 g2 g3 g4 g5 g6
  obtain ⟨c0, _⟩ := memcpy_records hm0
  -- the counter
  unfold Mem.setMbox at hm1
  rw [if_neg hmb] at hm1
  simp only [Option.some.injEq] at hm1
  have hq0 : IsQueue m0 mb (x :: qb) := hq.same_heap c0.1 c0.2.1
  have hq1 : IsQueue m1 mb ([] ++ x :: qb) := by
    refine IsQueue.of_eq hq0 (by rw [← hm1]) ?_ ?_
    · rw [← hm1]; simp [upd]
    · rw [← hm1]; simp [upd]
  obtain ⟨m2', hu, hq2, _, _, o3, _, _, _, _, o8⟩ := hq1.unlink
  rw [hu] at hm2
  simp only [Option.some.injEq] at hm2
  subst hm2
  unfold Mem.setMsg at hm3
  rw [if_neg hx] at hm3
  simp only [Option.some.injEq] at hm3
  have hq3 : IsQueue m3 mb qb := by
    unfold IsQueue chain at hq2 ⊢
    have e : m3.mboxes = m2'.mboxes := by rw [← hm3]
    rw [e]
    refine ⟨hq2.1, mseg_congr ?_ hq2.2.1, hq2.2.2⟩
    intro y _
    rw [← hm3]
    by_cases hy : y = x <;> simp [upd, hy]
  have s1 : SameRecords m3 k2.mem :=
    sameRecords_trans (sameRecords_trans (remove_records hr1) (deadlineInsert_records hw))
      (schedulingUpdate_records hk2)
  have hmbx3 : m3.mboxes = upd k.mem.mboxes mb
      { k.mem.mboxes mb with nBlockedMsg := (k.mem.mboxes mb).nBlockedMsg + 1 } := by
    rw [← hm3]; simp only; rw [o3, ← hm1]; simp only; rw [c0.2.1]
  rw [← hfin]
  refine ⟨rfl, hq3.same_heap s1.1 s1.2.1, ?_, ?_, ?_, ?_⟩
  · show (k2.mem.mboxes mb).nBlockedMsg = _
    rw [s1.2.1, hmbx3]; simp [upd]
  · show (k2.mem.mboxes mb).nMessages = _
    rw [s1.2.1, hmbx3]; simp [upd]
  · intro b hb
    show k2.mem.mboxes b = _
    rw [s1.2.1, hmbx3]; simp [upd, hb]
  · intro y hy
    show k2.mem.msgs y = _
    have hyx : y ≠ x := fun c => hy (by simp [chain, c])
    rw [s1.1, ← hm3]
    simp only [upd, if_neg hyx]
    rw [o8 y (by
      intro c
      apply hy
      unfold chain at c ⊢
      rw [← hm1] at c
      simp only [upd, if_true] at c
      rw [c0.2.1] at c
      simpa using c), ← hm1]
    simp only
    rw [c0.1]

theorem receive_deliver_books (fuel : Nat) (k : Kernel) (mb buf x : Ptr) (qb : List Ptr)
    (r : Outcome × Kernel) (hq : IsQueue k.mem mb (x :: qb))
    (hnb : 0 < (k.mem.mboxes mb).nBlockedMsg)
    (hp : buf ≠ NULL) (h : receive_wait fuel k mb buf = some r) :
    r.1 = .switched ∧ IsQueue r.2.mem mb qb ∧
      (r.2.mem.mboxes mb).nBlockedMsg = (k.mem.mboxes mb).nBlockedMsg - 1 ∧
      (r.2.mem.mboxes mb).nMessages = (k.mem.mboxes mb).nMessages ∧
      (∀ b, b ≠ mb → r.2.mem.mboxes b = k.mem.mboxes b) ∧
      (∀ y, y ∉ chain k.mem mb (x :: qb) → r.2.mem.msgs y = k.mem.msgs y) := by
  have hmb := hq.1
  have hq' := hq
  obtain ⟨_, hs0, hnn, hndq⟩ := hq'
  unfold chain at hs0 hnn hndq
  have hhd : (k.mem.mboxes mb).pHead ≠ NULL := fun c => hnn (by simp [c])
  have hx : x ≠ NULL := fun c => hnn (by simp [c])
  have hfirst : (k.mem.msgs (k.mem.mboxes mb).pHead).pNext = x := hs0.2.1
  unfold receive_wait at h
  rw [if_neg (by simp only [not_or]; exact ⟨hmb, hp⟩)] at h
  have e1 : (isr_off k).mem = k.mem := rfl
  simp only [e1, getMbox_of_ne _ hmb, Option.bind_eq_bind, Option.some_bind,
    if_pos (Or.inl hnb : (k.mem.mboxes mb).nBlockedMsg > 0 ∨ (k.mem.mboxes mb).nMessages > 0),
    getMsg_of_ne _ hhd, hfirst, getMsg_of_ne _ hx] at h
  obtain ⟨m0, hm0, g1⟩ := Option.bind_eq_some.mp h
  obtain ⟨m1, hm1, g2⟩ := Option.bind_eq_some.mp g1
  clear h g1
  obtain ⟨c0, _⟩ := memcpy_records hm0
  have hq0 : IsQueue m0 mb ([] ++ x :: qb) := hq.same_heap c0.1 c0.2.1
  obtain ⟨m1', hu, hq1, _, _, o3, _, _, _, _, o8⟩ := hq0.unlink
  rw [hu] at hm1
  simp only [Option.some.injEq] at hm1
  subst hm1
  have hmb1 : m1'.mboxes = k.mem.mboxes := by rw [o3, c0.2.1]
  have hnb1 : (m1'.mboxes mb).nBlockedMsg > 0 := by rw [hmb1]; exact hnb
  rw [if_pos hnb1] at g2
  obtain ⟨m2, hm2, g3⟩ := Option.bind_eq_some.mp g2
  obtain ⟨r1, hr1, g4⟩ := Option.bind_eq_some.mp g3
  obtain ⟨w, hw, g5⟩ := Option.bind_eq_some.mp g4
  obtain ⟨m5, hm5, g6⟩ := Option.bind_eq_some.mp g5
  obtain ⟨k2, hk2, hfin⟩ := Option.bind_eq_some.mp g6
  simp only [Option.some.injEq] at hfin
  clear g2 g3 g4 g5 g6
  unfold Mem.setMbox at hm2
  rw [if_neg hmb] at hm2
  simp only [Option.some.injEq] at hm2
  have hq2 : IsQueue m2 mb qb := by
    refine IsQueue.of_eq hq1 (by rw [← hm2]) ?_ ?_
    · rw [← hm2]; simp [upd]
    · rw [← hm2]; simp [upd]
  have s1 : SameRecords m2 k2.mem :=
    sameRecords_trans (sameRecords_trans (sameRecords_trans (remove_records hr1) (deadlineInsert_records hw))
      (setMessage_records hm5)) (schedulingUpdate_records hk2)
  have hmbx2 : m2.mboxes = upd k.mem.mboxes mb
      { k.mem.mboxes mb with nBlockedMsg := (k.mem.mboxes mb).nBlockedMsg - 1 } := by
    rw [← hm2]; simp only; rw [hmb1]
  rw [← hfin]
  refine ⟨rfl, hq2.same_heap s1.1 s1.2.1, ?_, ?_, ?_, ?_⟩
  · show (k2.mem.mboxes mb).nBlockedMsg = _
    rw [s1.2.1, hmbx2]; simp [upd]
  · show (k2.mem.mboxes mb).nMessages = _
    rw [s1.2.1, hmbx2]; simp [upd]
  · intro b hb
    show k2.mem.mboxes b = _
    rw [s1.2.1, hmbx2]; simp [upd, hb]
  · intro y hy
    show k2.mem.msgs y = _
    rw [s1.1, ← hm2]
    simp only
    rw [o8 y (by
      intro c
      apply hy
      unfold chain at c ⊢
      rw [c0.2.1] at c
      simpa using c), c0.1]

theorem block_books (fuel : Nat) (k : Kernel) (mb pData : Ptr) (delta : Int) (qs : List Ptr)
    (r : Outcome × Kernel) (hq : IsQueue k.mem mb qs)
    (hfresh : (calloc k.alloc).1 ∉ chain k.mem mb qs)
    (h : ((enqueueBlocked fuel (isr_off k) mb pData delta).bind fun k1 =>
      (schedulingUpdate fuel k1).bind fun k2 => some (Outcome.switched, LoadContext k2)) =
        some r) :
    r.1 = .switched ∧ IsQueue r.2.mem mb (qs ++ [(calloc k.alloc).1]) ∧
      (r.2.mem.mboxes mb).nBlockedMsg = (k.mem.mboxes mb).nBlockedMsg + delta ∧
      (r.2.mem.mboxes mb).nMessages = (k.mem.mboxes mb).nMessages ∧
      (∀ b, b ≠ mb → r.2.mem.mboxes b = k.mem.mboxes b) ∧
      (∀ y, y ∉ chain k.mem mb qs → y ≠ (calloc k.alloc).1 → r.2.mem.msgs y = k.mem.msgs y) := by
  obtain ⟨k1, hk1, g1⟩ := Option.bind_eq_some.mp h
  obtain ⟨k2, hk2, hfin⟩ := Option.bind_eq_some.mp g1
  simp only [Option.some.injEq] at hfin
  clear h g1
  have ea : (isr_off k).alloc = k.alloc := rfl
  have em : (isr_off k).mem = k.mem := rfl
  have ec : (isr_off k).runningListobj = k.runningListobj := rfl
  have ha : (calloc k.alloc).1 ≠ NULL := by
    intro c
    unfold enqueueBlocked at hk1
    rw [ea] at hk1
    obtain ⟨e, a, hcal⟩ : ∃ e a, calloc k.alloc = (e, a) := ⟨_, _, rfl⟩
    rw [hcal] at hk1 c
    simp only at c
    simp [c] at hk1
  rw [enqueueBlocked_eq fuel (isr_off k) mb pData delta (by rw [ea]; exact ha), ea, em, ec]
    at hk1
  obtain ⟨m1, hm1, g2⟩ := Option.bind_eq_some.mp hk1
  obtain ⟨r1, hr1, g3⟩ := Option.bind_eq_some.mp g2
  obtain ⟨w, hw, hk⟩ := Option.bind_eq_some.mp g3
  simp only [Option.some.injEq] at hk
  clear hk1 g2 g3
  have hc : k.runningListobj ≠ NULL := by
    intro c
    have ha0 : (calloc k.alloc).1 ≠ 0 := ha
    rw [c] at hm1
    simp [linkRecord, Mem.setMsg, Mem.setMessage, ha0] at hm1
  obtain ⟨m1', hl, q1, _, _, _, _, _, b1, b2, _, _, _, b6, _, _, _, b10⟩ :=
    linkRecord_spec pData delta hq hc ha hfresh
  rw [hl] at hm1
  simp only [Option.some.injEq] at hm1
  subst hm1
  have s1 : SameRecords m1' k2.mem := by
    have := sameRecords_trans (remove_records hr1) (deadlineInsert_records hw)
    have e : k1.mem = w.2.1 := by rw [← hk]
    rw [← e] at this
    exact sameRecords_trans this (schedulingUpdate_records hk2)
  rw [← hfin]
  refine ⟨rfl, q1.same_heap s1.1 s1.2.1, ?_, ?_, ?_, ?_⟩
  · show (k2.mem.mboxes mb).nBlockedMsg = _
    rw [s1.2.1]; exact b1
  · show (k2.mem.mboxes mb).nMessages = _
    rw [s1.2.1]; exact b2
  · intro b hb
    show k2.mem.mboxes b = _
    rw [s1.2.1]; exact b6 b hb
  · intro y hy hye
    show k2.mem.msgs y = _
    rw [s1.1]; exact b10 y hy hye

theorem Bookkept.cons_of_ne {m : Mem} {mb : Ptr} {qs : List Ptr} (h : Bookkept m mb qs)
    (hn : (m.mboxes mb).nBlockedMsg ≠ 0) : ∃ x qb, qs = x :: qb := by
  cases hqs : qs with
  | nil =>
    have := h.2.2
    rw [hqs] at this
    simp at this
    exact absurd this hn
  | cons x qb => exact ⟨x, qb, rfl⟩

theorem send_wait_books (fuel : Nat) (k : Kernel) (mb pData : Ptr) (qs : List Ptr)
    (r : Outcome × Kernel) (hB : Bookkept k.mem mb qs)
    (hfresh : (calloc k.alloc).1 ∉ chain k.mem mb qs)
    (h : send_wait fuel k mb pData = some r) :
    ∃ qs', Bookkept r.2.mem mb qs' ∧
      ((r.1 = .ret FAIL ∧ pData = NULL ∧ qs' = qs) ∨
        (r.1 = .switched ∧ pData ≠ NULL ∧ 0 ≤ (k.mem.mboxes mb).nBlockedMsg ∧
          qs' = qs ++ [(calloc k.alloc).1]) ∨
        (r.1 = .switched ∧ pData ≠ NULL ∧ (k.mem.mboxes mb).nBlockedMsg < 0 ∧
          ∃ x, qs = x :: qs')) ∧
      (∀ b q, b ≠ mb → Bookkept k.mem b q → (∀ y ∈ chain k.mem b q,
        y ∉ chain k.mem mb qs ∧ y ≠ (calloc k.alloc).1) → Bookkept r.2.mem b q) := by
  obtain ⟨hq, hnm, hcnt⟩ := hB
  by_cases hp : pData = NULL
  · have e : send_wait fuel k mb pData = some (.ret FAIL, k) := by
      unfold send_wait
      rw [if_pos (Or.inr hp)]
    rw [e] at h
    simp only [Option.some.injEq] at h
    rw [← h]
    exact ⟨qs, ⟨hq, hnm, hcnt⟩, Or.inl ⟨rfl, hp, rfl⟩, fun b q _ hB2 _ => hB2⟩
  · by_cases hnb : 0 ≤ (k.mem.mboxes mb).nBlockedMsg
    · rw [send_wait_block_eq fuel k mb pData hq.1 hp hnm hnb] at h
      obtain ⟨e0, e1, e2, e3, e4, e5⟩ := block_books fuel k mb pData 1 qs r hq hfresh h
      refine ⟨_, ⟨e1, by rw [e3]; exact hnm, ?_⟩, Or.inr (Or.inl ⟨e0, hp, hnb, rfl⟩), ?_⟩
      · rw [e2, List.length_append, List.length_singleton, ← hcnt]
        omega
      · intro b q hb hB2 hdis
        exact hB2.other (e4 b hb) (fun y hy => e5 y (hdis y hy).1 (hdis y hy).2)
    · have hnb' : (k.mem.mboxes mb).nBlockedMsg < 0 := by omega
      obtain ⟨x, qb, hx⟩ := Bookkept.cons_of_ne ⟨hq, hnm, hcnt⟩ (by omega)
      subst hx
      obtain ⟨e0, e1, e2, e3, e4, e5⟩ :=
        send_deliver_books fuel k mb pData x qb r hq hnm hnb' hp h
      refine ⟨qb, ⟨e1, by rw [e3]; exact hnm, ?_⟩, Or.inr (Or.inr ⟨e0, hp, hnb', x, rfl⟩), ?_⟩
      · rw [e2]
        simp only [List.length_cons] at hcnt
        omega
      · intro b q hb hB2 hdis
        exact hB2.other (e4 b hb) (fun y hy => e5 y (hdis y hy).1)

theorem receive_wait_books (fuel : Nat) (k : Kernel) (mb pData : Ptr) (qs : List Ptr)
    (r : Outcome × Kernel) (hB : Bookkept k.mem mb qs)
    (hfresh : (calloc k.alloc).1 ∉ chain k.mem mb qs)
    (h : receive_wait fuel k mb pData = some r) :
    ∃ qs', Bookkept r.2.mem mb qs' ∧
      ((r.1 = .ret FAIL ∧ pData = NULL ∧ qs' = qs) ∨
        (r.1 = .switched ∧ pData ≠ NULL ∧ (k.mem.mboxes mb).nBlockedMsg ≤ 0 ∧
          qs' = qs ++ [(calloc k.alloc).1]) ∨
        (r.1 = .switched ∧ pData ≠ NULL ∧ 0 < (k.mem.mboxes mb).nBlockedMsg ∧
          ∃ x, qs = x :: qs')) ∧
      (∀ b q, b ≠ mb → Bookkept k.mem b q → (∀ y ∈ chain k.mem b q,
        y ∉ chain k.mem mb qs ∧ y ≠ (calloc k.alloc).1) → Bookkept r.2.mem b q) := by
  obtain ⟨hq, hnm, hcnt⟩ := hB
  by_cases hp : pData = NULL
  · have e : receive_wait fuel k mb pData = some (.ret FAIL, k) := by
      unfold receive_wait
      rw [if_pos (Or.inr hp)]
    rw [e] at h
    simp only [Option.some.injEq] at h
    rw [← h]
    exact ⟨qs, ⟨hq, hnm, hcnt⟩, Or.inl ⟨rfl, hp, rfl⟩, fun b q _ hB2 _ => hB2⟩
  · by_cases hnb : (k.mem.mboxes mb).nBlockedMsg ≤ 0
    · rw [receive_wait_block_eq fuel k mb pData hq.1 hp (by omega) hnb] at h
      obtain ⟨e0, e1, e2, e3, e4, e5⟩ := block_books fuel k mb pData (-1) qs r hq hfresh h
      refine ⟨_, ⟨e1, by rw [e3]; exact hnm, ?_⟩, Or.inr (Or.inl ⟨e0, hp, hnb, rfl⟩), ?_⟩
      · rw [e2, List.length_append, List.length_singleton, ← hcnt]
        omega
      · intro b q hb hB2 hdis
        exact hB2.other (e4 b hb) (fun y hy => e5 y (hdis y hy).1 (hdis y hy).2)
    · have hnb' : 0 < (k.mem.mboxes mb).nBlockedMsg := by omega
      obtain ⟨x, qb, hx⟩ := Bookkept.cons_of_ne ⟨hq, hnm, hcnt⟩ (by omega)
      subst hx
      obtain ⟨e0, e1, e2, e3, e4, e5⟩ :=
        receive_deliver_books fuel k mb pData x qb r hq hnb' hp h
      refine ⟨qb, ⟨e1, by rw [e3]; exact hnm, ?_⟩, Or.inr (Or.inr ⟨e0, hp, hnb', x, rfl⟩), ?_⟩
      · rw [e2]
        simp only [List.length_cons] at hcnt
        omega
      · intro b q hb hB2 hdis
        exact hB2.other (e4 b hb) (fun y hy => e5 y (hdis y hy).1)

/-! ### Calls that return although an entry is linked twice -/

theorem insertAfter_some (m : Mem) {t e : Ptr} (ht : t ≠ NULL)
    (hn : (m.objs t).pNext ≠ NULL) (he : e ≠ NULL) : ∃ m', insertAfter m t e = some m' := by
  have ht0 : t ≠ 0 := ht
  have he0 : e ≠ 0 := he
  have hn0 : (m.objs t).pNext ≠ 0 := hn
  simp [insertAfter, Mem.obj, Mem.setPrev, Mem.setNext, ht0, he0, hn0]

theorem deadlineInsert_returns {m : Mem} {l : OSList_t} {xs : List Ptr} {e : Ptr}
    (hl : IsList m l xs) (ht : ∀ x ∈ xs, HasTask m x) (he : e ≠ NULL) (hte : HasTask m e) :
    ∃ m' l', OSList_deadlineInsert m (some l) e = some (true, m', some l') ∧
      l'.pHead ≠ NULL := by
  have hke := deadlineOf_of_ne m he hte
  rcases List.eq_nil_or_concat xs with cx | ⟨p, tl, cx⟩
  · subst cx
    have hsz : l.size = 0 := hl.1
    refine ⟨m, { size := l.size + 1, pHead := e, pTail := e }, ?_, he⟩
    simp [OSList_deadlineInsert, he, hsz, addWhenZero]
  · rw [List.concat_eq_append] at cx
    have hxs : xs ≠ [] := by rw [cx]; simp
    have hsz : l.size ≠ 0 := by rw [hl.1]; exact fun c => hxs (List.length_eq_zero.mp c)
    have hhdm : l.pHead ∈ xs := by rw [hl.2.1]; exact headD_mem_of_ne_nil _ hxs
    have hh := hl.ne_null hhdm
    have hkh := deadlineOf_of_ne m hh (ht _ hhdm)
    have htle : l.pTail = tl := by rw [hl.2.2.1, cx, getLastD_append_singleton]
    have htlm : tl ∈ xs := by rw [cx]; simp
    have htl := hl.ne_null htlm
    have hkt := deadlineOf_of_ne m htl (ht _ htlm)
    by_cases hfront : deadlineKey m e < deadlineKey m l.pHead
    · refine ⟨(m.wPrev l.pHead e).wNext e l.pHead,
        { size := l.size + 1, pHead := e, pTail := l.pTail }, ?_, he⟩
      simp [OSList_deadlineInsert, he, hsz, hke, hkh, hfront, addInFront,
        setPrev_of_ne m e hh, setNext_of_ne _ l.pHead he]
    · by_cases hback : deadlineKey m tl ≤ deadlineKey m e
      · refine ⟨(m.wNext tl e).wPrev e tl,
          { size := l.size + 1, pHead := l.pHead, pTail := e }, ?_, hh⟩
        simp [OSList_deadlineInsert, he, hsz, hke, hkh, hfront, htle, hkt, hback, addInBack,
          setNext_of_ne m e htl, setPrev_of_ne _ tl he]
      · obtain ⟨a, b, hab, ha, hb⟩ := scan_split (deadlineKey m) (deadlineKey m e) xs
        have hane : a ≠ [] := by
          intro c
          subst c
          rw [List.nil_append] at hab
          obtain ⟨n, b', hb'⟩ := List.exists_cons_of_ne_nil (hab ▸ hxs)
          have : l.pHead = n := by rw [hl.2.1, hab, hb']; rfl
          exact hfront (this ▸ hb n (by simp [hb']))
        have hbne : b ≠ [] := by
          intro c
          subst c
          rw [List.append_nil] at hab
          exact hback (ha tl (hab ▸ htlm))
        obtain ⟨n, b', hb'⟩ := List.exists_cons_of_ne_nil hbne
        rcases List.eq_nil_or_concat a with ca | ⟨a', t, ca⟩
        · exact absurd ca hane
        · rw [List.concat_eq_append] at ca
          subst ca hb'
          have hn : n ≠ NULL := hl.ne_null (by rw [hab]; simp)
          have htn : t ≠ NULL := hl.ne_null (by rw [hab]; simp)
          have hlt : deadlineKey m e < deadlineKey m n := hb n (by simp)
          have hform : a' ++ [t] ++ n :: b' = a' ++ t :: n :: b' := by simp
          rw [hform] at hab
          rw [hab] at hl ht
          have hnext : (m.objs t).pNext = n := by
            have := (seg_append.mp hl.2.2.2.1).2
            simp only [seg, List.headD_cons] at this
            exact this.2.1
          have hscan : deadlineScan m e (l.size - 1) l.pHead = some t := by
            cases a' with
            | nil =>
              have hhd : l.pHead = t := by simpa using hl.2.1
              have := deadlineScan_spec (b := b') he hn hte (ht n (by simp)) hlt [] t NULL NULL
                (l.size - 1) (by simpa using hl.2.2.2.1) (hl.ne_null (by simp)) (by simp)
                (by simp) (by simp) (by simp)
              simpa [hhd] using this
            | cons h r =>
              have hhd : l.pHead = h := by simpa using hl.2.1
              have := deadlineScan_spec (b := b') he hn hte (ht n (by simp)) hlt (r ++ [t]) h
                NULL NULL (l.size - 1) (by simpa using hl.2.2.2.1) (hl.ne_null (by simp))
                (fun x hx => hl.ne_null (by
                  simp only [List.mem_append, List.mem_singleton, List.mem_cons] at hx ⊢; tauto))
                (fun x hx => ht x (by
                  simp only [List.mem_append, List.mem_singleton, List.mem_cons] at hx ⊢; tauto))
                (fun x hx => ha x (by
                  simp only [List.mem_append, List.mem_singleton, List.mem_cons] at hx ⊢; tauto))
                (by rw [hl.1]; simp)
              rw [getLastD_append_singleton] at this
              simpa [hhd] using this
          obtain ⟨m', h1⟩ := insertAfter_some m htn (by rw [hnext]; exact hn) he
          refine ⟨m', { size := l.size + 1, pHead := l.pHead, pTail := l.pTail }, ?_, hh⟩
          simp [OSList_deadlineInsert, he, hsz, hke, hkh, hfront, htle, hkt, hback, hscan, h1]

theorem schedulingUpdate_quiet (fuel : Nat) (k : Kernel)
    (ht : OSList_peek k.timerList = NULL ∨
      ¬ (k.mem.objs (OSList_peek k.timerList)).nTCnt ≤ k.osTicks)
    (hw : OSList_peek k.waitingList = NULL ∨
      (HasTask k.mem (OSList_peek k.waitingList) ∧
        ¬ deadlineKey k.mem (OSList_peek k.waitingList) ≤ k.osTicks))
    (hr : OSList_peek k.readyList ≠ NULL) :
    ∃ k', ((schedulingUpdate (fuel + 1) k).bind fun k2 =>
      some (Outcome.switched, LoadContext k2)) = some (Outcome.switched, k') := by
  have e1 : timerLoop (fuel + 1) k = some k := by
    unfold timerLoop
    simp only
    by_cases hp : OSList_peek k.timerList = NULL
    · rw [if_pos hp]
    · rw [if_neg hp, obj_of_ne _ hp]
      rcases ht with c | c
      · exact absurd c hp
      · simp [c]
  have e2 : waitingLoop (fuel + 1) k = some k := by
    unfold waitingLoop
    simp only
    by_cases hp : OSList_peek k.waitingList = NULL
    · rw [if_pos hp]
    · rcases hw with c | c
      · exact absurd c hp
      · rw [if_neg hp, deadlineOf_of_ne _ hp c.1]
        simp [c.2]
  have e3 : schedulingUpdate (fuel + 1) k = some { k with
      Running := (k.mem.objs (OSList_peek k.readyList)).pTask,
      runningListobj := OSList_peek k.readyList } := by
    simp only [schedulingUpdate, e1, e2, Option.bind_eq_bind, Option.some_bind, setRunningTask,
      obj_of_ne _ hr, Option.pure_def]
  rw [e3]
  exact ⟨_, rfl⟩

theorem quiet_heads {k : Kernel} {m' : Mem} {rs ws ts : List Ptr} (hL : Lists k rs ws ts)
    (ho : ∀ p, (m'.objs p).pTask = (k.mem.objs p).pTask ∧
      (m'.objs p).nTCnt = (k.mem.objs p).nTCnt) (htc : m'.tcbs = k.mem.tcbs)
    (htd : ∀ y ∈ ts.head?, timerDue k y = false)
    (hwd : ∀ y ∈ ws.head?, deadlineDue k y = false) :
    (OSList_peek k.timerList = NULL ∨
      ¬ (m'.objs (OSList_peek k.timerList)).nTCnt ≤ k.osTicks) ∧
    (OSList_peek k.waitingList = NULL ∨
      (HasTask m' (OSList_peek k.waitingList) ∧
        ¬ deadlineKey m' (OSList_peek k.waitingList) ≤ k.osTicks)) := by
  obtain ⟨hr, hw, htl, hnd, hts⟩ := hL
  obtain ⟨tl, htl1, htl2⟩ := OnList.some_iff.mp htl
  obtain ⟨wl, hwl1, hwl2⟩ := OnList.some_iff.mp hw
  constructor
  · have hp : OSList_peek k.timerList = ts.headD NULL := by rw [htl1]; exact htl2.2.1
    rw [hp]
    cases ts with
    | nil => exact Or.inl rfl
    | cons y r =>
      right
      have := htd y (by simp)
      simp only [timerDue, wakeKey, decide_eq_false_iff_not] at this
      show ¬ (m'.objs y).nTCnt ≤ k.osTicks
      rw [(ho y).2]
      exact this
  · have hp : OSList_peek k.waitingList = ws.headD NULL := by rw [hwl1]; exact hwl2.2.1
    rw [hp]
    cases ws with
    | nil => exact Or.inl rfl
    | cons y r =>
      right
      have := hwd y (by simp)
      simp only [deadlineDue, decide_eq_false_iff_not] at this
      constructor
      · show (m'.objs y).pTask ≠ NULL
        rw [(ho y).1]
        exact hts y (by simp)
      · show ¬ deadlineKey m' y ≤ k.osTicks
        unfold deadlineKey at this ⊢
        rw [(ho y).1, htc]
        exact this

theorem receive_late_returns (fuel : Nat) (k : Kernel) (mb buf : Ptr) (rs ws ts : List Ptr)
    (x : Ptr) (qb : List Ptr) (hL : Lists k rs ws ts) (hq : IsQueue k.mem mb (x :: qb))
    (hbuf : buf ≠ NULL) (hd : (k.mem.msgs x).pData ≠ NULL)
    (hn : 0 ≤ (k.mem.mboxes mb).nDataSize) (hnb : 0 < (k.mem.mboxes mb).nBlockedMsg)
    (hs : (k.mem.msgs x).pBlock ∉ ws) (hsn : (k.mem.msgs x).pBlock ≠ NULL)
    (hst : HasTask k.mem (k.mem.msgs x).pBlock)
    (htd : ∀ y ∈ ts.head?, timerDue k y = false)
    (hwd : ∀ y ∈ ws.head?, deadlineDue k y = false)
    (hf : ws.length < fuel) :
    ∃ k', receive_wait fuel k mb buf = some (Outcome.switched, k') := by
  obtain ⟨f0, rfl⟩ : ∃ f0, fuel = f0 + 1 := ⟨fuel - 1, by omega⟩
  have hL' := hL
  obtain ⟨hr, hw, htl, hnd, hts⟩ := hL'
  obtain ⟨rl, hrl1, hrl2⟩ := OnList.some_iff.mp hr
  obtain ⟨wl, hwl1, hwl2⟩ := OnList.some_iff.mp hw
  have hmb := hq.1
  have hq' := hq
  obtain ⟨_, hs0, hnn, hndq⟩ := hq'
  unfold chain at hs0 hnn hndq
  have hhd : (k.mem.mboxes mb).pHead ≠ NULL := fun c => hnn (by simp [c])
  have hx : x ≠ NULL := fun c => hnn (by simp [c])
  have hfirst : (k.mem.msgs (k.mem.mboxes mb).pHead).pNext = x := hs0.2.1
  generalize hsdef : (k.mem.msgs x).pBlock = s at *
  generalize hddef : (k.mem.msgs x).pData = d at *
  obtain ⟨m0, hcopy⟩ : ∃ m0, memcpy k.mem buf d (k.mem.mboxes mb).nDataSize = some m0 := by
    unfold memcpy
    rw [if_neg (by simp only [not_or]; exact ⟨hbuf, hd, by omega⟩)]
    exact ⟨_, rfl⟩
  obtain ⟨c0, c1⟩ := memcpy_records hcopy
  have hq0 : IsQueue m0 mb ([] ++ x :: qb) := hq.same_heap c0.1 c0.2.1
  obtain ⟨m1, hu, hq1, o1, o2, o3, o4, o5, o6, o7, o8⟩ := hq0.unlink
  have hmb1 : m1.mboxes = k.mem.mboxes := by rw [o3, c0.2.1]
  have hobj1 : m1.objs = k.mem.objs := by rw [o1, c1]
  have htcb1 : m1.tcbs = k.mem.tcbs := by rw [o2, c0.2.2.1]
  have hblk : (m1.msgs x).pBlock = s := by rw [(o5 x).2.2, c0.1]; exact hsdef
  obtain ⟨m2, hset⟩ : ∃ m2,
      (m1.setMbox mb fun b => { b with nBlockedMsg := b.nBlockedMsg - 1 }) = some m2 := by
    unfold Mem.setMbox
    rw [if_neg hmb]
    exact ⟨_, rfl⟩
  have hm2 := hset
  unfold Mem.setMbox at hm2
  rw [if_neg hmb] at hm2
  simp only [Option.some.injEq] at hm2
  have hobj2 : m2.objs = k.mem.objs := by rw [← hm2]; exact hobj1
  have htcb2 : m2.tcbs = k.mem.tcbs := by rw [← hm2]; exact htcb1
  have hmsg2 : m2.msgs = m1.msgs := by rw [← hm2]
  have fr2 : ∀ {l : OSList_t} {xs : List Ptr}, IsList k.mem l xs → IsList m2 l xs :=
    fun h => h.frame (fun q _ => by rw [hobj2]; exact ⟨rfl, rfl⟩)
  have hT2 : ∀ p, HasTask k.mem p → HasTask m2 p := by
    intro p hp
    show (m2.objs p).pTask ≠ NULL
    rw [hobj2]
    exact hp
  obtain ⟨m3, wl', hrem, _, _, hsame, _⟩ := remove_core (f0 + 1) s (fr2 hwl2) (by omega)
  obtain ⟨e3a, e3b⟩ := hsame hs
  rw [e3a, e3b] at hrem
  obtain ⟨m4, rl', hins, hrl4⟩ := deadlineInsert_returns (fr2 hrl2)
    (fun p hp => hT2 p (hts p (by simp [hp]))) hsn (hT2 s hst)
  have s4 := deadlineInsert_records hins
  simp only at s4
  have hblk4 : (m4.msgs x).pBlock = s := by rw [s4.1, hmsg2]; exact hblk
  obtain ⟨m5, hsm⟩ : ∃ m5, m4.setMessage s NULL = some m5 := by
    unfold Mem.setMessage
    rw [if_neg hsn]
    exact ⟨_, rfl⟩
  have s5 := sameRecords_trans s4 (setMessage_records hsm)
  obtain ⟨q1, q2⟩ := @quiet_heads _ m5 _ _ _ hL
    (fun p => by rw [(s5.2.2.2 p).1, (s5.2.2.2 p).2, hobj2]; exact ⟨rfl, rfl⟩)
    (by rw [s5.2.2.1, htcb2]) htd hwd
  unfold receive_wait
  rw [if_neg (by simp only [not_or]; exact ⟨hmb, hbuf⟩)]
  have e1 : (isr_off k).mem = k.mem := rfl
  have e2 : (isr_off k).waitingList = some wl := hwl1
  have e3 : (isr_off k).readyList = some rl := hrl1
  have hnb1 : (m1.mboxes mb).nBlockedMsg > 0 := by rw [hmb1]; exact hnb
  simp only [e1, getMbox_of_ne _ hmb, Option.bind_eq_bind, Option.some_bind,
    if_pos (Or.inl hnb : (k.mem.mboxes mb).nBlockedMsg > 0 ∨ (k.mem.mboxes mb).nMessages > 0),
    getMsg_of_ne _ hhd, hfirst, getMsg_of_ne _ hx, hddef, hcopy, hu]
  rw [if_pos hnb1, hset]
  simp only [Option.some_bind, hblk, e2, e3, hrem, hins, hblk4, hsm]
  refine schedulingUpdate_quiet f0 _ ?_ ?_ ?_
  · exact q1
  · rw [← hwl1]
    exact q2
  · exact hrl4

theorem send_late_returns (fuel : Nat) (k : Kernel) (mb pData : Ptr) (rs ws ts : List Ptr)
    (x : Ptr) (qb : List Ptr) (hL : Lists k rs ws ts) (hq : IsQueue k.mem mb (x :: qb))
    (hp : pData ≠ NULL) (hd : (k.mem.msgs x).pData ≠ NULL)
    (hn : 0 ≤ (k.mem.mboxes mb).nDataSize) (hnm : (k.mem.mboxes mb).nMessages = 0)
    (hnb : (k.mem.mboxes mb).nBlockedMsg < 0)
    (hs : (k.mem.msgs x).pBlock ∉ ws) (hsn : (k.mem.msgs x).pBlock ≠ NULL)
    (hst : HasTask k.mem (k.mem.msgs x).pBlock)
    (htd : ∀ y ∈ ts.head?, timerDue k y = false)
    (hwd : ∀ y ∈ ws.head?, deadlineDue k y = false)
    (hf : ws.length < fuel) :
    ∃ k', send_wait fuel k mb pData = some (Outcome.switched, k') := by
  obtain ⟨f0, rfl⟩ : ∃ f0, fuel = f0 + 1 := ⟨fuel - 1, by omega⟩
  have hL' := hL
  obtain ⟨hr, hw, htl, hnd, hts⟩ := hL'
  obtain ⟨rl, hrl1, hrl2⟩ := OnList.some_iff.mp hr
  obtain ⟨wl, hwl1, hwl2⟩ := OnList.some_iff.mp hw
  have hmb := hq.1
  have hq' := hq
  obtain ⟨_, hs0, hnn, hndq⟩ := hq'
  unfold chain at hs0 hnn hndq
  have hhd : (k.mem.mboxes mb).pHead ≠ NULL := fun c => hnn (by simp [c])
  have hx : x ≠ NULL := fun c => hnn (by simp [c])
  have hfirst : (k.mem.msgs (k.mem.mboxes mb).pHead).pNext = x := hs0.2.1
  generalize hsdef : (k.mem.msgs x).pBlock = s at *
  generalize hddef : (k.mem.msgs x).pData = d at *
  obtain ⟨m0, hcopy⟩ : ∃ m0, memcpy k.mem d pData (k.mem.mboxes mb).nDataSize = some m0 := by
    unfold memcpy
    rw [if_neg (by simp only [not_or]; exact ⟨hd, hp, by omega⟩)]
    exact ⟨_, rfl⟩
  obtain ⟨c0, c1⟩ := memcpy_records hcopy
  obtain ⟨m1, hset⟩ : ∃ m1,
      (m0.setMbox mb fun b => { b with nBlockedMsg := b.nBlockedMsg + 1 }) = some m1 := by
    unfold Mem.setMbox
    rw [if_neg hmb]
    exact ⟨_, rfl⟩
  have hm1 := hset
  unfold Mem.setMbox at hm1
  rw [if_neg hmb] at hm1
  simp only [Option.some.injEq] at hm1
  have hq0 : IsQueue m0 mb (x :: qb) := hq.same_heap c0.1 c0.2.1
  have hq1 : IsQueue m1 mb ([] ++ x :: qb) := by
    refine IsQueue.of_eq hq0 (by rw [← hm1]) ?_ ?_
    · rw [← hm1]; simp [upd]
    · rw [← hm1]; simp [upd]
  obtain ⟨m2, hu, hq2, o1, o2, o3, o4, o5, o6, o7, o8⟩ := hq1.unlink
  obtain ⟨m3, hst3⟩ : ∃ m3, (m2.setMsg x fun t => { t with Status := SUCCESS }) = some m3 := by
    unfold Mem.setMsg
    rw [if_neg hx]
    exact ⟨_, rfl⟩
  have hm3 := hst3
  unfold Mem.setMsg at hm3
  rw [if_neg hx] at hm3
  simp only [Option.some.injEq] at hm3
  have hobj3 : m3.objs = k.mem.objs := by rw [← hm3]; simp only; rw [o1, ← hm1]; exact c1
  have htcb3 : m3.tcbs = k.mem.tcbs := by
    rw [← hm3]; simp only; rw [o2, ← hm1]; exact c0.2.2.1
  have hblk : (m3.msgs x).pBlock = s := by
    rw [← hm3]; simp only [upd, if_true]
    rw [(o5 x).2.2, ← hm1]; simp only; rw [c0.1]; exact hsdef
  have fr3 : ∀ {l : OSList_t} {xs : List Ptr}, IsList k.mem l xs → IsList m3 l xs :=
    fun h => h.frame (fun q _ => by rw [hobj3]; exact ⟨rfl, rfl⟩)
  have hT3 : ∀ p, HasTask k.mem p → HasTask m3 p := by
    intro p hp
    show (m3.objs p).pTask ≠ NULL
    rw [hobj3]
    exact hp
  obtain ⟨m4, wl', hrem, _, _, hsame, _⟩ := remove_core (f0 + 1) s (fr3 hwl2) (by omega)
  obtain ⟨e3a, e3b⟩ := hsame hs
  rw [e3a, e3b] at hrem
  obtain ⟨m5, rl', hins, hrl4⟩ := deadlineInsert_returns (fr3 hrl2)
    (fun p hp => hT3 p (hts p (by simp [hp]))) hsn (hT3 s hst)
  have s5 := deadlineInsert_records hins
  simp only at s5
  obtain ⟨q1, q2⟩ := @quiet_heads _ m5 _ _ _ hL
    (fun p => by rw [(s5.2.2.2 p).1, (s5.2.2.2 p).2, hobj3]; exact ⟨rfl, rfl⟩)
    (by rw [s5.2.2.1, htcb3]) htd hwd
  unfold send_wait
  rw [if_neg (by simp only [not_or]; exact ⟨hmb, hp⟩), if_neg (by simp [hnm])]
  have e1 : (isr_off k).mem = k.mem := rfl
  have e2 : (isr_off k).waitingList = some wl := hwl1
  have e3 : (isr_off k).readyList = some rl := hrl1
  simp only [e1, getMbox_of_ne _ hmb, Option.bind_eq_bind, Option.some_bind, if_pos hnb,
    getMsg_of_ne _ hhd, hfirst, getMsg_of_ne _ hx, hddef, hcopy, hset, hu, hst3, hblk, e2, e3,
    hrem, hins]
  refine schedulingUpdate_quiet f0 _ ?_ ?_ ?_
  · exact q1
  · rw [← hwl1]
    exact q2
  · exact hrl4

/-! ### Rendezvous before the sender's deadline -/

/-- Let the three lists be well-formed, the running entry `A` be on the ready
list together with another entry, `A`'s deadline not yet reached, the queue of
mailbox `mb` empty with both counters zero and a data size that is not
negative, and let the allocation of the record succeed with an address that is
not a sentinel.  Then `send_wait(mb, d)` ends in `LoadContext` (fuel above the
number of entries is enough) in a state where `A` is on the waiting list and
not on the ready list, the queue holds exactly the new record, which refers to
`d` and `A`, and `nBlockedMsg` is `1`.  `receive_wait(mb, buf)` called in that
very state ends in `LoadContext` in a state where the `nDataSize` bytes at
`buf` are the bytes at `d`, no other byte has changed, the queue is empty and
the record's links are `NULL`, `A` is on the ready list and not on the waiting
list, and `nBlockedMsg` is `0`. -/
theorem rendezvous_in_time (fuel : Nat) (k : Kernel) (mb d buf : Ptr) (rs ws ts : List Ptr)
    (hL : Lists k rs ws ts) (hrun : k.runningListobj ∈ rs)
    (hother : rs.erase k.runningListobj ≠ []) (hq : IsQueue k.mem mb [])
    (hnb : (k.mem.mboxes mb).nBlockedMsg = 0) (hnm : (k.mem.mboxes mb).nMessages = 0)
    (hsz : 0 ≤ (k.mem.mboxes mb).nDataSize) (hd : d ≠ NULL) (hbuf : buf ≠ NULL)
    (ha : (calloc k.alloc).1 ≠ NULL) (hfresh : (calloc k.alloc).1 ∉ chain k.mem mb [])
    (hdl : k.osTicks < deadlineKey k.mem k.runningListobj)
    (hf : rs.length + ws.length + ts.length < fuel) :
    ∃ k1 k2 rs1 ws1 ts1 rs2 ws2 ts2,
      send_wait fuel k mb d = some (Outcome.switched, k1) ∧
      Lists k1 rs1 ws1 ts1 ∧ k.runningListobj ∉ rs1 ∧ k.runningListobj ∈ ws1 ∧
      IsQueue k1.mem mb [(calloc k.alloc).1] ∧
      (k1.mem.msgs (calloc k.alloc).1).pData = d ∧
      (k1.mem.msgs (calloc k.alloc).1).pBlock = k.runningListobj ∧
      (k1.mem.mboxes mb).nBlockedMsg = 1 ∧
      receive_wait fuel k1 mb buf = some (Outcome.switched, k2) ∧
      (∀ i, i < (k.mem.mboxes mb).nDataSize.toNat →
        k2.mem.bytes (buf + i) = k.mem.bytes (d + i)) ∧
      (∀ a, a < buf ∨ buf + (k.mem.mboxes mb).nDataSize.toNat ≤ a →
        k2.mem.bytes a = k.mem.bytes a) ∧
      IsQueue k2.mem mb [] ∧
      (k2.mem.msgs (calloc k.alloc).1).pNext = NULL ∧
      (k2.mem.msgs (calloc k.alloc).1).pPrevious = NULL ∧
      Lists k2 rs2 ws2 ts2 ∧ k.runningListobj ∈ rs2 ∧ k.runningListobj ∉ ws2 ∧
      (k2.mem.mboxes mb).nBlockedMsg = 0 := by
  obtain ⟨n1, n2, n3, n4, n5, n6⟩ := hL.nodup_ready
  rw [send_wait_block_eq fuel k mb d hq.1 hd hnm (by omega)]
  obtain ⟨k1, a, b, rs1, h1, hab, L1, p1, _, E1, _, t1, _, _, _, _⟩ :=
    block_spec fuel k mb d 1 rs ws ts [] hL hrun hother hq ha hfresh hf
  generalize hc : k.runningListobj = c at *
  generalize he : (calloc k.alloc).1 = e at *
  have hnd : deadlineDue k c = false := by
    simp only [deadlineDue, decide_eq_false_iff_not]
    omega
  have hcw : c ∈ (a ++ c :: b).dropWhile (deadlineDue k) :=
    mem_dropWhile_of_false (by simp) hnd
  have hcr : c ∉ rs1 := by
    intro hmem
    rcases List.mem_append.mp (p1.subset hmem) with h | h
    · rcases List.mem_append.mp h with h | h
      · exact not_mem_erase_self c n1 h
      · exact n5 c hrun ((List.takeWhile_sublist _).subset h)
    · exact not_mem_takeWhile_of_false hnd h
  obtain ⟨q1, tc1, by1, j1, _, _, b1, b2, b3, b4, b5, _, r1, r2, _, _⟩ := E1
  have hlen := sched_lengths p1
  have hlen1 : (rs.erase c).length + 1 = rs.length := by
    rw [List.length_erase_of_mem hrun]
    have := List.length_pos_of_mem hrun
    omega
  have hlen2 : (a ++ c :: b).length = ws.length + 1 := by rw [hab]; simp; omega
  have hblk : (k1.mem.msgs e).pBlock ∈ (a ++ c :: b).dropWhile (deadlineDue k) := by
    rw [r2]; exact hcw
  obtain ⟨k2, a2, b2', rs2, h2, hab2, L2, p2, T2, by2, _, _, _, _, _, _, _, _, _⟩ :=
    receive_take_spec fuel k1 mb buf rs1 _ _ e [] L1 q1 hbuf (by rw [r1]; exact hd)
      (by rw [b3]; exact hsz) (by rw [b1, hnb]; decide) hblk (by omega)
  rw [r2] at L2 p2
  refine ⟨k1, k2, rs1, _, _, rs2, _, _, h1, L1, hcr, hcw, q1, r1, r2, by rw [b1, hnb]; rfl, h2,
    ?_, ?_, T2.1, T2.2.2.2.2.2.2.2.2.2.2.1, T2.2.2.2.2.2.2.2.2.2.2.2.1, L2, ?_, ?_, ?_⟩
  · intro i hi
    rw [by2, b3, r1, by1]
    have hin : buf ≤ buf + i ∧ buf + i < buf + (k.mem.mboxes mb).nDataSize.toNat :=
      ⟨Nat.le_add_right buf i, Nat.add_lt_add_left hi buf⟩
    simp only [if_pos hin]
    congr 1
    show d + (buf + i - buf) = d + i
    rw [Nat.add_sub_cancel_left]
  · intro x hx
    rw [by2, b3, by1]
    have hout : ¬ (buf ≤ x ∧ x < buf + (k.mem.mboxes mb).nDataSize.toNat) := fun h =>
      hx.elim (fun c => absurd h.1 (Nat.not_le.mpr c)) (fun c => absurd h.2 (Nat.not_lt.mpr c))
    simp only [if_neg hout]
  · refine p2.symm.subset ?_
    simp
  · intro hmem
    have h1 := (List.dropWhile_sublist _).subset hmem
    exact not_mem_erase_self c (L1.nodup_ready).2.1 h1
  · rw [T2.2.2.2.1, b1, hnb]; rfl

/-! ## The claims -/

/-- C1 (running task is the earliest-deadline head) fails on the code.  After
the calls of `traceOrderBroken`, all made by the running task of the moment,
the kernel is in running mode and the running entry `110` is the head of the
ready list, but its deadline is `100` while entry `108`, linked behind it on
the ready list, has deadline `1`. -/
theorem C1_head_not_earliest_after_double_insert :
    (exec 10 (boot 100) traceOrderBroken).map (fun k =>
        (k.opMode, k.runningListobj, OSList_peek k.readyList, entries k.mem k.readyList,
          deadlineKey k.mem 110, deadlineKey k.mem 108)) =
      some (RUNNING, 110, 110, [110, 108], 100, 1) := by
  decide

/-- C2 (the idle task stays on the ready list) fails on the code.  After
`init_kernel`, `create_task` and `wait(1)` the idle entry `103` (its program
counter is `idleTask`) is on the timer list and the ready list holds only
entry `105`.  After `run`, the removal `terminate` performs leaves the ready
list empty, `OSList_peek` returns null, and `terminate` dereferences it. -/
theorem C2_idle_moved_to_timer_list :
    (exec 10 (boot 100) traceIdleWaits).map (fun k =>
        (entries k.mem k.readyList, entries k.mem k.timerList,
          (k.mem.tcbs (k.mem.objs 103).pTask).PC)) = some ([105], [103], idleTask) ∧
    ((exec 10 (boot 100) (traceIdleWaits ++ [.run])).bind fun k =>
        (OSList_remove 10 k.mem k.readyList k.runningListobj).map fun r =>
          (k.opMode, r.1, OSList_peek r.2.2)) = some (RUNNING, true, NULL) ∧
    (exec 10 (boot 100) (traceIdleWaits ++ [.run, .terminate])).isNone = true := by
  decide

/-- C3 (an entry is on at most one list, at most once) fails on the code.
Before the last call of `traceDoubleInsert` the ready list is `110, 108, 103`
and the waiting list is empty; `send_wait` then inserts entry `108` into the
ready list again: the size becomes `4` and the walk from the head meets entry
`108` three times. -/
theorem C3_entry_inserted_twice :
    (exec 10 (boot 100) (traceDoubleInsert.take 7)).map (fun k =>
        (entries k.mem k.readyList, entries k.mem k.waitingList)) =
      some ([110, 108, 103], []) ∧
    (exec 10 (boot 100) traceDoubleInsert).map (fun k =>
        (k.readyList.map (fun l => l.size), entries k.mem k.readyList,
          (k.mem.objs 108).pNext)) = some (some 4, [110, 108, 108, 108], 108) := by
  decide

/-- C4 (ordered insert keeps the list sorted).  On a well-formed list sorted by
its key, inserting a detached entry that is not on the list succeeds, by
deadline (`OSList_deadlineInsert`) and by wake tick (`OSList_timerInsert`
with a non-zero delay) alike; the list is then well-formed, consists of the old
entries in their old order with the new one put in between (`xs = a ++ b`
becomes `a ++ e :: b`), the old entries keep their keys, and every adjacent
pair is in ascending key order. -/
theorem C4_insert_keeps_sorted :
    (∀ (m : Mem) (l : OSList_t) (xs : List Ptr) (e : Ptr),
      IsList m l xs → SortedBy (deadlineKey m) xs → (∀ x ∈ xs, HasTask m x) →
      e ≠ NULL → HasTask m e → e ∉ xs → Detached m e →
      ∃ m' l' a b, OSList_deadlineInsert m (some l) e = some (true, m', some l') ∧
        xs = a ++ b ∧ IsList m' l' (a ++ e :: b) ∧
        (∀ x, deadlineKey m' x = deadlineKey m x) ∧
        SortedBy (deadlineKey m') (a ++ e :: b)) ∧
    (∀ (osTicks : Nat) (m : Mem) (l : OSList_t) (xs : List Ptr) (e : Ptr) (delay : Nat),
      IsList m l xs → SortedBy (wakeKey m) xs → e ≠ NULL → e ∉ xs → Detached m e → delay ≠ 0 →
      ∃ m' l' a b, OSList_timerInsert osTicks m (some l) e delay = some (true, m', some l') ∧
        xs = a ++ b ∧ IsList m' l' (a ++ e :: b) ∧
        (∀ x ∈ xs, wakeKey m' x = wakeKey m x) ∧
        SortedBy (wakeKey m') (a ++ e :: b)) := by
  constructor
  · intro m l xs e hl hs ht he hte hne hdet
    obtain ⟨m', l', a, b, h1, h2, h3, h4, h5, h6⟩ := deadlineInsert_core hl ht he hte hne hdet
    subst h2
    obtain ⟨ha, hb⟩ := sorted_place hs h4 h5
    refine ⟨m', l', a, b, h1, rfl, h3, h6.deadlineKey_eq, ?_⟩
    refine sorted_insert hs (fun x _ => h6.deadlineKey_eq x) ?_ ?_
    · intro x hx; rw [h6.deadlineKey_eq, h6.deadlineKey_eq]; exact ha x hx
    · intro x hx; rw [h6.deadlineKey_eq, h6.deadlineKey_eq]; exact hb x hx
  · intro osTicks m l xs e delay hl hs he hne hdet hd
    obtain ⟨m', l', a, b, h1, h2, h3, h4, h5, h6⟩ := timerInsert_core osTicks hl he hne hdet hd
    subst h2
    obtain ⟨ha, hb⟩ := sorted_place hs h4 h5
    have hke : wakeKey m' e = (osTicks + delay) % UINT_MOD := by
      rw [h6.wakeKey_eq]; simp [wakeKey, wTCnt_objs]
    have hkx : ∀ x ∈ a ++ b, wakeKey m' x = wakeKey m x := by
      intro x hx
      have : x ≠ e := fun c => hne (c ▸ hx)
      rw [h6.wakeKey_eq]; simp [wakeKey, wTCnt_objs, this]
    refine ⟨m', l', a, b, h1, rfl, h3, hkx, sorted_insert hs hkx ?_ ?_⟩
    · intro x hx; rw [hke, hkx x (List.mem_append_left _ hx)]; exact ha x hx
    · intro x hx; rw [hke, hkx x (List.mem_append_right _ hx)]; exact hb x hx

/-- Witness of C4 on `exMem`: entry `3` is inserted into the list `1, 2`, by
deadline and by wake tick (tick `0`, delay `7`). -/
theorem C4_insert_keeps_sorted_witness :
    (IsList exMem exList [1, 2] ∧ SortedBy (deadlineKey exMem) [1, 2] ∧
      SortedBy (wakeKey exMem) [1, 2] ∧ Detached exMem 3) ∧
    (∃ m' l' a b, OSList_deadlineInsert exMem (some exList) 3 = some (true, m', some l') ∧
        [1, 2] = a ++ b ∧ IsList m' l' (a ++ 3 :: b) ∧
        (∀ x, deadlineKey m' x = deadlineKey exMem x) ∧
        SortedBy (deadlineKey m') (a ++ 3 :: b)) ∧
    (∃ m' l' a b, OSList_timerInsert 0 exMem (some exList) 3 7 = some (true, m', some l') ∧
        [1, 2] = a ++ b ∧ IsList m' l' (a ++ 3 :: b) ∧
        (∀ x ∈ [1, 2], wakeKey m' x = wakeKey exMem x) ∧
        SortedBy (wakeKey m') (a ++ 3 :: b)) :=
  ⟨by decide,
    C4_insert_keeps_sorted.1 exMem exList [1, 2] 3 (by decide) (by decide) (by decide)
      (by decide) (by decide) (by decide) (by decide),
    C4_insert_keeps_sorted.2 0 exMem exList [1, 2] 3 7 (by decide) (by decide) (by decide)
      (by decide) (by decide) (by decide)⟩

/-- C5 (ties are first in, first out).  On a sorted well-formed list, if some
entry already has the key of the detached entry `e` being inserted, then the
insert puts `e` immediately after an entry `x` with that key, every entry after
`e` has a strictly greater key (so `x` is the last one with that key), and `e`
is not the new head.  This holds for `OSList_deadlineInsert` and, with the key
`(osTicks + delay) mod 2^32` it stores, for `OSList_timerInsert`. -/
theorem C5_ties_after_equal_keys :
    (∀ (m : Mem) (l : OSList_t) (xs : List Ptr) (e : Ptr),
      IsList m l xs → SortedBy (deadlineKey m) xs → (∀ x ∈ xs, HasTask m x) →
      e ≠ NULL → HasTask m e → e ∉ xs → Detached m e →
      (∃ x ∈ xs, deadlineKey m x = deadlineKey m e) →
      ∃ m' l' a x b, OSList_deadlineInsert m (some l) e = some (true, m', some l') ∧
        xs = a ++ x :: b ∧ IsList m' l' (a ++ x :: e :: b) ∧
        deadlineKey m' x = deadlineKey m' e ∧ (∀ y ∈ b, deadlineKey m' e < deadlineKey m' y) ∧
        l'.pHead ≠ e) ∧
    (∀ (osTicks : Nat) (m : Mem) (l : OSList_t) (xs : List Ptr) (e : Ptr) (delay : Nat),
      IsList m l xs → SortedBy (wakeKey m) xs → e ≠ NULL → e ∉ xs → Detached m e → delay ≠ 0 →
      (∃ x ∈ xs, wakeKey m x = (osTicks + delay) % UINT_MOD) →
      ∃ m' l' a x b, OSList_timerInsert osTicks m (some l) e delay = some (true, m', some l') ∧
        xs = a ++ x :: b ∧ IsList m' l' (a ++ x :: e :: b) ∧
        wakeKey m' x = wakeKey m' e ∧ (∀ y ∈ b, wakeKey m' e < wakeKey m' y) ∧
        l'.pHead ≠ e) := by
  constructor
  · intro m l xs e hl hs ht he hte hne hdet hex
    obtain ⟨m', l', a, b, h1, h2, h3, h4, h5, h6⟩ := deadlineInsert_core hl ht he hte hne hdet
    subst h2
    obtain ⟨ha, hb⟩ := sorted_place hs h4 h5
    obtain ⟨a', t, hat, hkt⟩ := tie_split hs ha hb hex
    subst hat
    have hform : a' ++ [t] ++ e :: b = a' ++ t :: e :: b := by simp
    rw [hform] at h3
    refine ⟨m', l', a', t, b, h1, by simp, h3, ?_, ?_, ?_⟩
    · rw [h6.deadlineKey_eq, h6.deadlineKey_eq]; exact hkt
    · intro y hy; rw [h6.deadlineKey_eq, h6.deadlineKey_eq]; exact hb y hy
    · rw [h3.2.1]
      intro c
      apply hne
      rw [← c]
      cases a' <;> simp
  · intro osTicks m l xs e delay hl hs he hne hdet hd hex
    obtain ⟨m', l', a, b, h1, h2, h3, h4, h5, h6⟩ := timerInsert_core osTicks hl he hne hdet hd
    subst h2
    obtain ⟨ha, hb⟩ := sorted_place hs h4 h5
    obtain ⟨a', t, hat, hkt⟩ := tie_split hs ha hb hex
    subst hat
    have hke : wakeKey m' e = (osTicks + delay) % UINT_MOD := by
      rw [h6.wakeKey_eq]; simp [wakeKey, wTCnt_objs]
    have hkx : ∀ x ∈ a' ++ [t] ++ b, wakeKey m' x = wakeKey m x := by
      intro x hx
      have : x ≠ e := fun c => hne (c ▸ hx)
      rw [h6.wakeKey_eq]; simp [wakeKey, wTCnt_objs, this]
    have hform : a' ++ [t] ++ e :: b = a' ++ t :: e :: b := by simp
    rw [hform] at h3
    refine ⟨m', l', a', t, b, h1, by simp, h3, ?_, ?_, ?_⟩
    · rw [hke, hkx t (by simp)]; exact hkt
    · intro y hy; rw [hke, hkx y (List.mem_append_right _ hy)]; exact hb y hy
    · rw [h3.2.1]
      intro c
      apply hne
      rw [← c]
      cases a' <;> simp

/-- Witness of C5 on `exMem`: entry `3` has the deadline `9` of entry `2`, and
at tick `4` a delay of `5` gives it the wake tick `9` of entry `2`. -/
theorem C5_ties_after_equal_keys_witness :
    (IsList exMem exList [1, 2] ∧ SortedBy (deadlineKey exMem) [1, 2] ∧
      SortedBy (wakeKey exMem) [1, 2] ∧ Detached exMem 3 ∧
      deadlineKey exMem 2 = deadlineKey exMem 3 ∧ wakeKey exMem 2 = (4 + 5) % UINT_MOD) ∧
    (∃ m' l' a x b, OSList_deadlineInsert exMem (some exList) 3 = some (true, m', some l') ∧
        [1, 2] = a ++ x :: b ∧ IsList m' l' (a ++ x :: 3 :: b) ∧
        deadlineKey m' x = deadlineKey m' 3 ∧ (∀ y ∈ b, deadlineKey m' 3 < deadlineKey m' y) ∧
        l'.pHead ≠ 3) ∧
    (∃ m' l' a x b, OSList_timerInsert 4 exMem (some exList) 3 5 = some (true, m', some l') ∧
        [1, 2] = a ++ x :: b ∧ IsList m' l' (a ++ x :: 3 :: b) ∧
        wakeKey m' x = wakeKey m' 3 ∧ (∀ y ∈ b, wakeKey m' 3 < wakeKey m' y) ∧
        l'.pHead ≠ 3) :=
  ⟨by decide,
    C5_ties_after_equal_keys.1 exMem exList [1, 2] 3 (by decide) (by decide) (by decide)
      (by decide) (by decide) (by decide) (by decide) ⟨2, by decide, by decide⟩,
    C5_ties_after_equal_keys.2 4 exMem exList [1, 2] 3 5 (by decide) (by decide) (by decide)
      (by decide) (by decide) (by decide) ⟨2, by decide, by decide⟩⟩

/-- C6 (well-formedness is preserved).  Each list operation, run on a
well-formed list, returns and leaves a well-formed list: the two inserts (for a
detached, non-null entry not on the list; the list need not be sorted), the
removal of the head, and the removal of any entry, found or not.  The entries
afterwards are the old ones with the new entry put in, without the head,
and without the removed entry; in particular the size is the number of entries
reachable from the head via `pNext` and from the tail via `pPrevious`, with no
link before the head or after the tail (`WellFormed`). -/
theorem C6_wellformed_preserved :
    (∀ (osTicks : Nat) (m : Mem) (l : OSList_t) (xs : List Ptr) (e : Ptr) (delay : Nat),
      IsList m l xs → e ≠ NULL → e ∉ xs → Detached m e → delay ≠ 0 →
      ∃ m' l' a b, OSList_timerInsert osTicks m (some l) e delay = some (true, m', some l') ∧
        xs = a ++ b ∧ IsList m' l' (a ++ e :: b) ∧ WellFormed m' l') ∧
    (∀ (m : Mem) (l : OSList_t) (xs : List Ptr) (e : Ptr),
      IsList m l xs → (∀ x ∈ xs, HasTask m x) → e ≠ NULL → HasTask m e → e ∉ xs →
      Detached m e →
      ∃ m' l' a b, OSList_deadlineInsert m (some l) e = some (true, m', some l') ∧
        xs = a ++ b ∧ IsList m' l' (a ++ e :: b) ∧ WellFormed m' l') ∧
    (∀ (m : Mem) (l : OSList_t) (x : Ptr) (rest : List Ptr),
      IsList m l (x :: rest) →
      ∃ m' l', OSList_getFirst m (some l) = some (x, m', some l') ∧ IsList m' l' rest ∧
        WellFormed m' l') ∧
    (∀ (fuel : Nat) (m : Mem) (l : OSList_t) (xs : List Ptr) (e : Ptr),
      IsList m l xs → xs.length ≤ fuel →
      ∃ m' l', OSList_remove fuel m (some l) e = some (decide (e ∈ xs), m', some l') ∧
        IsList m' l' (xs.erase e) ∧ WellFormed m' l') := by
  refine ⟨?_, ?_, ?_, ?_⟩
  · intro osTicks m l xs e delay hl he hne hdet hd
    obtain ⟨m', l', a, b, h1, h2, h3, _⟩ := timerInsert_core osTicks hl he hne hdet hd
    exact ⟨m', l', a, b, h1, h2, h3, h3.wellFormed⟩
  · intro m l xs e hl ht he hte hne hdet
    obtain ⟨m', l', a, b, h1, h2, h3, _⟩ := deadlineInsert_core hl ht he hte hne hdet
    exact ⟨m', l', a, b, h1, h2, h3, h3.wellFormed⟩
  · intro m l x rest hl
    obtain ⟨m', l', h1, h2, _⟩ := getFirst_core hl
    exact ⟨m', l', h1, h2, h2.wellFormed⟩
  · intro fuel m l xs e hl hf
    obtain ⟨m', l', h1, h2, _⟩ := remove_core fuel e hl hf
    exact ⟨m', l', h1, h2, h2.wellFormed⟩

/-- Witness of C6 on `exMem`: the four operations on the list `1, 2`. -/
theorem C6_wellformed_preserved_witness :
    (IsList exMem exList [1, 2] ∧ WellFormed exMem exList ∧ Detached exMem 3) ∧
    (∃ m' l' a b, OSList_timerInsert 0 exMem (some exList) 3 7 = some (true, m', some l') ∧
        [1, 2] = a ++ b ∧ IsList m' l' (a ++ 3 :: b) ∧ WellFormed m' l') ∧
    (∃ m' l' a b, OSList_deadlineInsert exMem (some exList) 3 = some (true, m', some l') ∧
        [1, 2] = a ++ b ∧ IsList m' l' (a ++ 3 :: b) ∧ WellFormed m' l') ∧
    (∃ m' l', OSList_getFirst exMem (some exList) = some (1, m', some l') ∧ IsList m' l' [2] ∧
        WellFormed m' l') ∧
    (∃ m' l', OSList_remove 2 exMem (some exList) 2 = some (decide (2 ∈ [1, 2]), m', some l') ∧
        IsList m' l' ([1, 2].erase 2) ∧ WellFormed m' l') :=
  ⟨by decide,
    C6_wellformed_preserved.1 0 exMem exList [1, 2] 3 7 (by decide) (by decide) (by decide)
      (by decide) (by decide),
    C6_wellformed_preserved.2.1 exMem exList [1, 2] 3 (by decide) (by decide) (by decide)
      (by decide) (by decide) (by decide),
    C6_wellformed_preserved.2.2.1 exMem exList 1 [2] (by decide),
    C6_wellformed_preserved.2.2.2 2 exMem exList [1, 2] 2 (by decide) (by decide)⟩

/-- C7 (removal of a given entry).  `OSList_remove` on a null list returns
false.  On a well-formed list with entries `xs` it returns true exactly when
the entry is one of `xs`; the list is then well-formed with entries `xs` minus
that entry, in the old order; if the entry was found the size is one less and
both links of the entry are null; if not, heap and header are unchanged. -/
theorem C7_remove :
    (∀ (fuel : Nat) (m : Mem) (e : Ptr), OSList_remove fuel m none e = some (false, m, none)) ∧
    (∀ (fuel : Nat) (m : Mem) (l : OSList_t) (xs : List Ptr) (e : Ptr),
      IsList m l xs → xs.length ≤ fuel →
      ∃ m' l', OSList_remove fuel m (some l) e = some (decide (e ∈ xs), m', some l') ∧
        IsList m' l' (xs.erase e) ∧
        (e ∈ xs → l'.size + 1 = l.size ∧ Detached m' e) ∧
        (e ∉ xs → m' = m ∧ l' = l)) := by
  refine ⟨fun _ _ _ => rfl, ?_⟩
  intro fuel m l xs e hl hf
  obtain ⟨m', l', h1, h2, h3, h4, _⟩ := remove_core fuel e hl hf
  exact ⟨m', l', h1, h2, fun h => ⟨(h3 h).2, (h3 h).1⟩, h4⟩

/-- Witness of C7 on `exMem`: the tail `2` is removed from the list `1, 2`. -/
theorem C7_remove_witness :
    IsList exMem exList [1, 2] ∧
    ∃ m' l', OSList_remove 2 exMem (some exList) 2 = some (decide (2 ∈ [1, 2]), m', some l') ∧
        IsList m' l' ([1, 2].erase 2) ∧
        (2 ∈ [1, 2] → l'.size + 1 = exList.size ∧ Detached m' 2) ∧
        (2 ∉ [1, 2] → m' = exMem ∧ l' = exList) :=
  ⟨by decide, C7_remove.2 2 exMem exList [1, 2] 2 (by decide) (by decide)⟩

/-- C8 (head removal and peek).  On a well-formed non-empty list
`OSList_getFirst` returns the head, which is what `OSList_peek` returns, with
both links null, and leaves the rest of the list, one entry shorter, with head
and tail null if nothing is left.  On a null list and on an empty list
`OSList_peek` and `OSList_getFirst` return null, `OSList_remove` returns false,
and heap and header stay as they are, the size `0`.  `OSList_peek` only reads
the header. -/
theorem C8_getFirst_and_peek :
    (∀ (m : Mem) (l : OSList_t) (x : Ptr) (rest : List Ptr),
      IsList m l (x :: rest) →
      ∃ m' l', OSList_getFirst m (some l) = some (x, m', some l') ∧
        OSList_peek (some l) = x ∧ Detached m' x ∧ IsList m' l' rest ∧
        l'.size + 1 = l.size ∧ (rest = [] → l'.pHead = NULL ∧ l'.pTail = NULL)) ∧
    (∀ (fuel : Nat) (m : Mem) (e : Ptr),
      OSList_peek none = NULL ∧ OSList_getFirst m none = some (NULL, m, none) ∧
        OSList_remove fuel m none e = some (false, m, none)) ∧
    (∀ (fuel : Nat) (m : Mem) (l : OSList_t) (e : Ptr),
      IsList m l [] →
      OSList_peek (some l) = NULL ∧ OSList_getFirst m (some l) = some (NULL, m, some l) ∧
        OSList_remove fuel m (some l) e = some (false, m, some l) ∧ l.size = 0) := by
  refine ⟨?_, fun _ _ _ => ⟨rfl, rfl, rfl⟩, ?_⟩
  · intro m l x rest hl
    obtain ⟨m', l', h1, h2, h3, _, h5⟩ := getFirst_core hl
    refine ⟨m', l', h1, ?_, h3, h2, h5, ?_⟩
    · show l.pHead = x
      simpa using hl.2.1
    · intro hr
      subst hr
      exact ⟨h2.2.1, h2.2.2.1⟩
  · intro fuel m l e hl
    have hsz : l.size = 0 := hl.1
    refine ⟨hl.2.1, ?_, ?_, hsz⟩
    · simp [OSList_getFirst, hsz]
    · simp [OSList_remove, hsz]

/-- Witness of C8 on `exMem`: the head `1` is taken from the list `1, 2`; the
header `emptyList` is an empty list. -/
theorem C8_getFirst_and_peek_witness :
    (IsList exMem exList [1, 2] ∧ IsList exMem emptyList []) ∧
    (∃ m' l', OSList_getFirst exMem (some exList) = some (1, m', some l') ∧
        OSList_peek (some exList) = 1 ∧ Detached m' 1 ∧ IsList m' l' [2] ∧
        l'.size + 1 = exList.size ∧ ([2] = [] → l'.pHead = NULL ∧ l'.pTail = NULL)) ∧
    (OSList_peek (some emptyList) = NULL ∧
        OSList_getFirst exMem (some emptyList) = some (NULL, exMem, some emptyList) ∧
        OSList_remove 1 exMem (some emptyList) 3 = some (false, exMem, some emptyList) ∧
        emptyList.size = 0) :=
  ⟨by decide, C8_getFirst_and_peek.1 exMem exList 1 [2] (by decide),
    C8_getFirst_and_peek.2.2 1 exMem emptyList 3 (by decide)⟩

/-- C9 (fill, then drain).  Let distinct, non-null, detached entries be inserted
with non-zero delays by `OSList_timerInsert` at a fixed tick into an empty
list, and `OSList_getFirst` be called once per entry.  Both loops run to the
end; the pointers returned are the inserted entries, each exactly once, in
nondecreasing order of the wake ticks `(osTicks + delay) mod 2^32` they carry;
the list ends empty (size `0`, head and tail null).  If the tick is `0` and the
delays are a permutation of `1, ..., n`, the wake ticks come out as
`1, ..., n`. -/
theorem C9_fill_then_drain (osTicks : Nat) (m : Mem) (l : OSList_t) (es : List (Ptr × Nat))
    (hl : IsList m l [])
    (hes : ∀ p ∈ es, p.1 ≠ NULL ∧ Detached m p.1 ∧ p.2 ≠ 0)
    (hnd : (es.map Prod.fst).Nodup) :
    ∃ m1 l1 out m2 l2, timerInsertAll osTicks m (some l) es = some (m1, some l1) ∧
      getFirstN m1 (some l1) es.length = some (out, m2, some l2) ∧
      out.Perm (es.map Prod.fst) ∧ out.Nodup ∧ SortedBy (wakeKey m2) out ∧
      (∀ p ∈ es, wakeKey m2 p.1 = (osTicks + p.2) % UINT_MOD) ∧
      l2.size = 0 ∧ l2.pHead = NULL ∧ l2.pTail = NULL ∧
      (osTicks = 0 → es.length < UINT_MOD →
        (es.map Prod.snd).Perm (List.range' 1 es.length) →
        out.map (wakeKey m2) = List.range' 1 es.length) := by
  obtain ⟨m1, l1, ys, h1, h2, h3, h4, _, h6⟩ := timerInsertAll_spec osTicks es m l [] hl
    List.chain'_nil (fun p hp => ⟨(hes p hp).1, by simp, (hes p hp).2.1, (hes p hp).2.2⟩) hnd
  obtain ⟨m2, l2, k1, k2, k3⟩ := getFirstN_spec ys m1 l1 h2
  have hlen : ys.length = es.length := by
    have := h4.length_eq
    simpa using this
  have hperm : ys.Perm (es.map Prod.fst) := by simpa using h4
  have hkeys : ∀ p ∈ es, wakeKey m2 p.1 = (osTicks + p.2) % UINT_MOD :=
    fun p hp => (k3 p.1).trans (h6 p hp)
  have hsorted : SortedBy (wakeKey m2) ys := h3.congr k3
  refine ⟨m1, l1, ys, m2, l2, h1, by rw [← hlen]; exact k1, hperm, h2.2.2.2.2.2, hsorted,
    hkeys, k2.1, k2.2.1, k2.2.2.1, ?_⟩
  intro ht hn hp
  subst ht
  -- the wake ticks of the entries are their delays
  have hd : ∀ p ∈ es, wakeKey m2 p.1 = p.2 := by
    intro p hp'
    rw [hkeys p hp', Nat.zero_add]
    apply Nat.mod_eq_of_lt
    have : p.2 ∈ List.range' 1 es.length := hp.subset (List.mem_map_of_mem Prod.snd hp')
    rw [List.mem_range'_1] at this
    unfold UINT_MOD at hn ⊢
    omega
  have hmap : (ys.map (wakeKey m2)).Perm (es.map Prod.snd) := by
    have e1 : (ys.map (wakeKey m2)).Perm ((es.map Prod.fst).map (wakeKey m2)) := hperm.map _
    have e2 : (es.map Prod.fst).map (wakeKey m2) = es.map Prod.snd := by
      rw [List.map_map]
      exact List.map_congr_left (fun p hp' => hd p hp')
    rw [e2] at e1
    exact e1
  have hs1 : (ys.map (wakeKey m2)).Sorted (· ≤ ·) := by
    have := hsorted.pairwise
    exact (List.pairwise_map.mpr this)
  have hs2 : (List.range' 1 es.length).Sorted (· ≤ ·) :=
    (List.pairwise_lt_range' 1 es.length).imp (fun h => Nat.le_of_lt h)
  exact List.eq_of_perm_of_sorted (hmap.trans hp) hs1 hs2

/-- Witness of C9 on the scenario of the specification: the eleven detached
entries `21, ..., 31` of `zeroMem` are inserted at tick `0` with the delays
`1, 10, 5, 11, 6, 2, 9, 4, 7, 8, 3` and taken out again; they come out in the
order of the wake ticks `1, ..., 11`, that is `21, 26, 31, 28, 23, 25, 29, 30,
27, 22, 24`, and the list ends empty. -/
theorem C9_fill_then_drain_witness :
    (IsList zeroMem emptyList [] ∧
      (∀ p ∈ exDelays, p.1 ≠ NULL ∧ Detached zeroMem p.1 ∧ p.2 ≠ 0) ∧
      (exDelays.map Prod.fst).Nodup ∧
      (exDelays.map Prod.snd).Perm (List.range' 1 exDelays.length)) ∧
    (∃ m1 l1 out m2 l2,
      timerInsertAll 0 zeroMem (some emptyList) exDelays = some (m1, some l1) ∧
      getFirstN m1 (some l1) exDelays.length = some (out, m2, some l2) ∧
      out.Perm (exDelays.map Prod.fst) ∧ out.Nodup ∧ SortedBy (wakeKey m2) out ∧
      (∀ p ∈ exDelays, wakeKey m2 p.1 = (0 + p.2) % UINT_MOD) ∧
      l2.size = 0 ∧ l2.pHead = NULL ∧ l2.pTail = NULL ∧
      (0 = 0 → exDelays.length < UINT_MOD →
        (exDelays.map Prod.snd).Perm (List.range' 1 exDelays.length) →
        out.map (wakeKey m2) = List.range' 1 exDelays.length)) ∧
    ((timerInsertAll 0 zeroMem (some emptyList) exDelays).bind fun r =>
        (getFirstN r.1 r.2 exDelays.length).map fun q =>
          (q.1, q.1.map (wakeKey q.2.1), q.2.2.map fun l => (l.size, l.pHead, l.pTail))) =
      some ([21, 26, 31, 28, 23, 25, 29, 30, 27, 22, 24], [1, 2, 3, 4, 5, 6, 7, 8, 9, 10, 11],
        some (0, NULL, NULL)) :=
  ⟨⟨by decide, by decide, by decide, by decide⟩,
    C9_fill_then_drain 0 zeroMem emptyList exDelays (by decide) (by decide) (by decide),
    by decide⟩

/-- C10, as stated, fails: at tick `2^32 - 1` a successful insert with delay `1`
stores the wake tick `0`, which is not the integer sum `2^32`. -/
theorem C10_wake_tick_wraps :
    (OSList_timerInsert 4294967295 zeroMem (some emptyList) 5 1).map
        (fun r => (r.1, wakeKey r.2.1 5)) = some (true, 0) ∧
      (0 : Nat) ≠ 4294967295 + 1 := by
  decide

/-- C10, amended (the wake tick is the 32-bit sum).  Whenever
`OSList_timerInsert` returns true, the wake tick it has stored in the entry is
`(osTicks + delay) mod 2^32`, which is the integer sum `osTicks + delay` when
that sum is below `2^32`; and on a well-formed list the insert of a detached
non-null entry not on the list with a non-zero delay does return true. -/
theorem C10_wake_tick_is_sum_mod :
    (∀ (osTicks : Nat) (m m' : Mem) (l : OSList_t) (l' : Option OSList_t) (e : Ptr)
      (delay : Nat), OSList_timerInsert osTicks m (some l) e delay = some (true, m', l') →
      wakeKey m' e = (osTicks + delay) % UINT_MOD ∧
        (osTicks + delay < UINT_MOD → wakeKey m' e = osTicks + delay)) ∧
    (∀ (osTicks : Nat) (m : Mem) (l : OSList_t) (xs : List Ptr) (e : Ptr) (delay : Nat),
      IsList m l xs → e ≠ NULL → e ∉ xs → Detached m e → delay ≠ 0 →
      ∃ m' l', OSList_timerInsert osTicks m (some l) e delay = some (true, m', some l')) := by
  constructor
  · intro osTicks m m' l l' e delay h
    have hk := timerInsert_stores h
    exact ⟨hk, fun hlt => by rw [hk, Nat.mod_eq_of_lt hlt]⟩
  · intro osTicks m l xs e delay hl he hne hdet hd
    obtain ⟨m', l', _, _, h1, _⟩ := timerInsert_core osTicks hl he hne hdet hd
    exact ⟨m', l', h1⟩

/-- Witness of C10 on `exMem`: entry `3` is inserted at tick `4` with delay `5`
and carries the wake tick `9`. -/
theorem C10_wake_tick_is_sum_mod_witness :
    (IsList exMem exList [1, 2] ∧ Detached exMem 3) ∧
    ∃ m' l', OSList_timerInsert 4 exMem (some exList) 3 5 = some (true, m', some l') ∧
      wakeKey m' 3 = (4 + 5) % UINT_MOD ∧ (4 + 5 < UINT_MOD → wakeKey m' 3 = 4 + 5) :=
  ⟨by decide,
    match C10_wake_tick_is_sum_mod.2 4 exMem exList [1, 2] 3 5 (by decide) (by decide)
      (by decide) (by decide) (by decide) with
    | ⟨m', l', h⟩ => ⟨m', l', h, C10_wake_tick_is_sum_mod.1 4 exMem m' exList (some l') 3 5 h⟩⟩

/-- C11 (rejected inserts).  `OSList_timerInsert` returns false with the heap
and the list header unchanged when the list is null, the entry is null or the
delay is `0`, and whenever it returns at all its result is false exactly in
those cases; `OSList_deadlineInsert` likewise for a null list or entry.  Both
do return, with true, on a well-formed list for a detached non-null entry that
is not on the list. -/
theorem C11_insert_rejects :
    (∀ (t : Nat) (m : Mem) (list : Option OSList_t) (e : Ptr) (d : Nat),
      (list = none ∨ e = NULL ∨ d = 0) →
        OSList_timerInsert t m list e d = some (false, m, list)) ∧
    (∀ (t : Nat) (m : Mem) (list : Option OSList_t) (e : Ptr) (d : Nat)
      (r : Bool × Mem × Option OSList_t),
      OSList_timerInsert t m list e d = some r →
        (r.1 = false ↔ (list = none ∨ e = NULL ∨ d = 0))) ∧
    (∀ (m : Mem) (list : Option OSList_t) (e : Ptr), (list = none ∨ e = NULL) →
        OSList_deadlineInsert m list e = some (false, m, list)) ∧
    (∀ (m : Mem) (list : Option OSList_t) (e : Ptr) (r : Bool × Mem × Option OSList_t),
      OSList_deadlineInsert m list e = some r → (r.1 = false ↔ (list = none ∨ e = NULL))) ∧
    (∀ (t : Nat) (m : Mem) (l : OSList_t) (xs : List Ptr) (e : Ptr) (d : Nat),
      IsList m l xs → e ≠ NULL → e ∉ xs → Detached m e → d ≠ 0 →
        ∃ m' l', OSList_timerInsert t m (some l) e d = some (true, m', some l')) ∧
    (∀ (m : Mem) (l : OSList_t) (xs : List Ptr) (e : Ptr),
      IsList m l xs → (∀ x ∈ xs, HasTask m x) → e ≠ NULL → HasTask m e → e ∉ xs →
        Detached m e → ∃ m' l', OSList_deadlineInsert m (some l) e = some (true, m', some l')) := by
  have rejT : ∀ (t : Nat) (m : Mem) (list : Option OSList_t) (e : Ptr) (d : Nat),
      (list = none ∨ e = NULL ∨ d = 0) →
        OSList_timerInsert t m list e d = some (false, m, list) := by
    intro t m list e d h
    cases list with
    | none => rfl
    | some l =>
      have hg : e = NULL ∨ d = 0 := by simpa using h
      simp [OSList_timerInsert, hg]
  have rejD : ∀ (m : Mem) (list : Option OSList_t) (e : Ptr), (list = none ∨ e = NULL) →
        OSList_deadlineInsert m list e = some (false, m, list) := by
    intro m list e h
    cases list with
    | none => rfl
    | some l =>
      have hg : e = NULL := by simpa using h
      simp [OSList_deadlineInsert, hg]
  refine ⟨rejT, ?_, rejD, ?_, ?_, ?_⟩
  · intro t m list e d r h
    by_cases hg : list = none ∨ e = NULL ∨ d = 0
    · rw [rejT t m list e d hg] at h
      cases h
      simp [hg]
    · cases list with
      | none => simp at hg
      | some l =>
        have hg2 : ¬ (e = NULL ∨ d = 0) := by simpa using hg
        have := timerInsert_true hg2 h
        exact ⟨fun h' => (by rw [this] at h'; cases h'), fun h' => absurd h' hg⟩
  · intro m list e r h
    by_cases hg : list = none ∨ e = NULL
    · rw [rejD m list e hg] at h
      cases h
      simp [hg]
    · cases list with
      | none => simp at hg
      | some l =>
        have hg2 : e ≠ NULL := by simpa using hg
        have := deadlineInsert_true hg2 h
        exact ⟨fun h' => (by rw [this] at h'; cases h'), fun h' => absurd h' hg⟩
  · intro t m l xs e d hl he hne hdet hd
    obtain ⟨m', l', a, b, h, _⟩ := timerInsert_core t hl he hne hdet hd
    exact ⟨m', l', h⟩
  · intro m l xs e hl ht he hte hne hdet
    obtain ⟨m', l', a, b, h, _⟩ := deadlineInsert_core hl ht he hte hne hdet
    exact ⟨m', l', h⟩

/-- Witness of C11 on `exMem`: a delay of `0` and a null list are rejected, and
the detached entry `3` is accepted by both inserts. -/
theorem C11_insert_rejects_witness :
    OSList_timerInsert 0 exMem (some exList) 3 0 = some (false, exMem, some exList) ∧
      OSList_deadlineInsert exMem none 3 = some (false, exMem, none) ∧
      (∃ m' l', OSList_timerInsert 0 exMem (some exList) 3 7 = some (true, m', some l')) ∧
      (∃ m' l', OSList_deadlineInsert exMem (some exList) 3 = some (true, m', some l')) :=
  ⟨C11_insert_rejects.1 0 exMem (some exList) 3 0 (Or.inr (Or.inr rfl)),
    C11_insert_rejects.2.2.1 exMem none 3 (Or.inl rfl),
    C11_insert_rejects.2.2.2.2.1 0 exMem exList [1, 2] 3 7 (by decide) (by decide) (by decide)
      (by decide) (by decide),
    C11_insert_rejects.2.2.2.2.2 exMem exList [1, 2] 3 (by decide) (by decide) (by decide)
      (by decide) (by decide) (by decide)⟩

/-- C12 (reassessment).  Let the three lists of the kernel be well-formed and
disjoint, every entry own a task descriptor, the ready list be non-empty and
sorted by deadline, the waiting list sorted by deadline and the timer list by
wake tick.  Then `schedulingUpdate` returns (fuel above the lengths of the
timer and waiting lists is enough).  Afterwards the timer list holds, in their
old order, exactly its old entries whose wake tick is above the current tick,
the waiting list exactly its old entries whose deadline is above the current
tick, and the ready list holds its old entries in their old order together
with the entries taken from the other two lists, sorted by deadline.  No key
has changed, the running entry is the head of the ready list and `Running` is
that entry's task; the tick counter, the operating mode, the interrupt flag and
the allocator are as before. -/
theorem C12_reassessment (fuel : Nat) (k : Kernel) (rs ws ts : List Ptr)
    (hL : Lists k rs ws ts) (hne : rs ≠ [])
    (hr : SortedBy (deadlineKey k.mem) rs) (hw : SortedBy (deadlineKey k.mem) ws)
    (ht : SortedBy (wakeKey k.mem) ts) (hft : ts.length < fuel) (hfw : ws.length < fuel) :
    ∃ k' rs', schedulingUpdate fuel k = some k' ∧
      Lists k' rs' (ws.filter (fun x => !deadlineDue k x)) (ts.filter (fun x => !timerDue k x)) ∧
      rs'.Perm (rs ++ ts.filter (timerDue k) ++ ws.filter (deadlineDue k)) ∧
      rs.Sublist rs' ∧ SortedBy (deadlineKey k'.mem) rs' ∧
      (∀ p, deadlineKey k'.mem p = deadlineKey k.mem p ∧ wakeKey k'.mem p = wakeKey k.mem p) ∧
      k'.runningListobj = rs'.headD NULL ∧ k'.runningListobj ∈ rs' ∧
      k'.Running = (k'.mem.objs k'.runningListobj).pTask ∧ SameStatics k k' := by
  obtain ⟨k', rs', h1, h2, h3, h4, h5, h6, h7, h8, h9, h10⟩ :=
    schedulingUpdate_spec fuel k rs ws ts hL (by simp [hne]) hft hfw
  rw [(timerDue_sorted ht).2, (deadlineDue_sorted hw).2] at h2
  rw [(timerDue_sorted ht).1, (deadlineDue_sorted hw).1] at h3
  refine ⟨k', rs', h1, h2, h3, h4, h5 hr, fun p => ⟨h6.deadlineKey_eq p, h6.wakeKey_eq p⟩, h8,
    ?_, ?_, h10⟩
  · rw [h8]
    cases rs' with
    | nil => exact absurd rfl h7
    | cons y r => exact List.mem_cons_self _ _
  · rw [h9, h8]

/-- Witness of C12 on `exKernel`: entry `3` on the timer list is due at tick
`0` and joins the ready list `1, 2`. -/
theorem C12_reassessment_witness :
    (Lists exKernel [1, 2] [] [3] ∧ SortedBy (deadlineKey exKernel.mem) [1, 2] ∧
      SortedBy (wakeKey exKernel.mem) [3] ∧ timerDue exKernel 3 = true) ∧
    ∃ k' rs', schedulingUpdate 10 exKernel = some k' ∧
      Lists k' rs' ([].filter (fun x => !deadlineDue exKernel x))
        ([3].filter (fun x => !timerDue exKernel x)) ∧
      rs'.Perm ([1, 2] ++ [3].filter (timerDue exKernel) ++ [].filter (deadlineDue exKernel)) ∧
      [1, 2].Sublist rs' ∧ SortedBy (deadlineKey k'.mem) rs' ∧
      (∀ p, deadlineKey k'.mem p = deadlineKey exKernel.mem p ∧
        wakeKey k'.mem p = wakeKey exKernel.mem p) ∧
      k'.runningListobj = rs'.headD NULL ∧ k'.runningListobj ∈ rs' ∧
      k'.Running = (k'.mem.objs k'.runningListobj).pTask ∧ SameStatics exKernel k' :=
  ⟨by decide, C12_reassessment 10 exKernel [1, 2] [] [3] (by decide) (by decide) (by decide)
    (by decide) (by decide) (by decide) (by decide)⟩

/-- C13, as stated, fails.  In `traceWaitWraps` the running task `105` calls
`wait(1)` at tick `2^32 - 1`: its wake tick is stored as `0`, the reassessment
of the same pass finds it due, and afterwards the caller is on the ready list,
is the running entry again, and the timer list is empty.  In
`traceOverdueTimer` entry `107` is on the timer list with wake tick `10` when,
at tick `20`, the running task `105` calls `wait(5)`: the reassessment moves
`107` from the timer list to the ready list. -/
theorem C13_caller_back_on_ready_list :
    (exec 10 (boot 100) (traceWaitWraps.take 4)).map (fun k =>
        (k.opMode, k.runningListobj, k.osTicks, entries k.mem k.readyList,
          entries k.mem k.timerList)) = some (RUNNING, 105, 4294967295, [105, 103], []) ∧
    (exec 10 (boot 100) traceWaitWraps).map (fun k =>
        (k.runningListobj, wakeKey k.mem 105, entries k.mem k.readyList,
          entries k.mem k.timerList)) = some (105, 0, [105, 103], []) ∧
    (exec 10 (boot 100) traceOverdueTimer).map (fun k =>
        (k.opMode, k.runningListobj, entries k.mem k.readyList,
          entries k.mem k.timerList)) = some (RUNNING, 105, [105, 103], [107]) ∧
    (exec 10 (boot 100) (traceOverdueTimer ++ [.wait 5])).map (fun k =>
        (k.runningListobj, entries k.mem k.readyList, entries k.mem k.timerList)) =
      some (107, [107, 103], [105]) :=
  ⟨by decide, by decide, by decide, by decide⟩

/-- C13, amended (first pass of `wait`).  Let the three lists be well-formed,
disjoint and sorted, every entry own a task descriptor, the running entry be on
the ready list together with at least one other entry, `n ≠ 0` and
`osTicks + n < 2^32`.  Then the first pass of `wait(n)` ends in `LoadContext`
(fuel above the list lengths is enough).  Afterwards the caller carries the
wake tick `osTicks + n`, is on the timer list and not on the ready list; the
timer list is sorted and holds beside the caller, in their old order, exactly
its old entries whose wake tick is above the current tick; the waiting list
holds exactly its old entries whose deadline is above the current tick; the
ready list holds its other old entries in their old order together with the
entries taken from the other two lists, sorted by deadline; the running entry
is the head of the ready list; tick counter and operating mode are as before. -/
theorem C13_wait_moves_caller (fuel : Nat) (k : Kernel) (n : Nat) (rs ws ts : List Ptr)
    (hL : Lists k rs ws ts) (hrun : k.runningListobj ∈ rs)
    (hother : rs.erase k.runningListobj ≠ [])
    (hsr : SortedBy (deadlineKey k.mem) rs) (hsw : SortedBy (deadlineKey k.mem) ws)
    (hst : SortedBy (wakeKey k.mem) ts)
    (hn : n ≠ 0) (hwrap : k.osTicks + n < UINT_MOD)
    (hfr : rs.length ≤ fuel) (hft : ts.length + 1 < fuel) (hfw : ws.length < fuel) :
    ∃ k' rs' a b, wait fuel k n = some (.switched, k') ∧
      Lists k' rs' (ws.filter (fun x => !deadlineDue k x)) (a ++ k.runningListobj :: b) ∧
      a ++ b = ts.filter (fun x => !timerDue k x) ∧
      wakeKey k'.mem k.runningListobj = k.osTicks + n ∧
      SortedBy (wakeKey k'.mem) (a ++ k.runningListobj :: b) ∧
      rs'.Perm (rs.erase k.runningListobj ++ ts.filter (timerDue k) ++
        ws.filter (deadlineDue k)) ∧
      (rs.erase k.runningListobj).Sublist rs' ∧ k.runningListobj ∉ rs' ∧
      SortedBy (deadlineKey k'.mem) rs' ∧
      k'.runningListobj = rs'.headD NULL ∧ k'.runningListobj ∈ rs' ∧
      k'.Running = (k'.mem.objs k'.runningListobj).pTask ∧
      k'.osTicks = k.osTicks ∧ k'.opMode = k.opMode := by
  have hcts : k.runningListobj ∉ ts := fun h =>
    List.disjoint_left.mp (List.nodup_append.mp hL.2.2.2.1).2.2 (List.mem_append_left _ hrun) h
  obtain ⟨k1, a0, b0, hw, hab, L1, wk, wko, dk, ha, hb, _, ht1, ho1, _⟩ :=
    wait_pre fuel k n rs ws ts hL hrun hn hfr
  generalize hc : k.runningListobj = c at *
  rw [Nat.mod_eq_of_lt hwrap] at wk ha hb
  have hkeq : ∀ x ∈ a0 ++ b0, wakeKey k1.mem x = wakeKey k.mem x := fun x hx =>
    wko x (fun e => hcts (by rw [hab, ← e]; exact hx))
  obtain ⟨pa, pb⟩ := sorted_place (hab ▸ hst) ha hb
  have hst1 : SortedBy (wakeKey k1.mem) (a0 ++ c :: b0) := by
    refine sorted_insert (hab ▸ hst) hkeq ?_ ?_
    · intro x hx; rw [wk, hkeq x (List.mem_append_left _ hx)]; exact pa x hx
    · intro x hx; rw [wk, hkeq x (List.mem_append_right _ hx)]; exact pb x hx
  have hsw1 : SortedBy (deadlineKey k1.mem) ws := hsw.congr dk
  have hsr1 : SortedBy (deadlineKey k1.mem) (rs.erase c) :=
    (hsr.sublist (List.erase_sublist c rs)).congr dk
  have hdd : deadlineDue k1 = deadlineDue k := by
    funext q; simp [deadlineDue, dk, ht1]
  have htc : timerDue k1 c = false := by simp [timerDue, wk, ht1, hn]
  have htd : ∀ x ∈ a0 ++ b0, timerDue k1 x = timerDue k x := by
    intro x hx; simp [timerDue, hkeq x hx, ht1]
  have hfa : ∀ (f : Bool → Bool) (l : List Ptr), (∀ x ∈ l, x ∈ a0 ++ b0) →
      l.filter (fun x => f (timerDue k1 x)) = l.filter (fun x => f (timerDue k x)) := by
    intro f l hl
    exact List.filter_congr (fun x hx => by rw [htd x (hl x hx)])
  obtain ⟨k', rs', h1, h2, h3, h4, h5, h6, h7, h8, h9, h10⟩ :=
    schedulingUpdate_spec fuel k1 (rs.erase c) ws (a0 ++ c :: b0) L1 (by simp [hother])
      (by rw [hab] at hft; simp at hft ⊢; omega) hfw
  rw [(timerDue_sorted hst1).2, (deadlineDue_sorted hsw1).2, hdd] at h2
  rw [(timerDue_sorted hst1).1, (deadlineDue_sorted hsw1).1, hdd] at h3
  have e1 : (a0 ++ c :: b0).filter (fun x => !timerDue k1 x) =
      a0.filter (fun x => !timerDue k x) ++ c :: b0.filter (fun x => !timerDue k x) := by
    rw [List.filter_append, List.filter_cons_of_pos (by simp [htc]),
      hfa (fun b => !b) a0 (fun x hx => List.mem_append_left _ hx),
      hfa (fun b => !b) b0 (fun x hx => List.mem_append_right _ hx)]
  have e2 : (a0 ++ c :: b0).filter (timerDue k1) = ts.filter (timerDue k) := by
    rw [List.filter_append, List.filter_cons_of_neg (by simp [htc]), hab, List.filter_append]
    have := hfa (fun b => b) a0 (fun x hx => List.mem_append_left _ hx)
    have := hfa (fun b => b) b0 (fun x hx => List.mem_append_right _ hx)
    simp_all
  rw [e1] at h2
  rw [e2] at h3
  have hcmem : rs'.headD NULL ∈ rs' := by
    cases rs' with
    | nil => exact absurd rfl h7
    | cons y r => exact List.mem_cons_self _ _
  refine ⟨LoadContext k', rs', _, _, ?_, h2, ?_, ?_, ?_, h3, h4, ?_, h5 hsr1, h8, ?_, ?_,
    h10.1.trans ht1, h10.2.1.trans ho1⟩
  · rw [hw, h1]; rfl
  · rw [hab, List.filter_append]
  · show wakeKey k'.mem c = _
    rw [h6.wakeKey_eq, wk]
  · refine SortedBy.congr ?_ (fun q => h6.wakeKey_eq q)
    have := (timerDue_sorted hst1).2
    refine (hst1.sublist ?_)
    rw [← e1]
    exact List.filter_sublist _
  · intro hc'
    have hnd := h2.2.2.2.1
    rw [List.append_assoc] at hnd
    exact List.disjoint_left.mp (List.nodup_append.mp hnd).2.2 hc'
      (List.mem_append_right _ (List.mem_append_right _ (List.mem_cons_self _ _)))
  · show k'.runningListobj ∈ rs'
    rw [h8]; exact hcmem
  · show k'.Running = (k'.mem.objs k'.runningListobj).pTask
    rw [h9, h8]

/-- Witness of C13 on `exKernel`: the running entry `1` waits `5` ticks. -/
theorem C13_wait_moves_caller_witness :
    (Lists exKernel [1, 2] [] [3] ∧ exKernel.runningListobj ∈ [1, 2] ∧
      exKernel.osTicks + 5 < UINT_MOD) ∧
    ∃ k' rs' a b, wait 10 exKernel 5 = some (.switched, k') ∧
      Lists k' rs' [] (a ++ 1 :: b) ∧ wakeKey k'.mem 1 = 0 + 5 ∧ 1 ∉ rs' ∧
      k'.runningListobj = rs'.headD NULL :=
  ⟨by decide,
    match C13_wait_moves_caller 10 exKernel 5 [1, 2] [] [3] (by decide) (by decide) (by decide)
      (by decide) (by decide) (by decide) (by decide) (by decide) (by decide) (by decide)
      (by decide) with
    | ⟨k', rs', a, b, h1, h2, _, h4, _, _, _, h8, _, h10, _⟩ =>
      ⟨k', rs', a, b, h1, h2, h4, h8, h10⟩⟩

/-- C14, as stated, fails: `DEADLINE_REACHED` and `FAIL` are the same value
`0`.  In `traceDeadlineReached` the task calls `wait(1)` and is resumed at tick
`1`, which is its deadline: the call returns the value of `FAIL` although
`n_ticks` is `1`.  In `traceWaitWraps` the call `wait(1)` at tick `2^32 - 1`
leaves the mode, the running task, the tick counter, the interrupt flag, the
three lists and the caller's keys as they were, and the resumed call returns
the value of `FAIL`. -/
theorem C14_wait_returns_fail_value_with_nonzero_ticks :
    ((exec 10 (boot 100) traceDeadlineReached).bind wait_resumed) = some FAIL ∧
    ((exec 10 (boot 100) (traceWaitWraps.take 4)).map (fun k =>
        (k.opMode, k.Running, k.runningListobj, k.osTicks, k.isrOnState)) =
      some (RUNNING, 106, 105, 4294967295, true) ∧
     (exec 10 (boot 100) (traceWaitWraps.take 4)).map (fun k =>
        (entries k.mem k.readyList, entries k.mem k.waitingList, entries k.mem k.timerList,
          wakeKey k.mem 105, deadlineKey k.mem 105)) = some ([105, 103], [], [], 0, 100)) ∧
    ((exec 10 (boot 100) traceWaitWraps).map (fun k =>
        (k.opMode, k.Running, k.runningListobj, k.osTicks, k.isrOnState)) =
      some (RUNNING, 106, 105, 4294967295, true) ∧
     (exec 10 (boot 100) traceWaitWraps).map (fun k =>
        (entries k.mem k.readyList, entries k.mem k.waitingList, entries k.mem k.timerList,
          wakeKey k.mem 105, deadlineKey k.mem 105)) = some ([105, 103], [], [], 0, 100)) ∧
    ((exec 10 (boot 100) traceWaitWraps).bind wait_resumed) = some FAIL :=
  ⟨by decide, ⟨by decide, by decide⟩, ⟨by decide, by decide⟩, by decide⟩

/-- C14, amended (return values of `wait`).  `wait(0)` returns `FAIL` and
leaves the kernel state unchanged.  For `n ≠ 0` the first pass never returns a
value: whenever it completes it ends in `LoadContext`, and it does complete
when the lists are well-formed and disjoint and the running entry is on the
ready list together with another entry.  Resumed, the call returns
`DEADLINE_REACHED` if the deadline of the running task is at most the current
tick and `SUCCESS` otherwise; `DEADLINE_REACHED` is the same value as `FAIL`,
and `SUCCESS` differs from it. -/
theorem C14_wait_return_values :
    (∀ (fuel : Nat) (k : Kernel), wait fuel k 0 = some (.ret FAIL, k)) ∧
    (∀ (fuel : Nat) (k : Kernel) (n : Nat) (r : Outcome × Kernel), n ≠ 0 →
      wait fuel k n = some r → r.1 = .switched) ∧
    (∀ (fuel : Nat) (k : Kernel) (n : Nat) (rs ws ts : List Ptr), Lists k rs ws ts →
      k.runningListobj ∈ rs → rs.erase k.runningListobj ≠ [] → n ≠ 0 →
      rs.length ≤ fuel → ts.length + 1 < fuel → ws.length < fuel →
      ∃ k', wait fuel k n = some (.switched, k')) ∧
    (∀ (k : Kernel), k.Running ≠ NULL →
      wait_resumed k = some (if (k.mem.tcbs k.Running).DeadLine ≤ k.osTicks
        then DEADLINE_REACHED else SUCCESS)) ∧
    DEADLINE_REACHED = FAIL ∧ SUCCESS ≠ FAIL := by
  refine ⟨fun fuel k => by simp [wait], fun fuel k n r hn h => wait_switches hn h, ?_, ?_,
    rfl, by decide⟩
  · intro fuel k n rs ws ts hL hrun hother hn hfr hft hfw
    obtain ⟨k1, a, b, hw, hab, L1, _⟩ := wait_pre fuel k n rs ws ts hL hrun hn hfr
    obtain ⟨k', rs', h1, _⟩ := schedulingUpdate_spec fuel k1 (rs.erase k.runningListobj) ws
      (a ++ k.runningListobj :: b) L1 (by simp [hother])
      (by rw [hab] at hft; simp at hft ⊢; omega) hfw
    exact ⟨LoadContext k', by rw [hw, h1]; rfl⟩
  · intro k hk
    simp only [wait_resumed, Mem.tcb, hk, if_false, ticks, Option.bind_eq_bind, Option.some_bind]
    split <;> rfl

/-- Witness of C14 on `exKernel`: `wait(5)` ends its first pass in
`LoadContext`, and the resumed code returns by the deadline test. -/
theorem C14_wait_return_values_witness :
    (Lists exKernel [1, 2] [] [3] ∧ exKernel.Running ≠ NULL) ∧
    (∃ k', wait 10 exKernel 5 = some (.switched, k') ∧
      (Outcome.switched, k').1 = Outcome.switched) ∧
    wait_resumed exKernel = some (if (exKernel.mem.tcbs exKernel.Running).DeadLine ≤
      exKernel.osTicks then DEADLINE_REACHED else SUCCESS) :=
  ⟨by decide,
    match C14_wait_return_values.2.2.1 10 exKernel 5 [1, 2] [] [3] (by decide) (by decide)
      (by decide) (by decide) (by decide) (by decide) (by decide) with
    | ⟨k', h⟩ => ⟨k', h, C14_wait_return_values.2.1 10 exKernel 5 _ (by decide) h⟩,
    C14_wait_return_values.2.2.2.1 exKernel (by decide)⟩

/-- C15, as stated, fails.  In `traceOverdueTimer` the ready list is `105, 103`
and entry `107` is overdue on the timer list when the running task `105` calls
`set_deadline(30)`; the reassessment that ends the call moves `107` to the
ready list, which then holds `105, 107, 103`. -/
theorem C15_ready_list_gains_overdue_entry :
    (exec 10 (boot 100) traceOverdueTimer).map (fun k =>
        (k.opMode, k.Running, k.runningListobj, entries k.mem k.readyList,
          entries k.mem k.timerList)) = some (RUNNING, 106, 105, [105, 103], [107]) ∧
    (exec 10 (boot 100) (traceOverdueTimer ++ [.set_deadline 30])).map (fun k =>
        (entries k.mem k.readyList, entries k.mem k.timerList, deadlineKey k.mem 105)) =
      some ([105, 107, 103], [], 30) := by
  decide

/-- C15, amended (`set_deadline`).  Let the three lists be well-formed, disjoint
and sorted, the running entry be the head of the ready list, `Running` be its
task descriptor, and no other entry share that descriptor.  Then the first pass
of `set_deadline(d)` ends in `LoadContext`.  Afterwards the deadline of the
running task is `d` and every other task descriptor is unchanged; the ready
list is sorted by deadline and holds its old entries together with the timer
entries whose wake tick and the waiting entries whose deadline is at most the
current tick; the waiting and timer lists keep the rest in their old order;
the running entry is the head of the ready list, and if that is still the
caller `deadline()` returns `d`.  With `Running` null, `set_deadline` returns
with the state unchanged and `deadline()` returns `0`. -/
theorem C15_set_deadline :
    (∀ (fuel : Nat) (k : Kernel) (d : Nat) (rs ws ts : List Ptr), Lists k rs ws ts →
      rs.head? = some k.runningListobj → k.Running = (k.mem.objs k.runningListobj).pTask →
      (∀ p ∈ rs ++ ws ++ ts, (k.mem.objs p).pTask = k.Running → p = k.runningListobj) →
      SortedBy (deadlineKey k.mem) rs → SortedBy (deadlineKey k.mem) ws →
      SortedBy (wakeKey k.mem) ts → ts.length < fuel → ws.length < fuel →
      ∃ k' rs', set_deadline fuel k d = some (.switched, k') ∧
        Lists k' rs' (ws.filter (fun x => !deadlineDue k x))
          (ts.filter (fun x => !timerDue k x)) ∧
        rs'.Perm (rs ++ ts.filter (timerDue k) ++ ws.filter (deadlineDue k)) ∧
        SortedBy (deadlineKey k'.mem) rs' ∧
        (k'.mem.tcbs k.Running).DeadLine = d ∧
        (∀ q, q ≠ k.Running → k'.mem.tcbs q = k.mem.tcbs q) ∧
        k'.runningListobj = rs'.headD NULL ∧ k'.runningListobj ∈ rs' ∧
        k'.Running = (k'.mem.objs k'.runningListobj).pTask ∧
        (k'.Running = k.Running → deadline k' = d) ∧
        k'.osTicks = k.osTicks ∧ k'.opMode = k.opMode) ∧
    (∀ (fuel : Nat) (k : Kernel) (d : Nat), k.Running = NULL →
      set_deadline fuel k d = some (.done, k) ∧ deadline k = 0) := by
  constructor
  · intro fuel k d rs ws ts hL hhead hR hinj hsr hsw hst hft hfw
    obtain ⟨hr, hw, htl, hnd, hts⟩ := hL
    obtain ⟨tl, htl1, htl2⟩ := OnList.some_iff.mp htl
    obtain ⟨rl, hrl1, hrl2⟩ := OnList.some_iff.mp hr
    obtain ⟨wl, hwl1, hwl2⟩ := OnList.some_iff.mp hw
    generalize hc : k.runningListobj = c at *
    obtain ⟨rest, hrs⟩ : ∃ rest, rs = c :: rest := by
      cases rs with
      | nil => simp at hhead
      | cons y r => simp at hhead; exact ⟨r, by rw [hhead]⟩
    subst hrs
    have hcne : c ≠ NULL := hrl2.ne_null (List.mem_cons_self _ _)
    have hRne : k.Running ≠ NULL := by rw [hR]; exact hts c (by simp)
    have hnd' := List.nodup_append.mp hnd
    have hnd'' := List.nodup_append.mp hnd'.1
    have hcrest : c ∉ rest := (List.nodup_cons.mp hnd''.1).1
    obtain ⟨m1, rl1, hg, hr1, hdet, hf1, _⟩ := getFirst_core hrl2
    have hp1 : (m1.objs c).pTask = k.Running := by rw [(hf1.2.2.2.2 c).1, hR]
    obtain ⟨v, hv⟩ : ∃ v : TCB, v = ⟨(m1.tcbs k.Running).PC, (m1.tcbs k.Running).SP, d⟩ :=
      ⟨_, rfl⟩
    obtain ⟨m2, hm2⟩ : ∃ m2 : Mem, m2 = { m1 with tcbs := upd m1.tcbs k.Running v } := ⟨_, rfl⟩
    have hset : m1.setTcb (m1.objs c).pTask (fun t => { t with DeadLine := d }) = some m2 := by
      rw [hp1, hm2, hv]; simp [Mem.setTcb, hRne]
    have ho2 : m2.objs = m1.objs := by rw [hm2]
    have fr2 : ∀ {l : OSList_t} {xs : List Ptr}, IsList m1 l xs → IsList m2 l xs :=
      fun h => h.frame (fun q _ => by rw [ho2]; exact ⟨rfl, rfl⟩)
    have hT2 : ∀ p ∈ c :: rest ++ ws ++ ts, HasTask m2 p := by
      intro p hp
      show (m2.objs p).pTask ≠ NULL
      rw [ho2, (hf1.2.2.2.2 p).1]
      exact hts p hp
    have hdet2 : Detached m2 c := by unfold Detached; rw [ho2]; exact hdet
    obtain ⟨m3, rl', a, b, hi, hab, hr3, ha, hb, hf3⟩ :=
      deadlineInsert_core (fr2 hr1) (fun p hp => hT2 p (by simp [hp])) hcne
        (hT2 c (by simp)) hcrest hdet2
    have hw3 : IsList m3 wl ws := by
      refine (fr2 (hwl2.of_linkFrame hf1 ?_)).of_linkFrame hf3 ?_ <;>
      · intro q hq hq2
        exact List.disjoint_left.mp hnd''.2.2 hq2 hq
    have ht3 : IsList m3 tl ts := by
      refine (fr2 (htl2.of_linkFrame hf1 ?_)).of_linkFrame hf3 ?_ <;>
      · intro q hq hq2
        exact List.disjoint_left.mp hnd'.2.2 (List.mem_append_left _ hq2) hq
    have hpT : ∀ p, (m3.objs p).pTask = (k.mem.objs p).pTask := by
      intro p; rw [(hf3.2.2.2.2 p).1, ho2, (hf1.2.2.2.2 p).1]
    have hvd : v.DeadLine = d := by rw [hv]
    have htc3 : m3.tcbs = upd k.mem.tcbs k.Running v := by
      rw [hf3.1, hm2]
      show upd m1.tcbs _ _ = _
      rw [hf1.1]
    have hkc : deadlineKey m3 c = d := by
      unfold deadlineKey
      rw [hpT, ← hR, htc3, upd_same, hvd]
    have hko : ∀ p ∈ c :: rest ++ ws ++ ts, p ≠ c → deadlineKey m3 p = deadlineKey k.mem p := by
      intro p hp hpc
      unfold deadlineKey
      rw [hpT, htc3, upd_other _ _ _ _ (fun e => hpc (hinj p hp e))]
    have hwk : ∀ p, wakeKey m3 p = wakeKey k.mem p := by
      intro p
      show (m3.objs p).nTCnt = (k.mem.objs p).nTCnt
      rw [(hf3.2.2.2.2 p).2.1, ho2, (hf1.2.2.2.2 p).2.1]
    have hk23 : ∀ q, deadlineKey m3 q = deadlineKey m2 q := hf3.deadlineKey_eq
    have hsr3 : SortedBy (deadlineKey m3) (a ++ c :: b) := by
      have hs0 : SortedBy (deadlineKey m3) (a ++ b) := by
        rw [← hab]
        refine (hsr.sublist (List.sublist_cons_self c rest)).congr_mem ?_
        intro q hq
        exact hko q (by simp [hq]) (fun e => hcrest (e ▸ hq))
      have ha' : ∀ t ∈ a.getLast?, deadlineKey m3 t ≤ deadlineKey m3 c := by
        intro t ht; rw [hk23, hk23]; exact ha t ht
      have hb' : ∀ n ∈ b.head?, deadlineKey m3 c < deadlineKey m3 n := by
        intro n hn; rw [hk23, hk23]; exact hb n hn
      obtain ⟨pa, pb⟩ := sorted_place hs0 ha' hb'
      exact sorted_insert hs0 (fun _ _ => rfl) pa pb
    have hL1 : Lists { k with isrOnState := false, mem := m3, readyList := some rl' }
        (a ++ c :: b) ws ts := by
      refine ⟨hr3, ?_, ?_, ?_, ?_⟩
      · show OnList m3 k.waitingList ws
        rw [hwl1]; exact hw3
      · show OnList m3 k.timerList ts
        rw [htl1]; exact ht3
      · have hperm : (a ++ c :: b ++ ws ++ ts).Perm (c :: rest ++ ws ++ ts) := by
          rw [hab]
          have h3 := @List.perm_middle _ c a (b ++ ws ++ ts)
          simpa only [List.append_assoc, List.cons_append] using h3
        exact hperm.nodup_iff.mpr hnd
      · intro p hp
        refine (hf3.hasTask_iff p).mpr (hT2 p ?_)
        rw [hab]
        simp only [List.mem_append, List.mem_cons, List.cons_append] at hp ⊢
        tauto
    obtain ⟨k', rs', h1, h2, h3, h4, h5, h6, h7, h8, h9, h10⟩ :=
      schedulingUpdate_spec fuel _ (a ++ c :: b) ws ts hL1 (by simp) hft hfw
    have htd : timerDue { k with isrOnState := false, mem := m3, readyList := some rl' } =
        timerDue k := by
      funext q; simp [timerDue, hwk]
    have hst1 : SortedBy (wakeKey m3) ts := hst.congr hwk
    have hwsne : ∀ q ∈ ws, deadlineKey m3 q = deadlineKey k.mem q := fun q hq =>
      hko q (by simp [hq]) (fun e => List.disjoint_left.mp hnd''.2.2 (List.mem_cons_self _ _)
        (e ▸ hq))
    have hsw1 : SortedBy (deadlineKey m3) ws := hsw.congr_mem hwsne
    have hdd : ∀ q ∈ ws,
        deadlineDue { k with isrOnState := false, mem := m3, readyList := some rl' } q =
          deadlineDue k q := by
      intro q hq; simp [deadlineDue, hwsne q hq]
    rw [(timerDue_sorted hst1).2, (deadlineDue_sorted hsw1).2, htd,
      List.filter_congr (fun q hq => by rw [hdd q hq])] at h2
    rw [(timerDue_sorted hst1).1, (deadlineDue_sorted hsw1).1, htd,
      List.filter_congr (fun q hq => hdd q hq)] at h3
    have hmem : rs'.headD NULL ∈ rs' := by
      cases rs' with
      | nil => exact absurd rfl h7
      | cons y r => exact List.mem_cons_self _ _
    have htk' : k'.mem.tcbs = m3.tcbs := h6.1
    refine ⟨LoadContext k', rs', ?_, h2, ?_, h5 hsr3, ?_, ?_, h8, ?_, ?_, ?_, h10.1, h10.2.1⟩
    · rw [← hc] at hg hi
      have hobj : m1.obj k.runningListobj = some (m1.objs k.runningListobj) :=
        obj_of_ne _ (by rw [hc]; exact hcne)
      rw [← hc] at hset
      simp only [set_deadline, hRne, if_false, isr_off, hrl1, hg, Option.bind_eq_bind,
        Option.some_bind, hobj, hset, hi, h1]
    · refine h3.trans ?_
      rw [hab]
      simp only [List.append_assoc, List.cons_append]
      exact List.perm_middle
    · show (k'.mem.tcbs k.Running).DeadLine = d
      rw [htk', htc3, upd_same, hvd]
    · intro q hq
      show k'.mem.tcbs q = _
      rw [htk', htc3, upd_other _ _ _ _ hq]
    · show k'.runningListobj ∈ rs'
      rw [h8]; exact hmem
    · show k'.Running = (k'.mem.objs k'.runningListobj).pTask
      rw [h9, h8]
    · intro hrr
      have hrr' : k'.Running = k.Running := hrr
      show deadline (LoadContext k') = d
      simp only [deadline, LoadContext, hrr', hRne, ne_eq, not_false_eq_true, if_true]
      rw [htk', htc3, upd_same, hvd]
  · intro fuel k d h
    simp [set_deadline, deadline, h]

/-- Witness of C15: on `exKernel` the running entry `1` sets its deadline to
`7`; on `boot 100` there is no running task. -/
theorem C15_set_deadline_witness :
    (Lists exKernel [1, 2] [] [3] ∧ [1, 2].head? = some exKernel.runningListobj ∧
      exKernel.Running = (exKernel.mem.objs exKernel.runningListobj).pTask ∧
      (boot 100).Running = NULL) ∧
    (∃ k' rs', set_deadline 10 exKernel 7 = some (.switched, k') ∧
      rs'.Perm ([1, 2] ++ [3].filter (timerDue exKernel) ++ [].filter (deadlineDue exKernel)) ∧
      SortedBy (deadlineKey k'.mem) rs' ∧ (k'.mem.tcbs exKernel.Running).DeadLine = 7) ∧
    (set_deadline 10 (boot 100) 7 = some (.done, boot 100) ∧ deadline (boot 100) = 0) :=
  ⟨by decide,
    match C15_set_deadline.1 10 exKernel 7 [1, 2] [] [3] (by decide) (by decide) (by decide)
      (by decide) (by decide) (by decide) (by decide) (by decide) (by decide) with
    | ⟨k', rs', h1, _, h3, h4, h5, _⟩ => ⟨k', rs', h1, h3, h4, h5⟩,
    C15_set_deadline.2 10 (boot 100) 7 rfl⟩

/-- C16 (result of `create_task`).  With a null body, a deadline of `0` or the
operating mode `UNINITIALIZED`, `create_task` returns `FAIL` and the whole
kernel state is unchanged.  With a non-null body, a non-zero deadline, the three
lists well-formed and disjoint, and an allocation that succeeds and returns an
address not in use as a list entry, `create_task` returns `SUCCESS` in init
mode; in running mode its first pass ends in `LoadContext` (fuel above the
lengths of the timer and waiting lists is enough) and the resumed call returns
`SUCCESS`. -/
theorem C16_create_task_result :
    (∀ (fuel : Nat) (k : Kernel) (body : Ptr) (d : Nat),
      (body = NULL ∨ d = 0 ∨ k.opMode = UNINITIALIZED) →
        create_task fuel k body d = some (.ret FAIL, k)) ∧
    (∀ (fuel : Nat) (k : Kernel) (body : Ptr) (d : Nat) (rs ws ts : List Ptr),
      Lists k rs ws ts → body ≠ NULL → d ≠ 0 → k.opMode = INIT →
      (OSList_createListobj k.mem k.alloc).1 ≠ NULL → (OS_calloc k.alloc).1 ∉ rs ++ ws ++ ts →
        ∃ k', create_task fuel k body d = some (.ret SUCCESS, k')) ∧
    (∀ (fuel : Nat) (k : Kernel) (body : Ptr) (d : Nat) (rs ws ts : List Ptr),
      Lists k rs ws ts → body ≠ NULL → d ≠ 0 → k.opMode = RUNNING →
      (OSList_createListobj k.mem k.alloc).1 ≠ NULL → (OS_calloc k.alloc).1 ∉ rs ++ ws ++ ts →
      ts.length < fuel → ws.length < fuel →
        ∃ k', create_task fuel k body d = some (.switched, k') ∧
          create_task_resumed = SUCCESS) := by
  refine ⟨?_, ?_, ?_⟩
  · intro fuel k body d h
    unfold create_task
    rw [if_pos]
    rcases h with h | h | h
    · exact Or.inl h
    · exact Or.inr (Or.inl h)
    · exact Or.inr (Or.inr (Or.inr (Or.inr (Or.inr h))))
  · intro fuel k body d rs ws ts hL hb hd hm hne hfe
    obtain ⟨hr, hw, htl, hnd, hts⟩ := hL
    obtain ⟨tl, htl1, htl2⟩ := OnList.some_iff.mp htl
    obtain ⟨rl, hrl1, hrl2⟩ := OnList.some_iff.mp hr
    obtain ⟨wl, hwl1, hwl2⟩ := OnList.some_iff.mp hw
    obtain ⟨e, t, m1, a', m2, m3, rl', x, y, ee, et, g1, g2, hi, hxy, hr3, hw3, ht3, hnd3, hts3,
        he, ht, o1, t1, t2, o2, hsrt, hsz⟩ :=
      newTask_insert body d hrl2 hwl2 htl2 hnd hts hne hfe
    refine ⟨{ k with mem := m3, alloc := a', readyList := some rl' }, ?_⟩
    unfold create_task
    rw [if_neg (by simp [hb, hd, hrl1, hwl1, htl1, hm])]
    dsimp only
    rw [g1]
    dsimp only
    rw [if_neg he, g2]
    simp only [Option.bind_eq_bind, Option.some_bind, hm, if_true, hrl1, hi, Bool.not_true,
      Bool.false_eq_true, if_false]
  · intro fuel k body d rs ws ts hL hb hd hm hne hfe hft hfw
    obtain ⟨hr, hw, htl, hnd, hts⟩ := hL
    obtain ⟨tl, htl1, htl2⟩ := OnList.some_iff.mp htl
    obtain ⟨rl, hrl1, hrl2⟩ := OnList.some_iff.mp hr
    obtain ⟨wl, hwl1, hwl2⟩ := OnList.some_iff.mp hw
    obtain ⟨e, t, m1, a', m2, m3, rl', x, y, ee, et, g1, g2, hi, hxy, hr3, hw3, ht3, hnd3, hts3,
        he, ht, o1, t1, t2, o2, hsrt, hsz⟩ :=
      newTask_insert body d hrl2 hwl2 htl2 hnd hts hne hfe
    have hL2 : Lists { k with mem := m3, alloc := a', readyList := some rl', isrOnState := false }
        (x ++ e :: y) ws ts := by
      refine ⟨hr3, ?_, ?_, hnd3, hts3⟩
      · show OnList m3 k.waitingList ws
        rw [hwl1]; exact hw3
      · show OnList m3 k.timerList ts
        rw [htl1]; exact ht3
    obtain ⟨k', rs', h1, _⟩ := schedulingUpdate_spec fuel _ (x ++ e :: y) ws ts hL2 (by simp)
      hft hfw
    refine ⟨LoadContext k', ?_, rfl⟩
    unfold create_task
    rw [if_neg (by simp [hb, hd, hrl1, hwl1, htl1, hm])]
    dsimp only
    rw [g1]
    dsimp only
    rw [if_neg he, g2]
    have hmi : ¬ k.opMode = INIT := by simp [hm]
    simp only [Option.bind_eq_bind, Option.some_bind, hmi, hrl1, isr_off, hi, Bool.not_true,
      Bool.false_eq_true, if_false, h1]

/-- Witness of C16: `boot 100` is uninitialized; `exKernelInit` and `exKernel`
are initialized, in init and in running mode. -/
theorem C16_create_task_result_witness :
    ((boot 100).opMode = UNINITIALIZED ∧ Lists exKernelInit [1, 2] [] [3] ∧
      Lists exKernel [1, 2] [] [3] ∧
      (OSList_createListobj exKernel.mem exKernel.alloc).1 ≠ NULL) ∧
    create_task 10 (boot 100) 7 10 = some (.ret FAIL, boot 100) ∧
    (∃ k', create_task 10 exKernelInit 7 10 = some (.ret SUCCESS, k')) ∧
    (∃ k', create_task 10 exKernel 7 10 = some (.switched, k') ∧
      create_task_resumed = SUCCESS) :=
  ⟨by decide,
    C16_create_task_result.1 10 (boot 100) 7 10 (Or.inr (Or.inr rfl)),
    C16_create_task_result.2.1 10 exKernelInit 7 10 [1, 2] [] [3] (by decide) (by decide)
      (by decide) (by decide) (by decide) (by decide),
    C16_create_task_result.2.2 10 exKernel 7 10 [1, 2] [] [3] (by decide) (by decide)
      (by decide) (by decide) (by decide) (by decide) (by decide) (by decide)⟩

/-- C17 (`create_task` in init mode).  Let the three lists be well-formed and
disjoint, the ready list sorted by deadline, the mode `INIT`, the body
non-null, `d ≠ 0`, and let the allocation succeed with addresses not in use (the
entry is on no list, the task descriptor belongs to no entry).  Then
`create_task(body, d)` returns `SUCCESS`; the ready list becomes `a ++ e :: b`
where `a ++ b` is the old list and `e` the new entry, with deadline `d` and
program counter `body`; every entry of `a` has a deadline at most `d` and every
entry of `b` a deadline above `d`; the list is sorted and its size has grown by
one; the old entries keep their keys; the waiting list, the timer list, the
tick counter, the operating mode, the running task and the interrupt flag are
unchanged. -/
theorem C17_create_task_in_init_mode (fuel : Nat) (k : Kernel) (body : Ptr) (d : Nat)
    (rs ws ts : List Ptr) (hL : Lists k rs ws ts) (hs : SortedBy (deadlineKey k.mem) rs)
    (hb : body ≠ NULL) (hd : d ≠ 0) (hm : k.opMode = INIT)
    (hne : (OSList_createListobj k.mem k.alloc).1 ≠ NULL)
    (hfe : (OS_calloc k.alloc).1 ∉ rs ++ ws ++ ts)
    (hft : ∀ p ∈ rs ++ ws ++ ts,
      (k.mem.objs p).pTask ≠ (OS_calloc (OS_calloc k.alloc).2).1) :
    ∃ k' e a b, create_task fuel k body d = some (.ret SUCCESS, k') ∧
      e ∉ rs ++ ws ++ ts ∧ rs = a ++ b ∧ Lists k' (a ++ e :: b) ws ts ∧
      deadlineKey k'.mem e = d ∧ (k'.mem.tcbs (k'.mem.objs e).pTask).PC = body ∧
      (∀ p ∈ rs ++ ws ++ ts, deadlineKey k'.mem p = deadlineKey k.mem p ∧
        wakeKey k'.mem p = wakeKey k.mem p) ∧
      SortedBy (deadlineKey k'.mem) (a ++ e :: b) ∧
      (∀ p ∈ a, deadlineKey k'.mem p ≤ d) ∧ (∀ p ∈ b, d < deadlineKey k'.mem p) ∧
      (∃ l l', k.readyList = some l ∧ k'.readyList = some l' ∧ l'.size = l.size + 1) ∧
      k'.waitingList = k.waitingList ∧ k'.timerList = k.timerList ∧
      k'.osTicks = k.osTicks ∧ k'.opMode = k.opMode ∧ k'.Running = k.Running ∧
      k'.runningListobj = k.runningListobj ∧ k'.isrOnState = k.isrOnState := by
  obtain ⟨hr, hw, htl, hnd, hts⟩ := hL
  obtain ⟨tl, htl1, htl2⟩ := OnList.some_iff.mp htl
  obtain ⟨rl, hrl1, hrl2⟩ := OnList.some_iff.mp hr
  obtain ⟨wl, hwl1, hwl2⟩ := OnList.some_iff.mp hw
  obtain ⟨e, t, m1, a', m2, m3, rl', x, y, ee, et, g1, g2, hi, hxy, hr3, hw3, ht3, hnd3, hts3,
      he, ht, o1, t1, t2, o2, hsrt, hsz⟩ :=
    newTask_insert body d hrl2 hwl2 htl2 hnd hts hne hfe
  have et' : (OS_calloc (OS_calloc k.alloc).2).1 = t := by rw [et]
  rw [et'] at hft
  rw [← ee] at hfe
  obtain ⟨s1, s2, s3⟩ := hsrt (fun p hp => hft p (by simp [hp])) hs
  have hrun : create_task fuel k body d =
      some (.ret SUCCESS, { k with mem := m3, alloc := a', readyList := some rl' }) := by
    unfold create_task
    rw [if_neg (by simp [hb, hd, hrl1, hwl1, htl1, hm])]
    dsimp only
    rw [g1]
    dsimp only
    rw [if_neg he, g2]
    simp only [Option.bind_eq_bind, Option.some_bind, hm, if_true, hrl1, hi, Bool.not_true,
      Bool.false_eq_true, if_false]
  refine ⟨_, e, x, y, hrun, hfe, hxy, ⟨hr3, ?_, ?_, hnd3, hts3⟩, ?_, ?_, ?_, s1, s2, s3,
    ⟨rl, rl', hrl1, rfl, hsz⟩, rfl, rfl, rfl, rfl, rfl, rfl, rfl⟩
  · show OnList m3 k.waitingList ws
    rw [hwl1]; exact hw3
  · show OnList m3 k.timerList ts
    rw [htl1]; exact ht3
  · show (m3.tcbs (m3.objs e).pTask).DeadLine = d
    rw [o1, t1]
  · show (m3.tcbs (m3.objs e).pTask).PC = body
    rw [o1, t1]
  · intro p hp
    have hpe : p ≠ e := fun c => hfe (c ▸ hp)
    constructor
    · show (m3.tcbs (m3.objs p).pTask).DeadLine = (k.mem.tcbs (k.mem.objs p).pTask).DeadLine
      rw [(o2 p hpe).1, t2 _ (hft p hp)]
    · show (m3.objs p).nTCnt = (k.mem.objs p).nTCnt
      exact (o2 p hpe).2

/-- Witness of C17 on `exKernelInit`: a task with deadline `6` goes between the
entries with deadlines `5` and `9`. -/
theorem C17_create_task_in_init_mode_witness :
    (Lists exKernelInit [1, 2] [] [3] ∧ exKernelInit.opMode = INIT ∧
      (OSList_createListobj exKernelInit.mem exKernelInit.alloc).1 ≠ NULL) ∧
    ∃ k' e a b, create_task 10 exKernelInit 7 6 = some (.ret SUCCESS, k') ∧
      [1, 2] = a ++ b ∧ Lists k' (a ++ e :: b) [] [3] ∧ deadlineKey k'.mem e = 6 ∧
      (∀ p ∈ a, deadlineKey k'.mem p ≤ 6) ∧ (∀ p ∈ b, 6 < deadlineKey k'.mem p) :=
  ⟨by decide,
    match C17_create_task_in_init_mode 10 exKernelInit 7 6 [1, 2] [] [3] (by decide)
      (by decide) (by decide) (by decide) (by decide) (by decide) (by decide) (by decide) with
    | ⟨k', e, a, b, h1, _, h3, h4, h5, _, _, _, h9, h10, _⟩ =>
      ⟨k', e, a, b, h1, h3, h4, h5, h9, h10⟩⟩

/-- C18 (`init_kernel` succeeds).  If the next five calls of `OS_calloc`
succeed, `init_kernel` returns `SUCCESS`; the tick counter is `0`, the mode is
`INIT`, the waiting and timer lists are empty, the ready list holds exactly one
entry, whose deadline is `UINT32_MAX` and whose program counter is `idleTask`,
and that entry is the running entry with `Running` its task descriptor. -/
theorem C18_init_kernel_success (k : Kernel) (h : callocsSucceed 5 k.alloc) :
    ∃ k' e, init_kernel k = some (SUCCESS, k') ∧ k'.osTicks = 0 ∧ k'.opMode = INIT ∧
      Lists k' [e] [] [] ∧ deadlineKey k'.mem e = UINT32_MAX ∧
      (k'.mem.tcbs (k'.mem.objs e).pTask).PC = idleTask ∧
      k'.runningListobj = e ∧ k'.Running = (k'.mem.objs e).pTask := by
  obtain ⟨c1, c2, c3, c4, c5, _⟩ := h
  obtain ⟨p1, a1, h1⟩ : ∃ p a, OS_calloc k.alloc = (p, a) := ⟨_, _, rfl⟩
  rw [h1] at c1 c2 c3 c4 c5
  obtain ⟨p2, a2, h2⟩ : ∃ p a, OS_calloc a1 = (p, a) := ⟨_, _, rfl⟩
  rw [h2] at c2 c3 c4 c5
  obtain ⟨p3, a3, h3⟩ : ∃ p a, OS_calloc a2 = (p, a) := ⟨_, _, rfl⟩
  rw [h3] at c3 c4 c5
  simp only at c1 c2 c3 c4 c5
  have hne : (OSList_createListobj k.mem a3).1 ≠ NULL :=
    (createListobj_ne_null_iff k.mem a3).mpr ⟨c4, c5⟩
  obtain ⟨e, t, m1, a', m2, g1, g2, he, ht, _, _, o1, o2, t1, t2, _⟩ :=
    newTask_spec k.mem a3 idleTask UINT32_MAX hne
  have hins : OSList_deadlineInsert m2 (some { size := 0, pHead := NULL, pTail := NULL }) e =
      some (true, m2, some { size := 1, pHead := e, pTail := e }) := by
    simp [OSList_deadlineInsert, he, addWhenZero]
  have hrun : init_kernel k = some (SUCCESS, { k with osTicks := 0, readyList := some { size := 1, pHead := e, pTail := e }, waitingList := some { size := 0, pHead := NULL, pTail := NULL }, timerList := some { size := 0, pHead := NULL, pTail := NULL }, alloc := a', mem := m2, Running := t, runningListobj := e, opMode := INIT }) := by
    have hC1 : OSList_create k.alloc = (some { size := 0, pHead := NULL, pTail := NULL }, p1, a1) := by
      simp [OSList_create, h1, c1]
    have hC2 : OSList_create a1 = (some { size := 0, pHead := NULL, pTail := NULL }, p2, a2) := by
      simp [OSList_create, h2, c2]
    have hC3 : OSList_create a2 = (some { size := 0, pHead := NULL, pTail := NULL }, p3, a3) := by
      simp [OSList_create, h3, c3]
    unfold init_kernel
    dsimp only
    rw [hC1]
    dsimp only
    rw [hC2]
    dsimp only
    rw [hC3]
    dsimp only
    rw [g1]
    dsimp only
    rw [if_neg he, g2]
    dsimp only [Option.bind_eq_bind, Option.some_bind]
    rw [hins]
    dsimp only [Option.bind_eq_bind, Option.some_bind, Bool.not_true]
    simp only [setRunningTask, obj_of_ne _ he, o1, Option.pure_def, Option.bind_eq_bind,
      Option.some_bind, Option.isNone_some, Bool.false_eq_true, if_false, Bool.not_true]
  refine ⟨_, e, hrun, rfl, rfl, ?_, ?_, ?_, rfl, ?_⟩
  · refine ⟨?_, ?_, ?_, by simp, ?_⟩
    · show IsList m2 _ [e]
      simp [IsList, seg, o1, he, Ne.symm he]
    · show IsList m2 _ []
      simp [IsList, seg]
    · show IsList m2 _ []
      simp [IsList, seg]
    · intro x hx
      simp at hx
      subst hx
      show (m2.objs x).pTask ≠ NULL
      rw [o1]; exact ht
  · show (m2.tcbs (m2.objs e).pTask).DeadLine = _
    rw [o1, t1]
  · show (m2.tcbs (m2.objs e).pTask).PC = _
    rw [o1, t1]
  · show t = (m2.objs e).pTask
    rw [o1]

/-- Witness of C18 on `boot 100`, where every allocation succeeds. -/
theorem C18_init_kernel_success_witness :
    callocsSucceed 5 (boot 100).alloc ∧
    ∃ k' e, init_kernel (boot 100) = some (SUCCESS, k') ∧ k'.osTicks = 0 ∧ k'.opMode = INIT ∧
      Lists k' [e] [] [] ∧ deadlineKey k'.mem e = UINT32_MAX ∧
      (k'.mem.tcbs (k'.mem.objs e).pTask).PC = idleTask ∧
      k'.runningListobj = e ∧ k'.Running = (k'.mem.objs e).pTask :=
  ⟨by decide, C18_init_kernel_success (boot 100) (by decide)⟩

/-- C19 (`init_kernel` fails when an allocation fails).  If one of the five
calls of `OS_calloc` made by `init_kernel` returns null, `init_kernel` returns
`FAIL` and the operating mode is what it was.  With `period = 1` and `cnt = 0`
the first call of `OS_calloc` returns null: `init_kernel` returns `FAIL`, the
ready list pointer is null, the mode is what it was, and the library allocator
has neither handed out nor been given back any memory. -/
theorem C19_init_kernel_alloc_failure :
    (∀ (k : Kernel), ¬ callocsSucceed 5 k.alloc →
      ∃ k', init_kernel k = some (FAIL, k') ∧ k'.opMode = k.opMode) ∧
    (∀ (k : Kernel), k.alloc.period = 1 → k.alloc.cnt = 0 →
      (OS_calloc k.alloc).1 = NULL ∧ ¬ callocsSucceed 5 k.alloc ∧
      ∃ k', init_kernel k = some (FAIL, k') ∧ k'.readyList = none ∧ k'.opMode = k.opMode ∧
        k'.alloc.brk = k.alloc.brk ∧ k'.alloc.freed = k.alloc.freed) := by
  constructor
  · intro k h
    obtain ⟨r1, p1, a1, hC1⟩ : ∃ r p a, OSList_create k.alloc = (r, p, a) := ⟨_, _, _, rfl⟩
    obtain ⟨r2, p2, a2, hC2⟩ : ∃ r p a, OSList_create a1 = (r, p, a) := ⟨_, _, _, rfl⟩
    obtain ⟨r3, p3, a3, hC3⟩ : ∃ r p a, OSList_create a2 = (r, p, a) := ⟨_, _, _, rfl⟩
    obtain ⟨e, m1, a4, hC4⟩ : ∃ e m a, OSList_createListobj k.mem a3 = (e, m, a) :=
      ⟨_, _, _, rfl⟩
    unfold init_kernel
    dsimp only
    rw [hC1]
    dsimp only
    rw [hC2]
    dsimp only
    rw [hC3]
    dsimp only
    rw [hC4]
    dsimp only
    by_cases b1 : r1.isNone = true
    · rw [if_pos b1]; exact ⟨_, rfl, rfl⟩
    rw [if_neg b1]
    by_cases b2 : r2.isNone = true
    · rw [if_pos b2]; exact ⟨_, rfl, rfl⟩
    rw [if_neg b2]
    by_cases b3 : r3.isNone = true
    · rw [if_pos b3]; exact ⟨_, rfl, rfl⟩
    rw [if_neg b3]
    by_cases b4 : e = NULL
    · rw [if_pos b4]; exact ⟨_, rfl, rfl⟩
    exfalso
    apply h
    have q1 := OSList_create_isNone k.alloc
    have q2 := OSList_create_isNone a1
    have q3 := OSList_create_isNone a2
    have q4 := createListobj_ne_null_iff k.mem a3
    rw [hC1] at q1
    rw [hC2] at q2
    rw [hC3] at q3
    rw [hC4] at q4
    simp only at q1 q2 q3 q4
    have e1 : (OS_calloc k.alloc).2 = a1 := q1.2.symm
    have e2 : (OS_calloc a1).2 = a2 := q2.2.symm
    have e3 : (OS_calloc a2).2 = a3 := q3.2.symm
    have b5 := q4.mp b4
    refine ⟨fun c => b1 (q1.1.mpr c), ?_⟩
    rw [e1]
    refine ⟨fun c => b2 (q2.1.mpr c), ?_⟩
    rw [e2]
    refine ⟨fun c => b3 (q3.1.mpr c), ?_⟩
    rw [e3]
    exact ⟨b5.1, b5.2, trivial⟩
  · intro k hp hc
    have h1 : (OS_calloc k.alloc).1 = NULL := by
      simp [OS_calloc, hp, hc, UINT_MOD]
    refine ⟨h1, fun h => h.1 h1, ?_⟩
    obtain ⟨r1, p1, a1, hC1⟩ : ∃ r p a, OSList_create k.alloc = (r, p, a) := ⟨_, _, _, rfl⟩
    have q1 := OSList_create_isNone k.alloc
    rw [hC1] at q1
    simp only at q1
    have hr1 : r1.isNone = true := q1.1.mpr h1
    unfold init_kernel
    dsimp only
    rw [hC1]
    dsimp only
    rw [if_pos hr1]
    refine ⟨_, rfl, Option.isNone_iff_eq_none.mp hr1, rfl, ?_, ?_⟩
    · show a1.brk = _
      rw [q1.2]; simp [OS_calloc, hp, hc, UINT_MOD]
    · show a1.freed = _
      rw [q1.2]; simp [OS_calloc, hp, hc, UINT_MOD]

/-- Witness of C19: `boot 3` has memory for the three list headers only, and
`bootFailing` has `period = 1`. -/
theorem C19_init_kernel_alloc_failure_witness :
    (¬ callocsSucceed 5 (boot 3).alloc ∧ bootFailing.alloc.period = 1 ∧
      bootFailing.alloc.cnt = 0) ∧
    (∃ k', init_kernel (boot 3) = some (FAIL, k') ∧ k'.opMode = (boot 3).opMode) ∧
    ((OS_calloc bootFailing.alloc).1 = NULL ∧ ¬ callocsSucceed 5 bootFailing.alloc ∧
      ∃ k', init_kernel bootFailing = some (FAIL, k') ∧ k'.readyList = none ∧
        k'.opMode = bootFailing.opMode ∧ k'.alloc.brk = bootFailing.alloc.brk ∧
        k'.alloc.freed = bootFailing.alloc.freed) :=
  ⟨by decide, C19_init_kernel_alloc_failure.1 (boot 3) (by decide),
    C19_init_kernel_alloc_failure.2 bootFailing rfl rfl⟩

/-- C20 (`run` with unmet preconditions is a no-op) fails on the code for the
interrupt flag.  After `traceRunning` the kernel is in running mode with the
interrupt flag set; a call of `run` by the running task returns without
starting anything, the mode, the ready list, the running task and the tick
counter are as before, but the interrupt flag is now clear: `run` calls
`isr_off` before it tests its preconditions and returns without `isr_on`. -/
theorem C20_run_unmet_clears_interrupt_flag :
    (exec 10 (boot 100) traceRunning).map (fun k =>
        (k.opMode, k.isrOnState, entries k.mem k.readyList, k.Running, k.osTicks)) =
      some (RUNNING, true, [105, 103], 106, 0) ∧
    ((exec 10 (boot 100) traceRunning).bind fun k =>
        (run k).map fun r => (r.1, r.2.opMode, r.2.isrOnState, entries r.2.mem r.2.readyList,
          r.2.Running, r.2.osTicks)) =
      some (.done, RUNNING, false, [105, 103], 106, 0) := by
  decide

/-- C21 (the operating mode only moves forward) fails on the code.  After
`traceRunning` the kernel is in running mode; the running task calls
`init_kernel`, which has no test of the mode: it builds three new lists and a
new idle entry `110` and sets the mode to `INIT`. -/
theorem C21_init_kernel_resets_mode :
    (exec 10 (boot 100) traceRunning).map (fun k =>
        (k.opMode, k.runningListobj, entries k.mem k.readyList)) =
      some (RUNNING, 105, [105, 103]) ∧
    ((exec 10 (boot 100) traceRunning).bind fun k =>
        (init_kernel k).map fun r =>
          (r.1, r.2.opMode, r.2.runningListobj, entries r.2.mem r.2.readyList)) =
      some (SUCCESS, INIT, 110, [110]) := by
  decide

/-- C22 (`terminate`).  Let the kernel be in running mode with a running task,
the three lists well-formed and disjoint, and the running entry on the ready
list together with at least one other entry.  Then `terminate` ends in
`LoadContext` (fuel of the length of the ready list is enough).  Afterwards the
ready list is the old one without the running entry, in the old order; the new
running entry is its head and `Running` is that entry's task; the old entry
has been passed to `free`; the waiting list, the timer list, the tick counter,
the operating mode and all keys are unchanged. -/
theorem C22_terminate (fuel : Nat) (k : Kernel) (rs ws ts : List Ptr)
    (hL : Lists k rs ws ts) (hm : k.opMode = RUNNING) (hR : k.Running ≠ NULL)
    (hrun : k.runningListobj ∈ rs) (hother : rs.erase k.runningListobj ≠ [])
    (hf : rs.length ≤ fuel) :
    ∃ k', terminate fuel k = some (.switched, k') ∧
      Lists k' (rs.erase k.runningListobj) ws ts ∧
      (rs.erase k.runningListobj).Sublist rs ∧ k.runningListobj ∉ rs.erase k.runningListobj ∧
      rs.Perm (k.runningListobj :: rs.erase k.runningListobj) ∧
      k'.runningListobj = (rs.erase k.runningListobj).headD NULL ∧
      k'.runningListobj ∈ rs.erase k.runningListobj ∧
      k'.Running = (k'.mem.objs k'.runningListobj).pTask ∧
      k'.alloc.freed = k.runningListobj :: k.alloc.freed ∧
      k'.waitingList = k.waitingList ∧ k'.timerList = k.timerList ∧
      k'.osTicks = k.osTicks ∧ k'.opMode = k.opMode ∧
      (∀ p, deadlineKey k'.mem p = deadlineKey k.mem p ∧
        wakeKey k'.mem p = wakeKey k.mem p) := by
  obtain ⟨hr, hw, htl, hnd, hts⟩ := hL
  obtain ⟨tl, htl1, htl2⟩ := OnList.some_iff.mp htl
  obtain ⟨rl, hrl1, hrl2⟩ := OnList.some_iff.mp hr
  obtain ⟨wl, hwl1, hwl2⟩ := OnList.some_iff.mp hw
  generalize hc : k.runningListobj = c at *
  have hnd' := List.nodup_append.mp hnd
  have hnd'' := List.nodup_append.mp hnd'.1
  obtain ⟨m1, rl1, hrem, hrl3, hdet, _, hf1⟩ := remove_core fuel c hrl2 hf
  obtain ⟨y, rest, hy⟩ : ∃ y rest, rs.erase c = y :: rest := by
    cases h : rs.erase c with
    | nil => exact absurd h hother
    | cons y rest => exact ⟨y, rest, rfl⟩
  have hyne : y ≠ NULL := hrl3.ne_null (by rw [hy]; exact List.mem_cons_self _ _)
  have hpk : rl1.pHead = y := by rw [hrl3.2.1, hy]; rfl
  have hcer : c ∉ rs.erase c := fun h => ((List.Nodup.mem_erase_iff hnd''.1).mp h).1 rfl
  refine ⟨{ k with isrOnState := true, mem := m1, readyList := some rl1, alloc := free k.alloc c, Running := (m1.objs y).pTask, runningListobj := y }, ?_, ⟨hrl3, ?_, ?_, ?_, ?_⟩,
    List.erase_sublist c rs, hcer, List.perm_cons_erase hrun, ?_, ?_, rfl, rfl, rfl, rfl, rfl,
    rfl, ?_⟩
  · simp [terminate, isr_off, hm, hR, hc, hrl1, hrem, setRunningTask, OSList_peek, hpk,
      obj_of_ne _ hyne, LoadContext]
  · show OnList m1 k.waitingList ws
    rw [hwl1]
    exact hwl2.of_linkFrame hf1 (fun x hx hx2 => List.disjoint_left.mp hnd''.2.2 hx2 hx)
  · show OnList m1 k.timerList ts
    rw [htl1]
    exact htl2.of_linkFrame hf1 (fun x hx hx2 =>
      List.disjoint_left.mp hnd'.2.2 (List.mem_append_left _ hx2) hx)
  · refine List.Nodup.sublist ?_ hnd
    exact List.Sublist.append (List.Sublist.append (List.erase_sublist c rs)
      (List.Sublist.refl _)) (List.Sublist.refl _)
  · intro x hx
    refine (hf1.hasTask_iff x).mpr (hts x ?_)
    simp only [List.mem_append] at hx ⊢
    rcases hx with (e | e) | e
    · exact Or.inl (Or.inl (List.mem_of_mem_erase e))
    · exact Or.inl (Or.inr e)
    · exact Or.inr e
  · show y = (rs.erase c).headD NULL
    rw [hy]; rfl
  · show y ∈ rs.erase c
    rw [hy]; exact List.mem_cons_self _ _
  · intro p
    exact ⟨hf1.deadlineKey_eq p, hf1.wakeKey_eq p⟩

/-- Witness of C22 on `exKernel`: the running entry `1` terminates and entry
`2` runs. -/
theorem C22_terminate_witness :
    (Lists exKernel [1, 2] [] [3] ∧ exKernel.opMode = RUNNING ∧ exKernel.Running ≠ NULL ∧
      exKernel.runningListobj ∈ [1, 2]) ∧
    ∃ k', terminate 10 exKernel = some (.switched, k') ∧
      Lists k' ([1, 2].erase exKernel.runningListobj) [] [3] ∧
      k'.runningListobj = ([1, 2].erase exKernel.runningListobj).headD NULL ∧
      k'.opMode = exKernel.opMode :=
  ⟨by decide,
    match C22_terminate 10 exKernel [1, 2] [] [3] (by decide) (by decide) (by decide)
      (by decide) (by decide) (by decide) with
    | ⟨k', h1, h2, _, _, _, h5, _, _, _, _, _, _, h12, _⟩ => ⟨k', h1, h2, h5, h12⟩⟩

/-- C23, as stated, fails: the tick counter is a 32-bit unsigned number.  In
`traceTickWraps` the handler runs with the interrupt flag set at tick
`2^32 - 1`; afterwards the counter is `0`, which is not greater than before. -/
theorem C23_tick_counter_wraps :
    (exec 10 (boot 100) (traceTickWraps.take 4)).map (fun k => (k.isrOnState, k.osTicks)) =
      some (true, 4294967295) ∧
    (exec 10 (boot 100) traceTickWraps).map (fun k => k.osTicks) = some 0 := by
  decide

/-- C23, amended (the tick handler).  With the interrupt flag false the handler
changes nothing.  With the flag true it is `schedulingUpdate` run on the state
whose tick counter is `(osTicks + 1) mod 2^32`; when the three lists are
well-formed and disjoint and the ready list is not empty it returns, the
counter afterwards is `(osTicks + 1) mod 2^32`, which is `osTicks + 1` and
greater than before whenever `osTicks + 1 < 2^32`, the mode is unchanged, and
the running entry is the head of the ready list left by the reassessment. -/
theorem C23_tick :
    (∀ (fuel : Nat) (k : Kernel), k.isrOnState = false → tick fuel k = some k) ∧
    (∀ (fuel : Nat) (k : Kernel), k.isrOnState = true →
      tick fuel k = schedulingUpdate fuel { k with osTicks := (k.osTicks + 1) % UINT_MOD }) ∧
    (∀ (fuel : Nat) (k : Kernel) (rs ws ts : List Ptr), k.isrOnState = true →
      Lists k rs ws ts → rs ≠ [] → ts.length < fuel → ws.length < fuel →
      ∃ k' rs', tick fuel k = some k' ∧ k'.osTicks = (k.osTicks + 1) % UINT_MOD ∧
        (k.osTicks + 1 < UINT_MOD → k'.osTicks = k.osTicks + 1 ∧ k.osTicks < k'.osTicks) ∧
        k'.opMode = k.opMode ∧ k'.isrOnState = true ∧ rs.Sublist rs' ∧
        (∃ ws' ts', Lists k' rs' ws' ts' ∧ ws'.Sublist ws ∧ ts'.Sublist ts) ∧
        k'.runningListobj = rs'.headD NULL ∧
        k'.Running = (k'.mem.objs k'.runningListobj).pTask) := by
  refine ⟨?_, ?_, ?_⟩
  · intro fuel k h
    simp [tick, h]
  · intro fuel k h
    simp [tick, h]
  · intro fuel k rs ws ts h hL hne hft hfw
    have hL0 : Lists { k with osTicks := (k.osTicks + 1) % UINT_MOD } rs ws ts := hL
    obtain ⟨k', rs', h1, h2, h3, h4, h5, h6, h7, h8, h9, h10⟩ :=
      schedulingUpdate_spec fuel _ rs ws ts hL0 (by simp [hne]) hft hfw
    have ht : k'.osTicks = (k.osTicks + 1) % UINT_MOD := h10.1
    refine ⟨k', rs', ?_, ht, ?_, h10.2.1, ?_, h4, ⟨_, _, h2, List.dropWhile_sublist _,
      List.dropWhile_sublist _⟩, h8, ?_⟩
    · unfold tick
      rw [if_pos h]
      exact h1
    · intro hlt
      rw [ht, Nat.mod_eq_of_lt hlt]
      exact ⟨rfl, Nat.lt_succ_self _⟩
    · rw [h10.2.2.1]; exact h
    · rw [h9, h8]

/-- Witness of C23 on `exKernel`, whose interrupt flag is set, and on
`boot 100`, whose flag is clear. -/
theorem C23_tick_witness :
    ((boot 100).isrOnState = false ∧ exKernel.isrOnState = true ∧
      Lists exKernel [1, 2] [] [3]) ∧
    tick 10 (boot 100) = some (boot 100) ∧
    tick 10 exKernel =
      schedulingUpdate 10 { exKernel with osTicks := (exKernel.osTicks + 1) % UINT_MOD } ∧
    ∃ k', tick 10 exKernel = some k' ∧ k'.osTicks = (exKernel.osTicks + 1) % UINT_MOD ∧
      k'.opMode = exKernel.opMode :=
  ⟨by decide, C23_tick.1 10 (boot 100) rfl, C23_tick.2.1 10 exKernel rfl,
    match C23_tick.2.2 10 exKernel [1, 2] [] [3] rfl (by decide) (by decide) (by decide)
      (by decide) with
    | ⟨k', _, h1, h2, _, h4, _⟩ => ⟨k', h1, h2, h4⟩⟩

/-- C24 (two tasks and a wait).  After `init_kernel`, `create_task(A, 100)`,
`create_task(B, 50)` and `run` at tick `0` the running entry is `B` (`107`).
After `B` calls `wait(10)` the running entry is `A` (`105`) and `B` is the only
entry of the timer list, with wake tick `10`.  After each of the ticks `1` to
`9` the running entry is still `A` and `B` is still on the timer list.  After
the tick that brings the counter to `10` the ready list is `B, A, idle`, the
timer list is empty and the running entry is `B`, whose resumed `wait` returns
`SUCCESS`. -/
theorem C24_wait_then_preempt :
    (exec 20 (boot 100) (traceTwoTasks.take 4)).map (fun k =>
        (k.osTicks, k.runningListobj, entries k.mem k.readyList,
          deadlineKey k.mem 105, deadlineKey k.mem 107)) =
      some (0, 107, [107, 105, 103], 100, 50) ∧
    (exec 20 (boot 100) traceTwoTasks).map (fun k =>
        (k.runningListobj, entries k.mem k.readyList, entries k.mem k.timerList,
          wakeKey k.mem 107)) = some (105, [105, 103], [107], 10) ∧
    (∀ i ∈ List.range 10,
      (exec 20 (boot 100) (traceTwoTasks ++ List.replicate i .tick)).map (fun k =>
        (k.osTicks, k.runningListobj, entries k.mem k.timerList)) = some (i, 105, [107])) ∧
    (exec 20 (boot 100) (traceTwoTasks ++ List.replicate 10 .tick)).map (fun k =>
        (k.osTicks, k.runningListobj, k.Running, entries k.mem k.readyList,
          entries k.mem k.timerList)) = some (10, 107, 108, [107, 105, 103], []) ∧
    ((exec 20 (boot 100) (traceTwoTasks ++ List.replicate 10 .tick)).bind wait_resumed) =
      some SUCCESS :=
  ⟨by decide, by decide, by decide, by decide, by decide⟩

/-- C25 (`send_wait` with a blocked receiver) fails on the code.  Before the
last call of `traceDoubleInsert` the mailbox `105` has a blocked receiver
(`nBlockedMsg = -1`, `nMessages = 0`, record `112` of entry `108` queued), but
entry `108` is on the ready list already, moved there when its deadline was
reached.  `send_wait` unlinks the record, sets its status and raises the
counter to `0`, and then inserts entry `108` into the ready list a second time:
the receiver is not on the ready list once, the list of size `4` walks
`110, 108, 108, 108`. -/
theorem C25_receiver_linked_twice :
    (exec 10 (boot 100) (traceDoubleInsert.take 7)).map (fun k =>
        ((k.mem.mboxes 105).nBlockedMsg, (k.mem.mboxes 105).nMessages, queued k.mem 105 5,
          (k.mem.msgs 112).pBlock)) = some (-1, 0, [112], 108) ∧
    (exec 10 (boot 100) (traceDoubleInsert.take 7)).map (fun k =>
        (entries k.mem k.readyList, entries k.mem k.waitingList)) =
      some ([110, 108, 103], []) ∧
    (exec 10 (boot 100) traceDoubleInsert).map (fun k =>
        ((k.mem.mboxes 105).nBlockedMsg, queued k.mem 105 5, (k.mem.msgs 112).Status)) =
      some (0, [], SUCCESS) ∧
    (exec 10 (boot 100) traceDoubleInsert).map (fun k =>
        (k.readyList.map (fun l => l.size), entries k.mem k.readyList,
          entries k.mem k.waitingList)) = some (some 4, [110, 108, 108, 108], []) :=
  ⟨by decide, by decide, by decide, by decide⟩

/-- C26 (rendezvous round trip) fails on the code when the sender's deadline
is reached before the receiver calls.  In `exTied` task `A` (entry `108`,
deadline `1`) runs; its `send_wait` on the empty mailbox `105` blocks it: `A`
moves to the waiting list, the record `112` is queued and `nBlockedMsg` is `1`.
The tick that follows reaches `A`'s deadline, and reassessment moves `A` to the
ready list, behind the running task `B` (entry `110`); the record stays
queued.  `B` then calls `receive_wait`: the five bytes are copied, the record
is unlinked and `nBlockedMsg` is `0`, but `A` is not moved from the waiting
list to the ready list: it is inserted into the ready list a second time, and
the list of size `4` walks `110, 108, 108, 108`, entry `108` pointing at
itself. -/
theorem C26_sender_linked_twice :
    (exec 20 exTied (traceLateReceive.take 1)).map (fun k =>
        (entries k.mem k.readyList, entries k.mem k.waitingList, queued k.mem 105 5,
          (k.mem.mboxes 105).nBlockedMsg)) = some ([110, 103], [108], [112], 1) ∧
    (exec 20 exTied (traceLateReceive.take 2)).map (fun k =>
        (k.osTicks, deadlineKey k.mem 108, k.runningListobj, (k.mem.msgs 112).pBlock)) =
      some (1, 1, 110, 108) ∧
    (exec 20 exTied (traceLateReceive.take 2)).map (fun k =>
        (entries k.mem k.readyList, entries k.mem k.waitingList, queued k.mem 105 5,
          (k.mem.mboxes 105).nBlockedMsg)) = some ([110, 108, 103], [], [112], 1) ∧
    (exec 20 exTied traceLateReceive).map (fun k =>
        ((List.range 5).map (fun i => k.mem.bytes (200 + i)), queued k.mem 105 5,
          (k.mem.mboxes 105).nBlockedMsg)) = some ([104, 101, 108, 108, 111], [], 0) ∧
    (exec 20 exTied traceLateReceive).map (fun k =>
        (k.readyList.map (fun l => (l.size, l.pHead, l.pTail)), entries k.mem k.readyList,
          entries k.mem k.waitingList, (k.mem.objs 108).pNext)) =
      some (some (4, 110, 103), [110, 108, 108, 108], [], 108) ∧
    (exec 20 exTied traceLateReceive).map (fun k =>
        k.readyList.map (fun l => decide (WellFormed k.mem l))) = some (some false) :=
  ⟨by decide, by decide, by decide, by decide, by decide, by decide⟩

/-- C27, as stated, fails: the resumed `send_wait` returns `DEADLINE_REACHED`
although the message was delivered.  In `traceHandedOver` the message is handed
to the blocked receiver directly (the queue goes from record `112` to empty),
and the sender, resumed at tick `5` with deadline `3`, gets `DEADLINE_REACHED`.
In `traceTakenLate` the sender's record `112` is taken by a receiver at tick
`1` (whose resumed `receive_wait` returns `SUCCESS`), and the sender, resumed
at tick `5` with deadline `5`, gets `DEADLINE_REACHED`. -/
theorem C27_deadline_reached_after_delivery :
    (exec 10 (boot 100) (traceHandedOver.take 12)).map (fun k =>
        (k.runningListobj, (k.mem.mboxes 105).nBlockedMsg, queued k.mem 105 5)) =
      some (108, -1, [112]) ∧
    ((exec 10 (boot 100) traceHandedOver).bind fun k =>
        (send_wait_resumed 10 k 105).map fun r =>
          (k.runningListobj, queued k.mem 105 5, ticks k, deadline k, r.1)) =
      some (108, [], 5, 3, DEADLINE_REACHED) ∧
    (exec 10 (boot 100) (traceTakenLate.take 7)).map (fun k =>
        ((k.mem.mboxes 105).nBlockedMsg, queued k.mem 105 5, (k.mem.msgs 112).pBlock)) =
      some (1, [112], 108) ∧
    ((exec 10 (boot 100) (traceTakenLate.take 9)).bind fun k =>
        (receive_wait_resumed 10 k 105).map fun r =>
          (k.runningListobj, queued k.mem 105 5, ticks k, r.1)) =
      some (110, [], 1, SUCCESS) ∧
    ((exec 10 (boot 100) traceTakenLate).bind fun k =>
        (send_wait_resumed 10 k 105).map fun r =>
          (k.runningListobj, queued k.mem 105 5, ticks k, deadline k, r.1)) =
      some (108, [], 5, 5, DEADLINE_REACHED) :=
  ⟨by decide, by decide, by decide, by decide, by decide⟩

/-- C27, amended (result of the resumed `send_wait`).  Let the queue of the
mailbox be well-formed and the running entry not `NULL`.  Then the resumed
`send_wait` returns (fuel above the queue length is enough), and its result is
`DEADLINE_REACHED` exactly when the tick counter has reached the caller's
deadline at that moment, and `SUCCESS` exactly when it has not; whether the
caller's record is still queued has no influence on the result.  Before the
deadline nothing changes; at or after it, a record of the caller that is still
queued is unlinked and `nBlockedMsg` is decremented, and with no such record
only the interrupt flag is set. -/
theorem C27_resumed_result (fuel : Nat) (k : Kernel) (mb : Ptr) (qs : List Ptr)
    (hq : IsQueue k.mem mb qs) (hc : k.runningListobj ≠ NULL) (hf : qs.length < fuel) :
    ∃ r k', send_wait_resumed fuel k mb = some (r, k') ∧
      (r = DEADLINE_REACHED ↔ deadline k ≤ ticks k) ∧
      (r = SUCCESS ↔ ticks k < deadline k) ∧
      (ticks k < deadline k → k' = k) ∧
      (deadline k ≤ ticks k → (k.mem.objs k.runningListobj).pMessage ∉ qs → k' = isr_on k) ∧
      (deadline k ≤ ticks k → (k.mem.objs k.runningListobj).pMessage ∈ qs →
        IsQueue k'.mem mb (qs.erase (k.mem.objs k.runningListobj).pMessage) ∧
        (k'.mem.mboxes mb).nBlockedMsg = (k.mem.mboxes mb).nBlockedMsg - 1) := by
  unfold send_wait_resumed
  by_cases h : deadline k ≤ ticks k
  · by_cases hpm : (k.mem.objs k.runningListobj).pMessage ∈ qs
    · obtain ⟨k', h1, q1, b1, _⟩ := blocked_resumed_mem fuel k mb (-1) hq hc hpm hf h
      refine ⟨_, k', h1, ?_, ?_, fun c => absurd h (by omega), fun _ c => absurd hpm c,
        fun _ _ => ⟨q1, b1⟩⟩
      · simp [h]
      · simp only [DEADLINE_REACHED, SUCCESS]
        constructor
        · intro c; exact absurd c (by decide)
        · intro c; omega
    · refine ⟨_, _, blocked_resumed_absent fuel k mb (-1) hq hc hpm hf h, ?_, ?_,
        fun c => absurd h (by omega), fun _ _ => rfl, fun _ c => absurd c hpm⟩
      · simp [h]
      · simp only [DEADLINE_REACHED, SUCCESS]
        constructor
        · intro c; exact absurd c (by decide)
        · intro c; omega
  · refine ⟨_, _, blocked_resumed_early fuel k mb (-1) (by omega), ?_, ?_, fun _ => rfl,
      fun c => absurd c h, fun c => absurd c h⟩
    · simp only [DEADLINE_REACHED, SUCCESS]
      constructor
      · intro c; exact absurd c (by decide)
      · intro c; exact absurd c h
    · simp only [true_iff]
      omega

/-- Witness of the amended C27 on the state after `traceTakenLate`: the queue
is empty, entry `108` runs. -/
theorem C27_resumed_result_witness :
    (IsQueue ((exec 10 (boot 100) traceTakenLate).getD (boot 0)).mem 105 [] ∧
      ((exec 10 (boot 100) traceTakenLate).getD (boot 0)).runningListobj = 108) ∧
    ∃ r k', send_wait_resumed 10 ((exec 10 (boot 100) traceTakenLate).getD (boot 0)) 105 =
        some (r, k') ∧
      (r = DEADLINE_REACHED ↔ deadline ((exec 10 (boot 100) traceTakenLate).getD (boot 0)) ≤
        ticks ((exec 10 (boot 100) traceTakenLate).getD (boot 0))) :=
  ⟨by decide,
    match C27_resumed_result 10 ((exec 10 (boot 100) traceTakenLate).getD (boot 0)) 105 []
      (by decide) (by decide) (by decide) with
    | ⟨r, k', h1, h2, _⟩ => ⟨r, k', h1, h2⟩⟩

/-- C28 (timeout withdrawal restores the mailbox).  Let the three lists be
well-formed, the waiting list sorted by deadline, the running entry `A` on the
ready list together with another entry, `A`'s deadline not yet reached, the
queue of mailbox `mb` well-formed with the records `qs` and `nMessages = 0`,
and let the allocation of the record succeed with a new address `e`.

Blocking: `send_wait` (with `nBlockedMsg` not negative) and `receive_wait`
(with `nBlockedMsg` not positive) end in `LoadContext` in a state where `A` is
on the waiting list, which is still sorted, and not on the ready list, the queue
is `qs` followed by `e`, and `A` refers to `e`.

Withdrawal: in every later state in which the records and the mailbox are as
the call left them, `A` runs and the tick counter has reached `A`'s deadline,
the resumed call returns `DEADLINE_REACHED`; the queue is `qs` again,
`nBlockedMsg` and `nMessages` have the values from before the call, `e` has
been passed to `free`, and `A` refers to no record.

Expiry: the tick that brings the counter to `A`'s deadline moves `A` from a
sorted waiting list to the ready list and leaves records and mailboxes alone. -/
theorem C28_timeout_withdrawal (fuel : Nat) (k : Kernel) (mb pData : Ptr)
    (rs ws ts qs : List Ptr) (hL : Lists k rs ws ts) (hrun : k.runningListobj ∈ rs)
    (hother : rs.erase k.runningListobj ≠ []) (hq : IsQueue k.mem mb qs) (hp : pData ≠ NULL)
    (hnm : (k.mem.mboxes mb).nMessages = 0)
    (ha : (calloc k.alloc).1 ≠ NULL) (hfresh : (calloc k.alloc).1 ∉ chain k.mem mb qs)
    (hdl : k.osTicks < deadlineKey k.mem k.runningListobj)
    (hsrt : SortedBy (deadlineKey k.mem) ws)
    (hf : rs.length + ws.length + ts.length < fuel) (hfq : qs.length + 1 < fuel) :
    (0 ≤ (k.mem.mboxes mb).nBlockedMsg →
      ∃ k1 rs1 ws1 ts1, send_wait fuel k mb pData = some (Outcome.switched, k1) ∧
        Lists k1 rs1 ws1 ts1 ∧ k.runningListobj ∉ rs1 ∧ k.runningListobj ∈ ws1 ∧
        SortedBy (deadlineKey k1.mem) ws1 ∧
        deadlineKey k1.mem k.runningListobj = deadlineKey k.mem k.runningListobj ∧
        IsQueue k1.mem mb (qs ++ [(calloc k.alloc).1]) ∧
        (k1.mem.mboxes mb).nBlockedMsg = (k.mem.mboxes mb).nBlockedMsg + 1 ∧
        (k1.mem.objs k.runningListobj).pMessage = (calloc k.alloc).1 ∧
        ∀ k4, k4.mem.msgs = k1.mem.msgs → k4.mem.mboxes = k1.mem.mboxes →
          (k4.mem.objs k.runningListobj).pMessage = (k1.mem.objs k.runningListobj).pMessage →
          k4.runningListobj = k.runningListobj → deadline k4 ≤ ticks k4 →
          ∃ k5, send_wait_resumed fuel k4 mb = some (DEADLINE_REACHED, k5) ∧
            IsQueue k5.mem mb qs ∧
            (k5.mem.mboxes mb).nBlockedMsg = (k.mem.mboxes mb).nBlockedMsg ∧
            (k5.mem.mboxes mb).nMessages = (k.mem.mboxes mb).nMessages ∧
            (∀ y, y ≠ (calloc k.alloc).1 → (k5.mem.msgs y).pData = (k.mem.msgs y).pData) ∧
            (k5.mem.objs k.runningListobj).pMessage = NULL ∧
            k5.alloc.freed = (calloc k.alloc).1 :: k4.alloc.freed) ∧
    ((k.mem.mboxes mb).nBlockedMsg ≤ 0 →
      ∃ k1 rs1 ws1 ts1, receive_wait fuel k mb pData = some (Outcome.switched, k1) ∧
        Lists k1 rs1 ws1 ts1 ∧ k.runningListobj ∉ rs1 ∧ k.runningListobj ∈ ws1 ∧
        SortedBy (deadlineKey k1.mem) ws1 ∧
        deadlineKey k1.mem k.runningListobj = deadlineKey k.mem k.runningListobj ∧
        IsQueue k1.mem mb (qs ++ [(calloc k.alloc).1]) ∧
        (k1.mem.mboxes mb).nBlockedMsg = (k.mem.mboxes mb).nBlockedMsg + -1 ∧
        (k1.mem.objs k.runningListobj).pMessage = (calloc k.alloc).1 ∧
        ∀ k4, k4.mem.msgs = k1.mem.msgs → k4.mem.mboxes = k1.mem.mboxes →
          (k4.mem.objs k.runningListobj).pMessage = (k1.mem.objs k.runningListobj).pMessage →
          k4.runningListobj = k.runningListobj → deadline k4 ≤ ticks k4 →
          ∃ k5, receive_wait_resumed fuel k4 mb = some (DEADLINE_REACHED, k5) ∧
            IsQueue k5.mem mb qs ∧
            (k5.mem.mboxes mb).nBlockedMsg = (k.mem.mboxes mb).nBlockedMsg ∧
            (k5.mem.mboxes mb).nMessages = (k.mem.mboxes mb).nMessages ∧
            (∀ y, y ≠ (calloc k.alloc).1 → (k5.mem.msgs y).pData = (k.mem.msgs y).pData) ∧
            (k5.mem.objs k.runningListobj).pMessage = NULL ∧
            k5.alloc.freed = (calloc k.alloc).1 :: k4.alloc.freed) ∧
    (∀ k2 rs2 ws2 ts2, Lists k2 rs2 ws2 ts2 → k.runningListobj ∈ ws2 →
      SortedBy (deadlineKey k2.mem) ws2 → k2.isrOnState = true →
      deadlineKey k2.mem k.runningListobj ≤ (k2.osTicks + 1) % UINT_MOD →
      ws2.length + ts2.length < fuel →
      ∃ k3 rs3 ws3 ts3, tick fuel k2 = some k3 ∧ Lists k3 rs3 ws3 ts3 ∧
        k.runningListobj ∈ rs3 ∧ k.runningListobj ∉ ws3 ∧
        k3.mem.msgs = k2.mem.msgs ∧ k3.mem.mboxes = k2.mem.mboxes ∧
        (k3.mem.objs k.runningListobj).pMessage = (k2.mem.objs k.runningListobj).pMessage) := by
  refine ⟨?_, ?_, ?_⟩
  · intro hnb
    rw [send_wait_block_eq fuel k mb pData hq.1 hp hnm hnb]
    have := timeout_spec fuel k mb pData 1 rs ws ts qs hL hrun hother hq ha hfresh hdl hsrt
      hf hfq
    simpa only [send_wait_resumed] using this
  · intro hnb
    rw [receive_wait_block_eq fuel k mb pData hq.1 hp (by omega) hnb]
    have := timeout_spec fuel k mb pData (-1) rs ws ts qs hL hrun hother hq ha hfresh hdl hsrt
      hf hfq
    simpa only [receive_wait_resumed, neg_neg] using this
  · intro k2 rs2 ws2 ts2 L2 hc hs hi hd hf2
    obtain ⟨k3, rs3, ws3, ts3, h1, L3, c1, c2, _, _, c5, c6, c7⟩ :=
      tick_wakes fuel k2 rs2 ws2 ts2 k.runningListobj L2 hc hs hi hd hf2
    exact ⟨k3, rs3, ws3, ts3, h1, L3, c1, c2, c5, c6, c7 _⟩

/-- Witness of C28 on `exRendezvous` (entry `110` runs, the mailbox at `105`
is empty), together with the run of `traceTimeout`: the sender blocks with
record `112`, is back on the ready list and running at tick `3`, and its
resumed call returns `DEADLINE_REACHED` with the queue empty, `nBlockedMsg = 0`
and the record freed. -/
theorem C28_timeout_withdrawal_witness :
    (Lists exRendezvous [110, 108, 103] [] [] ∧ IsQueue exRendezvous.mem 105 [] ∧
      (exRendezvous.mem.mboxes 105).nBlockedMsg = 0) ∧
    (∃ k1, send_wait 20 exRendezvous 105 300 = some (Outcome.switched, k1) ∧
      IsQueue k1.mem 105 [(calloc exRendezvous.alloc).1] ∧
      (k1.mem.mboxes 105).nBlockedMsg = 1) ∧
    (exec 10 (boot 100) (traceTimeout.take 6)).map (fun k =>
        (k.runningListobj, entries k.mem k.readyList, entries k.mem k.waitingList,
          queued k.mem 105 5, (k.mem.mboxes 105).nBlockedMsg)) =
      some (108, [108, 103], [110], [112], 1) ∧
    (exec 10 (boot 100) traceTimeout).map (fun k =>
        (k.runningListobj, entries k.mem k.readyList, entries k.mem k.waitingList,
          queued k.mem 105 5, k.osTicks)) = some (110, [110, 108, 103], [], [112], 3) ∧
    ((exec 10 (boot 100) traceTimeout).bind fun k =>
        (send_wait_resumed 10 k 105).map fun r =>
          (r.1, queued r.2.mem 105 5, (r.2.mem.mboxes 105).nBlockedMsg, r.2.alloc.freed)) =
      some (DEADLINE_REACHED, [], 0, [112]) :=
  ⟨by decide,
    match (C28_timeout_withdrawal 20 exRendezvous 105 300 [110, 108, 103] [] [] [] (by decide)
      (by decide) (by decide) (by decide) (by decide) (by decide) (by decide) (by decide)
      (by decide) (by decide) (by decide) (by decide)).1 (by decide) with
    | ⟨k1, _, _, _, h1, _, _, _, _, _, h2, h3, _⟩ => ⟨k1, h1, h2, by rw [h3]; decide⟩,
    by decide, by decide, by decide⟩

/-- C29 (mailbox bookkeeping).  `Bookkept m mb qs` says that the queue of `mb`
is well-formed with the records `qs` between the sentinels, `nMessages = 0` and
`|nBlockedMsg|` is the number of records.  Let the mailbox `mb` be bookkept
with the records `qs` in the state `k`; nothing is assumed about the task
lists.

Value: for every bookkept mailbox with fewer than `2^31` records,
`no_messages` is the number of records the walk from the head sentinel to the
tail sentinel meets, and the walk meets exactly `qs`.

`create_mailbox` returns a bookkept mailbox with no records.

Steps: whenever `send_wait` or `receive_wait` hands control back, in whatever
state of the task lists it was called, `mb` is bookkept in the state it
leaves, provided the record `calloc` hands out is not already on the queue.
A call rejected for a null data pointer leaves the queue as it was; a call
that finds no partner appends its new record (`qs ++ [e]`); a call that finds
a partner takes the oldest record and leaves the rest (`qs = x :: qs'`),
whether or not the partner is still on the waiting list.  Every such step
keeps any other bookkept mailbox whose chain shares no record with the chain
of `mb` and the new record.

Returning: both calls do hand control back, ending in `LoadContext`, when the
three lists are well-formed, the caller is a running entry on the ready list
that is not its only entry, the data size is not negative, the allocation
succeeds, and the oldest record has a payload pointer and a partner that is
either on the waiting list, or is an entry elsewhere (it timed out and was
moved to the ready list, say) while no timer or waiting entry is due.

The resumed calls return with `mb` bookkept: the caller's record is withdrawn
if it is queued (the queue then holds records of callers of the same kind, so
the counter has the sign of that kind), else the queue stays. -/
theorem C29_mailbox_bookkeeping (fuel : Nat) (k : Kernel) (mb : Ptr) (qs : List Ptr)
    (hB : Bookkept k.mem mb qs) :
    (∀ m b q, Bookkept m b q → q.length < 2 ^ 31 →
      queued m b q.length = q ∧ no_messages m b = ((queued m b q.length).length : Int)) ∧
    (∀ nMessages nDataSize, nMessages ≠ 0 → nDataSize ≠ 0 → 3 ≤ k.alloc.avail →
      k.alloc.brk ≠ NULL →
      ∃ k', create_mailbox k nMessages nDataSize = some (k.alloc.brk, k') ∧
        Bookkept k'.mem k.alloc.brk [] ∧
        (mb ≠ k.alloc.brk → (∀ y ∈ chain k.mem mb qs, y ≠ k.alloc.brk + 1 ∧
          y ≠ k.alloc.brk + 2) → Bookkept k'.mem mb qs)) ∧
    (∀ pData r, (calloc k.alloc).1 ∉ chain k.mem mb qs →
      send_wait fuel k mb pData = some r →
      ∃ qs', Bookkept r.2.mem mb qs' ∧
        ((r.1 = .ret FAIL ∧ pData = NULL ∧ qs' = qs) ∨
          (r.1 = .switched ∧ pData ≠ NULL ∧ 0 ≤ (k.mem.mboxes mb).nBlockedMsg ∧
            qs' = qs ++ [(calloc k.alloc).1]) ∨
          (r.1 = .switched ∧ pData ≠ NULL ∧ (k.mem.mboxes mb).nBlockedMsg < 0 ∧
            ∃ x, qs = x :: qs')) ∧
        (∀ b q, b ≠ mb → Bookkept k.mem b q → (∀ y ∈ chain k.mem b q,
          y ∉ chain k.mem mb qs ∧ y ≠ (calloc k.alloc).1) → Bookkept r.2.mem b q)) ∧
    (∀ pData r, (calloc k.alloc).1 ∉ chain k.mem mb qs →
      receive_wait fuel k mb pData = some r →
      ∃ qs', Bookkept r.2.mem mb qs' ∧
        ((r.1 = .ret FAIL ∧ pData = NULL ∧ qs' = qs) ∨
          (r.1 = .switched ∧ pData ≠ NULL ∧ (k.mem.mboxes mb).nBlockedMsg ≤ 0 ∧
            qs' = qs ++ [(calloc k.alloc).1]) ∨
          (r.1 = .switched ∧ pData ≠ NULL ∧ 0 < (k.mem.mboxes mb).nBlockedMsg ∧
            ∃ x, qs = x :: qs')) ∧
        (∀ b q, b ≠ mb → Bookkept k.mem b q → (∀ y ∈ chain k.mem b q,
          y ∉ chain k.mem mb qs ∧ y ≠ (calloc k.alloc).1) → Bookkept r.2.mem b q)) ∧
    (∀ rs ws ts pData, Lists k rs ws ts → rs.length + ws.length + ts.length < fuel →
      k.runningListobj ∈ rs → rs.erase k.runningListobj ≠ [] → pData ≠ NULL →
      0 ≤ (k.mem.mboxes mb).nDataSize → (calloc k.alloc).1 ≠ NULL →
      (calloc k.alloc).1 ∉ chain k.mem mb qs →
      (∀ x ∈ qs.head?, (k.mem.msgs x).pData ≠ NULL ∧
        ((k.mem.msgs x).pBlock ∈ ws ∨
          ((k.mem.msgs x).pBlock ≠ NULL ∧ HasTask k.mem (k.mem.msgs x).pBlock ∧
            (∀ y ∈ ts.head?, timerDue k y = false) ∧
            (∀ y ∈ ws.head?, deadlineDue k y = false)))) →
      (∃ k', send_wait fuel k mb pData = some (Outcome.switched, k')) ∧
      (∃ k', receive_wait fuel k mb pData = some (Outcome.switched, k'))) ∧
    (qs.length < fuel → k.runningListobj ≠ NULL →
      ((k.mem.objs k.runningListobj).pMessage ∈ qs → 0 < (k.mem.mboxes mb).nBlockedMsg) →
      ∃ r k' qs', send_wait_resumed fuel k mb = some (r, k') ∧ Bookkept k'.mem mb qs' ∧
        (qs' = qs ∨ qs' = qs.erase (k.mem.objs k.runningListobj).pMessage) ∧
        (∀ b q, b ≠ mb → Bookkept k.mem b q → (∀ y ∈ chain k.mem b q,
          y ∉ chain k.mem mb qs) → Bookkept k'.mem b q)) ∧
    (qs.length < fuel → k.runningListobj ≠ NULL →
      ((k.mem.objs k.runningListobj).pMessage ∈ qs → (k.mem.mboxes mb).nBlockedMsg < 0) →
      ∃ r k' qs', receive_wait_resumed fuel k mb = some (r, k') ∧ Bookkept k'.mem mb qs' ∧
        (qs' = qs ∨ qs' = qs.erase (k.mem.objs k.runningListobj).pMessage) ∧
        (∀ b q, b ≠ mb → Bookkept k.mem b q → (∀ y ∈ chain k.mem b q,
          y ∉ chain k.mem mb qs) → Bookkept k'.mem b q)) := by
  have hB' := hB
  obtain ⟨hq, hnm, hcnt⟩ := hB'
  refine ⟨?_, ?_, ?_, ?_, ?_, ?_, ?_⟩
  · intro m b q hb hl
    have e := hb.1.queued_eq (Nat.le_refl q.length)
    rw [e]
    exact ⟨rfl, hb.no_messages_eq hl⟩
  · intro n d h1 h2 h3 h4
    obtain ⟨k', c1, c2, _, _, _, c6, c7, _⟩ := create_mailbox_spec k n d h1 h2 h3 h4
    refine ⟨k', c1, c2, ?_⟩
    intro hne hfr
    exact Bookkept.other ⟨hq, hnm, hcnt⟩ (c6 mb hne) (fun y hy => c7 y (hfr y hy).1 (hfr y hy).2)
  · intro pData r hfresh h
    exact send_wait_books fuel k mb pData qs r hB hfresh h
  · intro pData r hfresh h
    exact receive_wait_books fuel k mb pData qs r hB hfresh h
  · intro rs ws ts pData hL hf hrun hother hp hsz ha hfresh hhead
    constructor
    · by_cases hnb : 0 ≤ (k.mem.mboxes mb).nBlockedMsg
      · rw [send_wait_block_eq fuel k mb pData hq.1 hp hnm hnb]
        obtain ⟨k', _, _, _, h1, _⟩ :=
          block_spec fuel k mb pData 1 rs ws ts qs hL hrun hother hq ha hfresh hf
        exact ⟨k', h1⟩
      · have hnb' : (k.mem.mboxes mb).nBlockedMsg < 0 := by omega
        obtain ⟨x, qb, hx⟩ := hB.cons_of_ne (by omega)
        subst hx
        obtain ⟨hd1, hcase⟩ := hhead x (by simp)
        by_cases hin : (k.mem.msgs x).pBlock ∈ ws
        · obtain ⟨k', _, _, _, h1, _⟩ :=
            send_give_spec fuel k mb pData rs ws ts x qb hL hq hp hd1 hsz hnm hnb' hin hf
          exact ⟨k', h1⟩
        · rcases hcase with c | ⟨c1, c2, c3, c4⟩
          · exact absurd c hin
          · exact send_late_returns fuel k mb pData rs ws ts x qb hL hq hp hd1 hsz hnm hnb' hin
              c1 c2 c3 c4 (by omega)
    · by_cases hnb : (k.mem.mboxes mb).nBlockedMsg ≤ 0
      · rw [receive_wait_block_eq fuel k mb pData hq.1 hp (by omega) hnb]
        obtain ⟨k', _, _, _, h1, _⟩ :=
          block_spec fuel k mb pData (-1) rs ws ts qs hL hrun hother hq ha hfresh hf
        exact ⟨k', h1⟩
      · have hnb' : 0 < (k.mem.mboxes mb).nBlockedMsg := by omega
        obtain ⟨x, qb, hx⟩ := hB.cons_of_ne (by omega)
        subst hx
        obtain ⟨hd1, hcase⟩ := hhead x (by simp)
        by_cases hin : (k.mem.msgs x).pBlock ∈ ws
        · obtain ⟨k', _, _, _, h1, _⟩ :=
            receive_take_spec fuel k mb pData rs ws ts x qb hL hq hp hd1 hsz hnb' hin hf
          exact ⟨k', h1⟩
        · rcases hcase with c | ⟨c1, c2, c3, c4⟩
          · exact absurd c hin
          · exact receive_late_returns fuel k mb pData rs ws ts x qb hL hq hp hd1 hsz hnb' hin
              c1 c2 c3 c4 (by omega)
  · intro hfq hc hkind
    unfold send_wait_resumed
    by_cases h : deadline k ≤ ticks k
    · by_cases hpm : (k.mem.objs k.runningListobj).pMessage ∈ qs
      · obtain ⟨k', h1, q1, b1, b2, _, _, _, _, _, _, _, _, _, _, _, f1, f2⟩ :=
          blocked_resumed_mem fuel k mb (-1) hq hc hpm hfq h
        have hpos := hkind hpm
        refine ⟨_, k', _, h1, ⟨q1, by rw [b2]; exact hnm, ?_⟩, Or.inr rfl, ?_⟩
        · rw [b1, List.length_erase_of_mem hpm, ← hcnt]
          omega
        · intro b q hb hB2 hdis
          exact hB2.other (f1 b hb) (fun y hy => f2 y (hdis y hy))
      · refine ⟨_, _, qs, blocked_resumed_absent fuel k mb (-1) hq hc hpm hfq h,
          ⟨hq, hnm, hcnt⟩, Or.inl rfl, ?_⟩
        intro b q _ hB2 _
        exact hB2
    · refine ⟨_, _, qs, blocked_resumed_early fuel k mb (-1) (by omega), ⟨hq, hnm, hcnt⟩,
        Or.inl rfl, ?_⟩
      intro b q _ hB2 _
      exact hB2
  · intro hfq hc hkind
    unfold receive_wait_resumed
    by_cases h : deadline k ≤ ticks k
    · by_cases hpm : (k.mem.objs k.runningListobj).pMessage ∈ qs
      · obtain ⟨k', h1, q1, b1, b2, _, _, _, _, _, _, _, _, _, _, _, f1, f2⟩ :=
          blocked_resumed_mem fuel k mb 1 hq hc hpm hfq h
        have hpos := hkind hpm
        refine ⟨_, k', _, h1, ⟨q1, by rw [b2]; exact hnm, ?_⟩, Or.inr rfl, ?_⟩
        · rw [b1, List.length_erase_of_mem hpm, ← hcnt]
          omega
        · intro b q hb hB2 hdis
          exact hB2.other (f1 b hb) (fun y hy => f2 y (hdis y hy))
      · refine ⟨_, _, qs, blocked_resumed_absent fuel k mb 1 hq hc hpm hfq h,
          ⟨hq, hnm, hcnt⟩, Or.inl rfl, ?_⟩
        intro b q _ hB2 _
        exact hB2
    · refine ⟨_, _, qs, blocked_resumed_early fuel k mb 1 (by omega), ⟨hq, hnm, hcnt⟩,
        Or.inl rfl, ?_⟩
      intro b q _ hB2 _
      exact hB2

/-- Witness of C29 on `exSenderTimedOut`, where the mailbox `105` is bookkept
with the record `112` of a sender that has timed out and is on the ready list,
not on the waiting list.  `receive_wait` there ends in `LoadContext` and
leaves the mailbox bookkept with no records, and `no_messages` is the number
of records the walk meets; `send_wait` there ends in `LoadContext` and leaves
it bookkept with the records `112` and `113`.  Together with two runs: after
every prefix of `traceTakenLate` (block, take, resume, terminate), and after
the late `receive_wait` itself, `no_messages` is the number of records the walk
between the sentinels meets. -/
theorem C29_mailbox_bookkeeping_witness :
    (Bookkept exSenderTimedOut.mem 105 [112] ∧
      Lists exSenderTimedOut [110, 108, 103] [] [] ∧
      (exSenderTimedOut.mem.msgs 112).pBlock = 108 ∧
      (exSenderTimedOut.mem.mboxes 105).nBlockedMsg = 1 ∧
      (calloc exSenderTimedOut.alloc).1 = 113) ∧
    (∃ k', receive_wait 20 exSenderTimedOut 105 200 = some (Outcome.switched, k') ∧
      Bookkept k'.mem 105 [] ∧
      no_messages k'.mem 105 = ((queued k'.mem 105 0).length : Int)) ∧
    (∃ k', send_wait 20 exSenderTimedOut 105 310 = some (Outcome.switched, k') ∧
      Bookkept k'.mem 105 [112, 113] ∧
      no_messages k'.mem 105 = ((queued k'.mem 105 2).length : Int)) ∧
    (∀ i ∈ List.range 16, (exec 10 (boot 100) (traceTakenLate.take i)).map (fun k =>
        decide (no_messages k.mem 105 = ((queued k.mem 105 5).length : Int))) = some true) ∧
    (receive_wait 20 exSenderTimedOut 105 200).map (fun r =>
        (no_messages r.2.mem 105, queued r.2.mem 105 5)) = some (0, []) ∧
    (send_wait 20 exSenderTimedOut 105 310).map (fun r =>
        (no_messages r.2.mem 105, queued r.2.mem 105 5)) = some (2, [112, 113]) := by
  obtain ⟨t1, _, t3, t4, t5, _, _⟩ :=
    C29_mailbox_bookkeeping 20 exSenderTimedOut 105 [112] (by decide)
  obtain ⟨⟨ks, hks⟩, _⟩ := t5 [110, 108, 103] [] [] 310 (by decide) (by decide) (by decide)
    (by decide) (by decide) (by decide) (by decide) (by decide) (by decide)
  obtain ⟨_, ⟨kr, hkr⟩⟩ := t5 [110, 108, 103] [] [] 200 (by decide) (by decide) (by decide)
    (by decide) (by decide) (by decide) (by decide) (by decide) (by decide)
  refine ⟨by decide, ⟨kr, hkr, ?_⟩, ⟨ks, hks, ?_⟩, by decide, by decide, by decide⟩
  · obtain ⟨qs', hb, hcase, _⟩ := t4 200 _ (by decide) hkr
    have hq : qs' = [] := by
      rcases hcase with ⟨_, c, _⟩ | ⟨_, _, c, _⟩ | ⟨_, _, _, x, hx⟩
      · exact absurd c (by decide)
      · exact absurd c (by decide)
      · exact (List.cons.inj hx).2.symm
    rw [hq] at hb
    exact ⟨hb, (t1 _ _ _ hb (by decide)).2⟩
  · obtain ⟨qs', hb, hcase, _⟩ := t3 310 _ (by decide) hks
    have hq : qs' = [112, 113] := by
      rcases hcase with ⟨_, c, _⟩ | ⟨_, _, _, c⟩ | ⟨_, _, c, _⟩
      · exact absurd c (by decide)
      · rw [c]
        rfl
      · exact absurd c (by decide)
    rw [hq] at hb
    exact ⟨hb, (t1 _ _ _ hb (by decide)).2⟩

/-- C31 (`create_mailbox`) does not hold as stated: the fields `nMaxMessages`
and `nDataSize` are of type `int`, and the arguments are of type `uint`.  On
`boot 100` the call `create_mailbox(1, 2147483648)` returns the mailbox `100`
with the payload size `-2147483648`, and `create_mailbox(4294967295, 1)` one
with the capacity `-1`. -/
theorem C31_stored_size_differs :
    (create_mailbox (boot 100) 1 2147483648).map (fun r =>
        (r.1, (r.2.mem.mboxes r.1).nMaxMessages, (r.2.mem.mboxes r.1).nDataSize)) =
      some (100, 1, -2147483648) ∧
    (create_mailbox (boot 100) 4294967295 1).map (fun r =>
        (r.1, (r.2.mem.mboxes r.1).nMaxMessages, (r.2.mem.mboxes r.1).nDataSize)) =
      some (100, -1, 1) := by
  decide

/-- C31, amended.  Let the next address of the library allocator not be
`NULL`.  If `nMessages` or `nDataSize` is `0`, `create_mailbox` returns `NULL`
and changes nothing.  Otherwise it needs three blocks from `calloc`; if the
library has fewer left, it returns `NULL` and every block it did obtain has
been passed to `free`.  If the library has three, it returns the first of them
as the mailbox; its fields `nMaxMessages` and `nDataSize` hold the
arguments converted to `int` (the arguments themselves when they are below
`2^31`, the argument minus `2^32` from there on), `nMessages` and
`nBlockedMsg` are `0`, the two sentinels are the next two blocks, the head
sentinel's `pNext` is the tail sentinel and the tail sentinel's `pPrevious` is
the head sentinel, the queue is well-formed and empty, and `no_messages` is
`0`.  In every case the three lists, the running task, the tick counter, the
mode and the interrupt flag are as before. -/
theorem C31_create_mailbox (k : Kernel) (nMessages nDataSize : Nat)
    (hb : k.alloc.brk ≠ NULL) :
    (nMessages = 0 ∨ nDataSize = 0 → create_mailbox k nMessages nDataSize = some (NULL, k)) ∧
    (nMessages ≠ 0 → nDataSize ≠ 0 → k.alloc.avail < 3 →
      ∃ k', create_mailbox k nMessages nDataSize = some (NULL, k') ∧
        k'.alloc.freed = (List.range k.alloc.avail).map (fun i => k.alloc.brk + i) ++
          k.alloc.freed) ∧
    (nMessages ≠ 0 → nDataSize ≠ 0 → 3 ≤ k.alloc.avail →
      ∃ k', create_mailbox k nMessages nDataSize = some (k.alloc.brk, k') ∧
        (k'.mem.mboxes k.alloc.brk).nMaxMessages = toInt32 nMessages ∧
        (k'.mem.mboxes k.alloc.brk).nDataSize = toInt32 nDataSize ∧
        (nMessages < 2 ^ 31 → (k'.mem.mboxes k.alloc.brk).nMaxMessages = (nMessages : Int)) ∧
        (nDataSize < 2 ^ 31 → (k'.mem.mboxes k.alloc.brk).nDataSize = (nDataSize : Int)) ∧
        (2 ^ 31 ≤ nMessages → nMessages < 2 ^ 32 →
          (k'.mem.mboxes k.alloc.brk).nMaxMessages = (nMessages : Int) - 2 ^ 32) ∧
        (2 ^ 31 ≤ nDataSize → nDataSize < 2 ^ 32 →
          (k'.mem.mboxes k.alloc.brk).nDataSize = (nDataSize : Int) - 2 ^ 32) ∧
        (k'.mem.mboxes k.alloc.brk).nMessages = 0 ∧
        (k'.mem.mboxes k.alloc.brk).nBlockedMsg = 0 ∧
        (k'.mem.mboxes k.alloc.brk).pHead = k.alloc.brk + 1 ∧
        (k'.mem.mboxes k.alloc.brk).pTail = k.alloc.brk + 2 ∧
        (k'.mem.msgs (k.alloc.brk + 1)).pNext = k.alloc.brk + 2 ∧
        (k'.mem.msgs (k.alloc.brk + 2)).pPrevious = k.alloc.brk + 1 ∧
        IsQueue k'.mem k.alloc.brk [] ∧ no_messages k'.mem k.alloc.brk = 0 ∧
        k'.alloc.freed = k.alloc.freed) ∧
    (∀ r, create_mailbox k nMessages nDataSize = some r →
      r.2.isrOnState = k.isrOnState ∧ r.2.osTicks = k.osTicks ∧ r.2.opMode = k.opMode ∧
      r.2.readyList = k.readyList ∧ r.2.waitingList = k.waitingList ∧
      r.2.timerList = k.timerList ∧ r.2.Running = k.Running ∧
      r.2.runningListobj = k.runningListobj) := by
  refine ⟨?_, ?_, ?_, fun r h => create_mailbox_statics k nMessages nDataSize r h⟩
  · intro h
    unfold create_mailbox
    rw [if_pos h]
  · intro h1 h2 ha
    obtain ⟨k', h, _, hfr⟩ := create_mailbox_no_memory k nMessages nDataSize h1 h2 ha hb
    exact ⟨k', h, hfr⟩
  · intro h1 h2 ha
    obtain ⟨k', h, hB, hh, ht, hnb, _⟩ := create_mailbox_spec k nMessages nDataSize h1 h2 ha hb
    obtain ⟨k'', h', f1, f2, f3, f4, _⟩ := create_mailbox_fields k nMessages nDataSize h1 h2 ha hb
    have e : k'' = k' := by
      rw [h] at h'
      exact (Prod.mk.inj (Option.some.inj h')).2.symm
    subst e
    have hs := hB.1.2.1
    simp only [chain, List.nil_append, mseg, List.headD_cons, List.headD_nil] at hs
    refine ⟨k'', h, f1, f2, ?_, ?_, ?_, ?_, f3, hnb, hh, ht, ?_, ?_, hB.1, ?_, f4⟩
    · intro hlt
      rw [f1, toInt32_small _ hlt]
    · intro hlt
      rw [f2, toInt32_small _ hlt]
    · intro hl hu
      rw [f1, toInt32_large _ hl hu]
    · intro hl hu
      rw [f2, toInt32_large _ hl hu]
    · have := hs.2.1
      rw [hh, ht] at this
      exact this
    · have := hs.2.2.1
      rw [hh, ht] at this
      exact this
    · have := hB.no_messages_eq (by decide)
      simpa using this

/-- Witness of C31 on `boot 100` and on `boot 2`: with memory for `100`
blocks, `create_mailbox(4, 5)` returns the mailbox `100` with capacity `4`,
payload size `5` and the sentinels `101` and `102`; with memory for `2` blocks
it returns `NULL` after freeing the blocks `100` and `101`. -/
theorem C31_create_mailbox_witness :
    ((boot 100).alloc.brk ≠ NULL ∧ ((boot 100).alloc.avail = 100 ∧ (boot 2).alloc.avail = 2)) ∧
    (∃ k', create_mailbox (boot 100) 4 5 = some (100, k') ∧
      (k'.mem.mboxes 100).nMaxMessages = 4 ∧ (k'.mem.mboxes 100).nDataSize = 5 ∧
      (k'.mem.mboxes 100).nMessages = 0 ∧ (k'.mem.mboxes 100).nBlockedMsg = 0 ∧
      (k'.mem.msgs 101).pNext = 102 ∧ (k'.mem.msgs 102).pPrevious = 101 ∧
      no_messages k'.mem 100 = 0) ∧
    (∃ k', create_mailbox (boot 2) 4 5 = some (NULL, k') ∧ k'.alloc.freed = [100, 101]) ∧
    create_mailbox (boot 100) 0 5 = some (NULL, boot 100) :=
  ⟨by decide,
    match (C31_create_mailbox (boot 100) 4 5 (by decide)).2.2.1 (by decide) (by decide)
      (by decide) with
    | ⟨k', h, _, _, h3, h4, _, _, h7, h8, _, _, h11, h12, _, h14, _⟩ =>
      ⟨k', h, h3 (by decide), h4 (by decide), h7, h8, h11, h12, h14⟩,
    (C31_create_mailbox (boot 2) 4 5 (by decide)).2.1 (by decide) (by decide) (by decide),
    (C31_create_mailbox (boot 100) 0 5 (by decide)).1 (Or.inl rfl)⟩

/-- C32 (`remove_mailbox`) fails on the code for the empty mailbox.  On no
path does `remove_mailbox` return `OK`: the branch that removes the mailbox
frees the two sentinels and the mailbox and then reaches the closing brace of
the function without a `return`, so the caller gets no defined value.  The
other two branches are as stated: `NULL` gives `FAIL`, and a mailbox with a
non-zero counter gives `NOT_EMPTY` with the state unchanged.  The examples:
after `traceEmptyMailbox` the mailbox `105` has both counters `0`, and the call
passes `106`, `107` and `105` to `free` and ends without a value; after
`traceReceiverBlocked` its blocked counter is `-1`, and the call returns
`NOT_EMPTY` and frees nothing. -/
theorem C32_remove_mailbox_returns_no_value :
    (∀ k mBox, (remove_mailbox k mBox).1 ≠ .ret OK) ∧
    (∀ k, remove_mailbox k NULL = (.ret FAIL, k)) ∧
    (∀ k mBox, mBox ≠ NULL →
      ¬ ((k.mem.mboxes mBox).nMessages = 0 ∧ (k.mem.mboxes mBox).nBlockedMsg = 0) →
      remove_mailbox k mBox = (.ret NOT_EMPTY, k)) ∧
    (exec 20 (boot 100) traceEmptyMailbox).map (fun k =>
        ((k.mem.mboxes 105).nMessages, (k.mem.mboxes 105).nBlockedMsg, k.alloc.freed,
          (remove_mailbox k 105).1, (remove_mailbox k 105).2.alloc.freed)) =
      some (0, 0, [], .done, [105, 107, 106]) ∧
    (exec 20 (boot 100) traceReceiverBlocked).map (fun k =>
        ((k.mem.mboxes 105).nMessages, (k.mem.mboxes 105).nBlockedMsg,
          (remove_mailbox k 105).1, (remove_mailbox k 105).2.alloc.freed)) =
      some (0, -1, .ret NOT_EMPTY, []) := by
  refine ⟨?_, ?_, ?_, by decide, by decide⟩
  · intro k mBox
    unfold remove_mailbox
    split_ifs <;> simp
  · intro k
    simp [remove_mailbox]
  · intro k mBox h1 h2
    unfold remove_mailbox
    rw [if_neg h1, if_neg h2]

/-- C33 (asynchronous round trip) fails on the code: `send_no_wait` and
`receive_no_wait` consist of a parameter check only.  For all arguments either
call leaves the kernel state, and with it every mailbox and every buffer, as it
was; `send_no_wait` returns `FAIL` for a null argument and otherwise reaches
the end of the function without a `return`, so it never returns `SUCCESS`;
`receive_no_wait`, whose check is the assignment `pData = NULL`, reaches the
end of the function without a `return` for all arguments.  The example is the
mailbox `105` after `traceEmptyMailbox`, which has no blocked party and no
message: the send call enqueues nothing and the counter stays `0`. -/
theorem C33_no_wait_calls_do_nothing :
    (∀ k mBox pData, (send_no_wait k mBox pData).2 = k ∧
      (send_no_wait k mBox pData).1 ≠ .ret SUCCESS ∧
      (mBox ≠ NULL → pData ≠ NULL → (send_no_wait k mBox pData).1 = .done)) ∧
    (∀ k mBox pData, receive_no_wait k mBox pData = (.done, k)) ∧
    (exec 20 (boot 100) traceEmptyMailbox).map (fun k =>
        ((k.mem.mboxes 105).nMessages, (k.mem.mboxes 105).nMaxMessages,
          (k.mem.mboxes 105).nBlockedMsg)) = some (0, 1, 0) ∧
    (exec 20 (boot 100) traceEmptyMailbox).map (fun k =>
        ((send_no_wait k 105 300).1, ((send_no_wait k 105 300).2.mem.mboxes 105).nMessages,
          queued (send_no_wait k 105 300).2.mem 105 5)) = some (.done, 0, []) := by
  refine ⟨?_, ?_, by decide, by decide⟩
  · intro k mBox pData
    unfold send_no_wait
    refine ⟨?_, ?_, ?_⟩
    · split_ifs <;> rfl
    · split_ifs <;> simp
    · intro h1 h2
      rw [if_neg (by simp [h1, h2])]
  · intro k mBox pData
    rfl

/-- C34 (fault injection with a period).  Let the file be compiled with
`_DEBUG` and let `OS_malloc_setPeriod(p)` be called with `0 < p < 2^32`: the
counter is `0` and the period is `p` afterwards.  Let `cs` be the kinds of the
calls of `OS_malloc` and `OS_calloc` made since then, in any mix, and consider
the next call, which is call number `k = |cs| + 1`.  If `p` divides `k` the
call returns `NULL` and the library allocator is not called (its state is as
before); otherwise the call returns what the library allocator returns and
leaves the library in the state the library call leaves it in.  So, as long as
the library allocator itself does not fail, the call returns `NULL` exactly
when `p` divides `k`. -/
theorem C34_failure_every_period (a : Alloc) (p : Nat) (cs : List Bool) (c : Bool)
    (hp : 0 < p) (hp2 : p < UINT_MOD) :
    (OS_malloc_setPeriod true a p).cnt = 0 ∧ (OS_malloc_setPeriod true a p).period = p ∧
    (p ∣ cs.length + 1 →
      (hookCall c (hookCalls cs (OS_malloc_setPeriod true a p))).1 = NULL ∧
      (hookCall c (hookCalls cs (OS_malloc_setPeriod true a p))).2.brk =
        (hookCalls cs (OS_malloc_setPeriod true a p)).brk ∧
      (hookCall c (hookCalls cs (OS_malloc_setPeriod true a p))).2.avail =
        (hookCalls cs (OS_malloc_setPeriod true a p)).avail ∧
      (hookCall c (hookCalls cs (OS_malloc_setPeriod true a p))).2.freed =
        (hookCalls cs (OS_malloc_setPeriod true a p)).freed) ∧
    (¬ p ∣ cs.length + 1 →
      (hookCall c (hookCalls cs (OS_malloc_setPeriod true a p))).1 =
        (calloc (hookCalls cs (OS_malloc_setPeriod true a p))).1 ∧
      (hookCall c (hookCalls cs (OS_malloc_setPeriod true a p))).2.brk =
        (calloc (hookCalls cs (OS_malloc_setPeriod true a p))).2.brk ∧
      (hookCall c (hookCalls cs (OS_malloc_setPeriod true a p))).2.avail =
        (calloc (hookCalls cs (OS_malloc_setPeriod true a p))).2.avail ∧
      (hookCall c (hookCalls cs (OS_malloc_setPeriod true a p))).2.freed =
        (calloc (hookCalls cs (OS_malloc_setPeriod true a p))).2.freed) ∧
    ((hookCalls cs (OS_malloc_setPeriod true a p)).avail ≠ 0 →
      (hookCalls cs (OS_malloc_setPeriod true a p)).brk ≠ NULL →
      ((hookCall c (hookCalls cs (OS_malloc_setPeriod true a p))).1 = NULL ↔
        p ∣ cs.length + 1)) := by
  have hper : (OS_malloc_setPeriod true a p).period = p := by
    simp [OS_malloc_setPeriod, Nat.mod_eq_of_lt hp2]
  have hcnt : (OS_malloc_setPeriod true a p).cnt = 0 := by
    simp [OS_malloc_setPeriod]
  have hk := hook_kth (OS_malloc_setPeriod true a p) cs c (by rw [hper]; exact hp2) hcnt
  rw [hper, if_neg (Nat.pos_iff_ne_zero.mp hp)] at hk
  refine ⟨hcnt, hper, hk.1, hk.2, ?_⟩
  intro hav hbrk
  constructor
  · intro hnull
    by_contra hnd
    have := (hk.2 hnd).1
    rw [this] at hnull
    unfold calloc at hnull
    rw [if_neg hav] at hnull
    exact hbrk hnull
  · intro hd
    exact (hk.1 hd).1

/-- Witness of C34 with period `3` on the allocator of `boot 100`: the third
call, an `OS_calloc` after an `OS_calloc` and an `OS_malloc`, returns `NULL`;
the second returns the library's block `101`. -/
theorem C34_failure_every_period_witness :
    (hookCall true (hookCalls [true, false] (OS_malloc_setPeriod true (boot 100).alloc 3))).1 =
      NULL ∧
    (hookCall false (hookCalls [true] (OS_malloc_setPeriod true (boot 100).alloc 3))).1 = 101 ∧
    ((hookCall true (hookCalls [true, false]
        (OS_malloc_setPeriod true (boot 100).alloc 3))).1 = NULL ↔ 3 ∣ [true, false].length + 1) :=
  ⟨((C34_failure_every_period (boot 100).alloc 3 [true, false] true (by decide)
      (by decide)).2.2.1 (by decide)).1,
    by decide,
    (C34_failure_every_period (boot 100).alloc 3 [true, false] true (by decide)
      (by decide)).2.2.2.2 (by decide) (by decide)⟩

/-- C35 (period zero never fails) fails on the code.  With the period `0`
(set by `OS_malloc_setPeriod(0)`, or by any call of it in a build without
`_DEBUG`) the hook still increments its 32-bit counter and compares it with the
period: call number `k` since the reset returns `NULL` without calling the
library allocator whenever `2^32` divides `k`, the first time at call number
`2^32`, when the counter wraps to `0`; every other call returns what the
library allocator returns. -/
theorem C35_period_zero_fails_at_wrap (debug : Bool) (a : Alloc) (cs : List Bool) (c : Bool) :
    (OS_malloc_setPeriod debug a 0).period = 0 ∧
    (OS_malloc_setPeriod false a 7).period = 0 ∧
    (UINT_MOD ∣ cs.length + 1 →
      (hookCall c (hookCalls cs (OS_malloc_setPeriod debug a 0))).1 = NULL ∧
      (hookCall c (hookCalls cs (OS_malloc_setPeriod debug a 0))).2.brk =
        (hookCalls cs (OS_malloc_setPeriod debug a 0)).brk ∧
      (hookCall c (hookCalls cs (OS_malloc_setPeriod debug a 0))).2.avail =
        (hookCalls cs (OS_malloc_setPeriod debug a 0)).avail) ∧
    (¬ UINT_MOD ∣ cs.length + 1 →
      (hookCall c (hookCalls cs (OS_malloc_setPeriod debug a 0))).1 =
        (calloc (hookCalls cs (OS_malloc_setPeriod debug a 0))).1) := by
  have hper : (OS_malloc_setPeriod debug a 0).period = 0 := by
    cases debug <;> simp [OS_malloc_setPeriod]
  have hcnt : (OS_malloc_setPeriod debug a 0).cnt = 0 := by
    cases debug <;> simp [OS_malloc_setPeriod]
  have hk := hook_kth (OS_malloc_setPeriod debug a 0) cs c (by rw [hper]; decide) hcnt
  rw [hper, if_pos rfl] at hk
  refine ⟨hper, by simp [OS_malloc_setPeriod], fun h => ?_, fun h => (hk.2 h).1⟩
  exact ⟨(hk.1 h).1, (hk.1 h).2.1, (hk.1 h).2.2.1⟩

/-- Witness of C35: after `2^32 - 1` calls of `OS_calloc` with period `0`, on
the allocator of `boot 100`, the next call returns `NULL`; the first call
returns the library's block `100`. -/
theorem C35_period_zero_fails_at_wrap_witness :
    (hookCall true (hookCalls (List.replicate 4294967295 true)
        (OS_malloc_setPeriod true (boot 100).alloc 0))).1 = NULL ∧
    (hookCall true (hookCalls (List.replicate 4294967295 true)
        (OS_malloc_setPeriod true (boot 100).alloc 0))).2.avail =
      (hookCalls (List.replicate 4294967295 true)
        (OS_malloc_setPeriod true (boot 100).alloc 0)).avail ∧
    (hookCall true (hookCalls [] (OS_malloc_setPeriod true (boot 100).alloc 0))).1 = 100 :=
  ⟨((C35_period_zero_fails_at_wrap true (boot 100).alloc (List.replicate 4294967295 true)
      true).2.2.1 (by rw [List.length_replicate]; exact ⟨1, by decide⟩)).1,
    ((C35_period_zero_fails_at_wrap true (boot 100).alloc (List.replicate 4294967295 true)
      true).2.2.1 (by rw [List.length_replicate]; exact ⟨1, by decide⟩)).2.2,
    by decide⟩

/-- C36 (all mutations happen with interrupts disabled) fails on the code.
`set_ticks` stores the tick counter, `incTicks` increments it,
`create_mailbox` builds a mailbox and `remove_mailbox` frees one, and none of
them calls `isr_off`: they never write the interrupt flag, so it has the value
of the caller throughout the call.  After `traceRunning` a task runs with the
flag set; its call `set_ticks(7)` changes the tick counter from `0` to `7`, and
its call `create_mailbox(1, 1)` sets up the mailbox `107`, with the flag set
before and after. -/
theorem C36_mutations_with_interrupts_enabled :
    (∀ k n, (set_ticks k n).isrOnState = k.isrOnState ∧
      (set_ticks k n).osTicks = n % UINT_MOD) ∧
    (∀ k, (incTicks k).isrOnState = k.isrOnState ∧
      (incTicks k).osTicks = (k.osTicks + 1) % UINT_MOD) ∧
    (∀ k n d r, create_mailbox k n d = some r → r.2.isrOnState = k.isrOnState) ∧
    (∀ k mBox, (remove_mailbox k mBox).2.isrOnState = k.isrOnState) ∧
    (exec 10 (boot 100) traceRunning).map (fun k =>
        (k.opMode, k.isrOnState, k.osTicks, (set_ticks k 7).isrOnState,
          (set_ticks k 7).osTicks)) = some (RUNNING, true, 0, true, 7) ∧
    ((exec 10 (boot 100) traceRunning).bind fun k =>
        (create_mailbox k 1 1).map fun r =>
          (k.isrOnState, r.2.isrOnState, r.1, (k.mem.mboxes r.1).pHead,
            (r.2.mem.mboxes r.1).pHead)) = some (true, true, 107, 0, 108) := by
  refine ⟨fun k n => ⟨rfl, rfl⟩, fun k => ⟨rfl, rfl⟩, ?_, ?_, by decide, by decide⟩
  · intro k n d r h
    exact (create_mailbox_statics k n d r h).1
  · intro k mBox
    unfold remove_mailbox
    split_ifs <;> rfl

/-- C37 (one placement algorithm for both sort keys).  Let the list `xs` be
well-formed and sorted by deadline, every entry with a task and a wake tick
equal to its deadline, and let `e` be a detached non-null entry with a task
that is not on the list.  Let the delay be non-zero and such that the wake
tick `OSList_timerInsert` gives the new entry, `(osTicks + delay) mod 2^32`,
equals the deadline of `e`.  Then `OSList_timerInsert` and
`OSList_deadlineInsert` both return `true`, with the same header and the
same list: `xs` with `e` immediately before the first entry whose key is
strictly greater than the key of `e`, or at the tail if there is none. -/
theorem C37_same_placement (osTicks : Nat) (m : Mem) (l : OSList_t) (xs : List Ptr)
    (e : Ptr) (delay : Nat) (hl : IsList m l xs) (hs : SortedBy (deadlineKey m) xs)
    (ht : ∀ x ∈ xs, HasTask m x) (hte : HasTask m e)
    (hk : ∀ x ∈ xs, wakeKey m x = deadlineKey m x)
    (hke : (osTicks + delay) % UINT_MOD = deadlineKey m e)
    (he : e ≠ NULL) (hne : e ∉ xs) (hdet : Detached m e) (hd : delay ≠ 0) :
    ∃ m1 m2 l',
      OSList_timerInsert osTicks m (some l) e delay = some (true, m1, some l') ∧
      OSList_deadlineInsert m (some l) e = some (true, m2, some l') ∧
      IsList m1 l' (placeBeforeFirstGreater (deadlineKey m) (deadlineKey m e) e xs) ∧
      IsList m2 l' (placeBeforeFirstGreater (deadlineKey m) (deadlineKey m e) e xs) ∧
      wakeKey m1 e = deadlineKey m2 e := by
  obtain ⟨m1, l1, a1, b1, h1, hab1, L1, ha1, hb1, f1⟩ :=
    timerInsert_core osTicks hl he hne hdet hd
  obtain ⟨m2, l2, a2, b2, h2, hab2, L2, ha2, hb2, f2⟩ :=
    deadlineInsert_core hl ht he hte hne hdet
  have hp1 : placeBeforeFirstGreater (deadlineKey m) (deadlineKey m e) e xs = a1 ++ e :: b1 := by
    rw [hab1] at hs hk ⊢
    refine place_of_sorted e hs ?_ ?_
    · intro t htm
      have hta : t ∈ a1 := List.mem_of_mem_getLast? htm
      rw [← hk t (List.mem_append_left _ hta), ← hke]
      exact ha1 t htm
    · intro n hnm
      have hnb : n ∈ b1 := List.mem_of_mem_head? hnm
      rw [← hk n (List.mem_append_right _ hnb), ← hke]
      exact hb1 n hnm
  have hp2 : placeBeforeFirstGreater (deadlineKey m) (deadlineKey m e) e xs = a2 ++ e :: b2 := by
    rw [hab2] at hs ⊢
    exact place_of_sorted e hs ha2 hb2
  rw [← hp1] at L1
  rw [← hp2] at L2
  have hll : l1 = l2 := L1.header_eq L2
  subst hll
  refine ⟨m1, m2, l1, h1, h2, L1, L2, ?_⟩
  rw [f1.wakeKey_eq, f2.deadlineKey_eq, ← hke]
  simp [wakeKey, wTCnt_objs]

/-- Witness of C37 on `exMem`: the list `1, 2` has the keys `5` and `9` under
both orders, and the detached entry `3` has deadline `9`; at tick `4` with
delay `5` both functions put it behind entry `2`, whose key is equal. -/
theorem C37_same_placement_witness :
    (IsList exMem exList [1, 2] ∧ SortedBy (deadlineKey exMem) [1, 2] ∧
      (∀ x ∈ [1, 2], wakeKey exMem x = deadlineKey exMem x) ∧
      (4 + 5) % UINT_MOD = deadlineKey exMem 3 ∧
      placeBeforeFirstGreater (deadlineKey exMem) (deadlineKey exMem 3) 3 [1, 2] = [1, 2, 3]) ∧
    (∃ m1 m2 l',
      OSList_timerInsert 4 exMem (some exList) 3 5 = some (true, m1, some l') ∧
      OSList_deadlineInsert exMem (some exList) 3 = some (true, m2, some l') ∧
      IsList m1 l' (placeBeforeFirstGreater (deadlineKey exMem) (deadlineKey exMem 3) 3 [1, 2]) ∧
      IsList m2 l' (placeBeforeFirstGreater (deadlineKey exMem) (deadlineKey exMem 3) 3 [1, 2]) ∧
      wakeKey m1 3 = deadlineKey m2 3) ∧
    (OSList_timerInsert 4 exMem (some exList) 3 5).map (fun r => (r.1, entries r.2.1 r.2.2)) =
      some (true, [1, 2, 3]) ∧
    (OSList_deadlineInsert exMem (some exList) 3).map (fun r => (r.1, entries r.2.1 r.2.2)) =
      some (true, [1, 2, 3]) :=
  ⟨by decide,
    C37_same_placement 4 exMem exList [1, 2] 3 5 (by decide) (by decide) (by decide)
      (by decide) (by decide) (by decide) (by decide) (by decide) (by decide) (by decide),
    by decide, by decide⟩

/-- C38 (reassessment is idempotent at a fixed tick).  Let the three lists be
well-formed and the ready list not empty (fuel above the lengths of the timer
and the waiting list is enough).  Then `schedulingUpdate` returns a state
`k'` with the tick counter of `k`, and `schedulingUpdate` run again on `k'`
returns `k'` itself: the same heap, lists, running entry and running task.
So running it twice gives what running it once gives.  Sortedness of the
lists is not needed. -/
theorem C38_reassessment_idempotent (fuel : Nat) (k : Kernel) (rs ws ts : List Ptr)
    (hL : Lists k rs ws ts) (hne : rs ≠ []) (hft : ts.length < fuel)
    (hfw : ws.length < fuel) :
    ∃ k', schedulingUpdate fuel k = some k' ∧ k'.osTicks = k.osTicks ∧
      schedulingUpdate fuel k' = some k' ∧
      (schedulingUpdate fuel k).bind (schedulingUpdate fuel) = schedulingUpdate fuel k := by
  obtain ⟨k', rs', h, L', _, _, _, f, hne', hr, hR, S⟩ :=
    schedulingUpdate_spec fuel k rs ws ts hL (by simp [hne]) hft hfw
  obtain ⟨f0, rfl⟩ : ∃ f0, fuel = f0 + 1 := ⟨fuel - 1, by omega⟩
  have htd : timerDue k' = timerDue k := by
    funext q
    simp [timerDue, f.wakeKey_eq, S.1]
  have hdd : deadlineDue k' = deadlineDue k := by
    funext q
    simp [deadlineDue, f.deadlineKey_eq, S.1]
  have h2 : schedulingUpdate (f0 + 1) k' = some k' :=
    schedulingUpdate_idle f0 k' rs' _ _ L' hne'
      (by rw [htd]; exact dropWhile_head_false _ ts)
      (by rw [hdd]; exact dropWhile_head_false _ ws) hr hR
  refine ⟨k', h, S.1, h2, ?_⟩
  rw [h]
  exact h2

/-- Witness of C38 on `exKernel`, where the timer entry `3` is due: the first
run moves it to the ready list, the second changes nothing. -/
theorem C38_reassessment_idempotent_witness :
    Lists exKernel [1, 2] [] [3] ∧
    (∃ k', schedulingUpdate 5 exKernel = some k' ∧ k'.osTicks = exKernel.osTicks ∧
      schedulingUpdate 5 k' = some k' ∧
      (schedulingUpdate 5 exKernel).bind (schedulingUpdate 5) = schedulingUpdate 5 exKernel) ∧
    (schedulingUpdate 5 exKernel).map (fun k =>
        (entries k.mem k.readyList, entries k.mem k.waitingList, entries k.mem k.timerList,
          k.runningListobj)) = some ([1, 2, 3], [], [], 1) ∧
    ((schedulingUpdate 5 exKernel).bind (schedulingUpdate 5)).map (fun k =>
        (entries k.mem k.readyList, entries k.mem k.waitingList, entries k.mem k.timerList,
          k.runningListobj)) = some ([1, 2, 3], [], [], 1) :=
  ⟨by decide,
    C38_reassessment_idempotent 5 exKernel [1, 2] [] [3] (by decide) (by decide) (by decide)
      (by decide),
    by decide, by decide⟩

/-- C39 (result codes that coincide).  `FAIL`, `DEADLINE_REACHED` and
`NOT_EMPTY` are the integer `0`, and `SUCCESS` and `OK` are the integer `1`.
So the following pairs of calls return the same value.  `wait(0)`, made in any
state `k`, and a `wait` resumed in a state `k1` whose tick counter has reached
the running task's deadline.  `send_wait` (and `receive_wait`) called in `k`
with a null mailbox or a null data pointer, and a `send_wait` (`receive_wait`)
resumed in a state `k2` whose tick counter has reached the running task's
deadline, the queue of the mailbox being well-formed (fuel above its length is
enough for the withdrawal loop).  `remove_mailbox(NULL)` and `remove_mailbox`
on a mailbox of a state `k3` one of whose counters is not zero. -/
theorem C39_result_codes_coincide (fuel : Nat) (k k1 k2 k3 : Kernel) (mb mb3 pData : Ptr)
    (qs : List Ptr) (hR : k1.Running ≠ NULL)
    (hd1 : (k1.mem.tcbs k1.Running).DeadLine ≤ ticks k1)
    (hq : IsQueue k2.mem mb qs) (hc : k2.runningListobj ≠ NULL) (hf : qs.length < fuel)
    (hd2 : deadline k2 ≤ ticks k2) (hmb : mb3 ≠ NULL)
    (hne : ¬ ((k3.mem.mboxes mb3).nMessages = 0 ∧ (k3.mem.mboxes mb3).nBlockedMsg = 0)) :
    (FAIL = 0 ∧ DEADLINE_REACHED = 0 ∧ NOT_EMPTY = 0 ∧ SUCCESS = 1 ∧ OK = 1) ∧
    (∃ v, wait fuel k 0 = some (.ret v, k) ∧ wait_resumed k1 = some v) ∧
    (∃ v k', send_wait fuel k NULL pData = some (.ret v, k) ∧
      send_wait fuel k mb NULL = some (.ret v, k) ∧
      send_wait_resumed fuel k2 mb = some (v, k')) ∧
    (∃ v k', receive_wait fuel k NULL pData = some (.ret v, k) ∧
      receive_wait fuel k mb NULL = some (.ret v, k) ∧
      receive_wait_resumed fuel k2 mb = some (v, k')) ∧
    (∃ v, remove_mailbox k NULL = (.ret v, k) ∧ remove_mailbox k3 mb3 = (.ret v, k3)) := by
  have hres : ∀ delta, ∃ k', blocked_resumed fuel k2 mb delta = some (DEADLINE_REACHED, k') := by
    intro delta
    by_cases hpm : (k2.mem.objs k2.runningListobj).pMessage ∈ qs
    · obtain ⟨k', h, _⟩ := blocked_resumed_mem fuel k2 mb delta hq hc hpm hf hd2
      exact ⟨k', h⟩
    · exact ⟨_, blocked_resumed_absent fuel k2 mb delta hq hc hpm hf hd2⟩
  refine ⟨⟨rfl, rfl, rfl, rfl, rfl⟩, ⟨0, ?_, ?_⟩, ?_, ?_, ⟨0, ?_, ?_⟩⟩
  · simp [wait]
  · unfold wait_resumed Mem.tcb
    simp [hR, hd1]
  · obtain ⟨k', h⟩ := hres (-1)
    exact ⟨0, k', by simp [send_wait], by simp [send_wait], h⟩
  · obtain ⟨k', h⟩ := hres 1
    exact ⟨0, k', by simp [receive_wait], by simp [receive_wait], h⟩
  · simp [remove_mailbox]
  · unfold remove_mailbox
    rw [if_neg hmb, if_neg hne]

/-- Witness of C39: `wait(0)` in `exKernel` and the `wait` resumed in
`exResumedLate` both return `0`; so do `send_wait` and `receive_wait` with a
null argument in `exKernel` and resumed in `exTimedOut`, and
`remove_mailbox(NULL)` and `remove_mailbox` on the mailbox `105` of
`exReceiverBlocked`. -/
theorem C39_result_codes_coincide_witness :
    (exResumedLate.Running ≠ NULL ∧
      (exResumedLate.mem.tcbs exResumedLate.Running).DeadLine ≤ ticks exResumedLate ∧
      IsQueue exTimedOut.mem 105 [112] ∧ deadline exTimedOut ≤ ticks exTimedOut ∧
      (exReceiverBlocked.mem.mboxes 105).nBlockedMsg = -1) ∧
    ((FAIL = 0 ∧ DEADLINE_REACHED = 0 ∧ NOT_EMPTY = 0 ∧ SUCCESS = 1 ∧ OK = 1) ∧
    (∃ v, wait 20 exKernel 0 = some (.ret v, exKernel) ∧ wait_resumed exResumedLate = some v) ∧
    (∃ v k', send_wait 20 exKernel NULL 300 = some (.ret v, exKernel) ∧
      send_wait 20 exKernel 105 NULL = some (.ret v, exKernel) ∧
      send_wait_resumed 20 exTimedOut 105 = some (v, k')) ∧
    (∃ v k', receive_wait 20 exKernel NULL 300 = some (.ret v, exKernel) ∧
      receive_wait 20 exKernel 105 NULL = some (.ret v, exKernel) ∧
      receive_wait_resumed 20 exTimedOut 105 = some (v, k')) ∧
    (∃ v, remove_mailbox exKernel NULL = (.ret v, exKernel) ∧
      remove_mailbox exReceiverBlocked 105 = (.ret v, exReceiverBlocked))) :=
  ⟨by decide,
    C39_result_codes_coincide 20 exKernel exResumedLate exTimedOut exReceiverBlocked 105 105 300
      [112] (by decide) (by decide) (by decide) (by decide) (by decide) (by decide) (by decide)
      (by decide)⟩

/-- C40 (the capacity of a mailbox is not enforced by the blocking calls).
Let the three lists be well-formed with every deadline after the tick counter,
the running entry on the ready list, and let `create_mailbox(1, d)` be called
with a payload size `0 < d < 2^31` and memory for the mailbox and `n` records.
It returns a mailbox with `nMaxMessages = 1`.  Let then `n` calls
`send_wait` follow on that mailbox, with the non-null payload pointers `ps`,
each made by the entry running at that point, where `n` is any number below
the number of ready entries.  All `n` calls end in `LoadContext`; afterwards
the queue holds `n` records with the payload pointers `ps` in call order,
`nBlockedMsg` is `n`, and the records belong to `n` different entries, all on
the waiting list. -/
theorem C40_capacity_not_enforced (fuel : Nat) (k0 : Kernel) (d : Nat)
    (ps rs ws ts : List Ptr) (hL : Lists k0 rs ws ts)
    (hdl : ∀ x ∈ rs ++ ws ++ ts, k0.osTicks < deadlineKey k0.mem x)
    (hrun : k0.runningListobj ∈ rs) (hlen : ps.length < rs.length)
    (hd : d ≠ 0) (hd2 : d < 2 ^ 31) (hps : ∀ p ∈ ps, p ≠ NULL)
    (hav : ps.length + 3 ≤ k0.alloc.avail) (hbrk : k0.alloc.brk ≠ NULL)
    (hf : rs.length + ws.length + ts.length < fuel) :
    ∃ k k' ws', create_mailbox k0 1 d = some (k0.alloc.brk, k) ∧
      (k.mem.mboxes k0.alloc.brk).nMaxMessages = 1 ∧
      exec fuel k (ps.map (Call.send_wait k0.alloc.brk)) = some k' ∧
      (queued k'.mem k0.alloc.brk ps.length).length = ps.length ∧
      (queued k'.mem k0.alloc.brk ps.length).map (fun y => (k'.mem.msgs y).pData) = ps ∧
      (k'.mem.mboxes k0.alloc.brk).nBlockedMsg = (ps.length : Int) ∧
      OnList k'.mem k'.waitingList ws' ∧
      (∀ y ∈ queued k'.mem k0.alloc.brk ps.length, (k'.mem.msgs y).pBlock ∈ ws') ∧
      ((queued k'.mem k0.alloc.brk ps.length).map (fun y => (k'.mem.msgs y).pBlock)).Nodup := by
  have h1 : (1 : Nat) ≠ 0 := by decide
  obtain ⟨k, hc, hB, hh, htl, hnb, _, _, ho, htc, _, hr, hw, ht, hbr⟩ :=
    create_mailbox_spec k0 1 d h1 hd (by omega) hbrk
  obtain ⟨k2, hc2, f1, f2, _, _, fav⟩ := create_mailbox_fields k0 1 d h1 hd (by omega) hbrk
  have e : k2 = k := by
    rw [hc] at hc2
    exact (Prod.mk.inj (Option.some.inj hc2)).2.symm
  subst e
  have hst := create_mailbox_statics k0 1 d _ hc
  simp only at hst
  have hL2 : Lists k2 rs ws ts := hL.same_objs ho hr hw ht
  have hdl2 : ∀ x ∈ rs ++ ws ++ ts, k2.osTicks < deadlineKey k2.mem x := by
    intro x hx
    have := hdl x hx
    unfold deadlineKey at this ⊢
    rw [ho, htc, hst.2.1]
    exact this
  have hsz : 0 ≤ (k2.mem.mboxes k0.alloc.brk).nDataSize := by
    rw [f2, toInt32_small _ hd2]
    exact Int.natCast_nonneg d
  have hS : SendersQueued k2 k0.alloc.brk ws [] :=
    ⟨hB, by rw [hnb], hsz, fun y hy => absurd hy (List.not_mem_nil _), by simp⟩
  obtain ⟨k', rs', ws', ts', news, he, C1, S1, e1, _, _, _, _⟩ :=
    send_phase fuel k0.alloc.brk ps k2 rs ws ts [] ⟨hL2, hdl2⟩
      (by rw [hst.2.2.2.2.2.2.2]; exact hrun) hlen hS hps (by rw [fav]; omega)
      (by rw [hbr]; exact Nat.succ_ne_zero _)
      (by
        intro y hy
        rw [hbr]
        simp only [chain, hh, htl, List.nil_append, List.mem_cons, List.mem_singleton,
          List.not_mem_nil, or_false] at hy
        rcases hy with c | c <;> rw [c] <;> exact Nat.add_lt_add_left (by decide) _) hf
  rw [List.nil_append] at S1
  have hnl : news.length = ps.length := by
    have := congrArg List.length e1
    simpa using this
  have hq1 : queued k'.mem k0.alloc.brk ps.length = news := S1.1.1.queued_eq (by omega)
  refine ⟨k2, k', ws', hc, ?_, he, by rw [hq1]; exact hnl, by rw [hq1]; exact e1, ?_, C1.1.2.1,
    ?_, by rw [hq1]; exact S1.2.2.2.2⟩
  · rw [f1]
    decide
  · have h3 := S1.1.2.2
    have h4 := S1.2.1
    omega
  · intro y hy
    rw [hq1] at hy
    exact (S1.2.2.2.1 y hy).2

/-- Witness of C40 on `exThreeReady`: the running task creates the mailbox
`111` with capacity `1`, and the three tasks call `send_wait` on it one after
the other; all three block, the records `114`, `115` and `116` are queued, the
blocked counter is `3` and the capacity field is still `1`. -/
theorem C40_capacity_not_enforced_witness :
    (Lists exThreeReady [107, 109, 105, 103] [] [] ∧ exThreeReady.alloc.brk = 111 ∧
      exThreeReady.runningListobj = 107) ∧
    (∃ k k' ws', create_mailbox exThreeReady 1 5 = some (exThreeReady.alloc.brk, k) ∧
      (k.mem.mboxes exThreeReady.alloc.brk).nMaxMessages = 1 ∧
      exec 20 k ([300, 310, 320].map (Call.send_wait exThreeReady.alloc.brk)) = some k' ∧
      (queued k'.mem exThreeReady.alloc.brk [300, 310, 320].length).length =
        [300, 310, 320].length ∧
      (queued k'.mem exThreeReady.alloc.brk [300, 310, 320].length).map
        (fun y => (k'.mem.msgs y).pData) = [300, 310, 320] ∧
      (k'.mem.mboxes exThreeReady.alloc.brk).nBlockedMsg = ([300, 310, 320].length : Int) ∧
      OnList k'.mem k'.waitingList ws' ∧
      (∀ y ∈ queued k'.mem exThreeReady.alloc.brk [300, 310, 320].length,
        (k'.mem.msgs y).pBlock ∈ ws') ∧
      ((queued k'.mem exThreeReady.alloc.brk [300, 310, 320].length).map
        (fun y => (k'.mem.msgs y).pBlock)).Nodup) ∧
    (exec 20 exThreeReady [Call.create_mailbox 1 5, Call.send_wait 111 300,
        Call.send_wait 111 310, Call.send_wait 111 320]).map (fun k =>
        ((k.mem.mboxes 111).nMaxMessages, (k.mem.mboxes 111).nBlockedMsg, queued k.mem 111 5,
          entries k.mem k.waitingList)) = some (1, 3, [114, 115, 116], [107, 109, 105]) :=
  ⟨by decide,
    C40_capacity_not_enforced 20 exThreeReady 5 [300, 310, 320] [107, 109, 105, 103] [] []
      (by decide) (by decide) (by decide) (by decide) (by decide) (by decide) (by decide)
      (by decide) (by decide) (by decide),
    by decide⟩

end ULW
